import Mathlib

/-!
# Texture cache (`src/texture_cache/texture_cache.c`)

A shallow embedding of the asynchronous texture cache: the striped node table,
the key fallback table, the user-to-transfer request ring, the scope/touch
pinning log, the transfer worker and the evictor.

Conventions of the embedding.

* Machine integers are natural numbers; every operation of the source that can
  wrap is written with an explicit `% 2 ^ 64`.
* A slot chain (an intrusive doubly linked list in the source) is a `List` in
  chain order; the tables are functions from the slot index to the chain.
* A code section that runs under one lock is one function on the shared state.
* A loop that parks on the ring's condition variable returns `none` when it
  parks: in a sequential run nobody else changes the ring, so it would not
  come back.
* Results of the external collaborators (clock readings, the bytes of the hash
  store, the handle returned by the render backend) are arguments; the calls
  made to the render backend are recorded in two trace fields of the state.
-/

namespace TextureCache

/-! ## Base layer values -/

/-- Modelled from the spec: the 128-bit value type `U128` of the base layer (its
declaration is not part of the file), two 64-bit halves `u64[0]`, `u64[1]`. -/
structure U128 where
  u64_0 : Nat
  u64_1 : Nat
deriving DecidableEq, Repr

/-- Modelled from the spec: `u128_zero()`, the reserved "absent" value. -/
def u128_zero : U128 := ⟨0, 0⟩

/-- Modelled from the spec: `u128_match(a, b)`, equality of both halves. -/
def u128_match (a b : U128) : Bool :=
  a.u64_0 == b.u64_0 && a.u64_1 == b.u64_1

/-- Both halves of a `U128` are 64-bit values. -/
def U128.wf (a : U128) : Prop := a.u64_0 < 2 ^ 64 ∧ a.u64_1 < 2 ^ 64

instance (a : U128) : Decidable a.wf := by
  unfold U128.wf; infer_instance

/-- Modelled from the spec: the render backend's opaque handle `R_Handle`; the
value `0` is the distinguished null handle `r_handle_zero()`. -/
abbrev R_Handle := Nat

/-- Modelled from the spec: `r_handle_zero()`. -/
def r_handle_zero : R_Handle := 0

/-- Modelled from the spec: `r_handle_match(a, b)`. -/
def r_handle_match (a b : R_Handle) : Bool := a == b

/-- Modelled from the spec: `TEX_Topology` (declared in the header, which is not
part of the file): `dim.x`, `dim.y` signed 16-bit, `fmt` the pixel format
enumerator (a 32-bit value). -/
structure TEX_Topology where
  dim_x : Int
  dim_y : Int
  fmt : Nat
deriving DecidableEq, Repr

/-- The fields of a topology are in the range of their C types. -/
def TEX_Topology.wf (t : TEX_Topology) : Prop :=
  -(2 ^ 15) ≤ t.dim_x ∧ t.dim_x < 2 ^ 15 ∧ -(2 ^ 15) ≤ t.dim_y ∧ t.dim_y < 2 ^ 15 ∧
    t.fmt < 2 ^ 32

instance (t : TEX_Topology) : Decidable t.wf := by
  unfold TEX_Topology.wf; infer_instance

/-- The C cast `(S16)v` of a signed 32-bit value: keep the low 16 bits. -/
def s16_cast (v : Int) : Int := (v + 2 ^ 15) % 2 ^ 16 - 2 ^ 15

/-- The C cast `(U64)v` of a signed 16-bit value: sign extension, that is `v`
modulo `2 ^ 64`. -/
def u64_cast (v : Int) : Nat := (v % 2 ^ 64).toNat

/-- Source `tex_topology_make(dim, fmt)`. -/
def tex_topology_make (dim_x dim_y : Int) (fmt : Nat) : TEX_Topology :=
  { dim_x := s16_cast dim_x, dim_y := s16_cast dim_y, fmt := fmt }

/-- The comparison `MemoryMatchStruct(&a, &b)` of two topologies: the struct has
no padding, so its bytes match exactly when the three fields do. -/
def topology_match (a b : TEX_Topology) : Bool :=
  a.dim_x == b.dim_x && a.dim_y == b.dim_y && a.fmt == b.fmt

/-! ## Cache data -/

/-- Modelled from the spec: a node of the primary table, `TEX_Node` (declared in
the header): identity `hash`, `topology`, the device handle and the liveness
metadata. The chain links are the position in the slot's list. -/
structure TEX_Node where
  hash : U128
  topology : TEX_Topology
  texture : R_Handle
  is_working : Nat
  load_count : Nat
  scope_ref_count : Nat
  last_time_touched_us : Nat
  last_user_clock_idx_touched : Nat
deriving DecidableEq, Repr

/-- Modelled from the spec: a node of the fallback table, `TEX_KeyFallbackNode`. -/
structure TEX_KeyFallbackNode where
  key : U128
  hash : U128
deriving DecidableEq, Repr

/-- Modelled from the spec: a pin record `TEX_Touch`, naming a node by identity. -/
structure TEX_Touch where
  hash : U128
  topology : TEX_Topology
deriving DecidableEq, Repr

/-- Modelled from the spec: a reader's scope `TEX_Scope`; `top_touch` is the
stack of its touches, most recent first. -/
structure TEX_Scope where
  top_touch : List TEX_Touch
deriving DecidableEq, Repr

/-- One call recorded for `r_tex2d_alloc`: the dimensions and format passed, and
the handle the backend returned. -/
structure R_AllocCall where
  dim_x : Int
  dim_y : Int
  fmt : Nat
  result : R_Handle
deriving DecidableEq, Repr

/-- Modelled from the spec: the process-wide state `TEX_Shared` (declared in the
header). `u2x_ring_base` is the ring's byte buffer, indexed from 0. The last
two fields are not in the source: they record, in call order, the handles
passed to `r_tex2d_release` and the calls of `r_tex2d_alloc` with their
results. -/
structure TEX_Shared where
  slots_count : Nat
  stripes_count : Nat
  slots : Nat → List TEX_Node
  stripes_free_nodes : Nat → List TEX_Node
  fallback_slots_count : Nat
  fallback_stripes_count : Nat
  fallback_slots : Nat → List TEX_KeyFallbackNode
  u2x_ring_size : Nat
  u2x_ring_base : Nat → Nat
  u2x_ring_write_pos : Nat
  u2x_ring_read_pos : Nat
  xfer_thread_count : Nat
  user_clock_idx : Nat
  r_tex2d_release_log : List R_Handle
  r_tex2d_alloc_log : List R_AllocCall

/-- The macro `KB(n)`. -/
def KB (n : Nat) : Nat := n * 1024

/-- The macro `Min(a, b)`. -/
def Min (a b : Nat) : Nat := if a < b then a else b

/-- The largest 64-bit value `max_U64`. -/
def max_U64 : Nat := 2 ^ 64 - 1

/-- Source `tex_init`: the state built at start-up. `logical_core_count` is the
result of `os_logical_core_count()`; `ring_memory` is the content of the ring
buffer, which is allocated without zeroing. The subtraction
`os_logical_core_count()-1` is unsigned 64-bit. -/
def tex_init (logical_core_count : Nat) (ring_memory : Nat → Nat) : TEX_Shared :=
  { slots_count := 1024
    stripes_count := 64
    slots := fun _ => []
    stripes_free_nodes := fun _ => []
    fallback_slots_count := 1024
    fallback_stripes_count := 64
    fallback_slots := fun _ => []
    u2x_ring_size := KB 64
    u2x_ring_base := ring_memory
    u2x_ring_write_pos := 0
    u2x_ring_read_pos := 0
    xfer_thread_count := Min 4 ((logical_core_count + 2 ^ 64 - 1) % 2 ^ 64)
    user_clock_idx := 0
    r_tex2d_release_log := []
    r_tex2d_alloc_log := [] }

/-- The new value stored by the atomic increment `ins_atomic_u64_inc_eval(&x)`. -/
@[irreducible]
def ins_atomic_u64_inc_eval (x : Nat) : Nat := (x + 1) % 2 ^ 64

/-- The new value stored by the atomic decrement `ins_atomic_u64_dec_eval(&x)`:
`x - 1` in unsigned 64-bit arithmetic, which wraps to `2 ^ 64 - 1` at zero. -/
@[irreducible]
def ins_atomic_u64_dec_eval (x : Nat) : Nat := if x = 0 then 2 ^ 64 - 1 else x - 1

/-- Source `tex_user_clock_tick`. -/
def tex_user_clock_tick (s : TEX_Shared) : TEX_Shared :=
  { s with user_clock_idx := ins_atomic_u64_inc_eval s.user_clock_idx }

/-- Source `tex_user_clock_idx`. -/
def tex_user_clock_idx (s : TEX_Shared) : Nat := s.user_clock_idx

/-! ## Chain walks -/

/-- The walk `for(n = first; n != 0; n = n->next) if(p(n)) { n = f(n); break; }`:
the first element satisfying `p` is replaced by its image, the rest is kept. -/
def chain_update_first {α : Type} (p : α → Bool) (f : α → α) : List α → List α
  | [] => []
  | n :: rest => if p n then f n :: rest else n :: chain_update_first p f rest

/-- The test `u128_match(hash, n->hash) && MemoryMatchStruct(&topology, &n->topology)`
used by every walk of a primary slot. -/
def tex_node_match (hash : U128) (topology : TEX_Topology) (n : TEX_Node) : Bool :=
  u128_match hash n.hash && topology_match topology n.topology

/-- The node storage after `MemoryZeroStruct(node)`. -/
def tex_node_zero : TEX_Node :=
  { hash := u128_zero, topology := ⟨0, 0, 0⟩, texture := r_handle_zero, is_working := 0,
    load_count := 0, scope_ref_count := 0, last_time_touched_us := 0,
    last_user_clock_idx_touched := 0 }

/-! ## Scoped access -/

/-- Source `tex_scope_open`: a zeroed scope. -/
def tex_scope_open : TEX_Scope := { top_touch := [] }

/-- The effect of `tex_scope_touch_node__stripe_r_guarded` on the node: the pin
count is incremented and both touch stamps are stored. -/
def tex_touch_node (now_us user_clock : Nat) (n : TEX_Node) : TEX_Node :=
  { n with
    scope_ref_count := ins_atomic_u64_inc_eval n.scope_ref_count
    last_time_touched_us := now_us
    last_user_clock_idx_touched := user_clock }

/-- Source `tex_scope_touch_node__stripe_r_guarded(scope, node)`: the scope with
the new touch on top, and the touched node. `now_us` is the reading of
`os_now_microseconds()`. -/
def tex_scope_touch_node__stripe_r_guarded (s : TEX_Shared) (scope : TEX_Scope)
    (node : TEX_Node) (now_us : Nat) : TEX_Scope × TEX_Node :=
  ({ top_touch := { hash := node.hash, topology := node.topology } :: scope.top_touch },
   tex_touch_node now_us (tex_user_clock_idx s) node)

/-- The decrement `ins_atomic_u64_dec_eval(&n->scope_ref_count)`. -/
def tex_unpin_node (n : TEX_Node) : TEX_Node :=
  { n with scope_ref_count := ins_atomic_u64_dec_eval n.scope_ref_count }

/-- One turn of the loop of `tex_scope_close`: the first node of the touch's slot
matching its identity is unpinned. -/
def tex_scope_close_touch (s : TEX_Shared) (touch : TEX_Touch) : TEX_Shared :=
  let slot_idx := touch.hash.u64_1 % s.slots_count
  let chain := chain_update_first (tex_node_match touch.hash touch.topology) tex_unpin_node
    (s.slots slot_idx)
  { s with slots := Function.update s.slots slot_idx chain }

/-- Source `tex_scope_close(scope)`: the touches are undone from the top of the
stack down. -/
def tex_scope_close (s : TEX_Shared) (scope : TEX_Scope) : TEX_Shared :=
  scope.top_touch.foldl tex_scope_close_touch s

/-! ## The request ring -/

/-- Modelled from the spec: the bytes of a 64-bit value in memory, least
significant first (the object representation copied by `ring_write_struct`). -/
def bytes_of_u64 (x : Nat) : List Nat :=
  [x % 256, x / 2 ^ 8 % 256, x / 2 ^ 16 % 256, x / 2 ^ 24 % 256,
   x / 2 ^ 32 % 256, x / 2 ^ 40 % 256, x / 2 ^ 48 % 256, x / 2 ^ 56 % 256]

/-- The value of a little-endian byte string. -/
def le_value : List Nat → Nat
  | [] => 0
  | b :: bs => b + 256 * le_value bs

/-- Modelled from the spec: the 16 bytes of a `U128`. -/
def bytes_of_u128 (a : U128) : List Nat := bytes_of_u64 a.u64_0 ++ bytes_of_u64 a.u64_1

/-- Modelled from the spec: the `U128` stored in 16 bytes. -/
def u128_of_bytes (bs : List Nat) : U128 :=
  { u64_0 := le_value (bs.take 8), u64_1 := le_value ((bs.drop 8).take 8) }

/-- The two bytes of a signed 16-bit value (two's complement). -/
def bytes_of_s16 (v : Int) : List Nat :=
  [(v % 2 ^ 16).toNat % 256, (v % 2 ^ 16).toNat / 2 ^ 8 % 256]

/-- The signed 16-bit value stored in two bytes. -/
def s16_of_bytes (bs : List Nat) : Int :=
  if le_value bs < 2 ^ 15 then (le_value bs : Int) else (le_value bs : Int) - 2 ^ 16

/-- The four bytes of a 32-bit value. -/
def bytes_of_u32 (x : Nat) : List Nat :=
  [x % 256, x / 2 ^ 8 % 256, x / 2 ^ 16 % 256, x / 2 ^ 24 % 256]

/-- Modelled from the spec: the 8 bytes of a `TEX_Topology`: `dim.x`, `dim.y`,
then `fmt`. -/
def bytes_of_topology (t : TEX_Topology) : List Nat :=
  bytes_of_s16 t.dim_x ++ bytes_of_s16 t.dim_y ++ bytes_of_u32 t.fmt

/-- Modelled from the spec: the `TEX_Topology` stored in 8 bytes. -/
def topology_of_bytes (bs : List Nat) : TEX_Topology :=
  { dim_x := s16_of_bytes (bs.take 2)
    dim_y := s16_of_bytes ((bs.drop 2).take 2)
    fmt := le_value ((bs.drop 4).take 4) }

/-- The value `sizeof(U128)`. -/
def sizeof_U128 : Nat := 16

/-- The value `sizeof(TEX_Topology)`. -/
def sizeof_TEX_Topology : Nat := 8

/-- Modelled from the spec: `ring_write` of the base layer (not part of the
file): the bytes are copied to the ring starting at `ring_pos` modulo
`ring_size`, wrapping around at the end of the buffer. The result is the
buffer; the source returns the number of bytes, which is the length. -/
def ring_write (ring_base : Nat → Nat) (ring_size ring_pos : Nat) : List Nat → Nat → Nat
  | [] => ring_base
  | b :: bs =>
    ring_write (Function.update ring_base (ring_pos % ring_size) b) ring_size (ring_pos + 1) bs

/-- Modelled from the spec: `ring_read` of the base layer (not part of the
file): `size` bytes are copied from the ring starting at `ring_pos` modulo
`ring_size`, wrapping around at the end of the buffer. -/
def ring_read (ring_base : Nat → Nat) (ring_size ring_pos size : Nat) : List Nat :=
  (List.range size).map (fun j => ring_base ((ring_pos + j) % ring_size))

/-- Source `tex_u2x_enqueue_req(key, hash, top, endt_us)`. `now_us` is the
reading of `os_now_microseconds()`. The result is `none` when the call parks
on the condition variable (no room and the deadline not reached). -/
def tex_u2x_enqueue_req (s : TEX_Shared) (key hash : U128) (top : TEX_Topology)
    (endt_us now_us : Nat) : Option (Bool × TEX_Shared) :=
  let unconsumed_size := (s.u2x_ring_write_pos + 2 ^ 64 - s.u2x_ring_read_pos) % 2 ^ 64
  let available_size := (s.u2x_ring_size + 2 ^ 64 - unconsumed_size) % 2 ^ 64
  if available_size ≥ sizeof_U128 + sizeof_U128 + sizeof_TEX_Topology then
    let base1 := ring_write s.u2x_ring_base s.u2x_ring_size s.u2x_ring_write_pos
      (bytes_of_u128 key)
    let pos1 := (s.u2x_ring_write_pos + sizeof_U128) % 2 ^ 64
    let base2 := ring_write base1 s.u2x_ring_size pos1 (bytes_of_u128 hash)
    let pos2 := (pos1 + sizeof_U128) % 2 ^ 64
    let base3 := ring_write base2 s.u2x_ring_size pos2 (bytes_of_topology top)
    let pos3 := (pos2 + sizeof_TEX_Topology) % 2 ^ 64
    some (true, { s with u2x_ring_base := base3, u2x_ring_write_pos := pos3 })
  else if now_us ≥ endt_us then
    some (false, s)
  else
    none

/-- Source `tex_u2x_dequeue_req(key_out, hash_out, top_out)`. The result is
`none` when the call parks on the condition variable (fewer bytes in the ring
than one request). -/
def tex_u2x_dequeue_req (s : TEX_Shared) : Option (U128 × U128 × TEX_Topology × TEX_Shared) :=
  let unconsumed_size := (s.u2x_ring_write_pos + 2 ^ 64 - s.u2x_ring_read_pos) % 2 ^ 64
  if unconsumed_size ≥ sizeof_U128 + sizeof_U128 + sizeof_TEX_Topology then
    let key := u128_of_bytes
      (ring_read s.u2x_ring_base s.u2x_ring_size s.u2x_ring_read_pos sizeof_U128)
    let pos1 := (s.u2x_ring_read_pos + sizeof_U128) % 2 ^ 64
    let hash := u128_of_bytes (ring_read s.u2x_ring_base s.u2x_ring_size pos1 sizeof_U128)
    let pos2 := (pos1 + sizeof_U128) % 2 ^ 64
    let top := topology_of_bytes
      (ring_read s.u2x_ring_base s.u2x_ring_size pos2 sizeof_TEX_Topology)
    let pos3 := (pos2 + sizeof_TEX_Topology) % 2 ^ 64
    some (key, hash, top, { s with u2x_ring_read_pos := pos3 })
  else
    none

/-! ## Cache lookups -/

/-- A read-locked walk of `tex_texture_from_key_hash_topology` (lines 172-184 and
243-254): the first node of the slot of `hash` matching `(hash, topology)` is
touched; the result carries its texture, or `none` when no node matches. -/
def tex_lookup_touch (s : TEX_Shared) (scope : TEX_Scope) (hash : U128)
    (topology : TEX_Topology) (now_us : Nat) : Option R_Handle × TEX_Scope × TEX_Shared :=
  let slot_idx := hash.u64_1 % s.slots_count
  match (s.slots slot_idx).find? (tex_node_match hash topology) with
  | none => (none, scope, s)
  | some n =>
    let chain := chain_update_first (tex_node_match hash topology)
      (fun m => (tex_scope_touch_node__stripe_r_guarded s scope m now_us).2) (s.slots slot_idx)
    (some n.texture, (tex_scope_touch_node__stripe_r_guarded s scope n now_us).1,
      { s with slots := Function.update s.slots slot_idx chain })

/-- The node linked by a miss: zeroed storage with the identity filled in (lines
210-213). -/
def tex_node_fresh (hash : U128) (topology : TEX_Topology) : TEX_Node :=
  { tex_node_zero with hash := hash, topology := topology }

/-- The write-locked section of `tex_texture_from_key_hash_topology` (lines
188-216): when no node of the slot matches, a zeroed node (taken from the
stripe's free list when there is one) gets the identity and is linked at the
tail. The boolean is `node_is_new`. -/
def tex_insert_if_absent (s : TEX_Shared) (hash : U128) (topology : TEX_Topology) :
    Bool × TEX_Shared :=
  let slot_idx := hash.u64_1 % s.slots_count
  let stripe_idx := slot_idx % s.stripes_count
  match (s.slots slot_idx).find? (tex_node_match hash topology) with
  | some _ => (false, s)
  | none =>
    let node := tex_node_fresh hash topology
    (true, { s with
      stripes_free_nodes :=
        Function.update s.stripes_free_nodes stripe_idx (s.stripes_free_nodes stripe_idx).tail
      slots := Function.update s.slots slot_idx (s.slots slot_idx ++ [node]) })

/-- The read-locked walk of the fallback slot of `key` (lines 224-236): the hash
of the first node with that key, zero when there is none. -/
def tex_fallback_hash (s : TEX_Shared) (key : U128) : U128 :=
  let fallback_slot_idx := key.u64_1 % s.fallback_slots_count
  match (s.fallback_slots fallback_slot_idx).find? (fun n => u128_match key n.key) with
  | none => u128_zero
  | some n => n.hash

/-- The last part of `tex_texture_from_key_hash_topology` (lines 222-256), run
with the handle found so far: a null handle is resolved through the key's
fallback hash. -/
def tex_lookup_fallback (s : TEX_Shared) (scope : TEX_Scope) (key : U128)
    (topology : TEX_Topology) (handle : R_Handle) (now_us : Nat) :
    R_Handle × TEX_Scope × TEX_Shared :=
  if r_handle_match handle r_handle_zero then
    let fallback_hash := tex_fallback_hash s key
    if !u128_match fallback_hash u128_zero then
      let r := tex_lookup_touch s scope fallback_hash topology now_us
      (r.1.getD handle, r.2.1, r.2.2)
    else (handle, scope, s)
  else (handle, scope, s)

/-- Source `tex_texture_from_key_hash_topology(scope, key, hash, topology)`.
`now_us` is the reading of `os_now_microseconds()`. The result is `none` when
the call parks in `tex_u2x_enqueue_req`. -/
def tex_texture_from_key_hash_topology (s : TEX_Shared) (scope : TEX_Scope) (key hash : U128)
    (topology : TEX_Topology) (now_us : Nat) : Option (R_Handle × TEX_Scope × TEX_Shared) :=
  if u128_match u128_zero hash then some (r_handle_zero, scope, s)
  else
    let r1 := tex_lookup_touch s scope hash topology now_us
    let handle := r1.1.getD r_handle_zero
    let found := !r_handle_match r_handle_zero handle
    let r2 := if !found then tex_insert_if_absent r1.2.2 hash topology else (false, r1.2.2)
    let node_is_new := r2.1
    let r3 :=
      if node_is_new then
        (tex_u2x_enqueue_req r2.2 key hash topology max_U64 now_us).map Prod.snd
      else some r2.2
    match r3 with
    | none => none
    | some s3 => some (tex_lookup_fallback s3 r1.2.1 key topology handle now_us)

/-! ## Transfer threads -/

/-- The test `u128_match(n->hash, hash) && MemoryMatchStruct(&top, &n->topology)` of
the worker's walks. -/
def tex_xfer_node_match (hash : U128) (top : TEX_Topology) (n : TEX_Node) : Bool :=
  u128_match n.hash hash && topology_match top n.topology

/-- The compare-and-swap `ins_atomic_u32_eval_cond_assign(&n->is_working, 1, 0)` on a
node: `is_working` becomes 1 when it was 0. -/
def tex_node_claim (n : TEX_Node) : TEX_Node :=
  if n.is_working = 0 then { n with is_working := 1 } else n

/-- The "take task" section of the worker (lines 332-344): the first matching
node is claimed by compare-and-swap; `got_task` tells whether the swap
succeeded (the value read was 0). -/
def tex_xfer_take_task (s : TEX_Shared) (hash : U128) (top : TEX_Topology) :
    Bool × TEX_Shared :=
  let slot_idx := hash.u64_1 % s.slots_count
  match (s.slots slot_idx).find? (tex_xfer_node_match hash top) with
  | none => (false, s)
  | some n =>
    let chain := chain_update_first (tex_xfer_node_match hash top) tex_node_claim
      (s.slots slot_idx)
    (decide (n.is_working = 0), { s with slots := Function.update s.slots slot_idx chain })

/-- The guard of the allocation (line 355). `bytes_per_pixel` is the table
`r_tex2d_format_bytes_per_pixel_table` of the render layer; the product is
computed on unsigned 64-bit values. -/
def tex_xfer_alloc_guard (bytes_per_pixel : Nat → Nat) (got_task : Bool) (top : TEX_Topology)
    (data_size : Nat) : Bool :=
  got_task && top.dim_x != 0 && top.dim_y != 0 &&
    decide (data_size ≥
      (u64_cast top.dim_x * u64_cast top.dim_y % 2 ^ 64 * bytes_per_pixel top.fmt) % 2 ^ 64)

/-- The "data * topology -> texture" section of the worker (lines 353-358):
when the guard holds `r_tex2d_alloc` is called and its result `alloc_result`
is the texture; otherwise the texture stays null. -/
def tex_xfer_alloc (s : TEX_Shared) (bytes_per_pixel : Nat → Nat) (got_task : Bool)
    (top : TEX_Topology) (data_size : Nat) (alloc_result : R_Handle) : R_Handle × TEX_Shared :=
  if tex_xfer_alloc_guard bytes_per_pixel got_task top data_size then
    (alloc_result, { s with
      r_tex2d_alloc_log := s.r_tex2d_alloc_log ++ [⟨top.dim_x, top.dim_y, top.fmt, alloc_result⟩] })
  else (r_handle_zero, s)

/-- The result of the commit on the node (lines 367-369). -/
def tex_node_commit (texture : R_Handle) (n : TEX_Node) : TEX_Node :=
  { n with
    texture := texture, is_working := 0, load_count := ins_atomic_u64_inc_eval n.load_count }

/-- The write-locked commit of the worker (lines 361-373), run when it holds
the task. -/
def tex_xfer_commit (s : TEX_Shared) (hash : U128) (top : TEX_Topology)
    (texture : R_Handle) : TEX_Shared :=
  let slot_idx := hash.u64_1 % s.slots_count
  let chain := chain_update_first (tex_xfer_node_match hash top) (tex_node_commit texture)
    (s.slots slot_idx)
  { s with slots := Function.update s.slots slot_idx chain }

/-- The write-locked update of the fallback table (lines 378-400): the first
node with the key, or a new node queued at the tail, gets `(key, hash)`. -/
def tex_xfer_fallback_commit (s : TEX_Shared) (key hash : U128) : TEX_Shared :=
  let fallback_slot_idx := key.u64_1 % s.fallback_slots_count
  let chain := s.fallback_slots fallback_slot_idx
  let chain1 :=
    match chain.find? (fun n => u128_match n.key key) with
    | some _ =>
      chain_update_first (fun n => u128_match n.key key)
        (fun _ => { key := key, hash := hash }) chain
    | none => chain ++ [{ key := key, hash := hash }]
  { s with fallback_slots := Function.update s.fallback_slots fallback_slot_idx chain1 }

/-- The body of the worker's loop after the request has been decoded (lines
326-401). `data_size` is the size of the string returned by
`hs_data_from_hash` (asked for only with the task in hand) and `alloc_result`
the handle returned by `r_tex2d_alloc` (called only when the guard holds). -/
def tex_xfer_process (s : TEX_Shared) (bytes_per_pixel : Nat → Nat) (key hash : U128)
    (top : TEX_Topology) (data_size : Nat) (alloc_result : R_Handle) : TEX_Shared :=
  let r1 := tex_xfer_take_task s hash top
  let got_task := r1.1
  let data_size1 := if got_task then data_size else 0
  let r2 := tex_xfer_alloc r1.2 bytes_per_pixel got_task top data_size1 alloc_result
  let s3 := if got_task then tex_xfer_commit r2.2 hash top r2.1 else r2.2
  if got_task && !u128_match key u128_zero && !u128_match hash u128_zero then
    tex_xfer_fallback_commit s3 key hash
  else s3

/-- One turn of the loop of `tex_xfer_thread__entry_point`: a request is taken
from the ring and processed. The result is `none` when the worker parks in
`tex_u2x_dequeue_req`. -/
def tex_xfer_thread__iteration (s : TEX_Shared) (bytes_per_pixel : Nat → Nat)
    (data_size : Nat) (alloc_result : R_Handle) : Option TEX_Shared :=
  match tex_u2x_dequeue_req s with
  | none => none
  | some (key, hash, top, s1) =>
    some (tex_xfer_process s1 bytes_per_pixel key hash top data_size alloc_result)

/-! ## Evictor thread -/

/-- The eviction test of `tex_evictor_thread__entry_point` (lines 429-433 and
445-449), with the thresholds of lines 417-418; the sums are unsigned 64-bit. -/
def tex_evictable (check_time_us check_time_user_clocks : Nat) (n : TEX_Node) : Bool :=
  n.scope_ref_count == 0 &&
  decide ((n.last_time_touched_us + 10 * 1000000) % 2 ^ 64 ≤ check_time_us) &&
  decide ((n.last_user_clock_idx_touched + 10) % 2 ^ 64 ≤ check_time_user_clocks) &&
  n.load_count != 0 &&
  n.is_working == 0

/-- The write-locked walk of the evictor (lines 442-458). `kept` is the part of
the chain already walked and still linked, `log` the handles released so far,
`free` the stripe's free list. An evicted node is unlinked, its texture is
released when it is not null, and its storage is pushed on the free list. -/
def tex_evict_walk (check_time_us check_time_user_clocks : Nat) :
    List TEX_Node → List TEX_Node → List R_Handle → List TEX_Node →
    List TEX_Node × List R_Handle × List TEX_Node
  | [], kept, log, free => (kept, log, free)
  | n :: rest, kept, log, free =>
    if tex_evictable check_time_us check_time_user_clocks n then
      tex_evict_walk check_time_us check_time_user_clocks rest kept
        (if !r_handle_match n.texture r_handle_zero then log ++ [n.texture] else log)
        (n :: free)
    else
      tex_evict_walk check_time_us check_time_user_clocks rest (kept ++ [n]) log free

/-- The evictor's work on one slot (lines 421-459): the read-locked scan for
work, then the write-locked walk. -/
def tex_evictor_slot_pass (s : TEX_Shared) (slot_idx check_time_us check_time_user_clocks : Nat) :
    TEX_Shared :=
  let stripe_idx := slot_idx % s.stripes_count
  let slot_has_work := (s.slots slot_idx).any (tex_evictable check_time_us check_time_user_clocks)
  if slot_has_work then
    let r := tex_evict_walk check_time_us check_time_user_clocks (s.slots slot_idx) []
      s.r_tex2d_release_log (s.stripes_free_nodes stripe_idx)
    { s with
      slots := Function.update s.slots slot_idx r.1
      r_tex2d_release_log := r.2.1
      stripes_free_nodes := Function.update s.stripes_free_nodes stripe_idx r.2.2 }
  else s

/-- One full sweep of the evictor (lines 415-461): both clocks are read once,
then every slot is visited in order. -/
def tex_evictor_sweep (s : TEX_Shared) (now_us : Nat) : TEX_Shared :=
  (List.range s.slots_count).foldl
    (fun st slot_idx => tex_evictor_slot_pass st slot_idx now_us (tex_user_clock_idx s)) s

/-! ## Vocabulary of the statements: the request ring -/

/-- A build request, the tuple carried by the ring. -/
structure TEX_Request where
  key : U128
  hash : U128
  top : TEX_Topology
deriving DecidableEq, Repr

/-- The three parts of a request are in the range of their C types. -/
def TEX_Request.wf (r : TEX_Request) : Prop := r.key.wf ∧ r.hash.wf ∧ r.top.wf

instance (r : TEX_Request) : Decidable r.wf := by
  unfold TEX_Request.wf; infer_instance

/-- The size of one request in the ring, `sizeof(key)+sizeof(hash)+sizeof(top)`. -/
def u2x_request_size : Nat := sizeof_U128 + sizeof_U128 + sizeof_TEX_Topology

/-- The bytes of one request in ring order: key, hash, topology. -/
def u2x_request_bytes (r : TEX_Request) : List Nat :=
  bytes_of_u128 r.key ++ bytes_of_u128 r.hash ++ bytes_of_topology r.top

/-- The request stored in the 40 bytes of one ring entry. -/
def u2x_request_of_bytes (bs : List Nat) : TEX_Request :=
  { key := u128_of_bytes (bs.take 16)
    hash := u128_of_bytes ((bs.drop 16).take 16)
    top := topology_of_bytes ((bs.drop 32).take 8) }

/-- The value `u2x_ring_write_pos - u2x_ring_read_pos` (unsigned 64-bit), the
number of bytes written and not yet read. -/
def u2x_unconsumed_size (s : TEX_Shared) : Nat :=
  (s.u2x_ring_write_pos + 2 ^ 64 - s.u2x_ring_read_pos) % 2 ^ 64

/-- The bytes written and not yet read, oldest first. -/
def u2x_unconsumed_bytes (s : TEX_Shared) : List Nat :=
  ring_read s.u2x_ring_base s.u2x_ring_size s.u2x_ring_read_pos (u2x_unconsumed_size s)

/-- Well-formed ring: the size and both positions are 64-bit values, the
unconsumed bytes fit in the buffer, and the buffer size divides `2 ^ 64` (as
the 64 KiB of `tex_init` do), so that positions stay aligned when the counters
wrap. -/
def u2x_ring_wf (s : TEX_Shared) : Prop :=
  0 < s.u2x_ring_size ∧ s.u2x_ring_size < 2 ^ 64 ∧ s.u2x_ring_size ∣ 2 ^ 64 ∧
    s.u2x_ring_write_pos < 2 ^ 64 ∧ s.u2x_ring_read_pos < 2 ^ 64 ∧
    u2x_unconsumed_size s ≤ s.u2x_ring_size

instance (s : TEX_Shared) : Decidable (u2x_ring_wf s) := by
  unfold u2x_ring_wf; infer_instance

/-- The ring holds exactly the requests `rs`, oldest first. -/
def u2x_ring_holds (s : TEX_Shared) (rs : List TEX_Request) : Prop :=
  u2x_unconsumed_bytes s = (rs.map u2x_request_bytes).flatten

/-- An operation on the ring: an enqueue with its arguments and clock reading,
or a dequeue. -/
inductive U2X_Op where
  | enqueue (r : TEX_Request) (endt_us now_us : Nat)
  | dequeue
deriving DecidableEq, Repr

/-- The requests given to the enqueues of a sequence of operations, in order. -/
def u2x_enqueued : List U2X_Op → List TEX_Request
  | [] => []
  | U2X_Op.enqueue r _ _ :: ops => r :: u2x_enqueued ops
  | U2X_Op.dequeue :: ops => u2x_enqueued ops

/-- A run of ring operations in which every operation succeeds: each enqueue
returns true and each dequeue returns. The result lists the requests returned
by the dequeues, in order; it is `none` as soon as an enqueue fails or an
operation parks. -/
def u2x_run (s : TEX_Shared) : List U2X_Op → Option (List TEX_Request × TEX_Shared)
  | [] => some ([], s)
  | U2X_Op.enqueue r endt_us now_us :: ops =>
    match tex_u2x_enqueue_req s r.key r.hash r.top endt_us now_us with
    | some (true, s1) => u2x_run s1 ops
    | _ => none
  | U2X_Op.dequeue :: ops =>
    match tex_u2x_dequeue_req s with
    | some (key, hash, top, s1) =>
      match u2x_run s1 ops with
      | some (outs, s2) => some ({ key := key, hash := hash, top := top } :: outs, s2)
      | none => none
    | none => none

/-- A ring of the size set by `tex_init` whose two positions stand 16 bytes
before the end of the buffer, so that the next request wraps around. -/
def u2x_example_ring : TEX_Shared :=
  { tex_init 8 (fun _ => 0) with u2x_ring_write_pos := 65520, u2x_ring_read_pos := 65520 }

/-- A first sample request. -/
def u2x_example_req1 : TEX_Request :=
  { key := ⟨7, 9⟩, hash := ⟨0, 1⟩, top := ⟨4, 4, 2⟩ }

/-- A second sample request. -/
def u2x_example_req2 : TEX_Request :=
  { key := ⟨2 ^ 64 - 1, 3⟩, hash := ⟨5, 2 ^ 63⟩, top := ⟨-1, 32767, 8⟩ }

/-- A run on the example ring: two enqueues, a dequeue, an enqueue, two
dequeues. -/
def u2x_example_ops : List U2X_Op :=
  [U2X_Op.enqueue u2x_example_req1 0 0, U2X_Op.enqueue u2x_example_req2 0 0,
    U2X_Op.dequeue, U2X_Op.enqueue u2x_example_req1 0 0, U2X_Op.dequeue, U2X_Op.dequeue]

/-! ## Vocabulary of the statements: the node table -/

/-- The identity of a primary node: its hash and topology. -/
def tex_node_id (n : TEX_Node) : U128 × TEX_Topology := (n.hash, n.topology)

/-- The slot of the primary table in which nodes of a hash live. -/
def tex_slot_idx (s : TEX_Shared) (hash : U128) : Nat := hash.u64_1 % s.slots_count

/-- The first node of its slot carrying the identity `(hash, topology)`, the one
every walk of the cache stops at. -/
def tex_node_of (s : TEX_Shared) (hash : U128) (topology : TEX_Topology) : Option TEX_Node :=
  (s.slots (tex_slot_idx s hash)).find? (tex_node_match hash topology)

/-- A state in which the first node with identity `(hash, topology)` is replaced
by its image under `f`: the common shape of the touch, unpin, claim and commit
steps. -/
def tex_update_node (s : TEX_Shared) (hash : U128) (topology : TEX_Topology)
    (f : TEX_Node → TEX_Node) : TEX_Shared :=
  let chain := chain_update_first (tex_node_match hash topology) f (s.slots (tex_slot_idx s hash))
  { s with slots := Function.update s.slots (tex_slot_idx s hash) chain }

/-- No chain holds two nodes with the same identity. -/
def tex_unique (s : TEX_Shared) : Prop :=
  ∀ i, ((s.slots i).map tex_node_id).Nodup

/-- Every node is linked in the slot of its hash. -/
def tex_homed (s : TEX_Shared) : Prop :=
  ∀ i, ∀ n ∈ s.slots i, tex_slot_idx s n.hash = i

/-- The state after the write-locked insertion of a node for `(hash, topology)`
and the enqueue of its request. -/
def tex_after_miss (s : TEX_Shared) (key hash : U128) (topology : TEX_Topology) : TEX_Shared :=
  { s with
    stripes_free_nodes :=
      Function.update s.stripes_free_nodes (tex_slot_idx s hash % s.stripes_count)
        (s.stripes_free_nodes (tex_slot_idx s hash % s.stripes_count)).tail
    slots := Function.update s.slots (tex_slot_idx s hash)
      (s.slots (tex_slot_idx s hash) ++
        [tex_node_fresh hash topology])
    u2x_ring_base :=
      ring_write s.u2x_ring_base s.u2x_ring_size s.u2x_ring_write_pos
        (u2x_request_bytes ⟨key, hash, topology⟩)
    u2x_ring_write_pos := (s.u2x_ring_write_pos + 40) % 2 ^ 64 }

/-- The fallback update as the worker runs it with the task in hand: only when
neither the key nor the hash is zero (line 376). -/
def tex_xfer_fallback_part (s : TEX_Shared) (key hash : U128) : TEX_Shared :=
  if key ≠ u128_zero ∧ hash ≠ u128_zero then tex_xfer_fallback_commit s key hash else s

/-! ## The cache as a transition system -/

/-- A handle is live when the backend has returned it more often than it has
been released. -/
def r_handle_live (s : TEX_Shared) (h : R_Handle) : Prop :=
  s.r_tex2d_release_log.count h < (s.r_tex2d_alloc_log.map (fun c => c.result)).count h

instance (s : TEX_Shared) (h : R_Handle) : Decidable (r_handle_live s h) := by
  unfold r_handle_live; infer_instance

/-- A reader thread with an open scope. `observed` is not in the source: it
lists the handles the lookups made in this scope have returned. -/
structure TEX_Reader where
  scope : TEX_Scope
  observed : List R_Handle

/-- The whole system: the shared state and the readers whose scope is open. -/
structure TEX_System where
  shared : TEX_Shared
  readers : List TEX_Reader

/-- The number of touch records held by the open scopes. -/
def tex_touch_total (readers : List TEX_Reader) : Nat :=
  (readers.map (fun rd => rd.scope.top_touch.length)).sum

/-- The number of touch records of the open scopes that name the identity `id`. -/
def tex_touch_count (readers : List TEX_Reader) (id : U128 × TEX_Topology) : Nat :=
  (readers.map (fun rd =>
    (rd.scope.top_touch.filter (fun t => decide ((t.hash, t.topology) = id))).length)).sum

/-- One atomic step of the system. A lookup takes arguments in the range of
their C types, and is made while fewer than `2 ^ 64 - 2` touch records exist
(each record occupies memory of its own in a 64-bit address space). The
backend returns from `r_tex2d_alloc` the null handle or a handle that is not
live. A call that parks takes no step. -/
inductive TEX_Step : TEX_System → TEX_System → Prop where
  | scope_open (σ : TEX_System) :
      TEX_Step σ ⟨σ.shared, σ.readers ++ [⟨tex_scope_open, []⟩]⟩
  | lookup (σ : TEX_System) (pre post : List TEX_Reader) (rd : TEX_Reader) (key hash : U128)
      (top : TEX_Topology) (now_us : Nat) (handle : R_Handle) (scope1 : TEX_Scope)
      (s1 : TEX_Shared) :
      σ.readers = pre ++ rd :: post → key.wf → hash.wf → top.wf →
      tex_touch_total σ.readers + 2 < 2 ^ 64 →
      tex_texture_from_key_hash_topology σ.shared rd.scope key hash top now_us =
        some (handle, scope1, s1) →
      TEX_Step σ ⟨s1, pre ++ ⟨scope1, handle :: rd.observed⟩ :: post⟩
  | scope_close (σ : TEX_System) (pre post : List TEX_Reader) (rd : TEX_Reader) :
      σ.readers = pre ++ rd :: post →
      TEX_Step σ ⟨tex_scope_close σ.shared rd.scope, pre ++ post⟩
  | xfer (σ : TEX_System) (bytes_per_pixel : Nat → Nat) (data_size : Nat)
      (alloc_result : R_Handle) (s1 : TEX_Shared) :
      (alloc_result = r_handle_zero ∨ ¬ r_handle_live σ.shared alloc_result) →
      tex_xfer_thread__iteration σ.shared bytes_per_pixel data_size alloc_result = some s1 →
      TEX_Step σ ⟨s1, σ.readers⟩
  | evict_slot (σ : TEX_System) (slot_idx check_time_us check_time_user_clocks : Nat) :
      TEX_Step σ
        ⟨tex_evictor_slot_pass σ.shared slot_idx check_time_us check_time_user_clocks, σ.readers⟩
  | evict_sweep (σ : TEX_System) (now_us : Nat) :
      TEX_Step σ ⟨tex_evictor_sweep σ.shared now_us, σ.readers⟩
  | clock_tick (σ : TEX_System) :
      TEX_Step σ ⟨tex_user_clock_tick σ.shared, σ.readers⟩

/-- The states reachable from the state of `tex_init` with no open scope. -/
inductive TEX_Reachable : TEX_System → Prop where
  | init (logical_core_count : Nat) (ring_memory : Nat → Nat) :
      TEX_Reachable ⟨tex_init logical_core_count ring_memory, []⟩
  | step (σ σ1 : TEX_System) : TEX_Reachable σ → TEX_Step σ σ1 → TEX_Reachable σ1

/-- The identity named by a request. -/
def TEX_Request.id (r : TEX_Request) : U128 × TEX_Topology := (r.hash, r.top)

/-- Every request waiting in the ring names a node that is present, not yet
built and not claimed, and no two waiting requests name the same node. -/
def tex_ring_inv (s : TEX_Shared) : Prop :=
  u2x_ring_wf s ∧ ∃ pending : List TEX_Request, u2x_ring_holds s pending ∧
    (∀ r ∈ pending, r.wf ∧ ∃ n, tex_node_of s r.hash r.top = some n ∧
      n.load_count = 0 ∧ n.is_working = 0) ∧
    (pending.map TEX_Request.id).Nodup

/-- The invariant of the shared state. -/
def tex_inv (s : TEX_Shared) : Prop :=
  tex_homed s ∧ tex_unique s ∧ tex_ring_inv s


/-! ## Vocabulary of the statements: runs of one reader -/

/-- An action in the life of one open scope: a lookup made in the scope, a
worker iteration, or a tick of the user clock. -/
inductive TEX_ScopeAction where
  | lookup (key hash : U128) (top : TEX_Topology) (now_us : Nat)
  | work (bytes_per_pixel : Nat → Nat) (data_size : Nat) (alloc_result : R_Handle)
  | tick

/-- The run of a sequence of actions from a state and the scope's current
content. A lookup that parks ends the run with `none`; a worker that parks has
no effect. -/
def tex_scope_run (s : TEX_Shared) (scope : TEX_Scope) :
    List TEX_ScopeAction → Option (TEX_Scope × TEX_Shared)
  | [] => some (scope, s)
  | TEX_ScopeAction.lookup key hash top now_us :: rest =>
    match tex_texture_from_key_hash_topology s scope key hash top now_us with
    | some (_, scope1, s1) => tex_scope_run s1 scope1 rest
    | none => none
  | TEX_ScopeAction.work bytes_per_pixel data_size alloc_result :: rest =>
    match tex_xfer_thread__iteration s bytes_per_pixel data_size alloc_result with
    | some s1 => tex_scope_run s1 scope rest
    | none => tex_scope_run s scope rest
  | TEX_ScopeAction.tick :: rest => tex_scope_run (tex_user_clock_tick s) scope rest

/-- The number of touches of a stack that name the identity `id`. -/
def tex_touches_of (touches : List TEX_Touch) (id : U128 × TEX_Topology) : Nat :=
  (touches.filter (fun t => decide ((t.hash, t.topology) = id))).length

/-- The pin count carried by the node of `id`, zero when there is none. -/
def tex_ref_of (s : TEX_Shared) (id : U128 × TEX_Topology) : Nat :=
  match tex_node_of s id.1 id.2 with
  | some n => n.scope_ref_count
  | none => 0

/-- Every pin count is a 64-bit value. -/
def tex_refs_wf (s : TEX_Shared) : Prop :=
  ∀ i, ∀ n ∈ s.slots i, n.scope_ref_count < 2 ^ 64

/-- The balance of one scope against the state `s0` in which it was opened: for
every identity, the node is absent now, was absent then and is named by no
touch of the stack; or the node's pin count now is its pin count then (zero
for a node created since) incremented once per touch of the stack naming it. -/
def tex_scope_balance (s0 : TEX_Shared) (touches : List TEX_Touch) (s : TEX_Shared) : Prop :=
  ∀ id : U128 × TEX_Topology,
    (tex_node_of s id.1 id.2 = none ∧ tex_touches_of touches id = 0 ∧
      tex_node_of s0 id.1 id.2 = none) ∨
    (∃ n, tex_node_of s id.1 id.2 = some n ∧
      n.scope_ref_count = ins_atomic_u64_inc_eval^[tex_touches_of touches id] (tex_ref_of s0 id))

/-- A sample run on the state of `tex_init`: a lookup of hash `(0, 1)` that
misses, the worker's build, and a second lookup that hits and pins the node. -/
def tex_example_acts : List TEX_ScopeAction :=
  [TEX_ScopeAction.lookup ⟨7, 9⟩ ⟨0, 1⟩ ⟨4, 4, 2⟩ 100,
   TEX_ScopeAction.work (fun _ => 4) 64 5,
   TEX_ScopeAction.lookup ⟨7, 9⟩ ⟨0, 1⟩ ⟨4, 4, 2⟩ 200]

/-- The shared state left by the sample run, its scope still open. -/
def tex_example_state : TEX_Shared :=
  match tex_scope_run (tex_init 8 (fun _ => 0)) tex_scope_open tex_example_acts with
  | some r => r.2
  | none => tex_init 8 (fun _ => 0)

/-- The scope left open by the sample run. -/
def tex_example_scope : TEX_Scope :=
  match tex_scope_run (tex_init 8 (fun _ => 0)) tex_scope_open tex_example_acts with
  | some r => r.1
  | none => tex_scope_open

/-- A second reader's actions on the sample state: a hit on the pinned node, a
clock tick, and a miss on another hash. -/
def tex_example_acts2 : List TEX_ScopeAction :=
  [TEX_ScopeAction.lookup ⟨7, 9⟩ ⟨0, 1⟩ ⟨4, 4, 2⟩ 300,
   TEX_ScopeAction.tick,
   TEX_ScopeAction.lookup ⟨7, 9⟩ ⟨0, 2⟩ ⟨4, 4, 2⟩ 400]

/-! ## Vocabulary of the statements: the fallback table -/

/-- The fallback table holds no zero key and no zero hash, and no chain holds two
nodes with the same key. -/
def tex_fallback_wf (s : TEX_Shared) : Prop :=
  ∀ i, (∀ n ∈ s.fallback_slots i, n.key ≠ u128_zero ∧ n.hash ≠ u128_zero) ∧
    ((s.fallback_slots i).map (fun n => n.key)).Nodup

/-- The states reached from the state of `tex_init` by lookups and by worker
turns that process arbitrary tuples. -/
inductive TEX_FallbackReachable : TEX_Shared → Prop where
  | init (logical_core_count : Nat) (ring_memory : Nat → Nat) :
      TEX_FallbackReachable (tex_init logical_core_count ring_memory)
  | lookup (s : TEX_Shared) (scope : TEX_Scope) (key hash : U128) (top : TEX_Topology)
      (now_us : Nat) (handle : R_Handle) (scope1 : TEX_Scope) (s1 : TEX_Shared) :
      TEX_FallbackReachable s →
      tex_texture_from_key_hash_topology s scope key hash top now_us =
        some (handle, scope1, s1) →
      TEX_FallbackReachable s1
  | work (s : TEX_Shared) (bytes_per_pixel : Nat → Nat) (key hash : U128) (top : TEX_Topology)
      (data_size : Nat) (alloc_result : R_Handle) :
      TEX_FallbackReachable s →
      TEX_FallbackReachable
        (tex_xfer_process s bytes_per_pixel key hash top data_size alloc_result)

/-! ## The cache as a machine with workers in flight -/

/-- A transfer thread between its "take task" section and its commit: the tuple
it decoded and the outcome of its compare-and-swap. -/
structure TEX_Worker where
  key : U128
  hash : U128
  top : TEX_Topology
  got_task : Bool
deriving DecidableEq, Repr

/-- The identity named by the tuple a worker holds. -/
def TEX_Worker.id (w : TEX_Worker) : U128 × TEX_Topology := (w.hash, w.top)

/-- The first half of a worker's turn (lines 318-344): the request is decoded
from the ring and the task is taken. The result is `none` when the worker parks
in `tex_u2x_dequeue_req`. -/
def tex_xfer_take (s : TEX_Shared) : Option (TEX_Worker × TEX_Shared) :=
  match tex_u2x_dequeue_req s with
  | none => none
  | some (key, hash, top, s1) =>
    let r := tex_xfer_take_task s1 hash top
    some ({ key := key, hash := hash, top := top, got_task := r.1 }, r.2)

/-- The second half of a worker's turn (lines 346-401): the payload is asked for,
the texture is allocated when the guard holds, the result is committed to the
node and the key's fallback entry is written. -/
def tex_xfer_finish (s : TEX_Shared) (w : TEX_Worker) (bytes_per_pixel : Nat → Nat)
    (data_size : Nat) (alloc_result : R_Handle) : TEX_Shared :=
  let data_size1 := if w.got_task then data_size else 0
  let r2 := tex_xfer_alloc s bytes_per_pixel w.got_task w.top data_size1 alloc_result
  let s3 := if w.got_task then tex_xfer_commit r2.2 w.hash w.top r2.1 else r2.2
  if w.got_task && !u128_match w.key u128_zero && !u128_match w.hash u128_zero then
    tex_xfer_fallback_commit s3 w.key w.hash
  else s3

/-- The shared state, the readers whose scope is open, and the workers that have
taken a request and not yet committed. -/
structure TEX_Machine where
  shared : TEX_Shared
  readers : List TEX_Reader
  workers : List TEX_Worker

/-- One atomic step of the machine. The steps are those of `TEX_Step`, with the
worker's turn split in its two halves: other steps may run between the
compare-and-swap of a worker and its commit. -/
inductive TEX_MachineStep : TEX_Machine → TEX_Machine → Prop where
  | scope_open (m : TEX_Machine) :
      TEX_MachineStep m ⟨m.shared, m.readers ++ [⟨tex_scope_open, []⟩], m.workers⟩
  | lookup (m : TEX_Machine) (pre post : List TEX_Reader) (rd : TEX_Reader) (key hash : U128)
      (top : TEX_Topology) (now_us : Nat) (handle : R_Handle) (scope1 : TEX_Scope)
      (s1 : TEX_Shared) :
      m.readers = pre ++ rd :: post → key.wf → hash.wf → top.wf →
      tex_touch_total m.readers + 2 < 2 ^ 64 →
      tex_texture_from_key_hash_topology m.shared rd.scope key hash top now_us =
        some (handle, scope1, s1) →
      TEX_MachineStep m ⟨s1, pre ++ ⟨scope1, handle :: rd.observed⟩ :: post, m.workers⟩
  | scope_close (m : TEX_Machine) (pre post : List TEX_Reader) (rd : TEX_Reader) :
      m.readers = pre ++ rd :: post →
      TEX_MachineStep m ⟨tex_scope_close m.shared rd.scope, pre ++ post, m.workers⟩
  | xfer_take (m : TEX_Machine) (w : TEX_Worker) (s1 : TEX_Shared) :
      tex_xfer_take m.shared = some (w, s1) →
      TEX_MachineStep m ⟨s1, m.readers, m.workers ++ [w]⟩
  | xfer_finish (m : TEX_Machine) (pre post : List TEX_Worker) (w : TEX_Worker)
      (bytes_per_pixel : Nat → Nat) (data_size : Nat) (alloc_result : R_Handle) :
      m.workers = pre ++ w :: post →
      (alloc_result = r_handle_zero ∨ ¬ r_handle_live m.shared alloc_result) →
      TEX_MachineStep m
        ⟨tex_xfer_finish m.shared w bytes_per_pixel data_size alloc_result, m.readers,
          pre ++ post⟩
  | evict_slot (m : TEX_Machine) (slot_idx check_time_us check_time_user_clocks : Nat) :
      TEX_MachineStep m
        ⟨tex_evictor_slot_pass m.shared slot_idx check_time_us check_time_user_clocks,
          m.readers, m.workers⟩
  | evict_sweep (m : TEX_Machine) (now_us : Nat) :
      TEX_MachineStep m ⟨tex_evictor_sweep m.shared now_us, m.readers, m.workers⟩
  | clock_tick (m : TEX_Machine) :
      TEX_MachineStep m ⟨tex_user_clock_tick m.shared, m.readers, m.workers⟩

/-- The machine states reachable from the state of `tex_init` with no open scope
and no worker in flight. -/
inductive TEX_MachineReachable : TEX_Machine → Prop where
  | init (logical_core_count : Nat) (ring_memory : Nat → Nat) :
      TEX_MachineReachable ⟨tex_init logical_core_count ring_memory, [], []⟩
  | step (m m1 : TEX_Machine) :
      TEX_MachineReachable m → TEX_MachineStep m m1 → TEX_MachineReachable m1

/-- A run of the machine all of whose states, the first and the last included,
satisfy `P`. -/
inductive TEX_RunWithin (P : TEX_Machine → Prop) : TEX_Machine → TEX_Machine → Prop where
  | refl (m : TEX_Machine) : P m → TEX_RunWithin P m m
  | step (m m1 m2 : TEX_Machine) :
      TEX_RunWithin P m m1 → TEX_MachineStep m1 m2 → P m2 → TEX_RunWithin P m m2

/-- Some open scope holds a touch record of `(hash, topology)`. -/
def tex_pinned (m : TEX_Machine) (hash : U128) (topology : TEX_Topology) : Prop :=
  ∃ rd ∈ m.readers, ({ hash := hash, topology := topology } : TEX_Touch) ∈ rd.scope.top_touch

/-- A node of `(hash, topology)` is linked in the table. -/
def tex_linked (m : TEX_Machine) (hash : U128) (topology : TEX_Topology) : Prop :=
  (tex_node_of m.shared hash topology).isSome

/-! ### Invariants of the machine -/

/-- Every worker in flight holds its task: its node is linked, marked as being
built and not yet loaded; no two workers hold the same node. -/
def tex_workers_inv (s : TEX_Shared) (workers : List TEX_Worker) : Prop :=
  (∀ w ∈ workers, w.got_task = true ∧
    ∃ n, tex_node_of s w.hash w.top = some n ∧ n.is_working = 1 ∧ n.load_count = 0) ∧
  (workers.map TEX_Worker.id).Nodup

/-- A node that has not been loaded carries no texture. -/
def tex_nodes_inv (s : TEX_Shared) : Prop :=
  ∀ h t n, tex_node_of s h t = some n → n.load_count = 0 → n.texture = r_handle_zero

/-- The invariant of the build protocol. -/
def tex_build_inv (m : TEX_Machine) : Prop :=
  tex_homed m.shared ∧ tex_unique m.shared ∧ tex_ring_inv m.shared ∧
    tex_workers_inv m.shared m.workers ∧ tex_nodes_inv m.shared

/-- The pin count of every node is the number of touch records naming it in the
open scopes, every such record names a linked node, and fewer than `2 ^ 64`
records exist. -/
def tex_pins_inv (s : TEX_Shared) (readers : List TEX_Reader) : Prop :=
  (∀ h t n, tex_node_of s h t = some n →
    n.scope_ref_count = tex_touch_count readers (h, t)) ∧
  (∀ rd ∈ readers, ∀ t ∈ rd.scope.top_touch, (tex_node_of s t.hash t.topology).isSome) ∧
  tex_touch_total readers < 2 ^ 64

/-- The textures in the table are live and pairwise distinct, no handle has been
released more often than allocated, and every non-null handle observed in an
open scope is the texture of a node that scope has touched. -/
def tex_handles_inv (s : TEX_Shared) (readers : List TEX_Reader) : Prop :=
  (∀ h t n, tex_node_of s h t = some n → n.texture ≠ r_handle_zero →
    r_handle_live s n.texture) ∧
  (∀ x, x ≠ r_handle_zero →
    s.r_tex2d_release_log.count x ≤ (s.r_tex2d_alloc_log.map (fun c => c.result)).count x) ∧
  (∀ h t n h1 t1 n1, tex_node_of s h t = some n → tex_node_of s h1 t1 = some n1 →
    n.texture = n1.texture → n.texture ≠ r_handle_zero → (h, t) = (h1, t1)) ∧
  (∀ rd ∈ readers, ∀ x ∈ rd.observed, x ≠ r_handle_zero →
    ∃ t ∈ rd.scope.top_touch, ∃ n, tex_node_of s t.hash t.topology = some n ∧ n.texture = x)

/-- The invariant of the machine. -/
def tex_machine_inv (m : TEX_Machine) : Prop :=
  tex_build_inv m ∧ tex_pins_inv m.shared m.readers ∧ tex_handles_inv m.shared m.readers

/-! ### Sample states of the machine -/

/-- The machine after a reader has opened a scope and looked up the hash `(0, 1)`
on the state of `tex_init`: the lookup missed, the node is linked and its
request waits in the ring. -/
def tex_example_machine_miss : TEX_Machine :=
  { shared := tex_after_miss (tex_init 8 (fun _ => 0)) ⟨7, 9⟩ ⟨0, 1⟩ ⟨4, 4, 2⟩
    readers := [⟨tex_scope_open, [r_handle_zero]⟩]
    workers := [] }

/-- The worker that has decoded the sample request and taken its task. -/
def tex_example_worker : TEX_Worker :=
  { key := ⟨7, 9⟩, hash := ⟨0, 1⟩, top := ⟨4, 4, 2⟩, got_task := true }

/-- The sample machine after a worker has run the first half of its turn. -/
def tex_example_machine_taken : TEX_Machine :=
  { shared :=
      tex_update_node
        { tex_example_machine_miss.shared with
          u2x_ring_read_pos :=
            (tex_example_machine_miss.shared.u2x_ring_read_pos + 40) % 2 ^ 64 }
        ⟨0, 1⟩ ⟨4, 4, 2⟩ tex_node_claim
    readers := [⟨tex_scope_open, [r_handle_zero]⟩]
    workers := [tex_example_worker] }

/-- The sample machine after the worker has finished its turn, the hash store
having returned 64 bytes and the backend the handle 5. -/
def tex_example_machine_built : TEX_Machine :=
  { shared := tex_xfer_finish tex_example_machine_taken.shared tex_example_worker (fun _ => 4) 64 5
    readers := [⟨tex_scope_open, [r_handle_zero]⟩]
    workers := [] }

/-- The sample machine after the reader has looked up the hash `(0, 1)` again:
the lookup returned the handle 5 and pinned the node. -/
def tex_example_machine_hit : TEX_Machine :=
  { shared :=
      tex_update_node tex_example_machine_built.shared ⟨0, 1⟩ ⟨4, 4, 2⟩
        (tex_touch_node 200 tex_example_machine_built.shared.user_clock_idx)
    readers := [⟨⟨[⟨⟨0, 1⟩, ⟨4, 4, 2⟩⟩]⟩, [5, r_handle_zero]⟩]
    workers := [] }

/-- Two states whose linked nodes carry the same textures: every node of the
first is linked in the second with its texture, every node of the second that
carries a texture was linked in the first with that texture, and the backend
has been called no further. -/
def tex_same_textures (s s1 : TEX_Shared) : Prop :=
  (∀ h t n, tex_node_of s h t = some n →
    ∃ m, tex_node_of s1 h t = some m ∧ m.texture = n.texture) ∧
  (∀ h t m, tex_node_of s1 h t = some m → m.texture ≠ r_handle_zero →
    ∃ n, tex_node_of s h t = some n ∧ n.texture = m.texture) ∧
  s1.r_tex2d_release_log = s.r_tex2d_release_log ∧
  s1.r_tex2d_alloc_log = s.r_tex2d_alloc_log

/-- The handles returned by the lookups of a run of one scope, in order. The run
is that of `tex_scope_run`. -/
def tex_scope_handles (s : TEX_Shared) (scope : TEX_Scope) :
    List TEX_ScopeAction → Option (List R_Handle)
  | [] => some []
  | TEX_ScopeAction.lookup key hash top now_us :: rest =>
    match tex_texture_from_key_hash_topology s scope key hash top now_us with
    | some (handle, scope1, s1) => (tex_scope_handles s1 scope1 rest).map (fun l => handle :: l)
    | none => none
  | TEX_ScopeAction.work bytes_per_pixel data_size alloc_result :: rest =>
    match tex_xfer_thread__iteration s bytes_per_pixel data_size alloc_result with
    | some s1 => tex_scope_handles s1 scope rest
    | none => tex_scope_handles s scope rest
  | TEX_ScopeAction.tick :: rest => tex_scope_handles (tex_user_clock_tick s) scope rest

/-- A sample run in one scope: the hash `(0, 1)` is looked up under the key
`(7, 9)` and built; then the hash `(0, 2)` is looked up under the same key,
built, and looked up again. -/
def tex_example_fallback_acts : List TEX_ScopeAction :=
  [TEX_ScopeAction.lookup ⟨7, 9⟩ ⟨0, 1⟩ ⟨4, 4, 2⟩ 100,
   TEX_ScopeAction.work (fun _ => 4) 64 5,
   TEX_ScopeAction.lookup ⟨7, 9⟩ ⟨0, 2⟩ ⟨4, 4, 2⟩ 200,
   TEX_ScopeAction.work (fun _ => 4) 64 6,
   TEX_ScopeAction.lookup ⟨7, 9⟩ ⟨0, 2⟩ ⟨4, 4, 2⟩ 300]

/-- The sample machine `tex_example_machine_hit` after a sweep of the evictor at
the time 1,000,000,000 us. -/
def tex_example_machine_swept : TEX_Machine :=
  { shared := tex_evictor_sweep tex_example_machine_hit.shared 1000000000
    readers := tex_example_machine_hit.readers
    workers := tex_example_machine_hit.workers }

/-! ## Vocabulary of the statements: repeated lookups of one identity -/

/-- An action of a schedule of repeated lookups of one `(key, hash, topology)`: a
call of `tex_texture_from_key_hash_topology` made in the caller's scope at a
clock reading, or one worker iteration. -/
inductive TEX_RepeatAction where
  | call (scope : TEX_Scope) (now_us : Nat)
  | work (bytes_per_pixel : Nat → Nat) (data_size : Nat) (alloc_result : R_Handle)

/-- The run of a schedule of lookups of `(key, hash, topology)` and worker
iterations. A call or a worker that parks ends the run with `none`. -/
def tex_repeat_run (key hash : U128) (top : TEX_Topology) :
    TEX_Shared → List TEX_RepeatAction → Option TEX_Shared
  | s, [] => some s
  | s, TEX_RepeatAction.call scope now_us :: rest =>
    match tex_texture_from_key_hash_topology s scope key hash top now_us with
    | some r => tex_repeat_run key hash top r.2.2 rest
    | none => none
  | s, TEX_RepeatAction.work bytes_per_pixel data_size alloc_result :: rest =>
    match tex_xfer_thread__iteration s bytes_per_pixel data_size alloc_result with
    | some s1 => tex_repeat_run key hash top s1 rest
    | none => none

/-- The number of calls in a schedule. -/
def tex_repeat_calls : List TEX_RepeatAction → Nat
  | [] => 0
  | TEX_RepeatAction.call _ _ :: rest => tex_repeat_calls rest + 1
  | TEX_RepeatAction.work _ _ _ :: rest => tex_repeat_calls rest

/-- The number of worker iterations in a schedule. -/
def tex_repeat_works : List TEX_RepeatAction → Nat
  | [] => 0
  | TEX_RepeatAction.call _ _ :: rest => tex_repeat_works rest
  | TEX_RepeatAction.work _ _ _ :: rest => tex_repeat_works rest + 1

/-- The clock readings of the calls of a schedule. -/
def tex_repeat_clocks : List TEX_RepeatAction → List Nat
  | [] => []
  | TEX_RepeatAction.call _ now_us :: rest => now_us :: tex_repeat_clocks rest
  | TEX_RepeatAction.work _ _ _ :: rest => tex_repeat_clocks rest

/-- The ring invariant with the waiting requests named: the ring holds exactly
`waiting`, each of these requests names a linked node that is neither loaded
nor being built, and no two name the same node. -/
def tex_ring_inv_at (s : TEX_Shared) (waiting : List TEX_Request) : Prop :=
  u2x_ring_wf s ∧ u2x_ring_holds s waiting ∧
    (∀ r ∈ waiting, r.wf ∧ ∃ n, tex_node_of s r.hash r.top = some n ∧
      n.load_count = 0 ∧ n.is_working = 0) ∧
    (waiting.map TEX_Request.id).Nodup

/-- The progress of a schedule of repeated lookups of the request `req`, started
in a state with write position `wp0` whose ring held `pending`: `done` lists the
requests the workers have consumed and `waiting` those still in the ring.
Before the first call no node of the identity exists and nothing was enqueued;
after it exactly one request was enqueued, and the node is idle, unloaded while
its request waits and loaded once afterwards. -/
def tex_repeat_inv (req : TEX_Request) (wp0 : Nat) (pending : List TEX_Request)
    (s : TEX_Shared) (called : Bool) (done waiting : List TEX_Request) : Prop :=
  tex_homed s ∧ tex_unique s ∧ tex_ring_inv_at s waiting ∧
  (called = false →
    tex_node_of s req.hash req.top = none ∧ done ++ waiting = pending ∧
      s.u2x_ring_write_pos = wp0) ∧
  (called = true →
    done ++ waiting = pending ++ [req] ∧
      s.u2x_ring_write_pos = (wp0 + 40) % 2 ^ 64 ∧
      ∃ n, tex_node_of s req.hash req.top = some n ∧ n.is_working = 0 ∧
        ((req ∈ waiting ∧ n.load_count = 0) ∨ (req ∉ waiting ∧ n.load_count = 1)))

/-- A sample schedule: two calls, a worker iteration, a third call. -/
def tex_example_repeat_acts : List TEX_RepeatAction :=
  [TEX_RepeatAction.call tex_scope_open 100, TEX_RepeatAction.call tex_scope_open 101,
   TEX_RepeatAction.work (fun _ => 4) 64 5, TEX_RepeatAction.call tex_scope_open 102]

/-! ## Vocabulary of the statements: a sample state of the fallback table -/

/-- The shared state a lookup leaves; the state it was given when the call
parks. -/
def tex_texture_shared (s : TEX_Shared) (scope : TEX_Scope) (key hash : U128)
    (topology : TEX_Topology) (now_us : Nat) : TEX_Shared :=
  match tex_texture_from_key_hash_topology s scope key hash topology now_us with
  | some r => r.2.2
  | none => s

/-- The state of `tex_init` after a lookup of the hash `(0, 1)` under the zero
key. -/
def tex_example_zero_key_miss : TEX_Shared :=
  tex_texture_shared (tex_init 8 (fun _ => 0)) tex_scope_open ⟨0, 0⟩ ⟨0, 1⟩ ⟨4, 4, 2⟩ 100

/-- The sample state after a worker has processed the tuple of the zero key: it
takes the task and builds the node with the handle 5. -/
def tex_example_zero_key_built : TEX_Shared :=
  tex_xfer_process tex_example_zero_key_miss (fun _ => 4) ⟨0, 0⟩ ⟨0, 1⟩ ⟨4, 4, 2⟩ 64 5

/-- The sample state after a lookup of the hash `(0, 2)` under the key `(7, 9)`. -/
def tex_example_second_miss : TEX_Shared :=
  tex_texture_shared tex_example_zero_key_built tex_scope_open ⟨7, 9⟩ ⟨0, 2⟩ ⟨4, 4, 2⟩ 200

/-- The sample state after a worker has processed the tuple of the key `(7, 9)`
and built its node with the handle 6. -/
def tex_example_guard_state : TEX_Shared :=
  tex_xfer_process tex_example_second_miss (fun _ => 4) ⟨7, 9⟩ ⟨0, 2⟩ ⟨4, 4, 2⟩ 64 6
/-! ## Lemmas: byte representation of the requests -/

theorem le_value_bytes_of_u64 (x : Nat) : le_value (bytes_of_u64 x) = x % 2 ^ 64 := by
  simp only [bytes_of_u64, le_value]
  omega

theorem s16_roundtrip (v : Int) (h1 : -(2^15) ≤ v) (h2 : v < 2^15) :
    s16_of_bytes (bytes_of_s16 v) = v := by
  simp only [bytes_of_s16, s16_of_bytes, le_value]
  have h : ((v % 2 ^ 16).toNat : Int) = v % 2 ^ 16 := Int.toNat_of_nonneg (by omega)
  split <;> omega

theorem le_value_bytes_of_u32 (x : Nat) : le_value (bytes_of_u32 x) = x % 2 ^ 32 := by
  simp only [bytes_of_u32, le_value]
  omega

theorem u128_roundtrip (a : U128) (h : a.wf) : u128_of_bytes (bytes_of_u128 a) = a := by
  obtain ⟨h0, h1⟩ := h
  have e0 := le_value_bytes_of_u64 a.u64_0
  have e1 := le_value_bytes_of_u64 a.u64_1
  rw [Nat.mod_eq_of_lt h0] at e0
  rw [Nat.mod_eq_of_lt h1] at e1
  cases a with
  | mk x y =>
    simp only [u128_of_bytes, bytes_of_u128]
    have t1 : (bytes_of_u64 x ++ bytes_of_u64 y).take 8 = bytes_of_u64 x := by
      simp [bytes_of_u64]
    have t2 : ((bytes_of_u64 x ++ bytes_of_u64 y).drop 8).take 8 = bytes_of_u64 y := by
      simp [bytes_of_u64]
    rw [t1, t2]
    simp only at e0 e1
    rw [e0, e1]

theorem topology_roundtrip (t : TEX_Topology) (h : t.wf) :
    topology_of_bytes (bytes_of_topology t) = t := by
  obtain ⟨h1, h2, h3, h4, h5⟩ := h
  cases t with
  | mk x y f =>
    simp only at h1 h2 h3 h4 h5
    have ex := s16_roundtrip x h1 h2
    have ey := s16_roundtrip y h3 h4
    have ef := le_value_bytes_of_u32 f
    rw [Nat.mod_eq_of_lt h5] at ef
    simp only [topology_of_bytes, bytes_of_topology]
    have t1 : (bytes_of_s16 x ++ bytes_of_s16 y ++ bytes_of_u32 f).take 2 = bytes_of_s16 x := by
      simp [bytes_of_s16]
    have t2 : ((bytes_of_s16 x ++ bytes_of_s16 y ++ bytes_of_u32 f).drop 2).take 2
        = bytes_of_s16 y := by
      simp [bytes_of_s16]
    have t3 : ((bytes_of_s16 x ++ bytes_of_s16 y ++ bytes_of_u32 f).drop 4).take 4
        = bytes_of_u32 f := by
      simp [bytes_of_s16, bytes_of_u32]
    rw [t1, t2, t3, ex, ey, ef]

theorem bytes_of_u128_length (a : U128) : (bytes_of_u128 a).length = 16 := by
  simp [bytes_of_u128, bytes_of_u64]

theorem bytes_of_topology_length (t : TEX_Topology) : (bytes_of_topology t).length = 8 := by
  simp [bytes_of_topology, bytes_of_s16, bytes_of_u32]

theorem u2x_request_bytes_length (r : TEX_Request) : (u2x_request_bytes r).length = 40 := by
  simp [u2x_request_bytes, bytes_of_u128_length, bytes_of_topology_length]

theorem u2x_request_roundtrip (r : TEX_Request) (h : r.wf) :
    u2x_request_of_bytes (u2x_request_bytes r) = r := by
  obtain ⟨hk, hh, ht⟩ := h
  cases r with
  | mk k hs t =>
    simp only at hk hh ht
    simp only [u2x_request_of_bytes, u2x_request_bytes]
    have t1 : (bytes_of_u128 k ++ bytes_of_u128 hs ++ bytes_of_topology t).take 16
        = bytes_of_u128 k := by
      rw [List.append_assoc, List.take_append_of_le_length (by simp [bytes_of_u128_length])]
      exact List.take_of_length_le (by simp [bytes_of_u128_length])
    have t2 : ((bytes_of_u128 k ++ bytes_of_u128 hs ++ bytes_of_topology t).drop 16).take 16
        = bytes_of_u128 hs := by
      rw [List.append_assoc, List.drop_append_of_le_length (by simp [bytes_of_u128_length])]
      rw [List.drop_of_length_le (by simp [bytes_of_u128_length])]
      rw [List.nil_append, List.take_append_of_le_length (by simp [bytes_of_u128_length])]
      exact List.take_of_length_le (by simp [bytes_of_u128_length])
    have t3 : ((bytes_of_u128 k ++ bytes_of_u128 hs ++ bytes_of_topology t).drop 32).take 8
        = bytes_of_topology t := by
      have : (bytes_of_u128 k ++ bytes_of_u128 hs).length = 32 := by
        simp [bytes_of_u128_length]
      rw [← this, List.drop_left]
      exact List.take_of_length_le (by simp [bytes_of_topology_length])
    rw [t1, t2, t3, u128_roundtrip k hk, u128_roundtrip hs hh, topology_roundtrip t ht]

/-! ## Lemmas: reading and writing the ring buffer -/

theorem mod_ne_of_lt_gap (size a d : Nat) (hd0 : 0 < d) (hd : d < size) :
    (a + d) % size ≠ a % size := by
  intro h
  have h1 := Nat.sub_mod_eq_zero_of_mod_eq h
  rw [Nat.add_sub_cancel_left] at h1
  rw [Nat.mod_eq_of_lt hd] at h1
  omega

theorem ring_write_congr (size : Nat) (bs : List Nat) :
    ∀ (pos pos1 : Nat) (base : Nat → Nat), pos % size = pos1 % size →
      ring_write base size pos bs = ring_write base size pos1 bs := by
  induction bs with
  | nil => intro pos pos1 base _; rfl
  | cons b bs ih =>
    intro pos pos1 base h
    simp only [ring_write]
    rw [h]
    apply ih
    rw [Nat.add_mod, h, ← Nat.add_mod]

theorem ring_write_append (size : Nat) (as bs : List Nat) :
    ∀ (pos : Nat) (base : Nat → Nat),
      ring_write base size pos (as ++ bs) =
        ring_write (ring_write base size pos as) size (pos + as.length) bs := by
  induction as with
  | nil => intro pos base; rfl
  | cons a as ih =>
    intro pos base
    show ring_write (Function.update base (pos % size) a) size (pos + 1) (as ++ bs) = _
    rw [ih]
    simp only [ring_write, List.length_cons]
    rw [show pos + 1 + as.length = pos + (as.length + 1) by omega]

theorem ring_write_frame (size : Nat) (bs : List Nat) :
    ∀ (pos : Nat) (base : Nat → Nat) (i : Nat),
      (∀ j, j < bs.length → (pos + j) % size ≠ i) →
      ring_write base size pos bs i = base i := by
  induction bs with
  | nil => intro pos base i _; rfl
  | cons b bs ih =>
    intro pos base i h
    simp only [ring_write]
    rw [ih]
    · have h0 := h 0 (by simp)
      simp only [Nat.add_zero] at h0
      exact Function.update_noteq (Ne.symm h0) _ _
    · intro j hj
      have := h (j + 1) (by simp; omega)
      rwa [show pos + 1 + j = pos + (j + 1) by omega]

theorem ring_write_at (size : Nat) (bs : List Nat) :
    ∀ (pos : Nat) (base : Nat → Nat) (j : Nat) (hj : j < bs.length), bs.length ≤ size →
      ring_write base size pos bs ((pos + j) % size) = bs[j] := by
  induction bs with
  | nil => intro pos base j hj; simp at hj
  | cons b bs ih =>
    intro pos base j hj hlen
    simp only [ring_write]
    cases j with
    | zero =>
      rw [ring_write_frame]
      · simp
      · intro j hj1
        simp only [List.length_cons] at hlen
        rw [show pos + 1 + j = pos + (j + 1) by omega, Nat.add_zero]
        exact mod_ne_of_lt_gap size pos (j + 1) (by omega) (by omega)
    | succ j =>
      simp only [List.length_cons] at hj hlen
      rw [show pos + (j + 1) = pos + 1 + j by omega]
      rw [ih (pos + 1) _ j (by omega) (by omega)]
      simp

theorem ring_read_length (base : Nat → Nat) (size pos n : Nat) :
    (ring_read base size pos n).length = n := by
  simp [ring_read]

theorem ring_read_write (size : Nat) (bs : List Nat) (pos : Nat)
    (base : Nat → Nat) (hlen : bs.length ≤ size) :
    ring_read (ring_write base size pos bs) size pos bs.length = bs := by
  apply List.ext_getElem
  · simp [ring_read]
  · intro j h1 h2
    simp only [ring_read, List.getElem_map, List.getElem_range]
    exact ring_write_at size bs pos base j h2 hlen

theorem ring_read_congr (base : Nat → Nat) (size pos pos1 n : Nat)
    (h : pos % size = pos1 % size) :
    ring_read base size pos n = ring_read base size pos1 n := by
  simp only [ring_read]
  apply List.map_congr_left
  intro j _
  rw [Nat.add_mod, h, ← Nat.add_mod]

theorem ring_read_add (base : Nat → Nat) (size pos a b : Nat) :
    ring_read base size pos (a + b) =
      ring_read base size pos a ++ ring_read base size (pos + a) b := by
  simp only [ring_read, List.range_add, List.map_append, List.map_map]
  congr 1
  apply List.map_congr_left
  intro j _
  simp [Nat.add_assoc]

theorem ring_read_frame (size : Nat) (bs : List Nat) (wpos rpos n : Nat) (base : Nat → Nat)
    (h : ∀ i j, i < n → j < bs.length → (wpos + j) % size ≠ (rpos + i) % size) :
    ring_read (ring_write base size wpos bs) size rpos n = ring_read base size rpos n := by
  simp only [ring_read]
  apply List.map_congr_left
  intro i hi
  rw [List.mem_range] at hi
  exact ring_write_frame size bs wpos base _ (fun j hj => h i j hi hj)

/-! ## Lemmas: enqueue and dequeue in closed form -/

theorem u2x_write_pos_mod (s : TEX_Shared) (hwf : u2x_ring_wf s) :
    s.u2x_ring_write_pos % s.u2x_ring_size =
      (s.u2x_ring_read_pos + u2x_unconsumed_size s) % s.u2x_ring_size := by
  obtain ⟨_, _, ⟨q, hq⟩, hw, hr, _⟩ := hwf
  have h : s.u2x_ring_read_pos + u2x_unconsumed_size s = s.u2x_ring_write_pos ∨
      s.u2x_ring_read_pos + u2x_unconsumed_size s = s.u2x_ring_write_pos + 2 ^ 64 := by
    unfold u2x_unconsumed_size; omega
  rcases h with h | h
  · rw [h]
  · rw [h, hq, Nat.add_mul_mod_self_left]

theorem tex_u2x_enqueue_req_room (s : TEX_Shared) (r : TEX_Request) (endt_us now_us : Nat)
    (hwf : u2x_ring_wf s) (hroom : u2x_unconsumed_size s + 40 ≤ s.u2x_ring_size) :
    tex_u2x_enqueue_req s r.key r.hash r.top endt_us now_us =
      some (true, { s with
        u2x_ring_base :=
          ring_write s.u2x_ring_base s.u2x_ring_size s.u2x_ring_write_pos (u2x_request_bytes r)
        u2x_ring_write_pos := (s.u2x_ring_write_pos + 40) % 2 ^ 64 }) := by
  obtain ⟨h0, hlt, hdvd, hw, hr, hu⟩ := hwf
  unfold u2x_unconsumed_size at hroom hu
  have ha : (s.u2x_ring_size + 2 ^ 64 -
      (s.u2x_ring_write_pos + 2 ^ 64 - s.u2x_ring_read_pos) % 2 ^ 64) % 2 ^ 64 ≥
      sizeof_U128 + sizeof_U128 + sizeof_TEX_Topology := by
    simp only [sizeof_U128, sizeof_TEX_Topology]; omega
  simp only [tex_u2x_enqueue_req, ha, if_true]
  have e1 : ring_write
      (ring_write s.u2x_ring_base s.u2x_ring_size s.u2x_ring_write_pos (bytes_of_u128 r.key))
      s.u2x_ring_size ((s.u2x_ring_write_pos + sizeof_U128) % 2 ^ 64) (bytes_of_u128 r.hash) =
      ring_write
      (ring_write s.u2x_ring_base s.u2x_ring_size s.u2x_ring_write_pos (bytes_of_u128 r.key))
      s.u2x_ring_size (s.u2x_ring_write_pos + (bytes_of_u128 r.key).length)
      (bytes_of_u128 r.hash) := by
    apply ring_write_congr
    rw [Nat.mod_mod_of_dvd _ hdvd, bytes_of_u128_length]; rfl
  have e2 : ∀ b, ring_write b
      s.u2x_ring_size (((s.u2x_ring_write_pos + sizeof_U128) % 2 ^ 64 + sizeof_U128) % 2 ^ 64)
      (bytes_of_topology r.top) =
      ring_write b s.u2x_ring_size
      (s.u2x_ring_write_pos + (bytes_of_u128 r.key ++ bytes_of_u128 r.hash).length)
      (bytes_of_topology r.top) := by
    intro b
    apply ring_write_congr
    rw [Nat.mod_mod_of_dvd _ hdvd, Nat.add_mod, Nat.mod_mod_of_dvd _ hdvd, ← Nat.add_mod,
      List.length_append, bytes_of_u128_length, bytes_of_u128_length]
    simp only [sizeof_U128]
  rw [e2, e1, ← ring_write_append, ← ring_write_append]
  have e3 : ((((s.u2x_ring_write_pos + sizeof_U128) % 2 ^ 64 + sizeof_U128) % 2 ^ 64 +
      sizeof_TEX_Topology) % 2 ^ 64) = (s.u2x_ring_write_pos + 40) % 2 ^ 64 := by
    simp only [sizeof_U128, sizeof_TEX_Topology]; omega
  rw [e3]
  rfl

theorem tex_u2x_enqueue_req_full (s : TEX_Shared) (key hash : U128) (top : TEX_Topology)
    (endt_us now_us : Nat) (hwf : u2x_ring_wf s)
    (hfull : s.u2x_ring_size < u2x_unconsumed_size s + 40) :
    tex_u2x_enqueue_req s key hash top endt_us now_us =
      if now_us ≥ endt_us then some (false, s) else none := by
  obtain ⟨h0, hlt, hdvd, hw, hr, hu⟩ := hwf
  unfold u2x_unconsumed_size at hfull hu
  have ha : ¬ (s.u2x_ring_size + 2 ^ 64 -
      (s.u2x_ring_write_pos + 2 ^ 64 - s.u2x_ring_read_pos) % 2 ^ 64) % 2 ^ 64 ≥
      sizeof_U128 + sizeof_U128 + sizeof_TEX_Topology := by
    simp only [sizeof_U128, sizeof_TEX_Topology]; omega
  simp only [tex_u2x_enqueue_req, ha, if_false]

theorem tex_u2x_dequeue_req_some (s : TEX_Shared) (hwf : u2x_ring_wf s)
    (h : 40 ≤ u2x_unconsumed_size s) :
    tex_u2x_dequeue_req s =
      some ((u2x_request_of_bytes
              (ring_read s.u2x_ring_base s.u2x_ring_size s.u2x_ring_read_pos 40)).key,
            (u2x_request_of_bytes
              (ring_read s.u2x_ring_base s.u2x_ring_size s.u2x_ring_read_pos 40)).hash,
            (u2x_request_of_bytes
              (ring_read s.u2x_ring_base s.u2x_ring_size s.u2x_ring_read_pos 40)).top,
            { s with u2x_ring_read_pos := (s.u2x_ring_read_pos + 40) % 2 ^ 64 }) := by
  obtain ⟨h0, hlt, hdvd, hw, hr, hu⟩ := hwf
  unfold u2x_unconsumed_size at h
  have ha : (s.u2x_ring_write_pos + 2 ^ 64 - s.u2x_ring_read_pos) % 2 ^ 64 ≥
      sizeof_U128 + sizeof_U128 + sizeof_TEX_Topology := by
    simp only [sizeof_U128, sizeof_TEX_Topology]; omega
  simp only [tex_u2x_dequeue_req, ha, if_true]
  have e3 : ((((s.u2x_ring_read_pos + sizeof_U128) % 2 ^ 64 + sizeof_U128) % 2 ^ 64 +
      sizeof_TEX_Topology) % 2 ^ 64) = (s.u2x_ring_read_pos + 40) % 2 ^ 64 := by
    simp only [sizeof_U128, sizeof_TEX_Topology]; omega
  rw [e3]
  have r40 : ring_read s.u2x_ring_base s.u2x_ring_size s.u2x_ring_read_pos 40 =
      ring_read s.u2x_ring_base s.u2x_ring_size s.u2x_ring_read_pos 16 ++
      (ring_read s.u2x_ring_base s.u2x_ring_size (s.u2x_ring_read_pos + 16) 16 ++
       ring_read s.u2x_ring_base s.u2x_ring_size (s.u2x_ring_read_pos + 16 + 16) 8) := by
    rw [show (40 : Nat) = 16 + (16 + 8) by rfl, ring_read_add, ring_read_add]
  have c1 : ring_read s.u2x_ring_base s.u2x_ring_size
      ((s.u2x_ring_read_pos + sizeof_U128) % 2 ^ 64) sizeof_U128 =
      ring_read s.u2x_ring_base s.u2x_ring_size (s.u2x_ring_read_pos + 16) 16 := by
    apply ring_read_congr
    rw [Nat.mod_mod_of_dvd _ hdvd]; rfl
  have c2 : ring_read s.u2x_ring_base s.u2x_ring_size
      (((s.u2x_ring_read_pos + sizeof_U128) % 2 ^ 64 + sizeof_U128) % 2 ^ 64)
      sizeof_TEX_Topology =
      ring_read s.u2x_ring_base s.u2x_ring_size (s.u2x_ring_read_pos + 16 + 16) 8 := by
    apply ring_read_congr
    rw [Nat.mod_mod_of_dvd _ hdvd, Nat.add_mod, Nat.mod_mod_of_dvd _ hdvd, ← Nat.add_mod]
    rfl
  rw [c1, c2, r40]
  have l1 := ring_read_length s.u2x_ring_base s.u2x_ring_size s.u2x_ring_read_pos 16
  have l2 := ring_read_length s.u2x_ring_base s.u2x_ring_size (s.u2x_ring_read_pos + 16) 16
  have l3 := ring_read_length s.u2x_ring_base s.u2x_ring_size (s.u2x_ring_read_pos + 16 + 16) 8
  simp only [u2x_request_of_bytes, sizeof_U128]
  rw [List.take_left' l1, List.drop_left' l1, List.take_left' l2]
  rw [← List.append_assoc, List.drop_left' (by rw [List.length_append, l1, l2])]
  rw [List.take_of_length_le (by rw [l3])]

/-! ## Lemmas: the ring as a queue of requests -/

/-- The state after a successful enqueue of `r`. -/
theorem u2x_enqueue_effect (s : TEX_Shared) (r : TEX_Request)
    (hwf : u2x_ring_wf s) (hroom : u2x_unconsumed_size s + 40 ≤ s.u2x_ring_size)
    (s1 : TEX_Shared)
    (hs1 : s1 = { s with
        u2x_ring_base :=
          ring_write s.u2x_ring_base s.u2x_ring_size s.u2x_ring_write_pos (u2x_request_bytes r)
        u2x_ring_write_pos := (s.u2x_ring_write_pos + 40) % 2 ^ 64 }) :
    u2x_unconsumed_size s1 = u2x_unconsumed_size s + 40 ∧ u2x_ring_wf s1 ∧
      u2x_unconsumed_bytes s1 = u2x_unconsumed_bytes s ++ u2x_request_bytes r := by
  have hmod := u2x_write_pos_mod s hwf
  obtain ⟨h0, hlt, hdvd, hw, hr, hu⟩ := hwf
  have hsz : u2x_unconsumed_size s1 = u2x_unconsumed_size s + 40 := by
    subst hs1
    unfold u2x_unconsumed_size at *
    simp only
    omega
  refine ⟨hsz, ?_, ?_⟩
  · refine ⟨?_, ?_, ?_, ?_, ?_, ?_⟩
    · subst hs1; exact h0
    · subst hs1; exact hlt
    · subst hs1; exact hdvd
    · subst hs1; exact Nat.mod_lt _ (by norm_num)
    · subst hs1; exact hr
    · rw [hsz]; subst hs1; exact hroom
  · unfold u2x_unconsumed_bytes
    rw [hsz]
    subst hs1
    simp only
    rw [ring_read_add]
    congr 1
    · apply ring_read_frame
      intro i j hi hj
      rw [u2x_request_bytes_length] at hj
      rw [Nat.add_mod, hmod, ← Nat.add_mod]
      rw [show s.u2x_ring_read_pos + u2x_unconsumed_size s + j =
        s.u2x_ring_read_pos + i + (u2x_unconsumed_size s + j - i) by omega]
      exact mod_ne_of_lt_gap _ _ _ (by omega) (by omega)
    · rw [ring_read_congr _ _ _ _ 40 hmod.symm]
      have := ring_read_write s.u2x_ring_size (u2x_request_bytes r) s.u2x_ring_write_pos
        s.u2x_ring_base (by rw [u2x_request_bytes_length]; omega)
      rw [u2x_request_bytes_length] at this
      exact this

/-- The state after a dequeue. -/
theorem u2x_dequeue_effect (s : TEX_Shared)
    (hwf : u2x_ring_wf s) (h : 40 ≤ u2x_unconsumed_size s) (s1 : TEX_Shared)
    (hs1 : s1 = { s with u2x_ring_read_pos := (s.u2x_ring_read_pos + 40) % 2 ^ 64 }) :
    u2x_unconsumed_size s1 + 40 = u2x_unconsumed_size s ∧ u2x_ring_wf s1 ∧
      u2x_unconsumed_bytes s =
        ring_read s.u2x_ring_base s.u2x_ring_size s.u2x_ring_read_pos 40 ++
          u2x_unconsumed_bytes s1 := by
  obtain ⟨h0, hlt, hdvd, hw, hr, hu⟩ := hwf
  have hsz : u2x_unconsumed_size s1 + 40 = u2x_unconsumed_size s := by
    subst hs1
    unfold u2x_unconsumed_size at *
    simp only
    omega
  refine ⟨hsz, ?_, ?_⟩
  · refine ⟨?_, ?_, ?_, ?_, ?_, ?_⟩
    · subst hs1; exact h0
    · subst hs1; exact hlt
    · subst hs1; exact hdvd
    · subst hs1; exact hw
    · subst hs1; exact Nat.mod_lt _ (by norm_num)
    · have : s1.u2x_ring_size = s.u2x_ring_size := by subst hs1; rfl
      rw [this]; omega
  · unfold u2x_unconsumed_bytes
    rw [← hsz, Nat.add_comm, ring_read_add]
    subst hs1
    simp only
    congr 1
    apply ring_read_congr
    rw [Nat.mod_mod_of_dvd _ hdvd]

theorem u2x_ring_holds_size (s : TEX_Shared) (rs : List TEX_Request) (h : u2x_ring_holds s rs) :
    u2x_unconsumed_size s = 40 * rs.length := by
  have h1 : (u2x_unconsumed_bytes s).length = u2x_unconsumed_size s := by
    simp [u2x_unconsumed_bytes, ring_read_length]
  rw [← h1, h]
  clear h h1
  induction rs with
  | nil => rfl
  | cons r rs ih =>
    simp only [List.map_cons, List.flatten_cons, List.length_append, u2x_request_bytes_length,
      List.length_cons, ih]
    omega

/-- An enqueue on a ring with room appends the request. -/
theorem u2x_enqueue_holds (s : TEX_Shared) (rs : List TEX_Request) (r : TEX_Request)
    (endt_us now_us : Nat) (hwf : u2x_ring_wf s) (hh : u2x_ring_holds s rs)
    (hroom : 40 * rs.length + 40 ≤ s.u2x_ring_size) :
    ∃ s1, tex_u2x_enqueue_req s r.key r.hash r.top endt_us now_us = some (true, s1) ∧
      u2x_ring_wf s1 ∧ u2x_ring_holds s1 (rs ++ [r]) ∧
      s1 = { s with
        u2x_ring_base :=
          ring_write s.u2x_ring_base s.u2x_ring_size s.u2x_ring_write_pos (u2x_request_bytes r)
        u2x_ring_write_pos := (s.u2x_ring_write_pos + 40) % 2 ^ 64 } := by
  have hsz := u2x_ring_holds_size s rs hh
  have hroom1 : u2x_unconsumed_size s + 40 ≤ s.u2x_ring_size := by omega
  refine ⟨_, tex_u2x_enqueue_req_room s r endt_us now_us hwf hroom1, ?_, ?_, rfl⟩
  · exact (u2x_enqueue_effect s r hwf hroom1 _ rfl).2.1
  · unfold u2x_ring_holds
    rw [(u2x_enqueue_effect s r hwf hroom1 _ rfl).2.2, hh]
    simp

/-- A dequeue on a ring holding `r :: rs` returns `r` and leaves `rs`. -/
theorem u2x_dequeue_holds (s : TEX_Shared) (rs : List TEX_Request) (r : TEX_Request)
    (hwf : u2x_ring_wf s) (hh : u2x_ring_holds s (r :: rs)) (hr : r.wf) :
    ∃ s1, tex_u2x_dequeue_req s = some (r.key, r.hash, r.top, s1) ∧
      u2x_ring_wf s1 ∧ u2x_ring_holds s1 rs ∧
      s1 = { s with u2x_ring_read_pos := (s.u2x_ring_read_pos + 40) % 2 ^ 64 } := by
  have hsz := u2x_ring_holds_size s _ hh
  have h40 : 40 ≤ u2x_unconsumed_size s := by rw [hsz]; simp only [List.length_cons]; omega
  have heff := u2x_dequeue_effect s hwf h40 _ rfl
  have hsplit := heff.2.2
  rw [hh] at hsplit
  simp only [List.map_cons, List.flatten_cons] at hsplit
  have hl : (u2x_request_bytes r).length =
      (ring_read s.u2x_ring_base s.u2x_ring_size s.u2x_ring_read_pos 40).length := by
    rw [u2x_request_bytes_length, ring_read_length]
  have h1 := List.append_inj hsplit hl
  refine ⟨_, ?_, heff.2.1, ?_, rfl⟩
  · rw [tex_u2x_dequeue_req_some s hwf h40, ← h1.1, u2x_request_roundtrip r hr]
  · exact h1.2.symm

/-- A dequeue on an empty ring parks. -/
theorem u2x_dequeue_empty (s : TEX_Shared) (hh : u2x_ring_holds s []) :
    tex_u2x_dequeue_req s = none := by
  have hsz := u2x_ring_holds_size s _ hh
  simp only [List.length_nil, Nat.mul_zero] at hsz
  unfold u2x_unconsumed_size at hsz
  simp only [tex_u2x_dequeue_req, sizeof_U128, sizeof_TEX_Topology]
  rw [if_neg (by omega)]

theorem u2x_ring_holds_nil (s : TEX_Shared) (h : s.u2x_ring_write_pos = s.u2x_ring_read_pos) :
    u2x_ring_holds s [] := by
  have : u2x_unconsumed_size s = 0 := by
    unfold u2x_unconsumed_size; rw [h]; omega
  simp [u2x_ring_holds, u2x_unconsumed_bytes, this, ring_read]

theorem u2x_run_fifo (ops : List U2X_Op) :
    ∀ (s : TEX_Shared) (pending outs : List TEX_Request) (s1 : TEX_Shared),
      u2x_ring_wf s → u2x_ring_holds s pending → (∀ r ∈ pending, r.wf) →
      (∀ r ∈ u2x_enqueued ops, r.wf) → u2x_run s ops = some (outs, s1) →
      ∃ rest, pending ++ u2x_enqueued ops = outs ++ rest ∧ u2x_ring_wf s1 ∧
        u2x_ring_holds s1 rest := by
  induction ops with
  | nil =>
    intro s pending outs s1 hwf hh _ _ hrun
    simp only [u2x_run, Option.some.injEq, Prod.mk.injEq] at hrun
    obtain ⟨rfl, rfl⟩ := hrun
    exact ⟨pending, by simp [u2x_enqueued], hwf, hh⟩
  | cons op ops ih =>
    intro s pending outs s1 hwf hh hp he hrun
    cases op with
    | enqueue r endt_us now_us =>
      simp only [u2x_enqueued, List.mem_cons, forall_eq_or_imp] at he
      by_cases hroom : 40 * pending.length + 40 ≤ s.u2x_ring_size
      · obtain ⟨s2, hs2, hwf2, hh2, _⟩ := u2x_enqueue_holds s pending r endt_us now_us hwf hh hroom
        simp only [u2x_run, hs2] at hrun
        obtain ⟨rest, hrest, hw1, hh1⟩ := ih s2 (pending ++ [r]) outs s1 hwf2 hh2
          (by
            intro x hx
            rcases List.mem_append.mp hx with hx | hx
            · exact hp x hx
            · simp only [List.mem_singleton] at hx; subst hx; exact he.1)
          he.2 hrun
        exact ⟨rest, by simpa [u2x_enqueued] using hrest, hw1, hh1⟩
      · have hsz := u2x_ring_holds_size s _ hh
        have hfull := tex_u2x_enqueue_req_full s r.key r.hash r.top endt_us now_us hwf (by omega)
        simp only [u2x_run, hfull] at hrun
        split at hrun
        · rename_i heq
          split at heq <;> simp at heq
        · simp at hrun
    | dequeue =>
      simp only [u2x_enqueued] at he
      cases pending with
      | nil =>
        simp [u2x_run, u2x_dequeue_empty s hh] at hrun
      | cons r rs =>
        obtain ⟨s2, hs2, hwf2, hh2, _⟩ := u2x_dequeue_holds s rs r hwf hh (hp r (by simp))
        simp only [u2x_run, hs2] at hrun
        cases hrec : u2x_run s2 ops with
        | none => simp [hrec] at hrun
        | some res =>
          obtain ⟨outs2, s3⟩ := res
          simp only [hrec, Option.some.injEq, Prod.mk.injEq] at hrun
          obtain ⟨rfl, rfl⟩ := hrun
          obtain ⟨rest, hrest, hw1, hh1⟩ := ih s2 rs outs2 s3 hwf2 hh2
            (fun x hx => hp x (List.mem_cons_of_mem _ hx)) he hrec
          refine ⟨rest, ?_, hw1, hh1⟩
          simp only [u2x_enqueued, List.cons_append, List.cons.injEq, true_and]
          cases r
          simpa using hrest

/-! ## Lemmas: matching nodes and chain walks -/

theorem u128_match_iff (a b : U128) : u128_match a b = true ↔ a = b := by
  cases a; cases b
  simp [u128_match]

theorem u128_match_comm (a b : U128) : u128_match a b = u128_match b a := by
  rw [Bool.eq_iff_iff, u128_match_iff, u128_match_iff]
  exact eq_comm

theorem u128_match_zero_iff (a : U128) : u128_match u128_zero a = true ↔ a = u128_zero := by
  rw [u128_match_iff]; exact eq_comm

theorem topology_match_iff (a b : TEX_Topology) : topology_match a b = true ↔ a = b := by
  cases a; cases b
  simp [topology_match, and_assoc]

theorem tex_node_match_iff (hash : U128) (top : TEX_Topology) (n : TEX_Node) :
    tex_node_match hash top n = true ↔ tex_node_id n = (hash, top) := by
  simp only [tex_node_match, Bool.and_eq_true, u128_match_iff, topology_match_iff, tex_node_id,
    Prod.mk.injEq]
  constructor
  · rintro ⟨h1, h2⟩; exact ⟨h1.symm, h2.symm⟩
  · rintro ⟨h1, h2⟩; exact ⟨h1.symm, h2.symm⟩

theorem tex_xfer_node_match_eq (hash : U128) (top : TEX_Topology) :
    tex_xfer_node_match hash top = tex_node_match hash top := by
  funext n
  simp only [tex_xfer_node_match, tex_node_match, u128_match_comm]

theorem tex_node_match_congr (hash : U128) (top : TEX_Topology) (n m : TEX_Node)
    (h : tex_node_id n = tex_node_id m) :
    tex_node_match hash top n = tex_node_match hash top m := by
  rw [Bool.eq_iff_iff, tex_node_match_iff, tex_node_match_iff, h]

/-! ### Walks that update the first match -/

theorem chain_update_first_length {α : Type} (p : α → Bool) (f : α → α) (l : List α) :
    (chain_update_first p f l).length = l.length := by
  induction l with
  | nil => rfl
  | cons a l ih =>
    simp only [chain_update_first]
    split <;> simp [ih]

theorem chain_update_first_map {α β : Type} (p : α → Bool) (f : α → α) (g : α → β)
    (hg : ∀ a, g (f a) = g a) (l : List α) :
    (chain_update_first p f l).map g = l.map g := by
  induction l with
  | nil => rfl
  | cons a l ih =>
    simp only [chain_update_first]
    split <;> simp [ih, hg]

theorem chain_update_first_of_none {α : Type} (p : α → Bool) (f : α → α) (l : List α)
    (h : l.find? p = none) : chain_update_first p f l = l := by
  induction l with
  | nil => rfl
  | cons a l ih =>
    simp only [List.find?_cons] at h
    split at h
    · simp at h
    · rename_i hp
      simp only [chain_update_first, hp, Bool.false_eq_true, if_false, ih h]

theorem chain_update_first_find_same {α : Type} (p : α → Bool) (f : α → α)
    (hf : ∀ a, p (f a) = p a) (l : List α) :
    (chain_update_first p f l).find? p = (l.find? p).map f := by
  induction l with
  | nil => rfl
  | cons a l ih =>
    simp only [chain_update_first, List.find?_cons]
    by_cases hp : p a = true
    · simp [hp, hf]
    · simp only [Bool.not_eq_true] at hp
      simp [hp, ih]

theorem chain_update_first_find_other {α : Type} (p q : α → Bool) (f : α → α)
    (hf : ∀ a, q (f a) = q a) (hpq : ∀ a, p a = true → q a = false) (l : List α) :
    (chain_update_first p f l).find? q = l.find? q := by
  induction l with
  | nil => rfl
  | cons a l ih =>
    simp only [chain_update_first]
    by_cases hp : p a = true
    · simp [hp, List.find?_cons, hf, hpq a hp]
    · simp only [Bool.not_eq_true] at hp
      simp [hp, List.find?_cons, ih]

theorem chain_update_first_append {α : Type} (p : α → Bool) (f : α → α) (l m : List α)
    (h : (l.find? p).isSome) :
    chain_update_first p f (l ++ m) = chain_update_first p f l ++ m := by
  induction l with
  | nil => simp at h
  | cons a l ih =>
    simp only [List.cons_append, chain_update_first]
    by_cases hp : p a = true
    · simp [hp]
    · simp only [Bool.not_eq_true] at hp
      simp only [List.find?_cons, hp] at h
      simp [hp, ih h]

theorem chain_update_first_mem {α : Type} (p : α → Bool) (f : α → α) (l : List α) (x : α)
    (h : x ∈ chain_update_first p f l) : x ∈ l ∨ ∃ a ∈ l, p a = true ∧ x = f a := by
  induction l with
  | nil => simp [chain_update_first] at h
  | cons a l ih =>
    simp only [chain_update_first] at h
    by_cases hp : p a = true
    · simp only [hp, if_true, List.mem_cons] at h
      rcases h with h | h
      · exact Or.inr ⟨a, by simp, hp, h⟩
      · exact Or.inl (by simp [h])
    · simp only [hp, if_false, List.mem_cons, Bool.false_eq_true] at h
      rcases h with h | h
      · exact Or.inl (by simp [h])
      · rcases ih h with h1 | ⟨b, hb, hpb, hx⟩
        · exact Or.inl (by simp [h1])
        · exact Or.inr ⟨b, by simp [hb], hpb, hx⟩

theorem chain_update_first_comp {α : Type} (p : α → Bool) (f g : α → α)
    (hf : ∀ a, p (f a) = p a) (l : List α) :
    chain_update_first p g (chain_update_first p f l) = chain_update_first p (g ∘ f) l := by
  induction l with
  | nil => rfl
  | cons a l ih =>
    simp only [chain_update_first]
    by_cases hp : p a = true
    · simp [hp, chain_update_first, hf]
    · simp only [Bool.not_eq_true] at hp
      simp [hp, chain_update_first, ih]

theorem chain_update_first_id {α : Type} (p : α → Bool) (f : α → α)
    (l : List α) (hf : ∀ a ∈ l, p a = true → f a = a) :
    chain_update_first p f l = l := by
  induction l with
  | nil => rfl
  | cons a l ih =>
    simp only [chain_update_first]
    by_cases hp : p a = true
    · simp [hp, hf a (by simp) hp]
    · simp only [Bool.not_eq_true] at hp
      simp only [hp, Bool.false_eq_true, if_false]
      rw [ih (fun b hb => hf b (List.mem_cons_of_mem _ hb))]

/-! ## Lemmas: the table steps -/

/-! ### The steps in closed form -/

theorem tex_scope_close_touch_eq (s : TEX_Shared) (touch : TEX_Touch) :
    tex_scope_close_touch s touch =
      tex_update_node s touch.hash touch.topology tex_unpin_node := rfl

theorem tex_xfer_commit_eq (s : TEX_Shared) (hash : U128) (top : TEX_Topology)
    (texture : R_Handle) :
    tex_xfer_commit s hash top texture = tex_update_node s hash top (tex_node_commit texture) := by
  unfold tex_xfer_commit tex_update_node
  rw [tex_xfer_node_match_eq]
  rfl

theorem tex_xfer_take_task_eq (s : TEX_Shared) (hash : U128) (top : TEX_Topology) :
    tex_xfer_take_task s hash top =
      match tex_node_of s hash top with
      | none => (false, s)
      | some n => (decide (n.is_working = 0), tex_update_node s hash top tex_node_claim) := by
  unfold tex_xfer_take_task tex_node_of tex_update_node
  rw [tex_xfer_node_match_eq]
  rfl

theorem tex_lookup_touch_eq (s : TEX_Shared) (scope : TEX_Scope) (hash : U128)
    (topology : TEX_Topology) (now_us : Nat) :
    tex_lookup_touch s scope hash topology now_us =
      match tex_node_of s hash topology with
      | none => (none, scope, s)
      | some n =>
        (some n.texture,
          { top_touch := { hash := n.hash, topology := n.topology } :: scope.top_touch },
          tex_update_node s hash topology (tex_touch_node now_us s.user_clock_idx)) := rfl

theorem tex_insert_if_absent_eq (s : TEX_Shared) (hash : U128) (topology : TEX_Topology) :
    tex_insert_if_absent s hash topology =
      match tex_node_of s hash topology with
      | some _ => (false, s)
      | none =>
        (true, { s with
          stripes_free_nodes :=
            Function.update s.stripes_free_nodes (tex_slot_idx s hash % s.stripes_count)
              (s.stripes_free_nodes (tex_slot_idx s hash % s.stripes_count)).tail
          slots := Function.update s.slots (tex_slot_idx s hash)
            (s.slots (tex_slot_idx s hash) ++
              [tex_node_fresh hash topology]) }) := rfl

/-! ### Reading the node of an identity after an update -/

theorem tex_node_id_touch (now_us clock : Nat) (n : TEX_Node) :
    tex_node_id (tex_touch_node now_us clock n) = tex_node_id n := by
  simp only [tex_node_id, tex_touch_node]

theorem tex_node_id_unpin (n : TEX_Node) : tex_node_id (tex_unpin_node n) = tex_node_id n := by
  simp only [tex_node_id, tex_unpin_node]

theorem tex_node_id_claim (n : TEX_Node) : tex_node_id (tex_node_claim n) = tex_node_id n := by
  unfold tex_node_claim; split <;> rfl

theorem tex_node_id_commit (texture : R_Handle) (n : TEX_Node) :
    tex_node_id (tex_node_commit texture n) = tex_node_id n := by
  simp only [tex_node_id, tex_node_commit]

theorem tex_update_node_slots_count (s : TEX_Shared) (hash : U128) (top : TEX_Topology)
    (f : TEX_Node → TEX_Node) : (tex_update_node s hash top f).slots_count = s.slots_count := rfl

theorem tex_update_node_slot_idx (s : TEX_Shared) (hash h1 : U128) (top : TEX_Topology)
    (f : TEX_Node → TEX_Node) : tex_slot_idx (tex_update_node s hash top f) h1 = tex_slot_idx s h1 :=
  rfl

theorem tex_update_node_slots (s : TEX_Shared) (hash : U128) (top : TEX_Topology)
    (f : TEX_Node → TEX_Node) (i : Nat) :
    (tex_update_node s hash top f).slots i =
      if i = tex_slot_idx s hash then
        chain_update_first (tex_node_match hash top) f (s.slots (tex_slot_idx s hash))
      else s.slots i := by
  unfold tex_update_node
  simp only [Function.update_apply]

theorem tex_node_of_update_same (s : TEX_Shared) (hash : U128) (top : TEX_Topology)
    (f : TEX_Node → TEX_Node) (hf : ∀ n, tex_node_id (f n) = tex_node_id n) :
    tex_node_of (tex_update_node s hash top f) hash top = (tex_node_of s hash top).map f := by
  unfold tex_node_of
  rw [tex_update_node_slot_idx, tex_update_node_slots, if_pos rfl]
  exact chain_update_first_find_same _ _ (fun a => tex_node_match_congr _ _ _ _ (hf a)) _

theorem tex_node_of_update_other (s : TEX_Shared) (hash h1 : U128) (top t1 : TEX_Topology)
    (f : TEX_Node → TEX_Node) (hf : ∀ n, tex_node_id (f n) = tex_node_id n)
    (hne : (h1, t1) ≠ (hash, top)) :
    tex_node_of (tex_update_node s hash top f) h1 t1 = tex_node_of s h1 t1 := by
  unfold tex_node_of
  rw [tex_update_node_slot_idx, tex_update_node_slots]
  split
  · rename_i heq
    rw [heq]
    apply chain_update_first_find_other _ _ _ (fun a => tex_node_match_congr _ _ _ _ (hf a))
    intro a ha
    rw [tex_node_match_iff] at ha
    rw [← Bool.not_eq_true, tex_node_match_iff, ha]
    exact fun h => hne h.symm
  · rfl

theorem tex_update_node_of_none (s : TEX_Shared) (hash : U128) (top : TEX_Topology)
    (f : TEX_Node → TEX_Node) (h : tex_node_of s hash top = none) :
    tex_update_node s hash top f = s := by
  unfold tex_update_node
  unfold tex_node_of at h
  simp only [chain_update_first_of_none _ _ _ h, Function.update_eq_self]

theorem tex_update_node_comp (s : TEX_Shared) (hash : U128) (top : TEX_Topology)
    (f g : TEX_Node → TEX_Node) (hf : ∀ n, tex_node_id (f n) = tex_node_id n) :
    tex_update_node (tex_update_node s hash top f) hash top g =
      tex_update_node s hash top (g ∘ f) := by
  unfold tex_update_node
  simp only [tex_slot_idx, Function.update_same, Function.update_idem]
  rw [chain_update_first_comp _ _ _ (fun a => tex_node_match_congr _ _ _ _ (hf a))]

theorem tex_node_of_id (s : TEX_Shared) (hash : U128) (top : TEX_Topology) (n : TEX_Node)
    (h : tex_node_of s hash top = some n) : n.hash = hash ∧ n.topology = top := by
  unfold tex_node_of at h
  have := List.find?_some h
  rw [tex_node_match_iff] at this
  simpa [tex_node_id] using this

theorem tex_node_of_mem (s : TEX_Shared) (hash : U128) (top : TEX_Topology) (n : TEX_Node)
    (h : tex_node_of s hash top = some n) : n ∈ s.slots (tex_slot_idx s hash) := by
  unfold tex_node_of at h
  exact List.mem_of_find?_eq_some h

/-! ## Lemmas: the lookup by cases -/

theorem r_handle_match_iff (a b : R_Handle) : r_handle_match a b = true ↔ a = b := by
  simp [r_handle_match]

/-- The fallback part when the handle found so far is not null. -/
theorem tex_lookup_fallback_nonnull (s : TEX_Shared) (scope : TEX_Scope) (key : U128)
    (topology : TEX_Topology) (handle : R_Handle) (now_us : Nat) (h : handle ≠ r_handle_zero) :
    tex_lookup_fallback s scope key topology handle now_us = (handle, scope, s) := by
  have : r_handle_match handle r_handle_zero = false := by
    rw [← Bool.not_eq_true, r_handle_match_iff]; exact h
  simp only [tex_lookup_fallback, this, Bool.false_eq_true, if_false]

/-- The fallback part for a null handle, by the key's fallback hash. -/
theorem tex_lookup_fallback_null (s : TEX_Shared) (scope : TEX_Scope) (key : U128)
    (topology : TEX_Topology) (now_us : Nat) :
    tex_lookup_fallback s scope key topology r_handle_zero now_us =
      if tex_fallback_hash s key = u128_zero then (r_handle_zero, scope, s)
      else
        match tex_node_of s (tex_fallback_hash s key) topology with
        | none => (r_handle_zero, scope, s)
        | some n =>
          (n.texture,
            { top_touch := { hash := n.hash, topology := n.topology } :: scope.top_touch },
            tex_update_node s (tex_fallback_hash s key) topology
              (tex_touch_node now_us s.user_clock_idx)) := by
  have h0 : r_handle_match r_handle_zero r_handle_zero = true := by
    rw [r_handle_match_iff]
  simp only [tex_lookup_fallback, h0, if_true]
  by_cases hz : tex_fallback_hash s key = u128_zero
  · have : u128_match (tex_fallback_hash s key) u128_zero = true := by
      rw [u128_match_iff]; exact hz
    rw [if_pos hz]
    simp only [this, Bool.not_true, Bool.false_eq_true, if_false]
  · have : u128_match (tex_fallback_hash s key) u128_zero = false := by
      rw [← Bool.not_eq_true, u128_match_iff]; exact hz
    rw [if_neg hz]
    simp only [this, Bool.not_false, if_true]
    rw [tex_lookup_touch_eq]
    cases tex_node_of s (tex_fallback_hash s key) topology with
    | none => rfl
    | some n => rfl

/-- A lookup that finds its node with a texture: the handle is returned and the
node is touched; nothing else happens. -/
theorem tex_texture_hit (s : TEX_Shared) (scope : TEX_Scope) (key hash : U128)
    (topology : TEX_Topology) (now_us : Nat) (n : TEX_Node) (hh : hash ≠ u128_zero)
    (hn : tex_node_of s hash topology = some n) (ht : n.texture ≠ r_handle_zero) :
    tex_texture_from_key_hash_topology s scope key hash topology now_us =
      some (n.texture,
        { top_touch := { hash := n.hash, topology := n.topology } :: scope.top_touch },
        tex_update_node s hash topology (tex_touch_node now_us s.user_clock_idx)) := by
  have h0 : u128_match u128_zero hash = false := by
    rw [← Bool.not_eq_true, u128_match_zero_iff]; exact hh
  have h1 : r_handle_match r_handle_zero n.texture = false := by
    rw [← Bool.not_eq_true, r_handle_match_iff]; exact fun h => ht h.symm
  simp only [tex_texture_from_key_hash_topology, h0, Bool.false_eq_true, if_false,
    tex_lookup_touch_eq, hn, Option.getD_some, h1, Bool.not_false, Bool.not_true]
  rw [tex_lookup_fallback_nonnull _ _ _ _ _ _ ht]

/-- A lookup that finds its node without a texture: the node is touched, no
node is created, nothing is enqueued, and the fallback part runs. -/
theorem tex_texture_pending (s : TEX_Shared) (scope : TEX_Scope) (key hash : U128)
    (topology : TEX_Topology) (now_us : Nat) (n : TEX_Node) (hh : hash ≠ u128_zero)
    (hn : tex_node_of s hash topology = some n) (ht : n.texture = r_handle_zero) :
    tex_texture_from_key_hash_topology s scope key hash topology now_us =
      some (tex_lookup_fallback
        (tex_update_node s hash topology (tex_touch_node now_us s.user_clock_idx))
        { top_touch := { hash := n.hash, topology := n.topology } :: scope.top_touch }
        key topology r_handle_zero now_us) := by
  have h0 : u128_match u128_zero hash = false := by
    rw [← Bool.not_eq_true, u128_match_zero_iff]; exact hh
  have h1 : r_handle_match r_handle_zero r_handle_zero = true := by
    rw [r_handle_match_iff]
  have h2 := tex_node_of_update_same s hash topology (tex_touch_node now_us s.user_clock_idx)
    (tex_node_id_touch _ _)
  rw [hn] at h2
  simp only [tex_texture_from_key_hash_topology, h0, Bool.false_eq_true, if_false,
    tex_lookup_touch_eq, hn, Option.getD_some, ht, h1, Bool.not_true, Bool.not_false, if_true,
    tex_insert_if_absent_eq, h2, Option.map_some']

/-- A lookup that finds no node, with room in the ring: the node is created at
the tail of its slot, its request is enqueued, and the fallback part runs. -/
theorem tex_texture_miss (s : TEX_Shared) (scope : TEX_Scope) (key hash : U128)
    (topology : TEX_Topology) (now_us : Nat) (hh : hash ≠ u128_zero)
    (hn : tex_node_of s hash topology = none) (hwf : u2x_ring_wf s)
    (hroom : u2x_unconsumed_size s + 40 ≤ s.u2x_ring_size) :
    tex_texture_from_key_hash_topology s scope key hash topology now_us =
      some (tex_lookup_fallback (tex_after_miss s key hash topology) scope key topology
        r_handle_zero now_us) := by
  have h0 : u128_match u128_zero hash = false := by
    rw [← Bool.not_eq_true, u128_match_zero_iff]; exact hh
  have h1 : r_handle_match r_handle_zero r_handle_zero = true := by
    rw [r_handle_match_iff]
  have henq := tex_u2x_enqueue_req_room
    { s with
      stripes_free_nodes :=
        Function.update s.stripes_free_nodes (tex_slot_idx s hash % s.stripes_count)
          (s.stripes_free_nodes (tex_slot_idx s hash % s.stripes_count)).tail
      slots := Function.update s.slots (tex_slot_idx s hash)
        (s.slots (tex_slot_idx s hash) ++
          [tex_node_fresh hash topology]) }
    ⟨key, hash, topology⟩ max_U64 now_us hwf hroom
  simp only at henq
  simp only [tex_texture_from_key_hash_topology, h0, Bool.false_eq_true, if_false,
    tex_lookup_touch_eq, hn, Option.getD_none, h1, Bool.not_true, Bool.not_false, if_true,
    tex_insert_if_absent_eq, henq, Option.map_some']
  rfl

/-! ## Lemmas: the worker by cases -/

theorem chain_update_first_fix {α : Type} (p : α → Bool) (f : α → α) (l : List α)
    (h : ∀ n, l.find? p = some n → f n = n) : chain_update_first p f l = l := by
  induction l with
  | nil => rfl
  | cons a l ih =>
    simp only [chain_update_first]
    by_cases hp : p a = true
    · simp only [hp, if_true]
      rw [h a (by simp [List.find?_cons, hp])]
    · simp only [Bool.not_eq_true] at hp
      simp only [hp, Bool.false_eq_true, if_false]
      rw [ih (fun n hn => h n (by simp [List.find?_cons, hp, hn]))]

theorem tex_update_node_fix (s : TEX_Shared) (hash : U128) (top : TEX_Topology)
    (f : TEX_Node → TEX_Node) (h : ∀ n, tex_node_of s hash top = some n → f n = n) :
    tex_update_node s hash top f = s := by
  unfold tex_update_node
  simp only [chain_update_first_fix _ _ _ h, Function.update_eq_self]

theorem tex_node_claim_of_working (n : TEX_Node) (h : n.is_working ≠ 0) :
    tex_node_claim n = n := by
  simp only [tex_node_claim, h, if_false]

theorem tex_xfer_alloc_guard_no_task (bpp : Nat → Nat) (top : TEX_Topology) (data_size : Nat) :
    tex_xfer_alloc_guard bpp false top data_size = false := by
  simp [tex_xfer_alloc_guard]

/-- A request whose node is absent or already claimed is dropped by the worker:
the state does not change. -/
theorem tex_xfer_process_no_task (s : TEX_Shared) (bpp : Nat → Nat) (key hash : U128)
    (top : TEX_Topology) (data_size : Nat) (alloc_result : R_Handle)
    (h : ∀ n, tex_node_of s hash top = some n → n.is_working ≠ 0) :
    tex_xfer_process s bpp key hash top data_size alloc_result = s := by
  have hs : tex_update_node s hash top tex_node_claim = s :=
    tex_update_node_fix s hash top _ (fun n hn => tex_node_claim_of_working n (h n hn))
  have ht : tex_xfer_take_task s hash top = (false, s) := by
    rw [tex_xfer_take_task_eq]
    cases hn : tex_node_of s hash top with
    | none => rfl
    | some n =>
      simp only [hs, h n hn, decide_False]
  simp only [tex_xfer_process, ht, tex_xfer_alloc, tex_xfer_alloc_guard_no_task,
    Bool.false_eq_true, if_false, Bool.false_and]

/-- The node after a build: claimed, then committed with the texture. -/
theorem tex_node_commit_claim (texture : R_Handle) (n : TEX_Node) :
    tex_node_commit texture (tex_node_claim n) =
      { n with
        texture := texture, is_working := 0,
        load_count := ins_atomic_u64_inc_eval n.load_count } := by
  unfold tex_node_claim tex_node_commit
  split <;> rfl

/-- A request whose node is present and not claimed is built by the worker. -/
theorem tex_xfer_process_task (s : TEX_Shared) (bpp : Nat → Nat) (key hash : U128)
    (top : TEX_Topology) (data_size : Nat) (alloc_result : R_Handle) (n : TEX_Node)
    (hn : tex_node_of s hash top = some n) (hw : n.is_working = 0) :
    tex_xfer_process s bpp key hash top data_size alloc_result =
      tex_xfer_fallback_part
        (tex_update_node (tex_xfer_alloc s bpp true top data_size alloc_result).2 hash top
          (tex_node_commit (tex_xfer_alloc s bpp true top data_size alloc_result).1 ∘
            tex_node_claim)) key hash := by
  have ht : tex_xfer_take_task s hash top =
      (true, tex_update_node s hash top tex_node_claim) := by
    rw [tex_xfer_take_task_eq, hn]
    simp only [hw, decide_True]
  have ha : ∀ st : TEX_Shared, ∀ f,
      (tex_xfer_alloc (tex_update_node st hash top f) bpp true top data_size alloc_result) =
      ((tex_xfer_alloc st bpp true top data_size alloc_result).1,
        tex_update_node (tex_xfer_alloc st bpp true top data_size alloc_result).2 hash top f) := by
    intro st f
    unfold tex_xfer_alloc
    split <;> rfl
  simp only [tex_xfer_process, ht, if_true, ha, tex_xfer_commit_eq]
  rw [tex_update_node_comp _ _ _ _ _ tex_node_id_claim]
  have hc : (true && !u128_match key u128_zero && !u128_match hash u128_zero) = true ↔
      key ≠ u128_zero ∧ hash ≠ u128_zero := by
    simp only [Bool.true_and, Bool.and_eq_true, Bool.not_eq_true', ← Bool.not_eq_true,
      u128_match_iff, ne_eq]
  unfold tex_xfer_fallback_part
  by_cases hkh : key ≠ u128_zero ∧ hash ≠ u128_zero
  · rw [if_pos (hc.mpr hkh), if_pos hkh]
  · rw [if_neg (fun h => hkh (hc.mp h)), if_neg hkh]

/-! ## Lemmas: counters and the allocation guard -/

theorem ins_atomic_u64_inc_eval_eq (x : Nat) (h : x + 1 < 2 ^ 64) :
    ins_atomic_u64_inc_eval x = x + 1 := by
  unfold ins_atomic_u64_inc_eval
  exact Nat.mod_eq_of_lt h

theorem ins_atomic_u64_dec_inc (x : Nat) (h : x < 2 ^ 64) :
    ins_atomic_u64_dec_eval (ins_atomic_u64_inc_eval x) = x := by
  unfold ins_atomic_u64_dec_eval ins_atomic_u64_inc_eval
  split <;> omega

theorem ins_atomic_u64_inc_lt (x : Nat) : ins_atomic_u64_inc_eval x < 2 ^ 64 := by
  unfold ins_atomic_u64_inc_eval
  exact Nat.mod_lt _ (by norm_num)

theorem ins_atomic_u64_dec_succ (x : Nat) : ins_atomic_u64_dec_eval (x + 1) = x := by
  unfold ins_atomic_u64_dec_eval
  simp

/-- The allocation guard holds for a topology with positive dimensions and a
payload of at least `width * height * bytes_per_pixel` bytes. -/
theorem tex_xfer_alloc_guard_of_payload (bpp : Nat → Nat) (top : TEX_Topology) (data_size : Nat)
    (hx : 0 < top.dim_x) (hy : 0 < top.dim_y)
    (hdata : top.dim_x.toNat * top.dim_y.toNat * bpp top.fmt ≤ data_size) :
    tex_xfer_alloc_guard bpp true top data_size = true := by
  have hx1 : u64_cast top.dim_x ≤ top.dim_x.toNat := by
    unfold u64_cast; omega
  have hy1 : u64_cast top.dim_y ≤ top.dim_y.toNat := by
    unfold u64_cast; omega
  have hx0 : (top.dim_x != 0) = true := by
    rw [bne_iff_ne]; omega
  have hy0 : (top.dim_y != 0) = true := by
    rw [bne_iff_ne]; omega
  have hle : (u64_cast top.dim_x * u64_cast top.dim_y % 2 ^ 64 * bpp top.fmt) % 2 ^ 64 ≤
      data_size := by
    calc (u64_cast top.dim_x * u64_cast top.dim_y % 2 ^ 64 * bpp top.fmt) % 2 ^ 64
        ≤ u64_cast top.dim_x * u64_cast top.dim_y % 2 ^ 64 * bpp top.fmt := Nat.mod_le _ _
      _ ≤ u64_cast top.dim_x * u64_cast top.dim_y * bpp top.fmt :=
          Nat.mul_le_mul_right _ (Nat.mod_le _ _)
      _ ≤ top.dim_x.toNat * top.dim_y.toNat * bpp top.fmt :=
          Nat.mul_le_mul_right _ (Nat.mul_le_mul hx1 hy1)
      _ ≤ data_size := hdata
  simp only [tex_xfer_alloc_guard, hx0, hy0, Bool.and_self, Bool.true_and, ge_iff_le,
    decide_eq_true_eq]
  exact hle

/-! ## Lemmas: the state after a miss -/

theorem tex_after_miss_ring (s : TEX_Shared) (key hash : U128) (top : TEX_Topology)
    (rs : List TEX_Request) (hwf : u2x_ring_wf s) (hh : u2x_ring_holds s rs)
    (hroom : 40 * rs.length + 40 ≤ s.u2x_ring_size) :
    u2x_ring_wf (tex_after_miss s key hash top) ∧
      u2x_ring_holds (tex_after_miss s key hash top) (rs ++ [⟨key, hash, top⟩]) := by
  have hsz := u2x_ring_holds_size s rs hh
  have hroom1 : u2x_unconsumed_size s + 40 ≤ s.u2x_ring_size := by omega
  have h := u2x_enqueue_effect
    { s with
      stripes_free_nodes :=
        Function.update s.stripes_free_nodes (tex_slot_idx s hash % s.stripes_count)
          (s.stripes_free_nodes (tex_slot_idx s hash % s.stripes_count)).tail
      slots := Function.update s.slots (tex_slot_idx s hash)
        (s.slots (tex_slot_idx s hash) ++
          [tex_node_fresh hash top]) }
    ⟨key, hash, top⟩ hwf hroom1 (tex_after_miss s key hash top) rfl
  refine ⟨h.2.1, ?_⟩
  unfold u2x_ring_holds
  rw [h.2.2]
  have : u2x_unconsumed_bytes s = (rs.map u2x_request_bytes).flatten := hh
  simp only [List.map_append, List.flatten_append, List.map_cons, List.map_nil,
    List.flatten_cons, List.flatten_nil, List.append_nil]
  rw [← this]
  rfl

theorem tex_after_miss_node (s : TEX_Shared) (key hash : U128) (top : TEX_Topology)
    (hn : tex_node_of s hash top = none) :
    tex_node_of (tex_after_miss s key hash top) hash top =
      some (tex_node_fresh hash top) := by
  unfold tex_node_of at hn ⊢
  have hm : tex_node_match hash top (tex_node_fresh hash top) = true := by
    rw [tex_node_match_iff]; rfl
  simp only [tex_slot_idx] at hn
  simp only [tex_after_miss, tex_slot_idx, Function.update_same, List.find?_append, hn,
    List.find?_cons, hm, Option.none_or]

theorem tex_fallback_hash_nil (s : TEX_Shared) (key : U128)
    (h : s.fallback_slots (key.u64_1 % s.fallback_slots_count) = []) :
    tex_fallback_hash s key = u128_zero := by
  simp only [tex_fallback_hash, h, List.find?_nil]

theorem tex_node_of_nil (s : TEX_Shared) (hash : U128) (top : TEX_Topology)
    (h : s.slots (tex_slot_idx s hash) = []) : tex_node_of s hash top = none := by
  simp only [tex_node_of, h, List.find?_nil]

/-! ## Lemmas: what the steps leave unchanged -/

theorem tex_xfer_fallback_part_slots (s : TEX_Shared) (key hash : U128) :
    (tex_xfer_fallback_part s key hash).slots = s.slots := by
  unfold tex_xfer_fallback_part tex_xfer_fallback_commit
  split <;> rfl

theorem tex_xfer_fallback_part_slots_count (s : TEX_Shared) (key hash : U128) :
    (tex_xfer_fallback_part s key hash).slots_count = s.slots_count := by
  unfold tex_xfer_fallback_part tex_xfer_fallback_commit
  split <;> rfl

theorem tex_xfer_fallback_part_node_of (s : TEX_Shared) (key hash h1 : U128)
    (t1 : TEX_Topology) :
    tex_node_of (tex_xfer_fallback_part s key hash) h1 t1 = tex_node_of s h1 t1 := by
  unfold tex_node_of tex_slot_idx
  rw [tex_xfer_fallback_part_slots, tex_xfer_fallback_part_slots_count]

theorem tex_xfer_fallback_part_alloc_log (s : TEX_Shared) (key hash : U128) :
    (tex_xfer_fallback_part s key hash).r_tex2d_alloc_log = s.r_tex2d_alloc_log := by
  unfold tex_xfer_fallback_part tex_xfer_fallback_commit
  split <;> rfl

theorem tex_xfer_fallback_part_release_log (s : TEX_Shared) (key hash : U128) :
    (tex_xfer_fallback_part s key hash).r_tex2d_release_log = s.r_tex2d_release_log := by
  unfold tex_xfer_fallback_part tex_xfer_fallback_commit
  split <;> rfl

theorem tex_xfer_fallback_part_user_clock (s : TEX_Shared) (key hash : U128) :
    (tex_xfer_fallback_part s key hash).user_clock_idx = s.user_clock_idx := by
  unfold tex_xfer_fallback_part tex_xfer_fallback_commit
  split <;> rfl

theorem tex_xfer_fallback_part_free (s : TEX_Shared) (key hash : U128) :
    (tex_xfer_fallback_part s key hash).stripes_free_nodes = s.stripes_free_nodes := by
  unfold tex_xfer_fallback_part tex_xfer_fallback_commit
  split <;> rfl

theorem tex_xfer_fallback_part_ring (s : TEX_Shared) (key hash : U128) :
    (tex_xfer_fallback_part s key hash).u2x_ring_size = s.u2x_ring_size ∧
    (tex_xfer_fallback_part s key hash).u2x_ring_base = s.u2x_ring_base ∧
    (tex_xfer_fallback_part s key hash).u2x_ring_write_pos = s.u2x_ring_write_pos ∧
    (tex_xfer_fallback_part s key hash).u2x_ring_read_pos = s.u2x_ring_read_pos := by
  unfold tex_xfer_fallback_part tex_xfer_fallback_commit
  split <;> exact ⟨rfl, rfl, rfl, rfl⟩

/-- Statements about the ring read only its four fields. -/
theorem u2x_ring_congr (s s1 : TEX_Shared)
    (h : s1.u2x_ring_size = s.u2x_ring_size ∧ s1.u2x_ring_base = s.u2x_ring_base ∧
      s1.u2x_ring_write_pos = s.u2x_ring_write_pos ∧
      s1.u2x_ring_read_pos = s.u2x_ring_read_pos) (rs : List TEX_Request) :
    (u2x_ring_wf s1 ↔ u2x_ring_wf s) ∧ (u2x_ring_holds s1 rs ↔ u2x_ring_holds s rs) ∧
      u2x_unconsumed_size s1 = u2x_unconsumed_size s := by
  obtain ⟨h1, h2, h3, h4⟩ := h
  unfold u2x_ring_wf u2x_ring_holds u2x_unconsumed_bytes u2x_unconsumed_size
  rw [h1, h2, h3, h4]
  exact ⟨Iff.rfl, Iff.rfl, rfl⟩

theorem tex_update_node_ring (s : TEX_Shared) (hash : U128) (top : TEX_Topology)
    (f : TEX_Node → TEX_Node) :
    (tex_update_node s hash top f).u2x_ring_size = s.u2x_ring_size ∧
    (tex_update_node s hash top f).u2x_ring_base = s.u2x_ring_base ∧
    (tex_update_node s hash top f).u2x_ring_write_pos = s.u2x_ring_write_pos ∧
    (tex_update_node s hash top f).u2x_ring_read_pos = s.u2x_ring_read_pos :=
  ⟨rfl, rfl, rfl, rfl⟩

theorem tex_node_of_congr (s s1 : TEX_Shared) (h1 : s1.slots = s.slots)
    (h2 : s1.slots_count = s.slots_count) (hash : U128) (top : TEX_Topology) :
    tex_node_of s1 hash top = tex_node_of s hash top := by
  unfold tex_node_of tex_slot_idx
  rw [h1, h2]

theorem tex_xfer_alloc_fst (s : TEX_Shared) (bpp : Nat → Nat) (got_task : Bool)
    (top : TEX_Topology) (data_size : Nat) (alloc_result : R_Handle) :
    (tex_xfer_alloc s bpp got_task top data_size alloc_result).1 =
      if tex_xfer_alloc_guard bpp got_task top data_size then alloc_result
      else r_handle_zero := by
  unfold tex_xfer_alloc
  split <;> rfl

theorem tex_xfer_alloc_log (s : TEX_Shared) (bpp : Nat → Nat) (got_task : Bool)
    (top : TEX_Topology) (data_size : Nat) (alloc_result : R_Handle) :
    (tex_xfer_alloc s bpp got_task top data_size alloc_result).2.r_tex2d_alloc_log =
      if tex_xfer_alloc_guard bpp got_task top data_size then
        s.r_tex2d_alloc_log ++ [⟨top.dim_x, top.dim_y, top.fmt, alloc_result⟩]
      else s.r_tex2d_alloc_log := by
  unfold tex_xfer_alloc
  split <;> rfl

theorem tex_xfer_alloc_table (s : TEX_Shared) (bpp : Nat → Nat) (got_task : Bool)
    (top : TEX_Topology) (data_size : Nat) (alloc_result : R_Handle) :
    (tex_xfer_alloc s bpp got_task top data_size alloc_result).2.slots = s.slots ∧
    (tex_xfer_alloc s bpp got_task top data_size alloc_result).2.slots_count = s.slots_count ∧
    (tex_xfer_alloc s bpp got_task top data_size alloc_result).2.stripes_count =
      s.stripes_count ∧
    (tex_xfer_alloc s bpp got_task top data_size alloc_result).2.stripes_free_nodes =
      s.stripes_free_nodes ∧
    (tex_xfer_alloc s bpp got_task top data_size alloc_result).2.fallback_slots =
      s.fallback_slots ∧
    (tex_xfer_alloc s bpp got_task top data_size alloc_result).2.fallback_slots_count =
      s.fallback_slots_count ∧
    (tex_xfer_alloc s bpp got_task top data_size alloc_result).2.user_clock_idx =
      s.user_clock_idx ∧
    (tex_xfer_alloc s bpp got_task top data_size alloc_result).2.r_tex2d_release_log =
      s.r_tex2d_release_log := by
  unfold tex_xfer_alloc
  split <;> exact ⟨rfl, rfl, rfl, rfl, rfl, rfl, rfl, rfl⟩

theorem tex_xfer_alloc_ring (s : TEX_Shared) (bpp : Nat → Nat) (got_task : Bool)
    (top : TEX_Topology) (data_size : Nat) (alloc_result : R_Handle) :
    (tex_xfer_alloc s bpp got_task top data_size alloc_result).2.u2x_ring_size =
      s.u2x_ring_size ∧
    (tex_xfer_alloc s bpp got_task top data_size alloc_result).2.u2x_ring_base =
      s.u2x_ring_base ∧
    (tex_xfer_alloc s bpp got_task top data_size alloc_result).2.u2x_ring_write_pos =
      s.u2x_ring_write_pos ∧
    (tex_xfer_alloc s bpp got_task top data_size alloc_result).2.u2x_ring_read_pos =
      s.u2x_ring_read_pos := by
  unfold tex_xfer_alloc
  split <;> exact ⟨rfl, rfl, rfl, rfl⟩

theorem tex_xfer_alloc_node_of (s : TEX_Shared) (bpp : Nat → Nat) (got_task : Bool)
    (top : TEX_Topology) (data_size : Nat) (alloc_result : R_Handle) (h1 : U128)
    (t1 : TEX_Topology) :
    tex_node_of (tex_xfer_alloc s bpp got_task top data_size alloc_result).2 h1 t1 =
      tex_node_of s h1 t1 :=
  tex_node_of_congr _ _ (tex_xfer_alloc_table ..).1 (tex_xfer_alloc_table ..).2.1 _ _

/-- The state left by a dequeue: only the read position moves. -/
theorem tex_u2x_dequeue_req_frame (s s1 : TEX_Shared) (key hash : U128) (top : TEX_Topology)
    (h : tex_u2x_dequeue_req s = some (key, hash, top, s1)) :
    s1 = { s with u2x_ring_read_pos := s1.u2x_ring_read_pos } := by
  unfold tex_u2x_dequeue_req at h
  simp only at h
  split at h
  · simp only [Option.some.injEq, Prod.mk.injEq] at h
    rw [← h.2.2.2]
  · simp at h

/-- The state left by an enqueue: only the buffer and the write position
change. -/
theorem tex_u2x_enqueue_req_frame (s s1 : TEX_Shared) (key hash : U128) (top : TEX_Topology)
    (endt_us now_us : Nat) (good : Bool)
    (h : tex_u2x_enqueue_req s key hash top endt_us now_us = some (good, s1)) :
    s1 = { s with u2x_ring_base := s1.u2x_ring_base,
                  u2x_ring_write_pos := s1.u2x_ring_write_pos } := by
  unfold tex_u2x_enqueue_req at h
  simp only at h
  split at h
  · simp only [Option.some.injEq, Prod.mk.injEq] at h
    rw [← h.2]
  · split at h
    · simp only [Option.some.injEq, Prod.mk.injEq] at h
      rw [← h.2]
    · simp at h

/-- A dequeue leaves every field but the read position as it was. -/
theorem tex_u2x_dequeue_req_fields (s s1 : TEX_Shared) (key hash : U128) (top : TEX_Topology)
    (h : tex_u2x_dequeue_req s = some (key, hash, top, s1)) :
    s1.slots = s.slots ∧ s1.slots_count = s.slots_count ∧
    s1.stripes_count = s.stripes_count ∧ s1.stripes_free_nodes = s.stripes_free_nodes ∧
    s1.fallback_slots = s.fallback_slots ∧ s1.fallback_slots_count = s.fallback_slots_count ∧
    s1.user_clock_idx = s.user_clock_idx ∧ s1.r_tex2d_release_log = s.r_tex2d_release_log ∧
    s1.r_tex2d_alloc_log = s.r_tex2d_alloc_log := by
  unfold tex_u2x_dequeue_req at h
  simp only at h
  split at h
  · simp only [Option.some.injEq, Prod.mk.injEq] at h
    rw [← h.2.2.2]
    exact ⟨rfl, rfl, rfl, rfl, rfl, rfl, rfl, rfl, rfl⟩
  · simp at h

/-- A dequeue leaves the buffer, its size and the write position as they were. -/
theorem tex_u2x_dequeue_req_ring (s s1 : TEX_Shared) (key hash : U128) (top : TEX_Topology)
    (h : tex_u2x_dequeue_req s = some (key, hash, top, s1)) :
    s1.u2x_ring_size = s.u2x_ring_size ∧ s1.u2x_ring_base = s.u2x_ring_base ∧
    s1.u2x_ring_write_pos = s.u2x_ring_write_pos := by
  unfold tex_u2x_dequeue_req at h
  simp only at h
  split at h
  · simp only [Option.some.injEq, Prod.mk.injEq] at h
    rw [← h.2.2.2]
    exact ⟨rfl, rfl, rfl⟩
  · simp at h

/-- An enqueue leaves every field but the buffer and the write position as it
was. -/
theorem tex_u2x_enqueue_req_fields (s s1 : TEX_Shared) (key hash : U128) (top : TEX_Topology)
    (endt_us now_us : Nat) (good : Bool)
    (h : tex_u2x_enqueue_req s key hash top endt_us now_us = some (good, s1)) :
    s1.slots = s.slots ∧ s1.slots_count = s.slots_count ∧
    s1.stripes_count = s.stripes_count ∧ s1.stripes_free_nodes = s.stripes_free_nodes ∧
    s1.fallback_slots = s.fallback_slots ∧ s1.fallback_slots_count = s.fallback_slots_count ∧
    s1.user_clock_idx = s.user_clock_idx ∧ s1.r_tex2d_release_log = s.r_tex2d_release_log ∧
    s1.r_tex2d_alloc_log = s.r_tex2d_alloc_log := by
  unfold tex_u2x_enqueue_req at h
  simp only at h
  split at h
  · simp only [Option.some.injEq, Prod.mk.injEq] at h
    rw [← h.2]
    exact ⟨rfl, rfl, rfl, rfl, rfl, rfl, rfl, rfl, rfl⟩
  · split at h
    · simp only [Option.some.injEq, Prod.mk.injEq] at h
      rw [← h.2]
      exact ⟨rfl, rfl, rfl, rfl, rfl, rfl, rfl, rfl, rfl⟩
    · simp at h

/-! ## Lemmas: the fallback table -/

theorem tex_after_miss_node_other (s : TEX_Shared) (key hash h1 : U128) (top t1 : TEX_Topology)
    (hne : (h1, t1) ≠ (hash, top)) :
    tex_node_of (tex_after_miss s key hash top) h1 t1 = tex_node_of s h1 t1 := by
  unfold tex_node_of
  have hidx : tex_slot_idx (tex_after_miss s key hash top) h1 = tex_slot_idx s h1 := rfl
  rw [hidx]
  by_cases hi : tex_slot_idx s h1 = tex_slot_idx s hash
  · have hm : tex_node_match h1 t1 (tex_node_fresh hash top) = false := by
      rw [← Bool.not_eq_true, tex_node_match_iff]
      exact fun h => hne h.symm
    simp only [tex_after_miss, hi, Function.update_same, List.find?_append, List.find?_cons, hm,
      List.find?_nil, Option.or_none]
  · simp only [tex_after_miss, Function.update_noteq hi]

theorem tex_after_miss_fallback (s : TEX_Shared) (key hash k1 : U128) (top : TEX_Topology) :
    tex_fallback_hash (tex_after_miss s key hash top) k1 = tex_fallback_hash s k1 := rfl

theorem tex_update_node_fallback (s : TEX_Shared) (hash k1 : U128) (top : TEX_Topology)
    (f : TEX_Node → TEX_Node) :
    tex_fallback_hash (tex_update_node s hash top f) k1 = tex_fallback_hash s k1 := rfl

theorem chain_update_first_find_hit {α : Type} (p : α → Bool) (f : α → α) (l : List α) (m : α)
    (h : l.find? p = some m) (hf : p (f m) = true) :
    (chain_update_first p f l).find? p = some (f m) := by
  induction l with
  | nil => simp at h
  | cons a l ih =>
    simp only [chain_update_first]
    by_cases hp : p a = true
    · simp only [List.find?_cons, hp, Option.some.injEq] at h
      subst h
      simp only [hp, if_true, List.find?_cons, hf]
    · simp only [Bool.not_eq_true] at hp
      simp only [List.find?_cons, hp] at h
      simp only [hp, Bool.false_eq_true, if_false, List.find?_cons, ih h]

/-- After the fallback update for `(key, hash)` the table maps `key` to `hash`. -/
theorem tex_xfer_fallback_commit_hash (s : TEX_Shared) (key hash : U128) :
    tex_fallback_hash (tex_xfer_fallback_commit s key hash) key = hash := by
  have hp : (fun n : TEX_KeyFallbackNode => u128_match key n.key) =
      fun n => u128_match n.key key := by
    funext n; exact u128_match_comm _ _
  have hkk : u128_match key key = true := (u128_match_iff _ _).mpr rfl
  unfold tex_fallback_hash tex_xfer_fallback_commit
  simp only [Function.update_same, hp]
  cases hf : (s.fallback_slots (key.u64_1 % s.fallback_slots_count)).find?
      (fun n => u128_match n.key key) with
  | none =>
    simp only [List.find?_append, hf, List.find?_cons, hkk, Option.none_or]
  | some m =>
    simp only
    rw [chain_update_first_find_hit _ _ _ m hf hkk]

theorem tex_xfer_fallback_part_hash (s : TEX_Shared) (key hash : U128)
    (hk : key ≠ u128_zero) (hh : hash ≠ u128_zero) :
    tex_fallback_hash (tex_xfer_fallback_part s key hash) key = hash := by
  unfold tex_xfer_fallback_part
  rw [if_pos ⟨hk, hh⟩]
  exact tex_xfer_fallback_commit_hash s key hash

theorem tex_after_miss_fields (s : TEX_Shared) (key hash : U128) (top : TEX_Topology) :
    (tex_after_miss s key hash top).slots_count = s.slots_count ∧
    (tex_after_miss s key hash top).user_clock_idx = s.user_clock_idx ∧
    (tex_after_miss s key hash top).fallback_slots = s.fallback_slots ∧
    (tex_after_miss s key hash top).r_tex2d_release_log = s.r_tex2d_release_log ∧
    (tex_after_miss s key hash top).r_tex2d_alloc_log = s.r_tex2d_alloc_log :=
  ⟨rfl, rfl, rfl, rfl, rfl⟩

/-! ## Lemmas: one worker iteration -/

/-- One worker iteration on a ring whose oldest request names a present, idle
node: the request is consumed and the node is built. -/
theorem tex_xfer_iteration_build (s : TEX_Shared) (bpp : Nat → Nat) (data_size : Nat)
    (alloc_result : R_Handle) (r : TEX_Request) (rs : List TEX_Request) (n : TEX_Node)
    (hwf : u2x_ring_wf s) (hh : u2x_ring_holds s (r :: rs)) (hr : r.wf)
    (hn : tex_node_of s r.hash r.top = some n) (hidle : n.is_working = 0) :
    ∃ s1, tex_xfer_thread__iteration s bpp data_size alloc_result = some s1 ∧
      u2x_ring_wf s1 ∧ u2x_ring_holds s1 rs ∧
      tex_node_of s1 r.hash r.top =
        some (tex_node_commit
          (if tex_xfer_alloc_guard bpp true r.top data_size then alloc_result else r_handle_zero)
          (tex_node_claim n)) ∧
      (∀ h t, (h, t) ≠ (r.hash, r.top) → tex_node_of s1 h t = tex_node_of s h t) ∧
      (r.key ≠ u128_zero → r.hash ≠ u128_zero → tex_fallback_hash s1 r.key = r.hash) ∧
      s1.slots_count = s.slots_count ∧ s1.user_clock_idx = s.user_clock_idx ∧
      s1.r_tex2d_release_log = s.r_tex2d_release_log ∧
      s1.u2x_ring_size = s.u2x_ring_size := by
  obtain ⟨sd, hdq, hwfd, hhd, _⟩ := u2x_dequeue_holds s rs r hwf hh hr
  have hfr := tex_u2x_dequeue_req_fields _ _ _ _ _ hdq
  have hnd : tex_node_of sd r.hash r.top = some n := by
    rw [tex_node_of_congr _ sd hfr.1 hfr.2.1]; exact hn
  have hproc := tex_xfer_process_task sd bpp r.key r.hash r.top data_size alloc_result n hnd hidle
  rw [tex_xfer_alloc_fst] at hproc
  have hiter : tex_xfer_thread__iteration s bpp data_size alloc_result =
      some (tex_xfer_process sd bpp r.key r.hash r.top data_size alloc_result) := by
    simp only [tex_xfer_thread__iteration, hdq]
  have hid : ∀ tex m, tex_node_id ((tex_node_commit tex ∘ tex_node_claim) m) = tex_node_id m :=
    fun tex m => (tex_node_id_commit tex _).trans (tex_node_id_claim m)
  have hring : (tex_xfer_process sd bpp r.key r.hash r.top data_size alloc_result).u2x_ring_size =
        sd.u2x_ring_size ∧
      (tex_xfer_process sd bpp r.key r.hash r.top data_size alloc_result).u2x_ring_base =
        sd.u2x_ring_base ∧
      (tex_xfer_process sd bpp r.key r.hash r.top data_size alloc_result).u2x_ring_write_pos =
        sd.u2x_ring_write_pos ∧
      (tex_xfer_process sd bpp r.key r.hash r.top data_size alloc_result).u2x_ring_read_pos =
        sd.u2x_ring_read_pos := by
    rw [hproc]
    have h1 := tex_xfer_fallback_part_ring
      (tex_update_node (tex_xfer_alloc sd bpp true r.top data_size alloc_result).2 r.hash r.top
        (tex_node_commit
          (if tex_xfer_alloc_guard bpp true r.top data_size then alloc_result else r_handle_zero) ∘
          tex_node_claim)) r.key r.hash
    have h2 := tex_xfer_alloc_ring sd bpp true r.top data_size alloc_result
    exact ⟨h1.1.trans h2.1, h1.2.1.trans h2.2.1, h1.2.2.1.trans h2.2.2.1,
      h1.2.2.2.trans h2.2.2.2⟩
  have hcong := u2x_ring_congr sd _ hring rs
  refine ⟨_, hiter, hcong.1.mpr hwfd, hcong.2.1.mpr hhd, ?_, ?_, ?_, ?_, ?_, ?_,
    hring.1.trans (tex_u2x_dequeue_req_ring _ _ _ _ _ hdq).1⟩
  · rw [hproc, tex_xfer_fallback_part_node_of, tex_node_of_update_same _ _ _ _ (hid _),
      tex_xfer_alloc_node_of, hnd]
    rfl
  · intro h t hne
    rw [hproc, tex_xfer_fallback_part_node_of, tex_node_of_update_other _ _ _ _ _ _ (hid _) hne,
      tex_xfer_alloc_node_of, tex_node_of_congr _ sd hfr.1 hfr.2.1]
  · intro hk hh0
    rw [hproc]
    exact tex_xfer_fallback_part_hash _ _ _ hk hh0
  · rw [hproc, tex_xfer_fallback_part_slots_count, tex_update_node_slots_count,
      (tex_xfer_alloc_table ..).2.1, hfr.2.1]
  · rw [hproc, tex_xfer_fallback_part_user_clock]
    show (tex_xfer_alloc sd bpp true r.top data_size alloc_result).2.user_clock_idx = _
    rw [(tex_xfer_alloc_table ..).2.2.2.2.2.2.1, hfr.2.2.2.2.2.2.1]
  · rw [hproc, tex_xfer_fallback_part_release_log]
    show (tex_xfer_alloc sd bpp true r.top data_size alloc_result).2.r_tex2d_release_log = _
    rw [(tex_xfer_alloc_table ..).2.2.2.2.2.2.2, hfr.2.2.2.2.2.2.2.1]

/-! ## Lemmas: the eviction pass -/

theorem tex_evict_walk_eq (ct cu : Nat) (todo : List TEX_Node) :
    ∀ (kept : List TEX_Node) (log : List R_Handle) (free : List TEX_Node),
      tex_evict_walk ct cu todo kept log free =
        (kept ++ todo.filter (fun n => !tex_evictable ct cu n),
         log ++ ((todo.filter (tex_evictable ct cu)).map (fun n => n.texture)).filter
            (fun h => !r_handle_match h r_handle_zero),
         (todo.filter (tex_evictable ct cu)).reverse ++ free) := by
  induction todo with
  | nil => intro kept log free; simp [tex_evict_walk]
  | cons n rest ih =>
    intro kept log free
    simp only [tex_evict_walk]
    by_cases he : tex_evictable ct cu n = true
    · simp only [he, if_true, ih]
      by_cases hz : r_handle_match n.texture r_handle_zero = true
      · simp [he, hz, List.filter_cons]
      · simp only [Bool.not_eq_true] at hz
        simp [he, hz, List.filter_cons]
    · simp only [Bool.not_eq_true] at he
      simp [he, ih, List.filter_cons]

theorem tex_evictor_slot_pass_eq (s : TEX_Shared) (slot_idx ct cu : Nat) :
    tex_evictor_slot_pass s slot_idx ct cu =
      { s with
        slots := Function.update s.slots slot_idx
          ((s.slots slot_idx).filter (fun n => !tex_evictable ct cu n))
        r_tex2d_release_log := s.r_tex2d_release_log ++
          (((s.slots slot_idx).filter (tex_evictable ct cu)).map (fun n => n.texture)).filter
            (fun h => !r_handle_match h r_handle_zero)
        stripes_free_nodes := Function.update s.stripes_free_nodes (slot_idx % s.stripes_count)
          (((s.slots slot_idx).filter (tex_evictable ct cu)).reverse ++
            s.stripes_free_nodes (slot_idx % s.stripes_count)) } := by
  unfold tex_evictor_slot_pass
  simp only
  split
  · rw [tex_evict_walk_eq]
    simp
  · rename_i h
    simp only [List.any_eq_true, not_exists, not_and, Bool.not_eq_true] at h
    have h1 : (s.slots slot_idx).filter (tex_evictable ct cu) = [] := by
      rw [List.filter_eq_nil_iff]
      intro n hn; simp [h n hn]
    have h2 : (s.slots slot_idx).filter (fun n => !tex_evictable ct cu n) = s.slots slot_idx := by
      rw [List.filter_eq_self]
      intro n hn; simp [h n hn]
    rw [h1, h2]
    simp

theorem tex_evictable_iff (ct cu : Nat) (n : TEX_Node) :
    tex_evictable ct cu n = true ↔
      (n.scope_ref_count = 0 ∧ (n.last_time_touched_us + 10000000) % 2 ^ 64 ≤ ct ∧
        (n.last_user_clock_idx_touched + 10) % 2 ^ 64 ≤ cu ∧ n.load_count ≠ 0 ∧
        n.is_working = 0) := by
  simp [tex_evictable, and_assoc]

/-! ## Lemmas: homing and uniqueness -/

/-! ### Homing and uniqueness are kept by every step -/

theorem tex_unique_of_slots (s s1 : TEX_Shared) (h : s1.slots = s.slots) (hu : tex_unique s) :
    tex_unique s1 := by
  unfold tex_unique; rw [h]; exact hu

theorem tex_homed_of_slots (s s1 : TEX_Shared) (h : s1.slots = s.slots)
    (hc : s1.slots_count = s.slots_count) (hu : tex_homed s) : tex_homed s1 := by
  unfold tex_homed tex_slot_idx; rw [h, hc]; exact hu

theorem tex_update_node_unique (s : TEX_Shared) (hash : U128) (top : TEX_Topology)
    (f : TEX_Node → TEX_Node) (hf : ∀ n, tex_node_id (f n) = tex_node_id n)
    (hu : tex_unique s) : tex_unique (tex_update_node s hash top f) := by
  intro i
  rw [tex_update_node_slots]
  split
  · rw [chain_update_first_map _ _ _ hf]; exact hu _
  · exact hu i

theorem tex_update_node_homed (s : TEX_Shared) (hash : U128) (top : TEX_Topology)
    (f : TEX_Node → TEX_Node) (hf : ∀ n, tex_node_id (f n) = tex_node_id n)
    (hh : tex_homed s) : tex_homed (tex_update_node s hash top f) := by
  intro i n hn
  rw [tex_update_node_slot_idx]
  rw [tex_update_node_slots] at hn
  split at hn
  · rename_i hi
    rcases chain_update_first_mem _ _ _ _ hn with h | ⟨a, ha, _, hx⟩
    · rw [hi]; exact hh _ n h
    · have : n.hash = a.hash := by
        have := hf a
        rw [← hx] at this
        exact (Prod.mk.inj this).1
      rw [this, hi]; exact hh _ a ha
  · exact hh i n hn

theorem tex_insert_if_absent_unique (s : TEX_Shared) (hash : U128) (top : TEX_Topology)
    (hu : tex_unique s) : tex_unique (tex_insert_if_absent s hash top).2 := by
  rw [tex_insert_if_absent_eq]
  cases hn : tex_node_of s hash top with
  | some n => exact hu
  | none =>
    intro i
    simp only [Function.update_apply]
    split
    · rename_i hi
      rw [List.map_append, List.nodup_append]
      refine ⟨hu _, by simp, ?_⟩
      intro a ha hb
      simp only [List.map_cons, List.map_nil, List.mem_singleton] at hb
      subst hb
      rw [List.mem_map] at ha
      obtain ⟨m, hm, hid⟩ := ha
      unfold tex_node_of at hn
      rw [List.find?_eq_none] at hn
      exact hn m hm ((tex_node_match_iff _ _ _).mpr hid)
    · exact hu i

theorem tex_insert_if_absent_homed (s : TEX_Shared) (hash : U128) (top : TEX_Topology)
    (hh : tex_homed s) : tex_homed (tex_insert_if_absent s hash top).2 := by
  rw [tex_insert_if_absent_eq]
  cases hn : tex_node_of s hash top with
  | some n => exact hh
  | none =>
    intro i n hmem
    simp only [Function.update_apply] at hmem
    show tex_slot_idx s n.hash = i
    split at hmem
    · rename_i hi
      rcases List.mem_append.mp hmem with h | h
      · rw [hi]; exact hh _ n h
      · simp only [List.mem_singleton] at h
        rw [h, hi]; rfl
    · exact hh i n hmem

theorem tex_insert_if_absent_slots_count (s : TEX_Shared) (hash : U128) (top : TEX_Topology) :
    (tex_insert_if_absent s hash top).2.slots_count = s.slots_count := by
  rw [tex_insert_if_absent_eq]
  cases tex_node_of s hash top <;> rfl

theorem tex_lookup_touch_state (s : TEX_Shared) (scope : TEX_Scope) (hash : U128)
    (top : TEX_Topology) (now_us : Nat) :
    (tex_lookup_touch s scope hash top now_us).2.2 =
      tex_update_node s hash top (tex_touch_node now_us s.user_clock_idx) := by
  rw [tex_lookup_touch_eq]
  cases hn : tex_node_of s hash top with
  | none => exact (tex_update_node_of_none s hash top _ hn).symm
  | some n => rfl

theorem tex_lookup_fallback_state (s : TEX_Shared) (scope : TEX_Scope) (key : U128)
    (top : TEX_Topology) (handle : R_Handle) (now_us : Nat) :
    (tex_lookup_fallback s scope key top handle now_us).2.2 = s ∨
    (tex_lookup_fallback s scope key top handle now_us).2.2 =
      tex_update_node s (tex_fallback_hash s key) top
        (tex_touch_node now_us s.user_clock_idx) := by
  unfold tex_lookup_fallback
  by_cases h1 : r_handle_match handle r_handle_zero = true
  · by_cases h2 : (!u128_match (tex_fallback_hash s key) u128_zero) = true
    · right
      simp only [h1, h2, if_true]
      exact tex_lookup_touch_state _ _ _ _ _
    · left
      simp only [h1, h2, if_true, if_false, Bool.false_eq_true]
  · left
    simp only [h1, if_false, Bool.false_eq_true]

theorem tex_evictor_slot_pass_unique (s : TEX_Shared) (slot_idx ct cu : Nat)
    (hu : tex_unique s) : tex_unique (tex_evictor_slot_pass s slot_idx ct cu) := by
  rw [tex_evictor_slot_pass_eq]
  intro i
  simp only [Function.update_apply]
  split
  · exact List.Nodup.sublist ((List.filter_sublist _).map _) (hu _)
  · exact hu i

theorem tex_evictor_slot_pass_homed (s : TEX_Shared) (slot_idx ct cu : Nat)
    (hh : tex_homed s) : tex_homed (tex_evictor_slot_pass s slot_idx ct cu) := by
  rw [tex_evictor_slot_pass_eq]
  intro i n hn
  simp only [Function.update_apply] at hn
  show tex_slot_idx s n.hash = i
  split at hn
  · rename_i hi
    rw [hi]; exact hh _ n (List.mem_of_mem_filter hn)
  · exact hh i n hn

theorem tex_evictor_slot_pass_counts (s : TEX_Shared) (slot_idx ct cu : Nat) :
    (tex_evictor_slot_pass s slot_idx ct cu).slots_count = s.slots_count ∧
    (tex_evictor_slot_pass s slot_idx ct cu).user_clock_idx = s.user_clock_idx := by
  rw [tex_evictor_slot_pass_eq]
  exact ⟨rfl, rfl⟩

/-- A property kept by every slot pass is kept by a full sweep. -/
theorem tex_evictor_sweep_induction (P : TEX_Shared → Prop)
    (hP : ∀ s slot_idx ct cu, P s → P (tex_evictor_slot_pass s slot_idx ct cu))
    (s : TEX_Shared) (now_us : Nat) (h : P s) : P (tex_evictor_sweep s now_us) := by
  unfold tex_evictor_sweep
  generalize tex_user_clock_idx s = cu
  generalize List.range s.slots_count = l
  induction l generalizing s with
  | nil => exact h
  | cons a l ih => exact ih _ (hP _ _ _ _ h)

/-! ## Lemmas: induction over the steps of a lookup and of a worker iteration -/

/-- A property of the shared state kept by a touch, by the write-locked
insertion and by an enqueue is kept by a lookup. -/
theorem tex_texture_induction (P : TEX_Shared → Prop)
    (htouch : ∀ s h t now clk, P s → P (tex_update_node s h t (tex_touch_node now clk)))
    (hins : ∀ s h t, P s → P (tex_insert_if_absent s h t).2)
    (henq : ∀ s k h t e n g s1, P s → tex_u2x_enqueue_req s k h t e n = some (g, s1) → P s1)
    (s : TEX_Shared) (scope : TEX_Scope) (key hash : U128) (top : TEX_Topology) (now_us : Nat)
    (handle : R_Handle) (scope1 : TEX_Scope) (s1 : TEX_Shared) (hP : P s)
    (h : tex_texture_from_key_hash_topology s scope key hash top now_us =
      some (handle, scope1, s1)) : P s1 := by
  unfold tex_texture_from_key_hash_topology at h
  split at h
  · simp only [Option.some.injEq, Prod.mk.injEq] at h
    rw [← h.2.2]; exact hP
  · simp only at h
    have h1 : P (tex_lookup_touch s scope hash top now_us).2.2 := by
      rw [tex_lookup_touch_state]; exact htouch _ _ _ _ _ hP
    generalize tex_lookup_touch s scope hash top now_us = r1 at h h1
    have h2 : P (if (!!r_handle_match r_handle_zero (r1.1.getD r_handle_zero)) = true then
        tex_insert_if_absent r1.2.2 hash top else (false, r1.2.2)).2 := by
      split
      · exact hins _ _ _ h1
      · exact h1
    generalize (if (!!r_handle_match r_handle_zero (r1.1.getD r_handle_zero)) = true then
        tex_insert_if_absent r1.2.2 hash top else (false, r1.2.2)) = r2 at h h2
    split at h
    · simp at h
    · rename_i s3 hs3
      simp only [Option.some.injEq] at h
      have h3 : P s3 := by
        split at hs3
        · cases he : tex_u2x_enqueue_req r2.2 key hash top max_U64 now_us with
          | none => simp [he] at hs3
          | some res =>
            simp only [he, Option.map_some', Option.some.injEq] at hs3
            rw [← hs3]
            exact henq _ _ _ _ _ _ res.1 res.2 h2 he
        · simp only [Option.some.injEq] at hs3
          rw [← hs3]; exact h2
      have h4 := tex_lookup_fallback_state s3 r1.2.1 key top (r1.1.getD r_handle_zero) now_us
      rw [h] at h4
      rcases h4 with h4 | h4
      · simp only at h4; rw [h4]; exact h3
      · simp only at h4; rw [h4]; exact htouch _ _ _ _ _ h3

/-- A property of the shared state kept by a dequeue, by the claim, by the
allocation record, by the commit and by the fallback update is kept by a
worker iteration. -/
theorem tex_xfer_induction (P : TEX_Shared → Prop)
    (hdeq : ∀ s k h t s1, P s → tex_u2x_dequeue_req s = some (k, h, t, s1) → P s1)
    (hclaim : ∀ s h t, P s → P (tex_update_node s h t tex_node_claim))
    (halloc : ∀ s bpp g t d a, P s → P (tex_xfer_alloc s bpp g t d a).2)
    (hcommit : ∀ s h t tex, P s → P (tex_update_node s h t (tex_node_commit tex)))
    (hfb : ∀ s k h, P s → P (tex_xfer_fallback_commit s k h))
    (s : TEX_Shared) (bpp : Nat → Nat) (data_size : Nat) (alloc_result : R_Handle)
    (s1 : TEX_Shared) (hP : P s)
    (h : tex_xfer_thread__iteration s bpp data_size alloc_result = some s1) : P s1 := by
  unfold tex_xfer_thread__iteration at h
  split at h
  · simp at h
  · rename_i key hash top sd hdq
    simp only [Option.some.injEq] at h
    rw [← h]
    have h0 : P sd := hdeq _ _ _ _ _ hP hdq
    unfold tex_xfer_process
    simp only
    have h1 : P (tex_xfer_take_task sd hash top).2 := by
      rw [tex_xfer_take_task_eq]
      cases tex_node_of sd hash top with
      | none => exact h0
      | some n => exact hclaim _ _ _ h0
    generalize tex_xfer_take_task sd hash top = r1 at h1
    have h2 := halloc r1.2 bpp r1.1 top (if r1.1 = true then data_size else 0) alloc_result h1
    generalize tex_xfer_alloc r1.2 bpp r1.1 top (if r1.1 = true then data_size else 0)
      alloc_result = r2 at h2
    have h3 : P (if r1.1 = true then tex_xfer_commit r2.2 hash top r2.1 else r2.2) := by
      split
      · rw [tex_xfer_commit_eq]; exact hcommit _ _ _ _ h2
      · exact h2
    split
    · exact hfb _ _ _ h3
    · exact h3

/-! ## Lemmas: homing and uniqueness along the steps -/

theorem tex_texture_unique (s : TEX_Shared) (scope : TEX_Scope) (key hash : U128)
    (top : TEX_Topology) (now_us : Nat) (handle : R_Handle) (scope1 : TEX_Scope)
    (s1 : TEX_Shared) (hu : tex_unique s)
    (h : tex_texture_from_key_hash_topology s scope key hash top now_us =
      some (handle, scope1, s1)) : tex_unique s1 :=
  tex_texture_induction tex_unique
    (fun s h t now clk hP => tex_update_node_unique s h t _ (tex_node_id_touch now clk) hP)
    (fun s h t hP => tex_insert_if_absent_unique s h t hP)
    (fun s k h t e n g s1 hP he =>
      tex_unique_of_slots s s1 (tex_u2x_enqueue_req_fields s s1 k h t e n g he).1 hP)
    s scope key hash top now_us handle scope1 s1 hu h

theorem tex_texture_homed (s : TEX_Shared) (scope : TEX_Scope) (key hash : U128)
    (top : TEX_Topology) (now_us : Nat) (handle : R_Handle) (scope1 : TEX_Scope)
    (s1 : TEX_Shared) (hh : tex_homed s)
    (h : tex_texture_from_key_hash_topology s scope key hash top now_us =
      some (handle, scope1, s1)) : tex_homed s1 :=
  tex_texture_induction tex_homed
    (fun s h t now clk hP => tex_update_node_homed s h t _ (tex_node_id_touch now clk) hP)
    (fun s h t hP => tex_insert_if_absent_homed s h t hP)
    (fun s k h t e n g s1 hP he =>
      tex_homed_of_slots s s1 (tex_u2x_enqueue_req_fields s s1 k h t e n g he).1
        (tex_u2x_enqueue_req_fields s s1 k h t e n g he).2.1 hP)
    s scope key hash top now_us handle scope1 s1 hh h

theorem tex_xfer_fallback_commit_slots (s : TEX_Shared) (key hash : U128) :
    (tex_xfer_fallback_commit s key hash).slots = s.slots ∧
    (tex_xfer_fallback_commit s key hash).slots_count = s.slots_count := ⟨rfl, rfl⟩

theorem tex_xfer_iteration_unique (s : TEX_Shared) (bpp : Nat → Nat) (data_size : Nat)
    (alloc_result : R_Handle) (s1 : TEX_Shared) (hu : tex_unique s)
    (h : tex_xfer_thread__iteration s bpp data_size alloc_result = some s1) : tex_unique s1 :=
  tex_xfer_induction tex_unique
    (fun s k h t s1 hP hd =>
      tex_unique_of_slots s s1 (tex_u2x_dequeue_req_fields s s1 k h t hd).1 hP)
    (fun s h t hP => tex_update_node_unique s h t _ tex_node_id_claim hP)
    (fun s bpp g t d a hP => tex_unique_of_slots s _ (tex_xfer_alloc_table s bpp g t d a).1 hP)
    (fun s h t tex hP => tex_update_node_unique s h t _ (tex_node_id_commit tex) hP)
    (fun s k h hP => tex_unique_of_slots s _ (tex_xfer_fallback_commit_slots s k h).1 hP)
    s bpp data_size alloc_result s1 hu h

theorem tex_xfer_iteration_homed (s : TEX_Shared) (bpp : Nat → Nat) (data_size : Nat)
    (alloc_result : R_Handle) (s1 : TEX_Shared) (hh : tex_homed s)
    (h : tex_xfer_thread__iteration s bpp data_size alloc_result = some s1) : tex_homed s1 :=
  tex_xfer_induction tex_homed
    (fun s k h t s1 hP hd =>
      tex_homed_of_slots s s1 (tex_u2x_dequeue_req_fields s s1 k h t hd).1
        (tex_u2x_dequeue_req_fields s s1 k h t hd).2.1 hP)
    (fun s h t hP => tex_update_node_homed s h t _ tex_node_id_claim hP)
    (fun s bpp g t d a hP => tex_homed_of_slots s _ (tex_xfer_alloc_table s bpp g t d a).1
      (tex_xfer_alloc_table s bpp g t d a).2.1 hP)
    (fun s h t tex hP => tex_update_node_homed s h t _ (tex_node_id_commit tex) hP)
    (fun s k h hP => tex_homed_of_slots s _ (tex_xfer_fallback_commit_slots s k h).1
      (tex_xfer_fallback_commit_slots s k h).2 hP)
    s bpp data_size alloc_result s1 hh h

theorem tex_evictor_sweep_unique (s : TEX_Shared) (now_us : Nat) (hu : tex_unique s) :
    tex_unique (tex_evictor_sweep s now_us) :=
  tex_evictor_sweep_induction tex_unique
    (fun s i ct cu h => tex_evictor_slot_pass_unique s i ct cu h) s now_us hu

theorem tex_evictor_sweep_homed (s : TEX_Shared) (now_us : Nat) (hh : tex_homed s) :
    tex_homed (tex_evictor_sweep s now_us) :=
  tex_evictor_sweep_induction tex_homed
    (fun s i ct cu h => tex_evictor_slot_pass_homed s i ct cu h) s now_us hh

/-- A property kept by every unpin is kept by closing a scope. -/
theorem tex_scope_close_induction (P : TEX_Shared → Prop)
    (hP : ∀ s h t, P s → P (tex_update_node s h t tex_unpin_node))
    (s : TEX_Shared) (scope : TEX_Scope) (h : P s) : P (tex_scope_close s scope) := by
  unfold tex_scope_close
  generalize scope.top_touch = l
  induction l generalizing s with
  | nil => exact h
  | cons a l ih =>
    rw [List.foldl_cons, tex_scope_close_touch_eq]
    exact ih _ (hP _ _ _ h)

theorem tex_init_homed_unique (c : Nat) (mem : Nat → Nat) :
    tex_homed (tex_init c mem) ∧ tex_unique (tex_init c mem) := by
  constructor
  · intro i n hn
    simp [tex_init] at hn
  · intro i
    simp [tex_init]

theorem tex_step_homed_unique (σ σ1 : TEX_System) (hstep : TEX_Step σ σ1)
    (h : tex_homed σ.shared ∧ tex_unique σ.shared) :
    tex_homed σ1.shared ∧ tex_unique σ1.shared := by
  cases hstep with
  | scope_open => exact h
  | lookup pre post rd key hash top now_us handle scope1 s1 _ _ _ _ _ hcall =>
    exact ⟨tex_texture_homed _ _ _ _ _ _ _ _ _ h.1 hcall,
      tex_texture_unique _ _ _ _ _ _ _ _ _ h.2 hcall⟩
  | scope_close pre post rd _ =>
    exact ⟨tex_scope_close_induction tex_homed
        (fun s hh t hP => tex_update_node_homed s hh t _ tex_node_id_unpin hP) _ _ h.1,
      tex_scope_close_induction tex_unique
        (fun s hh t hP => tex_update_node_unique s hh t _ tex_node_id_unpin hP) _ _ h.2⟩
  | xfer bpp d a s1 _ hit =>
    exact ⟨tex_xfer_iteration_homed _ _ _ _ _ h.1 hit,
      tex_xfer_iteration_unique _ _ _ _ _ h.2 hit⟩
  | evict_slot i ct cu =>
    exact ⟨tex_evictor_slot_pass_homed _ _ _ _ h.1, tex_evictor_slot_pass_unique _ _ _ _ h.2⟩
  | evict_sweep now_us =>
    exact ⟨tex_evictor_sweep_homed _ _ h.1, tex_evictor_sweep_unique _ _ h.2⟩
  | clock_tick => exact h

theorem tex_reachable_homed_unique (σ : TEX_System) (h : TEX_Reachable σ) :
    tex_homed σ.shared ∧ tex_unique σ.shared := by
  induction h with
  | init c mem => exact tex_init_homed_unique c mem
  | step σ σ1 _ hstep ih => exact tex_step_homed_unique σ σ1 hstep ih

/-! ## Lemmas: the first lookup after start-up -/

/-- The first lookup of a non-zero hash on the state of `tex_init` misses. -/
theorem tex_init_first_lookup (c : Nat) (mem : Nat → Nat) (scope : TEX_Scope) (key hash : U128)
    (top : TEX_Topology) (now_us : Nat) (hh : hash ≠ u128_zero) :
    tex_texture_from_key_hash_topology (tex_init c mem) scope key hash top now_us =
      some (r_handle_zero, scope, tex_after_miss (tex_init c mem) key hash top) := by
  have hwf : u2x_ring_wf (tex_init c mem) := by
    unfold u2x_ring_wf u2x_unconsumed_size tex_init KB
    simp only
    refine ⟨by norm_num, by norm_num, ?_, by norm_num, by norm_num, by norm_num⟩
    exact ⟨2 ^ 48, by norm_num⟩
  have hsz : u2x_unconsumed_size (tex_init c mem) = 0 := by
    unfold u2x_unconsumed_size tex_init
    simp only
    norm_num
  have h := tex_texture_miss (tex_init c mem) scope key hash top now_us hh
    (tex_node_of_nil _ _ _ rfl) hwf (by rw [hsz]; simp [tex_init, KB])
  rw [tex_lookup_fallback_null, if_pos (tex_fallback_hash_nil _ _ rfl)] at h
  exact h

/-- A property of the scope and the shared state kept by a read-locked walk
with its touch, by the write-locked insertion and by an enqueue is kept by a
lookup. -/
theorem tex_texture_induction_scope (P : TEX_Scope → TEX_Shared → Prop)
    (htouch : ∀ s scope h t now, P scope s →
      P (tex_lookup_touch s scope h t now).2.1 (tex_lookup_touch s scope h t now).2.2)
    (hins : ∀ s scope h t, P scope s → P scope (tex_insert_if_absent s h t).2)
    (henq : ∀ s scope k h t e n g s1, P scope s →
      tex_u2x_enqueue_req s k h t e n = some (g, s1) → P scope s1)
    (s : TEX_Shared) (scope : TEX_Scope) (key hash : U128) (top : TEX_Topology) (now_us : Nat)
    (handle : R_Handle) (scope1 : TEX_Scope) (s1 : TEX_Shared) (hP : P scope s)
    (h : tex_texture_from_key_hash_topology s scope key hash top now_us =
      some (handle, scope1, s1)) : P scope1 s1 := by
  unfold tex_texture_from_key_hash_topology at h
  split at h
  · simp only [Option.some.injEq, Prod.mk.injEq] at h
    rw [← h.2.2, ← h.2.1]; exact hP
  · simp only at h
    have h1 := htouch s scope hash top now_us hP
    generalize tex_lookup_touch s scope hash top now_us = r1 at h h1
    have h2 : P r1.2.1 (if (!!r_handle_match r_handle_zero (r1.1.getD r_handle_zero)) = true then
        tex_insert_if_absent r1.2.2 hash top else (false, r1.2.2)).2 := by
      split
      · exact hins _ _ _ _ h1
      · exact h1
    generalize (if (!!r_handle_match r_handle_zero (r1.1.getD r_handle_zero)) = true then
        tex_insert_if_absent r1.2.2 hash top else (false, r1.2.2)) = r2 at h h2
    split at h
    · simp at h
    · rename_i s3 hs3
      simp only [Option.some.injEq] at h
      have h3 : P r1.2.1 s3 := by
        split at hs3
        · cases he : tex_u2x_enqueue_req r2.2 key hash top max_U64 now_us with
          | none => simp [he] at hs3
          | some res =>
            simp only [he, Option.map_some', Option.some.injEq] at hs3
            rw [← hs3]
            exact henq _ _ _ _ _ _ _ res.1 res.2 h2 he
        · simp only [Option.some.injEq] at hs3
          rw [← hs3]; exact h2
      unfold tex_lookup_fallback at h
      by_cases c1 : r_handle_match (r1.1.getD r_handle_zero) r_handle_zero = true
      · by_cases c2 : (!u128_match (tex_fallback_hash s3 key) u128_zero) = true
        · simp only [c1, c2, if_true, Prod.mk.injEq] at h
          rw [← h.2.1, ← h.2.2]
          exact htouch _ _ _ _ _ h3
        · simp only [c1, c2, if_true, if_false, Prod.mk.injEq, Bool.false_eq_true] at h
          rw [← h.2.1, ← h.2.2]
          exact h3
      · simp only [c1, if_false, Prod.mk.injEq, Bool.false_eq_true] at h
        rw [← h.2.1, ← h.2.2]
        exact h3

/-! ## Lemmas: the balance of a scope -/

theorem tex_touches_of_cons (t : TEX_Touch) (l : List TEX_Touch) (id : U128 × TEX_Topology) :
    tex_touches_of (t :: l) id =
      if (t.hash, t.topology) = id then tex_touches_of l id + 1 else tex_touches_of l id := by
  unfold tex_touches_of
  by_cases h : (t.hash, t.topology) = id
  · simp [List.filter_cons, h]
  · simp [List.filter_cons, h]

theorem tex_insert_if_absent_node_same (s : TEX_Shared) (hash : U128) (top : TEX_Topology)
    (hn : tex_node_of s hash top = none) :
    tex_node_of (tex_insert_if_absent s hash top).2 hash top = some (tex_node_fresh hash top) := by
  rw [tex_insert_if_absent_eq, hn]
  unfold tex_node_of at hn ⊢
  have hm : tex_node_match hash top (tex_node_fresh hash top) = true := by
    rw [tex_node_match_iff]; rfl
  simp only [tex_slot_idx] at hn
  simp only [tex_slot_idx, Function.update_same, List.find?_append, hn,
    List.find?_cons, hm, Option.none_or]

theorem tex_insert_if_absent_node_other (s : TEX_Shared) (hash h1 : U128) (top t1 : TEX_Topology)
    (hne : (h1, t1) ≠ (hash, top)) :
    tex_node_of (tex_insert_if_absent s hash top).2 h1 t1 = tex_node_of s h1 t1 := by
  rw [tex_insert_if_absent_eq]
  cases hn : tex_node_of s hash top with
  | some n => rfl
  | none =>
    unfold tex_node_of
    simp only [tex_slot_idx]
    by_cases hi : h1.u64_1 % s.slots_count = hash.u64_1 % s.slots_count
    · have hm : tex_node_match h1 t1 (tex_node_fresh hash top) = false := by
        rw [← Bool.not_eq_true, tex_node_match_iff]
        exact fun h => hne h.symm
      rw [hi]
      simp only [Function.update_same, List.find?_append, List.find?_cons, hm,
        List.find?_nil, Option.or_none]
    · simp only [Function.update_noteq hi]

/-- The balance reads the state only through the nodes found by identity. -/
theorem tex_scope_balance_congr (s0 s s1 : TEX_Shared) (l : List TEX_Touch)
    (h : ∀ hh t, tex_node_of s1 hh t = tex_node_of s hh t)
    (hb : tex_scope_balance s0 l s) : tex_scope_balance s0 l s1 := by
  intro id
  rw [h]
  exact hb id

/-- An update that keeps identity and pin count keeps the balance. -/
theorem tex_scope_balance_update (s0 s : TEX_Shared) (l : List TEX_Touch) (hash : U128)
    (top : TEX_Topology) (f : TEX_Node → TEX_Node)
    (hf : ∀ n, tex_node_id (f n) = tex_node_id n)
    (hr : ∀ n, (f n).scope_ref_count = n.scope_ref_count)
    (hb : tex_scope_balance s0 l s) : tex_scope_balance s0 l (tex_update_node s hash top f) := by
  intro id
  by_cases hid : id = (hash, top)
  · subst hid
    rw [tex_node_of_update_same _ _ _ _ hf]
    rcases hb (hash, top) with ⟨h1, h2, h3⟩ | ⟨n, h1, h2⟩
    · left; simp only at h1; simp only [h1, Option.map_none']; exact ⟨trivial, h2, h3⟩
    · right; simp only at h1
      exact ⟨f n, by simp only [h1, Option.map_some'], by rw [hr]; exact h2⟩
  · have : (id.1, id.2) ≠ (hash, top) := hid
    rw [tex_node_of_update_other _ _ _ _ _ _ hf this]
    exact hb id

theorem tex_scope_balance_touch (s0 s : TEX_Shared) (scope : TEX_Scope) (hash : U128)
    (top : TEX_Topology) (now_us : Nat) (hb : tex_scope_balance s0 scope.top_touch s) :
    tex_scope_balance s0 (tex_lookup_touch s scope hash top now_us).2.1.top_touch
      (tex_lookup_touch s scope hash top now_us).2.2 := by
  rw [tex_lookup_touch_eq]
  cases hn : tex_node_of s hash top with
  | none => exact hb
  | some n =>
    simp only
    have hid := tex_node_of_id _ _ _ _ hn
    intro id
    rw [tex_touches_of_cons, hid.1, hid.2]
    by_cases hc : (hash, top) = id
    · subst hc
      rw [if_pos rfl, tex_node_of_update_same _ _ _ _ (tex_node_id_touch _ _), hn]
      right
      refine ⟨_, rfl, ?_⟩
      rcases hb (hash, top) with ⟨h1, _, _⟩ | ⟨m, h1, h2⟩
      · simp only at h1; rw [hn] at h1; cases h1
      · simp only at h1; rw [hn] at h1
        simp only [Option.some.injEq] at h1
        subst h1
        rw [Function.iterate_succ_apply', ← h2]
        simp only [tex_touch_node]
    · rw [if_neg hc]
      have : (id.1, id.2) ≠ (hash, top) := fun h => hc h.symm
      rw [tex_node_of_update_other _ _ _ _ _ _ (tex_node_id_touch _ _) this]
      exact hb id

theorem tex_scope_balance_insert (s0 s : TEX_Shared) (l : List TEX_Touch) (hash : U128)
    (top : TEX_Topology) (hb : tex_scope_balance s0 l s) :
    tex_scope_balance s0 l (tex_insert_if_absent s hash top).2 := by
  cases hn : tex_node_of s hash top with
  | some n =>
    rw [tex_insert_if_absent_eq, hn]; exact hb
  | none =>
    intro id
    by_cases hid : id = (hash, top)
    · subst hid
      right
      refine ⟨_, tex_insert_if_absent_node_same s hash top hn, ?_⟩
      rcases hb (hash, top) with ⟨_, h2, h3⟩ | ⟨m, h1, _⟩
      · simp only at h3
        rw [h2]
        simp only [tex_ref_of, h3, Function.iterate_zero, id_eq]
        rfl
      · simp only at h1; rw [hn] at h1; cases h1
    · have : (id.1, id.2) ≠ (hash, top) := hid
      rw [tex_insert_if_absent_node_other _ _ _ _ _ this]
      exact hb id

theorem tex_node_claim_ref (n : TEX_Node) :
    (tex_node_claim n).scope_ref_count = n.scope_ref_count := by
  unfold tex_node_claim; split <;> rfl

theorem tex_node_commit_ref (tex : R_Handle) (n : TEX_Node) :
    (tex_node_commit tex n).scope_ref_count = n.scope_ref_count := by
  simp only [tex_node_commit]

theorem tex_texture_balance (s0 s : TEX_Shared) (scope : TEX_Scope) (key hash : U128)
    (top : TEX_Topology) (now_us : Nat) (handle : R_Handle) (scope1 : TEX_Scope)
    (s1 : TEX_Shared) (hb : tex_scope_balance s0 scope.top_touch s)
    (h : tex_texture_from_key_hash_topology s scope key hash top now_us =
      some (handle, scope1, s1)) : tex_scope_balance s0 scope1.top_touch s1 :=
  tex_texture_induction_scope (fun sc st => tex_scope_balance s0 sc.top_touch st)
    (fun s scope h t now hP => tex_scope_balance_touch s0 s scope h t now hP)
    (fun s scope h t hP => tex_scope_balance_insert s0 s scope.top_touch h t hP)
    (fun s scope k h t e n g s1 hP he =>
      tex_scope_balance_congr s0 s s1 scope.top_touch
        (fun hh tt => tex_node_of_congr s s1 (tex_u2x_enqueue_req_fields s s1 k h t e n g he).1
          (tex_u2x_enqueue_req_fields s s1 k h t e n g he).2.1 hh tt) hP)
    s scope key hash top now_us handle scope1 s1 hb h

theorem tex_xfer_iteration_balance (s0 s : TEX_Shared) (l : List TEX_Touch) (bpp : Nat → Nat)
    (data_size : Nat) (alloc_result : R_Handle) (s1 : TEX_Shared)
    (hb : tex_scope_balance s0 l s)
    (h : tex_xfer_thread__iteration s bpp data_size alloc_result = some s1) :
    tex_scope_balance s0 l s1 :=
  tex_xfer_induction (fun st => tex_scope_balance s0 l st)
    (fun s k h t s1 hP hd =>
      tex_scope_balance_congr s0 s s1 l
        (fun hh tt => tex_node_of_congr s s1 (tex_u2x_dequeue_req_fields s s1 k h t hd).1
          (tex_u2x_dequeue_req_fields s s1 k h t hd).2.1 hh tt) hP)
    (fun s h t hP => tex_scope_balance_update s0 s l h t _ tex_node_id_claim tex_node_claim_ref hP)
    (fun s bpp g t d a hP =>
      tex_scope_balance_congr s0 s _ l (fun hh tt => tex_xfer_alloc_node_of s bpp g t d a hh tt) hP)
    (fun s h t tex hP =>
      tex_scope_balance_update s0 s l h t _ (tex_node_id_commit tex) (tex_node_commit_ref tex) hP)
    (fun s k h hP =>
      tex_scope_balance_congr s0 s _ l
        (fun hh tt => tex_node_of_congr s _ (tex_xfer_fallback_commit_slots s k h).1
          (tex_xfer_fallback_commit_slots s k h).2 hh tt) hP)
    s bpp data_size alloc_result s1 hb h

theorem tex_scope_balance_init (s0 : TEX_Shared) : tex_scope_balance s0 [] s0 := by
  intro id
  cases hn : tex_node_of s0 id.1 id.2 with
  | none => left; exact ⟨rfl, rfl, rfl⟩
  | some n =>
    right
    refine ⟨n, rfl, ?_⟩
    simp only [tex_touches_of, List.filter_nil, List.length_nil, Function.iterate_zero, id_eq,
      tex_ref_of, hn]

theorem tex_scope_run_balance (s0 : TEX_Shared) (acts : List TEX_ScopeAction) :
    ∀ (s : TEX_Shared) (scope scope1 : TEX_Scope) (s1 : TEX_Shared),
      tex_scope_balance s0 scope.top_touch s →
      tex_scope_run s scope acts = some (scope1, s1) →
      tex_scope_balance s0 scope1.top_touch s1 := by
  induction acts with
  | nil =>
    intro s scope scope1 s1 hb h
    simp only [tex_scope_run, Option.some.injEq, Prod.mk.injEq] at h
    rw [← h.1, ← h.2]; exact hb
  | cons a rest ih =>
    intro s scope scope1 s1 hb h
    cases a with
    | lookup key hash top now_us =>
      simp only [tex_scope_run] at h
      cases hc : tex_texture_from_key_hash_topology s scope key hash top now_us with
      | none => simp [hc] at h
      | some res =>
        obtain ⟨hd, sc2, s2⟩ := res
        simp only [hc] at h
        exact ih s2 sc2 scope1 s1 (tex_texture_balance s0 s scope key hash top now_us hd sc2 s2 hb hc) h
    | work bpp d a =>
      simp only [tex_scope_run] at h
      cases hc : tex_xfer_thread__iteration s bpp d a with
      | none =>
        simp only [hc] at h
        exact ih s scope scope1 s1 hb h
      | some s2 =>
        simp only [hc] at h
        exact ih s2 scope scope1 s1 (tex_xfer_iteration_balance s0 s _ bpp d a s2 hb hc) h
    | tick =>
      simp only [tex_scope_run] at h
      exact ih (tex_user_clock_tick s) scope scope1 s1
        (tex_scope_balance_congr s0 s (tex_user_clock_tick s) _ (fun hh tt => rfl) hb) h

theorem ins_atomic_u64_inc_iterate_lt (c base : Nat) (h : base < 2 ^ 64) :
    ins_atomic_u64_inc_eval^[c] base < 2 ^ 64 := by
  cases c with
  | zero => exact h
  | succ c => rw [Function.iterate_succ_apply']; exact ins_atomic_u64_inc_lt _

theorem tex_ref_of_lt (s0 : TEX_Shared) (hwf : tex_refs_wf s0) (id : U128 × TEX_Topology) :
    tex_ref_of s0 id < 2 ^ 64 := by
  unfold tex_ref_of
  cases hn : tex_node_of s0 id.1 id.2 with
  | none => simp
  | some n => exact hwf _ n (tex_node_of_mem _ _ _ _ hn)

/-- Closing a scope whose balance holds restores every pin count. -/
theorem tex_scope_close_balance (s0 : TEX_Shared) (hwf : tex_refs_wf s0) (l : List TEX_Touch) :
    ∀ s : TEX_Shared, tex_scope_balance s0 l s →
      tex_scope_balance s0 [] (l.foldl tex_scope_close_touch s) := by
  induction l with
  | nil => intro s hb; exact hb
  | cons t l ih =>
    intro s hb
    rw [List.foldl_cons]
    apply ih
    rw [tex_scope_close_touch_eq]
    intro id
    have hbi := hb id
    rw [tex_touches_of_cons] at hbi
    by_cases hc : (t.hash, t.topology) = id
    · rw [if_pos hc] at hbi
      rcases hbi with ⟨_, h2, _⟩ | ⟨n, h1, h2⟩
      · omega
      · right
        have e1 : id.1 = t.hash := by rw [← hc]
        have e2 : id.2 = t.topology := by rw [← hc]
        rw [e1, e2, tex_node_of_update_same _ _ _ _ tex_node_id_unpin]
        rw [e1, e2] at h1
        refine ⟨tex_unpin_node n, by rw [h1]; rfl, ?_⟩
        simp only [tex_unpin_node]
        rw [h2, Function.iterate_succ_apply']
        exact ins_atomic_u64_dec_inc _
          (ins_atomic_u64_inc_iterate_lt _ _ (tex_ref_of_lt s0 hwf id))
    · rw [if_neg hc] at hbi
      have : (id.1, id.2) ≠ (t.hash, t.topology) := fun h => hc h.symm
      rw [tex_node_of_update_other _ _ _ _ _ _ tex_node_id_unpin this]
      exact hbi

/-! ## Lemmas: nodes found by identity -/

theorem chain_find_of_nodup (l : List TEX_Node) (n : TEX_Node)
    (hu : (l.map tex_node_id).Nodup) (hn : n ∈ l) :
    l.find? (tex_node_match n.hash n.topology) = some n := by
  induction l with
  | nil => simp at hn
  | cons a l ih =>
    simp only [List.map_cons, List.nodup_cons] at hu
    rw [List.find?_cons]
    by_cases ha : a = n
    · subst ha
      have : tex_node_match a.hash a.topology a = true := by rw [tex_node_match_iff]; rfl
      simp only [this]
    · have hn1 : n ∈ l := by
        rcases List.mem_cons.mp hn with h | h
        · exact absurd h.symm ha
        · exact h
      have hm : tex_node_match n.hash n.topology a = false := by
        rw [← Bool.not_eq_true, tex_node_match_iff]
        intro hid
        apply hu.1
        rw [hid]
        exact List.mem_map.mpr ⟨n, hn1, rfl⟩
      simp only [hm]
      exact ih hu.2 hn1

/-- In a homed table without duplicates every node is the one found by its
identity. -/
theorem tex_node_of_of_mem (s : TEX_Shared) (hh : tex_homed s) (hu : tex_unique s) (i : Nat)
    (n : TEX_Node) (hn : n ∈ s.slots i) : tex_node_of s n.hash n.topology = some n := by
  unfold tex_node_of
  rw [hh i n hn]
  exact chain_find_of_nodup _ n (hu i) hn

theorem tex_texture_slots_count (s : TEX_Shared) (scope : TEX_Scope) (key hash : U128)
    (top : TEX_Topology) (now_us : Nat) (handle : R_Handle) (scope1 : TEX_Scope)
    (s1 : TEX_Shared)
    (h : tex_texture_from_key_hash_topology s scope key hash top now_us =
      some (handle, scope1, s1)) : s1.slots_count = s.slots_count :=
  tex_texture_induction (fun st => st.slots_count = s.slots_count)
    (fun _ _ _ _ _ hP => hP)
    (fun st h t hP => (tex_insert_if_absent_slots_count st h t).trans hP)
    (fun st k h t e n g s1 hP he => (tex_u2x_enqueue_req_fields st s1 k h t e n g he).2.1.trans hP)
    s scope key hash top now_us handle scope1 s1 rfl h

theorem tex_xfer_iteration_slots_count (s : TEX_Shared) (bpp : Nat → Nat) (data_size : Nat)
    (alloc_result : R_Handle) (s1 : TEX_Shared)
    (h : tex_xfer_thread__iteration s bpp data_size alloc_result = some s1) :
    s1.slots_count = s.slots_count :=
  tex_xfer_induction (fun st => st.slots_count = s.slots_count)
    (fun st k h t s1 hP hd => (tex_u2x_dequeue_req_fields st s1 k h t hd).2.1.trans hP)
    (fun _ _ _ hP => hP)
    (fun st bpp g t d a hP => (tex_xfer_alloc_table st bpp g t d a).2.1.trans hP)
    (fun _ _ _ _ hP => hP)
    (fun _ _ _ hP => hP)
    s bpp data_size alloc_result s1 rfl h

theorem tex_scope_close_slots_count (s : TEX_Shared) (scope : TEX_Scope) :
    (tex_scope_close s scope).slots_count = s.slots_count :=
  tex_scope_close_induction (fun st => st.slots_count = s.slots_count)
    (fun _ _ _ hP => hP) s scope rfl

/-- A run of one reader keeps homing, uniqueness and the slot count. -/
theorem tex_scope_run_table (acts : List TEX_ScopeAction) :
    ∀ (s : TEX_Shared) (scope scope1 : TEX_Scope) (s1 : TEX_Shared),
      tex_homed s → tex_unique s → tex_scope_run s scope acts = some (scope1, s1) →
      tex_homed s1 ∧ tex_unique s1 ∧ s1.slots_count = s.slots_count := by
  induction acts with
  | nil =>
    intro s scope scope1 s1 hh hu h
    simp only [tex_scope_run, Option.some.injEq, Prod.mk.injEq] at h
    rw [← h.2]; exact ⟨hh, hu, rfl⟩
  | cons a rest ih =>
    intro s scope scope1 s1 hh hu h
    cases a with
    | lookup key hash top now_us =>
      simp only [tex_scope_run] at h
      cases hc : tex_texture_from_key_hash_topology s scope key hash top now_us with
      | none => simp [hc] at h
      | some res =>
        obtain ⟨hd, sc2, s2⟩ := res
        simp only [hc] at h
        have := ih s2 sc2 scope1 s1 (tex_texture_homed _ _ _ _ _ _ _ _ _ hh hc)
          (tex_texture_unique _ _ _ _ _ _ _ _ _ hu hc) h
        exact ⟨this.1, this.2.1, this.2.2.trans (tex_texture_slots_count _ _ _ _ _ _ _ _ _ hc)⟩
    | work bpp d a =>
      simp only [tex_scope_run] at h
      cases hc : tex_xfer_thread__iteration s bpp d a with
      | none =>
        simp only [hc] at h
        exact ih s scope scope1 s1 hh hu h
      | some s2 =>
        simp only [hc] at h
        have := ih s2 scope scope1 s1 (tex_xfer_iteration_homed _ _ _ _ _ hh hc)
          (tex_xfer_iteration_unique _ _ _ _ _ hu hc) h
        exact ⟨this.1, this.2.1, this.2.2.trans (tex_xfer_iteration_slots_count _ _ _ _ _ hc)⟩
    | tick =>
      simp only [tex_scope_run] at h
      exact ih (tex_user_clock_tick s) scope scope1 s1 hh hu h

/-! ## Lemmas: pin counts stay in range; the sample state -/

theorem ins_atomic_u64_dec_lt (x : Nat) (h : x < 2 ^ 64) : ins_atomic_u64_dec_eval x < 2 ^ 64 := by
  unfold ins_atomic_u64_dec_eval
  split <;> omega

theorem tex_update_node_refs_wf (s : TEX_Shared) (hash : U128) (top : TEX_Topology)
    (f : TEX_Node → TEX_Node) (hf : ∀ n, n.scope_ref_count < 2 ^ 64 → (f n).scope_ref_count < 2 ^ 64)
    (hw : tex_refs_wf s) : tex_refs_wf (tex_update_node s hash top f) := by
  intro i n hn
  rw [tex_update_node_slots] at hn
  split at hn
  · rcases chain_update_first_mem _ _ _ _ hn with h | ⟨a, ha, _, hx⟩
    · exact hw _ n h
    · rw [hx]; exact hf a (hw _ a ha)
  · exact hw i n hn

theorem tex_refs_wf_of_slots (s s1 : TEX_Shared) (h : s1.slots = s.slots) (hw : tex_refs_wf s) :
    tex_refs_wf s1 := by
  unfold tex_refs_wf; rw [h]; exact hw

theorem tex_insert_if_absent_refs_wf (s : TEX_Shared) (hash : U128) (top : TEX_Topology)
    (hw : tex_refs_wf s) : tex_refs_wf (tex_insert_if_absent s hash top).2 := by
  rw [tex_insert_if_absent_eq]
  cases hn : tex_node_of s hash top with
  | some n => exact hw
  | none =>
    intro i n hmem
    simp only [Function.update_apply] at hmem
    split at hmem
    · rcases List.mem_append.mp hmem with h | h
      · exact hw _ n h
      · simp only [List.mem_singleton] at h
        rw [h]
        show (0 : Nat) < 2 ^ 64
        norm_num
    · exact hw i n hmem

theorem tex_texture_refs_wf (s : TEX_Shared) (scope : TEX_Scope) (key hash : U128)
    (top : TEX_Topology) (now_us : Nat) (handle : R_Handle) (scope1 : TEX_Scope)
    (s1 : TEX_Shared) (hw : tex_refs_wf s)
    (h : tex_texture_from_key_hash_topology s scope key hash top now_us =
      some (handle, scope1, s1)) : tex_refs_wf s1 :=
  tex_texture_induction tex_refs_wf
    (fun s h t now clk hP => tex_update_node_refs_wf s h t _
      (fun n _ => by simp only [tex_touch_node]; exact ins_atomic_u64_inc_lt _) hP)
    (fun s h t hP => tex_insert_if_absent_refs_wf s h t hP)
    (fun s k h t e n g s1 hP he =>
      tex_refs_wf_of_slots s s1 (tex_u2x_enqueue_req_fields s s1 k h t e n g he).1 hP)
    s scope key hash top now_us handle scope1 s1 hw h

theorem tex_xfer_iteration_refs_wf (s : TEX_Shared) (bpp : Nat → Nat) (data_size : Nat)
    (alloc_result : R_Handle) (s1 : TEX_Shared) (hw : tex_refs_wf s)
    (h : tex_xfer_thread__iteration s bpp data_size alloc_result = some s1) : tex_refs_wf s1 :=
  tex_xfer_induction tex_refs_wf
    (fun s k h t s1 hP hd =>
      tex_refs_wf_of_slots s s1 (tex_u2x_dequeue_req_fields s s1 k h t hd).1 hP)
    (fun s h t hP => tex_update_node_refs_wf s h t _
      (fun n hn => by rw [tex_node_claim_ref]; exact hn) hP)
    (fun s bpp g t d a hP => tex_refs_wf_of_slots s _ (tex_xfer_alloc_table s bpp g t d a).1 hP)
    (fun s h t tex hP => tex_update_node_refs_wf s h t _
      (fun n hn => by rw [tex_node_commit_ref]; exact hn) hP)
    (fun s k h hP => tex_refs_wf_of_slots s _ (tex_xfer_fallback_commit_slots s k h).1 hP)
    s bpp data_size alloc_result s1 hw h

theorem tex_scope_run_refs_wf (acts : List TEX_ScopeAction) :
    ∀ (s : TEX_Shared) (scope scope1 : TEX_Scope) (s1 : TEX_Shared),
      tex_refs_wf s → tex_scope_run s scope acts = some (scope1, s1) → tex_refs_wf s1 := by
  induction acts with
  | nil =>
    intro s scope scope1 s1 hw h
    simp only [tex_scope_run, Option.some.injEq, Prod.mk.injEq] at h
    rw [← h.2]; exact hw
  | cons a rest ih =>
    intro s scope scope1 s1 hw h
    cases a with
    | lookup key hash top now_us =>
      simp only [tex_scope_run] at h
      cases hc : tex_texture_from_key_hash_topology s scope key hash top now_us with
      | none => simp [hc] at h
      | some res =>
        obtain ⟨hd, sc2, s2⟩ := res
        simp only [hc] at h
        exact ih s2 sc2 scope1 s1 (tex_texture_refs_wf _ _ _ _ _ _ _ _ _ hw hc) h
    | work bpp d a =>
      simp only [tex_scope_run] at h
      cases hc : tex_xfer_thread__iteration s bpp d a with
      | none =>
        simp only [hc] at h
        exact ih s scope scope1 s1 hw h
      | some s2 =>
        simp only [hc] at h
        exact ih s2 scope scope1 s1 (tex_xfer_iteration_refs_wf _ _ _ _ _ hw hc) h
    | tick =>
      simp only [tex_scope_run] at h
      exact ih (tex_user_clock_tick s) scope scope1 s1 hw h

theorem tex_init_refs_wf (c : Nat) (mem : Nat → Nat) : tex_refs_wf (tex_init c mem) := by
  intro i n hn
  simp [tex_init] at hn

/-- The sample run returns, leaving the sample scope and state. -/
theorem tex_example_run :
    tex_scope_run (tex_init 8 (fun _ => 0)) tex_scope_open tex_example_acts =
      some (tex_example_scope, tex_example_state) := by
  unfold tex_example_scope tex_example_state
  cases h : tex_scope_run (tex_init 8 (fun _ => 0)) tex_scope_open tex_example_acts with
  | some r => rfl
  | none =>
    have : (tex_scope_run (tex_init 8 (fun _ => 0)) tex_scope_open tex_example_acts).isSome =
        true := by decide!
    rw [h] at this
    cases this

/-- The sample state is homed, without duplicates, with 64-bit pin counts. -/
theorem tex_example_state_table :
    tex_homed tex_example_state ∧ tex_unique tex_example_state ∧
      tex_refs_wf tex_example_state :=
  ⟨(tex_scope_run_table _ _ _ _ _ (tex_init_homed_unique _ _).1 (tex_init_homed_unique _ _).2
      tex_example_run).1,
   (tex_scope_run_table _ _ _ _ _ (tex_init_homed_unique _ _).1 (tex_init_homed_unique _ _).2
      tex_example_run).2.1,
   tex_scope_run_refs_wf _ _ _ _ _ (tex_init_refs_wf _ _) tex_example_run⟩

/-! ## The ring invariant -/

/-! ### The ring invariant along the steps -/

theorem tex_node_of_update (s : TEX_Shared) (hash h1 : U128) (top t1 : TEX_Topology)
    (f : TEX_Node → TEX_Node) (hf : ∀ n, tex_node_id (f n) = tex_node_id n) :
    tex_node_of (tex_update_node s hash top f) h1 t1 =
      if (h1, t1) = (hash, top) then (tex_node_of s h1 t1).map f else tex_node_of s h1 t1 := by
  by_cases h : (h1, t1) = (hash, top)
  · rw [if_pos h]
    obtain ⟨e1, e2⟩ := Prod.mk.inj h
    subst e1; subst e2
    exact tex_node_of_update_same s h1 t1 f hf
  · rw [if_neg h]
    exact tex_node_of_update_other s hash h1 top t1 f hf h

/-- The ring invariant reads the table only through the nodes found by
identity, and the ring through its four fields. -/
theorem tex_ring_inv_congr (s s1 : TEX_Shared)
    (hring : s1.u2x_ring_size = s.u2x_ring_size ∧ s1.u2x_ring_base = s.u2x_ring_base ∧
      s1.u2x_ring_write_pos = s.u2x_ring_write_pos ∧
      s1.u2x_ring_read_pos = s.u2x_ring_read_pos)
    (hnode : ∀ h t n, tex_node_of s h t = some n → n.load_count = 0 → n.is_working = 0 →
      ∃ m, tex_node_of s1 h t = some m ∧ m.load_count = 0 ∧ m.is_working = 0)
    (hi : tex_ring_inv s) : tex_ring_inv s1 := by
  obtain ⟨hwf, pending, hh, hp, hnd⟩ := hi
  have hc := u2x_ring_congr s s1 hring pending
  refine ⟨hc.1.mpr hwf, pending, hc.2.1.mpr hh, ?_, hnd⟩
  intro r hr
  obtain ⟨hrw, n, hn, hl, hw⟩ := hp r hr
  exact ⟨hrw, hnode _ _ n hn hl hw⟩

theorem tex_ring_inv_update (s : TEX_Shared) (hash : U128) (top : TEX_Topology)
    (f : TEX_Node → TEX_Node) (hf : ∀ n, tex_node_id (f n) = tex_node_id n)
    (hl : ∀ n, (f n).load_count = n.load_count) (hw : ∀ n, (f n).is_working = n.is_working)
    (hi : tex_ring_inv s) : tex_ring_inv (tex_update_node s hash top f) := by
  apply tex_ring_inv_congr s _ (tex_update_node_ring s hash top f) _ hi
  intro h t n hn h1 h2
  rw [tex_node_of_update s hash h top t f hf]
  split
  · exact ⟨f n, by rw [hn]; rfl, by rw [hl]; exact h1, by rw [hw]; exact h2⟩
  · exact ⟨n, hn, h1, h2⟩

theorem tex_ring_inv_insert (s : TEX_Shared) (hash : U128) (top : TEX_Topology)
    (hi : tex_ring_inv s) : tex_ring_inv (tex_insert_if_absent s hash top).2 := by
  have hring : (tex_insert_if_absent s hash top).2.u2x_ring_size = s.u2x_ring_size ∧
      (tex_insert_if_absent s hash top).2.u2x_ring_base = s.u2x_ring_base ∧
      (tex_insert_if_absent s hash top).2.u2x_ring_write_pos = s.u2x_ring_write_pos ∧
      (tex_insert_if_absent s hash top).2.u2x_ring_read_pos = s.u2x_ring_read_pos := by
    rw [tex_insert_if_absent_eq]
    cases tex_node_of s hash top <;> exact ⟨rfl, rfl, rfl, rfl⟩
  apply tex_ring_inv_congr s _ hring _ hi
  intro h t n hn h1 h2
  by_cases hid : (h, t) = (hash, top)
  · obtain ⟨e1, e2⟩ := Prod.mk.inj hid
    subst e1; subst e2
    refine ⟨n, ?_, h1, h2⟩
    rw [tex_insert_if_absent_eq, hn]
    exact hn
  · rw [tex_insert_if_absent_node_other _ _ _ _ _ hid]
    exact ⟨n, hn, h1, h2⟩

theorem tex_touch_node_load (now clk : Nat) (n : TEX_Node) :
    (tex_touch_node now clk n).load_count = n.load_count ∧
    (tex_touch_node now clk n).is_working = n.is_working ∧
    (tex_touch_node now clk n).texture = n.texture := by
  simp only [tex_touch_node, and_self]

theorem tex_unpin_node_load (n : TEX_Node) :
    (tex_unpin_node n).load_count = n.load_count ∧
    (tex_unpin_node n).is_working = n.is_working ∧
    (tex_unpin_node n).texture = n.texture := by
  simp only [tex_unpin_node, and_self]

/-- The state after a miss keeps the ring invariant: the new request names the
new node. -/
theorem tex_ring_inv_after_miss (s : TEX_Shared) (key hash : U128) (top : TEX_Topology)
    (hk : key.wf) (hh : hash.wf) (ht : top.wf) (hn : tex_node_of s hash top = none)
    (hroom : u2x_unconsumed_size s + 40 ≤ s.u2x_ring_size) (hi : tex_ring_inv s) :
    tex_ring_inv (tex_after_miss s key hash top) := by
  obtain ⟨hwf, pending, hhold, hp, hnd⟩ := hi
  have hsz := u2x_ring_holds_size s pending hhold
  have hr := tex_after_miss_ring s key hash top pending hwf hhold (by omega)
  have hnot : ∀ r ∈ pending, (r.hash, r.top) ≠ (hash, top) := by
    intro r hr heq
    obtain ⟨_, n, hnode, _, _⟩ := hp r hr
    obtain ⟨e1, e2⟩ := Prod.mk.inj heq
    rw [e1, e2, hn] at hnode
    cases hnode
  refine ⟨hr.1, pending ++ [⟨key, hash, top⟩], hr.2, ?_, ?_⟩
  · intro r hr
    rcases List.mem_append.mp hr with h | h
    · obtain ⟨hrw, n, hnode, h1, h2⟩ := hp r h
      refine ⟨hrw, n, ?_, h1, h2⟩
      rw [tex_after_miss_node_other _ _ _ _ _ _ (hnot r h)]
      exact hnode
    · simp only [List.mem_singleton] at h
      subst h
      exact ⟨⟨hk, hh, ht⟩, tex_node_fresh hash top, tex_after_miss_node s key hash top hn,
        rfl, rfl⟩
  · rw [List.map_append, List.nodup_append]
    refine ⟨hnd, by simp, ?_⟩
    intro a ha hb
    simp only [List.map_cons, List.map_nil, List.mem_singleton] at hb
    subst hb
    obtain ⟨r, hr, hid⟩ := List.mem_map.mp ha
    exact hnot r hr hid

/-! ## The lookup by cases of the ring -/

/-- A lookup that finds no node while the ring has no room: the call parks
unless the clock has reached the deadline `max_U64`, in which case the node
stays linked without a request. -/
theorem tex_texture_miss_full (s : TEX_Shared) (scope : TEX_Scope) (key hash : U128)
    (topology : TEX_Topology) (now_us : Nat) (hh : hash ≠ u128_zero)
    (hn : tex_node_of s hash topology = none) (hwf : u2x_ring_wf s)
    (hfull : s.u2x_ring_size < u2x_unconsumed_size s + 40) :
    tex_texture_from_key_hash_topology s scope key hash topology now_us =
      if now_us ≥ max_U64 then
        some (tex_lookup_fallback (tex_insert_if_absent s hash topology).2 scope key topology
          r_handle_zero now_us)
      else none := by
  have h0 : u128_match u128_zero hash = false := by
    rw [← Bool.not_eq_true, u128_match_zero_iff]; exact hh
  have h1 : r_handle_match r_handle_zero r_handle_zero = true := by
    rw [r_handle_match_iff]
  have henq := tex_u2x_enqueue_req_full
    { s with
      stripes_free_nodes :=
        Function.update s.stripes_free_nodes (tex_slot_idx s hash % s.stripes_count)
          (s.stripes_free_nodes (tex_slot_idx s hash % s.stripes_count)).tail
      slots := Function.update s.slots (tex_slot_idx s hash)
        (s.slots (tex_slot_idx s hash) ++
          [tex_node_fresh hash topology]) }
    key hash topology max_U64 now_us hwf hfull
  simp only at henq
  simp only [tex_texture_from_key_hash_topology, h0, Bool.false_eq_true, if_false,
    tex_lookup_touch_eq, hn, Option.getD_none, h1, Bool.not_true, Bool.not_false, if_true,
    tex_insert_if_absent_eq, henq]
  by_cases hc : now_us ≥ max_U64
  · simp only [hc, if_true, Option.map_some']
  · simp only [hc, if_false, Option.map_none']

/-- The shared state a lookup leaves, by cases. -/
theorem tex_texture_state (s : TEX_Shared) (scope : TEX_Scope) (key hash : U128)
    (top : TEX_Topology) (now_us : Nat) (handle : R_Handle) (scope1 : TEX_Scope)
    (s1 : TEX_Shared) (hwf : u2x_ring_wf s)
    (h : tex_texture_from_key_hash_topology s scope key hash top now_us =
      some (handle, scope1, s1)) :
    (hash = u128_zero ∧ s1 = s) ∨
    (hash ≠ u128_zero ∧ ∃ sm,
      ((∃ n, tex_node_of s hash top = some n ∧
          sm = tex_update_node s hash top (tex_touch_node now_us s.user_clock_idx)) ∨
       (tex_node_of s hash top = none ∧ u2x_unconsumed_size s + 40 ≤ s.u2x_ring_size ∧
          sm = tex_after_miss s key hash top) ∨
       (tex_node_of s hash top = none ∧ s.u2x_ring_size < u2x_unconsumed_size s + 40 ∧
          max_U64 ≤ now_us ∧ sm = (tex_insert_if_absent s hash top).2)) ∧
      (s1 = sm ∨ s1 = tex_update_node sm (tex_fallback_hash sm key) top
        (tex_touch_node now_us sm.user_clock_idx))) := by
  by_cases hh : hash = u128_zero
  · left
    refine ⟨hh, ?_⟩
    have h0 : u128_match u128_zero hash = true := by
      rw [u128_match_iff]; exact hh.symm
    unfold tex_texture_from_key_hash_topology at h
    rw [if_pos h0] at h
    cases h
    rfl
  · right
    refine ⟨hh, ?_⟩
    cases hn : tex_node_of s hash top with
    | some n =>
      refine ⟨_, Or.inl ⟨n, rfl, rfl⟩, ?_⟩
      by_cases ht : n.texture = r_handle_zero
      · rw [tex_texture_pending s scope key hash top now_us n hh hn ht] at h
        have h2 := congrArg (fun x => x.2.2) (Option.some.inj h)
        simp only at h2
        rw [← h2]
        exact tex_lookup_fallback_state _ _ _ _ _ _
      · rw [tex_texture_hit s scope key hash top now_us n hh hn ht] at h
        left
        have h2 := congrArg (fun x => x.2.2) (Option.some.inj h)
        exact h2.symm
    | none =>
      by_cases hroom : u2x_unconsumed_size s + 40 ≤ s.u2x_ring_size
      · refine ⟨_, Or.inr (Or.inl ⟨rfl, hroom, rfl⟩), ?_⟩
        rw [tex_texture_miss s scope key hash top now_us hh hn hwf hroom] at h
        have h2 := congrArg (fun x => x.2.2) (Option.some.inj h)
        simp only at h2
        rw [← h2]
        exact tex_lookup_fallback_state _ _ _ _ _ _
      · rw [tex_texture_miss_full s scope key hash top now_us hh hn hwf (by omega)] at h
        by_cases hc : now_us ≥ max_U64
        · rw [if_pos hc] at h
          refine ⟨_, Or.inr (Or.inr ⟨rfl, by omega, hc, rfl⟩), ?_⟩
          have h2 := congrArg (fun x => x.2.2) (Option.some.inj h)
          simp only at h2
          rw [← h2]
          exact tex_lookup_fallback_state _ _ _ _ _ _
        · rw [if_neg hc] at h
          cases h

/-- A lookup with well-formed arguments keeps the ring invariant. -/
theorem tex_texture_ring_inv (s : TEX_Shared) (scope : TEX_Scope) (key hash : U128)
    (top : TEX_Topology) (now_us : Nat) (handle : R_Handle) (scope1 : TEX_Scope)
    (s1 : TEX_Shared) (hk : key.wf) (hhw : hash.wf) (ht : top.wf) (hi : tex_ring_inv s)
    (h : tex_texture_from_key_hash_topology s scope key hash top now_us =
      some (handle, scope1, s1)) : tex_ring_inv s1 := by
  have htouch : ∀ (s : TEX_Shared) h t now clk, tex_ring_inv s →
      tex_ring_inv (tex_update_node s h t (tex_touch_node now clk)) := fun s h t now clk hi =>
    tex_ring_inv_update s h t _ (tex_node_id_touch _ _) (fun n => (tex_touch_node_load _ _ n).1)
      (fun n => (tex_touch_node_load _ _ n).2.1) hi
  rcases tex_texture_state s scope key hash top now_us handle scope1 s1 hi.1 h with
    ⟨_, hs⟩ | ⟨_, sm, hsm, hs1⟩
  · rw [hs]; exact hi
  · have hm : tex_ring_inv sm := by
      rcases hsm with ⟨n, _, e⟩ | ⟨hn, hroom, e⟩ | ⟨_, _, _, e⟩
      · rw [e]; exact htouch _ _ _ _ _ hi
      · rw [e]; exact tex_ring_inv_after_miss s key hash top hk hhw ht hn hroom hi
      · rw [e]; exact tex_ring_inv_insert s hash top hi
    rcases hs1 with e | e
    · rw [e]; exact hm
    · rw [e]; exact htouch _ _ _ _ _ hm

/-- A worker iteration that returns consumed the oldest waiting request and
built its node; the ring invariant is kept. -/
theorem tex_xfer_iteration_ring_inv (s : TEX_Shared) (bpp : Nat → Nat)
    (data_size : Nat) (alloc_result : R_Handle) (s1 : TEX_Shared) (hi : tex_ring_inv s)
    (h : tex_xfer_thread__iteration s bpp data_size alloc_result = some s1) :
    tex_ring_inv s1 := by
  obtain ⟨hwf, pending, hh, hp, hnd⟩ := hi
  cases pending with
  | nil =>
    have := u2x_dequeue_empty s hh
    unfold tex_xfer_thread__iteration at h
    rw [this] at h
    cases h
  | cons r rs =>
    obtain ⟨hrw, n, hn, hl, hw⟩ := hp r (List.mem_cons_self _ _)
    obtain ⟨s2, h2, hwf2, hh2, _, hoth, _⟩ :=
      tex_xfer_iteration_build s bpp data_size alloc_result r rs n hwf hh hrw hn hw
    rw [h2] at h
    cases h
    rw [List.map_cons, List.nodup_cons] at hnd
    refine ⟨hwf2, rs, hh2, ?_, hnd.2⟩
    intro r1 hr1
    obtain ⟨hrw1, n1, hn1, hl1, hw1⟩ := hp r1 (List.mem_cons_of_mem _ hr1)
    refine ⟨hrw1, n1, ?_, hl1, hw1⟩
    rw [hoth r1.hash r1.top]
    · exact hn1
    · intro heq
      exact hnd.1 (List.mem_map.mpr ⟨r1, hr1, heq⟩)

/-! ### The worker iteration in closed form -/

theorem tex_init_ring (c : Nat) (mem : Nat → Nat) :
    u2x_ring_wf (tex_init c mem) ∧ u2x_ring_holds (tex_init c mem) [] ∧
      u2x_unconsumed_size (tex_init c mem) = 0 := by
  have hwf : u2x_ring_wf (tex_init c mem) := by
    unfold u2x_ring_wf u2x_unconsumed_size tex_init KB
    simp only
    refine ⟨by norm_num, by norm_num, ?_, by norm_num, by norm_num, by norm_num⟩
    exact ⟨2 ^ 48, by norm_num⟩
  have hsz : u2x_unconsumed_size (tex_init c mem) = 0 := by
    unfold u2x_unconsumed_size tex_init
    simp only
    norm_num
  exact ⟨hwf, u2x_ring_holds_nil _ rfl, hsz⟩

/-- The state of `tex_init` after one miss: the ring holds the one request and
the fresh node is linked. -/
theorem tex_init_after_miss (c : Nat) (mem : Nat → Nat) (key hash : U128) (top : TEX_Topology) :
    u2x_ring_wf (tex_after_miss (tex_init c mem) key hash top) ∧
    u2x_ring_holds (tex_after_miss (tex_init c mem) key hash top) [⟨key, hash, top⟩] ∧
    tex_node_of (tex_after_miss (tex_init c mem) key hash top) hash top =
      some (tex_node_fresh hash top) := by
  obtain ⟨hwf, hh, _⟩ := tex_init_ring c mem
  have h := tex_after_miss_ring (tex_init c mem) key hash top [] hwf hh
    (by simp [tex_init, KB])
  exact ⟨h.1, h.2, tex_after_miss_node _ _ _ _ (tex_node_of_nil _ _ _ rfl)⟩

/-- A worker iteration on a ring whose oldest request is `r` processes `r` on
the state with the read position advanced. -/
theorem tex_xfer_iteration_dequeue (s : TEX_Shared) (bpp : Nat → Nat) (data_size : Nat)
    (alloc_result : R_Handle) (r : TEX_Request) (rs : List TEX_Request)
    (hwf : u2x_ring_wf s) (hh : u2x_ring_holds s (r :: rs)) (hr : r.wf) :
    tex_xfer_thread__iteration s bpp data_size alloc_result =
      some (tex_xfer_process
        { s with u2x_ring_read_pos := (s.u2x_ring_read_pos + 40) % 2 ^ 64 }
        bpp r.key r.hash r.top data_size alloc_result) := by
  obtain ⟨sd, hdq, _, _, hsd⟩ := u2x_dequeue_holds s rs r hwf hh hr
  simp only [tex_xfer_thread__iteration, hdq, hsd]

/-- A worker iteration whose request names no node, or a node that is being
built, only consumes the request. -/
theorem tex_xfer_iteration_no_task (s : TEX_Shared) (bpp : Nat → Nat) (data_size : Nat)
    (alloc_result : R_Handle) (r : TEX_Request) (rs : List TEX_Request)
    (hwf : u2x_ring_wf s) (hh : u2x_ring_holds s (r :: rs)) (hr : r.wf)
    (hn : ∀ n, tex_node_of s r.hash r.top = some n → n.is_working ≠ 0) :
    tex_xfer_thread__iteration s bpp data_size alloc_result =
      some { s with u2x_ring_read_pos := (s.u2x_ring_read_pos + 40) % 2 ^ 64 } := by
  rw [tex_xfer_iteration_dequeue s bpp data_size alloc_result r rs hwf hh hr,
    tex_xfer_process_no_task]
  intro n h
  exact hn n h

/-- The backend calls of a worker iteration that builds its node. -/
theorem tex_xfer_iteration_logs (s : TEX_Shared) (bpp : Nat → Nat) (data_size : Nat)
    (alloc_result : R_Handle) (r : TEX_Request) (rs : List TEX_Request) (n : TEX_Node)
    (hwf : u2x_ring_wf s) (hh : u2x_ring_holds s (r :: rs)) (hr : r.wf)
    (hn : tex_node_of s r.hash r.top = some n) (hidle : n.is_working = 0) :
    ∃ s1, tex_xfer_thread__iteration s bpp data_size alloc_result = some s1 ∧
      s1.r_tex2d_alloc_log =
        (if tex_xfer_alloc_guard bpp true r.top data_size then
          s.r_tex2d_alloc_log ++ [⟨r.top.dim_x, r.top.dim_y, r.top.fmt, alloc_result⟩]
        else s.r_tex2d_alloc_log) ∧
      (∀ i, (s1.slots i).length = (s.slots i).length) ∧
      s1.fallback_slots =
        (tex_xfer_fallback_part s r.key r.hash).fallback_slots := by
  have hnd : tex_node_of { s with u2x_ring_read_pos := (s.u2x_ring_read_pos + 40) % 2 ^ 64 }
      r.hash r.top = some n := hn
  have hp := tex_xfer_process_task _ bpp r.key r.hash r.top data_size alloc_result n hnd hidle
  have e : (tex_xfer_alloc { s with u2x_ring_read_pos := (s.u2x_ring_read_pos + 40) % 2 ^ 64 }
      bpp true r.top data_size alloc_result).2.slots = s.slots :=
    (tex_xfer_alloc_table ..).1
  have e1 : (tex_xfer_alloc { s with u2x_ring_read_pos := (s.u2x_ring_read_pos + 40) % 2 ^ 64 }
      bpp true r.top data_size alloc_result).2.fallback_slots = s.fallback_slots :=
    (tex_xfer_alloc_table ..).2.2.2.2.1
  have e2 : (tex_xfer_alloc { s with u2x_ring_read_pos := (s.u2x_ring_read_pos + 40) % 2 ^ 64 }
      bpp true r.top data_size alloc_result).2.fallback_slots_count = s.fallback_slots_count :=
    (tex_xfer_alloc_table ..).2.2.2.2.2.1
  have e3 : (tex_xfer_alloc { s with u2x_ring_read_pos := (s.u2x_ring_read_pos + 40) % 2 ^ 64 }
      bpp true r.top data_size alloc_result).2.slots_count = s.slots_count :=
    (tex_xfer_alloc_table ..).2.1
  refine ⟨_, tex_xfer_iteration_dequeue s bpp data_size alloc_result r rs hwf hh hr, ?_, ?_, ?_⟩
  · rw [hp, tex_xfer_fallback_part_alloc_log]
    show (tex_xfer_alloc _ bpp true r.top data_size alloc_result).2.r_tex2d_alloc_log = _
    rw [tex_xfer_alloc_log]
  · intro i
    rw [hp, tex_xfer_fallback_part_slots, tex_update_node_slots]
    split
    · rw [chain_update_first_length, e]
      rename_i hi
      rw [hi]
    · rw [e]
  · rw [hp]
    unfold tex_xfer_fallback_part
    split
    · unfold tex_xfer_fallback_commit tex_update_node
      simp only [e1, e2]
    · unfold tex_update_node
      simp only [e1]

/-! ## Lemmas: the fallback table -/

theorem chain_update_first_filter {α : Type} (p q : α → Bool) (f : α → α) (l : List α)
    (h : ∀ a, p a = true → q a = false ∧ q (f a) = false) :
    (chain_update_first p f l).filter q = l.filter q := by
  induction l with
  | nil => rfl
  | cons a l ih =>
    simp only [chain_update_first]
    by_cases hp : p a = true
    · simp only [hp, if_true, List.filter_cons, (h a hp).1, (h a hp).2, Bool.false_eq_true,
        if_false]
    · simp only [Bool.not_eq_true] at hp
      simp only [hp, Bool.false_eq_true, if_false, List.filter_cons, ih]

theorem chain_update_first_map_of {α β : Type} (p : α → Bool) (f : α → α) (g : α → β)
    (l : List α) (hg : ∀ a, p a = true → g (f a) = g a) :
    (chain_update_first p f l).map g = l.map g := by
  induction l with
  | nil => rfl
  | cons a l ih =>
    simp only [chain_update_first]
    by_cases hp : p a = true
    · simp only [hp, if_true, List.map_cons, hg a hp]
    · simp only [Bool.not_eq_true] at hp
      simp only [hp, Bool.false_eq_true, if_false, List.map_cons, ih]

/-- The fallback update written on the chain of the key's slot. -/
theorem tex_xfer_fallback_commit_chain (s : TEX_Shared) (key hash : U128) (i : Nat) :
    (tex_xfer_fallback_commit s key hash).fallback_slots i =
      if i = key.u64_1 % s.fallback_slots_count then
        match (s.fallback_slots i).find? (fun n => u128_match n.key key) with
        | some _ =>
          chain_update_first (fun n => u128_match n.key key)
            (fun _ => { key := key, hash := hash }) (s.fallback_slots i)
        | none => s.fallback_slots i ++ [{ key := key, hash := hash }]
      else s.fallback_slots i := by
  unfold tex_xfer_fallback_commit
  simp only [Function.update_apply]
  split
  · rename_i hi
    subst hi
    rfl
  · rfl

theorem tex_xfer_fallback_commit_count (s : TEX_Shared) (key hash : U128) :
    (tex_xfer_fallback_commit s key hash).fallback_slots_count = s.fallback_slots_count := rfl

/-- The nodes of other keys are left as they were, in their order. -/
theorem tex_xfer_fallback_commit_others (s : TEX_Shared) (key hash : U128) (i : Nat) :
    ((tex_xfer_fallback_commit s key hash).fallback_slots i).filter
        (fun n => decide (n.key ≠ key)) =
      (s.fallback_slots i).filter (fun n => decide (n.key ≠ key)) := by
  rw [tex_xfer_fallback_commit_chain]
  split
  · split
    · apply chain_update_first_filter
      intro a ha
      rw [u128_match_iff] at ha
      simp [ha]
    · simp
  · rfl

/-- In a chain without duplicate keys, the key's node is the only node with the
key after the update, and it carries the hash. -/
theorem tex_xfer_fallback_commit_one (s : TEX_Shared) (key hash : U128)
    (hnd : ((s.fallback_slots (key.u64_1 % s.fallback_slots_count)).map
      (fun n => n.key)).Nodup) :
    ((tex_xfer_fallback_commit s key hash).fallback_slots
        (key.u64_1 % s.fallback_slots_count)).filter (fun n => decide (n.key = key)) =
      [{ key := key, hash := hash }] := by
  rw [tex_xfer_fallback_commit_chain, if_pos rfl]
  generalize s.fallback_slots (key.u64_1 % s.fallback_slots_count) = l at hnd
  induction l with
  | nil => simp
  | cons a l ih =>
    rw [List.map_cons, List.nodup_cons] at hnd
    by_cases ha : a.key = key
    · have hm : u128_match a.key key = true := by rw [u128_match_iff]; exact ha
      simp only [List.find?_cons, hm, chain_update_first, if_true, List.filter_cons,
        decide_True]
      congr 1
      rw [List.filter_eq_nil_iff]
      intro b hb
      simp only [decide_eq_true_eq]
      intro hbk
      exact hnd.1 (List.mem_map.mpr ⟨b, hb, by rw [hbk, ha]⟩)
    · have hm : u128_match a.key key = false := by
        rw [← Bool.not_eq_true, u128_match_iff]; exact ha
      have ih1 := ih hnd.2
      simp only [List.find?_cons, hm]
      cases hf : l.find? (fun n => u128_match n.key key) with
      | none =>
        rw [hf] at ih1
        simp only at ih1 ⊢
        rw [List.cons_append, List.filter_cons, if_neg (by simpa using ha)]
        exact ih1
      | some m =>
        rw [hf] at ih1
        simp only at ih1 ⊢
        simp only [chain_update_first, hm, Bool.false_eq_true, if_false]
        rw [List.filter_cons, if_neg (by simpa using ha)]
        exact ih1

/-- Repeating a fallback update changes nothing. -/
theorem tex_xfer_fallback_commit_idem (s : TEX_Shared) (key hash : U128) :
    (tex_xfer_fallback_commit (tex_xfer_fallback_commit s key hash) key hash).fallback_slots =
      (tex_xfer_fallback_commit s key hash).fallback_slots := by
  funext i
  rw [tex_xfer_fallback_commit_chain (tex_xfer_fallback_commit s key hash)]
  rw [tex_xfer_fallback_commit_count]
  split
  · rename_i hi
    have hm : u128_match ({ key := key, hash := hash } : TEX_KeyFallbackNode).key key = true := by
      rw [u128_match_iff]
    have hfind : ((tex_xfer_fallback_commit s key hash).fallback_slots i).find?
        (fun n => u128_match n.key key) = some { key := key, hash := hash } := by
      rw [tex_xfer_fallback_commit_chain, if_pos hi]
      cases hf : (s.fallback_slots i).find? (fun n => u128_match n.key key) with
      | none =>
        simp only
        rw [List.find?_append, hf]
        simp [hm]
      | some m =>
        simp only
        exact chain_update_first_find_hit _ _ _ m hf hm
    rw [hfind]
    simp only
    apply chain_update_first_fix
    intro n hn
    rw [hfind] at hn
    cases hn
    rfl
  · rfl

/-- The fallback update with a non-zero key and hash keeps the table well
formed. -/
theorem tex_xfer_fallback_commit_wf (s : TEX_Shared) (key hash : U128)
    (hk : key ≠ u128_zero) (hh : hash ≠ u128_zero) (hwf : tex_fallback_wf s) :
    tex_fallback_wf (tex_xfer_fallback_commit s key hash) := by
  intro i
  rw [tex_xfer_fallback_commit_chain]
  split
  · cases hf : (s.fallback_slots i).find? (fun n => u128_match n.key key) with
    | none =>
      simp only
      constructor
      · intro n hn
        rcases List.mem_append.mp hn with h | h
        · exact (hwf i).1 n h
        · simp only [List.mem_singleton] at h
          rw [h]
          exact ⟨hk, hh⟩
      · rw [List.map_append, List.nodup_append]
        refine ⟨(hwf i).2, by simp, ?_⟩
        intro a ha hb
        simp only [List.map_cons, List.map_nil, List.mem_singleton] at hb
        obtain ⟨m, hm, hmk⟩ := List.mem_map.mp ha
        have := List.find?_eq_none.mp hf m hm
        simp only [Bool.not_eq_true] at this
        rw [← Bool.not_eq_true, u128_match_iff] at this
        exact this (hmk.trans hb)
    | some m =>
      simp only
      constructor
      · intro n hn
        rcases chain_update_first_mem _ _ _ _ hn with h | ⟨a, _, _, h⟩
        · exact (hwf i).1 n h
        · rw [h]
          exact ⟨hk, hh⟩
      · rw [chain_update_first_map_of]
        · exact (hwf i).2
        · intro a ha
          rw [u128_match_iff] at ha
          exact ha.symm
  · exact hwf i

theorem tex_xfer_fallback_part_wf (s : TEX_Shared) (key hash : U128)
    (hwf : tex_fallback_wf s) : tex_fallback_wf (tex_xfer_fallback_part s key hash) := by
  unfold tex_xfer_fallback_part
  split
  · rename_i h
    exact tex_xfer_fallback_commit_wf s key hash h.1 h.2 hwf
  · exact hwf

/-- Well-formedness of the fallback table reads only the fallback chains. -/
theorem tex_fallback_wf_congr (s s1 : TEX_Shared) (h : s1.fallback_slots = s.fallback_slots)
    (hwf : tex_fallback_wf s) : tex_fallback_wf s1 := by
  intro i
  rw [h]
  exact hwf i

theorem tex_fallback_hash_congr (s s1 : TEX_Shared) (h : s1.fallback_slots = s.fallback_slots)
    (hc : s1.fallback_slots_count = s.fallback_slots_count) (key : U128) :
    tex_fallback_hash s1 key = tex_fallback_hash s key := by
  unfold tex_fallback_hash
  simp only [h, hc]

/-- In a well-formed fallback table the walk for the zero key finds nothing. -/
theorem tex_fallback_hash_zero (s : TEX_Shared) (hwf : tex_fallback_wf s) :
    tex_fallback_hash s u128_zero = u128_zero := by
  unfold tex_fallback_hash
  simp only
  have : (s.fallback_slots (u128_zero.u64_1 % s.fallback_slots_count)).find?
      (fun n => u128_match u128_zero n.key) = none := by
    rw [List.find?_eq_none]
    intro n hn
    simp only [Bool.not_eq_true]
    rw [← Bool.not_eq_true, u128_match_iff]
    intro h
    exact ((hwf _).1 n hn).1 h.symm
  rw [this]

/-! ### The fallback table along lookups and worker turns -/

theorem tex_update_node_fallback_slots (s : TEX_Shared) (hash : U128) (top : TEX_Topology)
    (f : TEX_Node → TEX_Node) :
    (tex_update_node s hash top f).fallback_slots = s.fallback_slots ∧
    (tex_update_node s hash top f).fallback_slots_count = s.fallback_slots_count :=
  ⟨rfl, rfl⟩

theorem tex_insert_if_absent_fallback_slots (s : TEX_Shared) (hash : U128)
    (top : TEX_Topology) :
    (tex_insert_if_absent s hash top).2.fallback_slots = s.fallback_slots ∧
    (tex_insert_if_absent s hash top).2.fallback_slots_count = s.fallback_slots_count := by
  rw [tex_insert_if_absent_eq]
  cases tex_node_of s hash top <;> exact ⟨rfl, rfl⟩

/-- A lookup leaves the fallback table as it was. -/
theorem tex_texture_fallback_slots (s : TEX_Shared) (scope : TEX_Scope) (key hash : U128)
    (top : TEX_Topology) (now_us : Nat) (handle : R_Handle) (scope1 : TEX_Scope)
    (s1 : TEX_Shared)
    (h : tex_texture_from_key_hash_topology s scope key hash top now_us =
      some (handle, scope1, s1)) :
    s1.fallback_slots = s.fallback_slots ∧ s1.fallback_slots_count = s.fallback_slots_count := by
  refine tex_texture_induction
    (fun x => x.fallback_slots = s.fallback_slots ∧
      x.fallback_slots_count = s.fallback_slots_count)
    ?_ ?_ ?_ s scope key hash top now_us handle scope1 s1 ⟨rfl, rfl⟩ h
  · intro x h t now clk hx
    exact hx
  · intro x h t hx
    have := tex_insert_if_absent_fallback_slots x h t
    exact ⟨this.1.trans hx.1, this.2.trans hx.2⟩
  · intro x k h t e n g x1 hx henq
    have := tex_u2x_enqueue_req_fields _ _ _ _ _ _ _ _ henq
    exact ⟨this.2.2.2.2.1.trans hx.1, this.2.2.2.2.2.1.trans hx.2⟩

/-- The fallback table after a worker turn: untouched, or updated with the
tuple's non-zero key and hash. -/
theorem tex_xfer_process_fallback_slots (s : TEX_Shared) (bpp : Nat → Nat) (key hash : U128)
    (top : TEX_Topology) (data_size : Nat) (alloc_result : R_Handle) :
    (tex_xfer_process s bpp key hash top data_size alloc_result).fallback_slots_count =
      s.fallback_slots_count ∧
    ((tex_xfer_process s bpp key hash top data_size alloc_result).fallback_slots =
        s.fallback_slots ∨
      (key ≠ u128_zero ∧ hash ≠ u128_zero ∧
        (tex_xfer_process s bpp key hash top data_size alloc_result).fallback_slots =
          (tex_xfer_fallback_commit s key hash).fallback_slots)) := by
  have htt : (tex_xfer_take_task s hash top).2.fallback_slots = s.fallback_slots ∧
      (tex_xfer_take_task s hash top).2.fallback_slots_count = s.fallback_slots_count := by
    rw [tex_xfer_take_task_eq]
    cases tex_node_of s hash top <;> exact ⟨rfl, rfl⟩
  unfold tex_xfer_process
  simp only
  generalize (tex_xfer_take_task s hash top).1 = got at *
  generalize (tex_xfer_take_task s hash top).2 = s1 at *
  have h3 : ∀ tex, (if got = true then
        tex_xfer_commit (tex_xfer_alloc s1 bpp got top (if got = true then data_size else 0)
          alloc_result).2 hash top tex
      else (tex_xfer_alloc s1 bpp got top (if got = true then data_size else 0)
          alloc_result).2).fallback_slots = s.fallback_slots ∧
      (if got = true then
        tex_xfer_commit (tex_xfer_alloc s1 bpp got top (if got = true then data_size else 0)
          alloc_result).2 hash top tex
      else (tex_xfer_alloc s1 bpp got top (if got = true then data_size else 0)
          alloc_result).2).fallback_slots_count = s.fallback_slots_count := by
    intro tex
    have ha := fun d => tex_xfer_alloc_table s1 bpp got top d alloc_result
    split
    · rw [tex_xfer_commit_eq]
      exact ⟨(ha _).2.2.2.2.1.trans htt.1, (ha _).2.2.2.2.2.1.trans htt.2⟩
    · exact ⟨(ha _).2.2.2.2.1.trans htt.1, (ha _).2.2.2.2.2.1.trans htt.2⟩
  generalize (tex_xfer_alloc s1 bpp got top (if got = true then data_size else 0)
    alloc_result).1 = tex at *
  have h3 := h3 tex
  generalize (if got = true then
        tex_xfer_commit (tex_xfer_alloc s1 bpp got top (if got = true then data_size else 0)
          alloc_result).2 hash top tex
      else (tex_xfer_alloc s1 bpp got top (if got = true then data_size else 0)
          alloc_result).2) = s3 at *
  split
  · rename_i hc
    simp only [Bool.and_eq_true, Bool.not_eq_true', ← Bool.not_eq_true] at hc
    have hk : key ≠ u128_zero := by
      have := hc.1.2
      rw [u128_match_iff] at this
      exact this
    have hh : hash ≠ u128_zero := by
      have := hc.2
      rw [u128_match_iff] at this
      exact this
    refine ⟨h3.2, Or.inr ⟨hk, hh, ?_⟩⟩
    unfold tex_xfer_fallback_commit
    simp only [h3.1, h3.2]
  · exact ⟨h3.2, Or.inl h3.1⟩

/-- A worker turn that takes its task updates the fallback table as
`tex_xfer_fallback_part` does. -/
theorem tex_xfer_process_task_fallback (s : TEX_Shared) (bpp : Nat → Nat) (key hash : U128)
    (top : TEX_Topology) (data_size : Nat) (alloc_result : R_Handle) (n : TEX_Node)
    (hn : tex_node_of s hash top = some n) (hw : n.is_working = 0) :
    (tex_xfer_process s bpp key hash top data_size alloc_result).fallback_slots =
      (tex_xfer_fallback_part s key hash).fallback_slots ∧
    (tex_xfer_process s bpp key hash top data_size alloc_result).fallback_slots_count =
      s.fallback_slots_count ∧
    tex_node_of (tex_xfer_process s bpp key hash top data_size alloc_result) hash top =
      some (tex_node_commit (tex_xfer_alloc s bpp true top data_size alloc_result).1
        (tex_node_claim n)) ∧
    (∀ h t, (h, t) ≠ (hash, top) →
      tex_node_of (tex_xfer_process s bpp key hash top data_size alloc_result) h t =
        tex_node_of s h t) := by
  have hid : ∀ tex m, tex_node_id ((tex_node_commit tex ∘ tex_node_claim) m) = tex_node_id m :=
    fun tex m => (tex_node_id_commit tex _).trans (tex_node_id_claim m)
  rw [tex_xfer_process_task s bpp key hash top data_size alloc_result n hn hw]
  have e1 : (tex_xfer_alloc s bpp true top data_size alloc_result).2.fallback_slots =
      s.fallback_slots := (tex_xfer_alloc_table ..).2.2.2.2.1
  have e2 : (tex_xfer_alloc s bpp true top data_size alloc_result).2.fallback_slots_count =
      s.fallback_slots_count := (tex_xfer_alloc_table ..).2.2.2.2.2.1
  refine ⟨?_, ?_, ?_, ?_⟩
  · unfold tex_xfer_fallback_part
    split
    · unfold tex_xfer_fallback_commit tex_update_node
      simp only [e1, e2]
    · unfold tex_update_node
      simp only [e1]
  · unfold tex_xfer_fallback_part
    split
    · exact e2
    · exact e2
  · rw [tex_xfer_fallback_part_node_of, tex_node_of_update_same _ _ _ _ (hid _),
      tex_xfer_alloc_node_of, hn]
    rfl
  · intro h t hne
    rw [tex_xfer_fallback_part_node_of, tex_node_of_update_other _ _ _ _ _ _ (hid _) hne,
      tex_xfer_alloc_node_of]

theorem tex_init_fallback_wf (c : Nat) (mem : Nat → Nat) : tex_fallback_wf (tex_init c mem) := by
  intro i
  simp [tex_init]

/-- The fallback table of a reachable state is well formed. -/
theorem tex_fallback_reachable_wf (s : TEX_Shared) (h : TEX_FallbackReachable s) :
    tex_fallback_wf s := by
  induction h with
  | init c mem => exact tex_init_fallback_wf c mem
  | lookup s scope key hash top now_us handle scope1 s1 _ hcall ih =>
    exact tex_fallback_wf_congr s s1 (tex_texture_fallback_slots _ _ _ _ _ _ _ _ _ hcall).1 ih
  | work s bpp key hash top data_size alloc_result _ ih =>
    rcases (tex_xfer_process_fallback_slots s bpp key hash top data_size alloc_result).2 with
      h | ⟨hk, hh, h⟩
    · exact tex_fallback_wf_congr s _ h ih
    · exact tex_fallback_wf_congr _ _ h (tex_xfer_fallback_commit_wf s key hash hk hh ih)

/-- With a well-formed fallback table, the fallback part of a lookup with the
zero key returns what it was given. -/
theorem tex_lookup_fallback_zero_key (s : TEX_Shared) (hwf : tex_fallback_wf s)
    (scope : TEX_Scope) (top : TEX_Topology) (handle : R_Handle) (now_us : Nat) :
    tex_lookup_fallback s scope u128_zero top handle now_us = (handle, scope, s) := by
  unfold tex_lookup_fallback
  have hz : u128_match (tex_fallback_hash s u128_zero) u128_zero = true := by
    rw [u128_match_iff, tex_fallback_hash_zero s hwf]
  simp only [hz, Bool.not_true, Bool.false_eq_true, if_false, ite_self]

/-! ### The lookup by cases -/

/-- A lookup that finds no node: the node is linked, its request goes to the
ring, and the fallback part runs with a null handle. -/
theorem tex_texture_miss_enqueue (s : TEX_Shared) (scope : TEX_Scope) (key hash : U128)
    (topology : TEX_Topology) (now_us : Nat) (hh : hash ≠ u128_zero)
    (hn : tex_node_of s hash topology = none) :
    tex_texture_from_key_hash_topology s scope key hash topology now_us =
      (tex_u2x_enqueue_req (tex_insert_if_absent s hash topology).2 key hash topology max_U64
        now_us).map
        (fun r => tex_lookup_fallback r.2 scope key topology r_handle_zero now_us) := by
  have h0 : u128_match u128_zero hash = false := by
    rw [← Bool.not_eq_true, u128_match_zero_iff]; exact hh
  have h1 : r_handle_match r_handle_zero r_handle_zero = true := by
    rw [r_handle_match_iff]
  simp only [tex_texture_from_key_hash_topology, h0, Bool.false_eq_true, if_false,
    tex_lookup_touch_eq, hn, Option.getD_none, h1, Bool.not_true, Bool.not_false, if_true,
    tex_insert_if_absent_eq]
  cases tex_u2x_enqueue_req _ key hash topology max_U64 now_us with
  | none => rfl
  | some r => rfl

/-- The three ways a lookup returns: a zero hash; a node found and touched; a
node created and requested. In the last two the fallback part follows. -/
theorem tex_texture_cases (s : TEX_Shared) (scope : TEX_Scope) (key hash : U128)
    (top : TEX_Topology) (now_us : Nat) (handle : R_Handle) (scope1 : TEX_Scope)
    (s1 : TEX_Shared)
    (h : tex_texture_from_key_hash_topology s scope key hash top now_us =
      some (handle, scope1, s1)) :
    (hash = u128_zero ∧ handle = r_handle_zero ∧ scope1 = scope ∧ s1 = s) ∨
    (hash ≠ u128_zero ∧ ∃ n, tex_node_of s hash top = some n ∧
      (handle, scope1, s1) =
        tex_lookup_fallback
          (tex_update_node s hash top (tex_touch_node now_us s.user_clock_idx))
          { top_touch := { hash := n.hash, topology := n.topology } :: scope.top_touch }
          key top n.texture now_us) ∨
    (hash ≠ u128_zero ∧ tex_node_of s hash top = none ∧ ∃ g s3,
      tex_u2x_enqueue_req (tex_insert_if_absent s hash top).2 key hash top max_U64 now_us =
        some (g, s3) ∧
      (handle, scope1, s1) = tex_lookup_fallback s3 scope key top r_handle_zero now_us) := by
  by_cases hh : hash = u128_zero
  · left
    have h0 : u128_match u128_zero hash = true := by
      rw [u128_match_iff]; exact hh.symm
    unfold tex_texture_from_key_hash_topology at h
    rw [if_pos h0] at h
    cases h
    exact ⟨hh, rfl, rfl, rfl⟩
  · right
    cases hn : tex_node_of s hash top with
    | some n =>
      left
      refine ⟨hh, n, rfl, ?_⟩
      by_cases ht : n.texture = r_handle_zero
      · rw [tex_texture_pending s scope key hash top now_us n hh hn ht] at h
        rw [ht]
        exact (Option.some.inj h).symm
      · rw [tex_texture_hit s scope key hash top now_us n hh hn ht] at h
        rw [tex_lookup_fallback_nonnull _ _ _ _ _ _ ht]
        exact (Option.some.inj h).symm
    | none =>
      right
      refine ⟨hh, rfl, ?_⟩
      rw [tex_texture_miss_enqueue s scope key hash top now_us hh hn] at h
      cases he : tex_u2x_enqueue_req (tex_insert_if_absent s hash top).2 key hash top max_U64
          now_us with
      | none => rw [he] at h; cases h
      | some r =>
        rw [he] at h
        exact ⟨r.1, r.2, rfl, (Option.some.inj h).symm⟩

/-- With a well-formed fallback table, a lookup with the zero key returns the
texture of the `(hash, topology)` node itself, or null. -/
theorem tex_texture_zero_key (s : TEX_Shared) (hwf : tex_fallback_wf s) (scope : TEX_Scope)
    (hash : U128) (top : TEX_Topology) (now_us : Nat) (handle : R_Handle) (scope1 : TEX_Scope)
    (s1 : TEX_Shared)
    (h : tex_texture_from_key_hash_topology s scope u128_zero hash top now_us =
      some (handle, scope1, s1)) :
    handle = r_handle_zero ∨ ∃ n, tex_node_of s hash top = some n ∧ handle = n.texture := by
  rcases tex_texture_cases s scope u128_zero hash top now_us handle scope1 s1 h with
    ⟨_, h0, _⟩ | ⟨_, n, hn, he⟩ | ⟨_, hn, g, s3, henq, he⟩
  · exact Or.inl h0
  · right
    rw [tex_lookup_fallback_zero_key _ (tex_fallback_wf_congr s
      (tex_update_node s hash top (tex_touch_node now_us s.user_clock_idx)) rfl hwf)] at he
    exact ⟨n, hn, (Prod.mk.inj he).1⟩
  · left
    have h3 : s3.fallback_slots = s.fallback_slots :=
      (tex_u2x_enqueue_req_fields _ _ _ _ _ _ _ _ henq).2.2.2.2.1.trans
        (tex_insert_if_absent_fallback_slots s hash top).1
    rw [tex_lookup_fallback_zero_key _ (tex_fallback_wf_congr s _ h3 hwf)] at he
    exact (Prod.mk.inj he).1

/-- The fallback update reads the state only through the fallback table. -/
theorem tex_xfer_fallback_commit_congr (s s1 : TEX_Shared) (key hash : U128)
    (h : s1.fallback_slots = s.fallback_slots)
    (hc : s1.fallback_slots_count = s.fallback_slots_count) :
    (tex_xfer_fallback_commit s1 key hash).fallback_slots =
      (tex_xfer_fallback_commit s key hash).fallback_slots := by
  unfold tex_xfer_fallback_commit
  simp only [h, hc]

/-! ## Lemmas: the two halves of a worker's turn -/

/-- The body of the worker's loop is its take-task section followed by its second
half. -/
theorem tex_xfer_process_split (s : TEX_Shared) (bpp : Nat → Nat) (key hash : U128)
    (top : TEX_Topology) (data_size : Nat) (alloc_result : R_Handle) :
    tex_xfer_process s bpp key hash top data_size alloc_result =
      tex_xfer_finish (tex_xfer_take_task s hash top).2
        { key := key, hash := hash, top := top, got_task := (tex_xfer_take_task s hash top).1 }
        bpp data_size alloc_result := rfl

/-- One turn of the worker's loop is its first half followed by its second. -/
theorem tex_xfer_iteration_split (s : TEX_Shared) (bpp : Nat → Nat) (data_size : Nat)
    (alloc_result : R_Handle) :
    tex_xfer_thread__iteration s bpp data_size alloc_result =
      (tex_xfer_take s).map (fun r => tex_xfer_finish r.2 r.1 bpp data_size alloc_result) := by
  unfold tex_xfer_thread__iteration tex_xfer_take
  cases h : tex_u2x_dequeue_req s with
  | none => rfl
  | some r =>
    obtain ⟨key, hash, top, s1⟩ := r
    rfl

/-- The first half of a worker's turn on a ring whose oldest request is `r`. -/
theorem tex_xfer_take_eq (s : TEX_Shared) (r : TEX_Request) (rs : List TEX_Request)
    (hwf : u2x_ring_wf s) (hh : u2x_ring_holds s (r :: rs)) (hr : r.wf) :
    ∃ sd, tex_u2x_dequeue_req s = some (r.key, r.hash, r.top, sd) ∧
      u2x_ring_wf sd ∧ u2x_ring_holds sd rs ∧
      sd.slots = s.slots ∧ sd.slots_count = s.slots_count ∧
      sd.r_tex2d_release_log = s.r_tex2d_release_log ∧
      sd.r_tex2d_alloc_log = s.r_tex2d_alloc_log ∧
      sd.fallback_slots = s.fallback_slots ∧ sd.user_clock_idx = s.user_clock_idx ∧
      tex_xfer_take s =
        some ({ key := r.key, hash := r.hash, top := r.top,
                got_task := (tex_xfer_take_task sd r.hash r.top).1 },
              (tex_xfer_take_task sd r.hash r.top).2) := by
  obtain ⟨sd, hdq, hwfd, hhd, _⟩ := u2x_dequeue_holds s rs r hwf hh hr
  have hf := tex_u2x_dequeue_req_fields _ _ _ _ _ hdq
  refine ⟨sd, hdq, hwfd, hhd, hf.1, hf.2.1, hf.2.2.2.2.2.2.2.1, hf.2.2.2.2.2.2.2.2,
    hf.2.2.2.2.1, hf.2.2.2.2.2.2.1, ?_⟩
  unfold tex_xfer_take
  rw [hdq]

/-- A first half that returns found a request in the ring. -/
theorem tex_xfer_take_some (s : TEX_Shared) (w : TEX_Worker) (s1 : TEX_Shared)
    (h : tex_xfer_take s = some (w, s1)) :
    ∃ sd, tex_u2x_dequeue_req s = some (w.key, w.hash, w.top, sd) ∧
      w.got_task = (tex_xfer_take_task sd w.hash w.top).1 ∧
      s1 = (tex_xfer_take_task sd w.hash w.top).2 := by
  unfold tex_xfer_take at h
  cases hd : tex_u2x_dequeue_req s with
  | none => rw [hd] at h; cases h
  | some r =>
    obtain ⟨key, hash, top, sd⟩ := r
    rw [hd] at h
    simp only [Option.some.injEq, Prod.mk.injEq] at h
    obtain ⟨hw, hs⟩ := h
    subst hw
    exact ⟨sd, rfl, rfl, hs.symm⟩

/-! ## Lemmas: the node of an identity after an eviction pass -/

theorem chain_find_filter_of_nodup (l : List TEX_Node) (hash : U128) (top : TEX_Topology)
    (q : TEX_Node → Bool) (hu : (l.map tex_node_id).Nodup) :
    (l.filter q).find? (tex_node_match hash top) =
      (l.find? (tex_node_match hash top)).filter q := by
  induction l with
  | nil => rfl
  | cons a l ih =>
    rw [List.map_cons, List.nodup_cons] at hu
    by_cases hm : tex_node_match hash top a = true
    · have hnone : ∀ l1 : List TEX_Node, (∀ x ∈ l1, x ∈ l) →
          l1.find? (tex_node_match hash top) = none := by
        intro l1 hl1
        rw [List.find?_eq_none]
        intro x hx hmx
        rw [tex_node_match_iff] at hm hmx
        exact hu.1 (List.mem_map.mpr ⟨x, hl1 x hx, hmx.trans hm.symm⟩)
      by_cases hq : q a = true
      · simp only [List.filter_cons, hq, if_true, List.find?_cons, hm, Option.filter]
      · simp only [Bool.not_eq_true] at hq
        simp only [List.filter_cons, hq, Bool.false_eq_true, if_false, List.find?_cons, hm,
          Option.filter]
        exact hnone _ (fun x hx => (List.mem_filter.mp hx).1)
    · simp only [Bool.not_eq_true] at hm
      by_cases hq : q a = true
      · simp only [List.filter_cons, hq, if_true, List.find?_cons, hm]
        exact ih hu.2
      · simp only [Bool.not_eq_true] at hq
        simp only [List.filter_cons, hq, Bool.false_eq_true, if_false, List.find?_cons, hm]
        exact ih hu.2

/-- The node of an identity after the evictor's pass over a slot: the node that
was there, unless it sat in that slot and was evictable. -/
theorem tex_node_of_evict (s : TEX_Shared) (slot_idx ct cu : Nat) (hu : tex_unique s)
    (hash : U128) (top : TEX_Topology) :
    tex_node_of (tex_evictor_slot_pass s slot_idx ct cu) hash top =
      if tex_slot_idx s hash = slot_idx then
        (tex_node_of s hash top).filter (fun n => !tex_evictable ct cu n)
      else tex_node_of s hash top := by
  rw [tex_evictor_slot_pass_eq]
  unfold tex_node_of tex_slot_idx
  simp only [Function.update_apply]
  split
  · rename_i hi
    rw [← hi]
    exact chain_find_filter_of_nodup _ hash top _ (hu _)
  · rfl

/-- A node that is not evictable stays the node of its identity. -/
theorem tex_node_of_evict_keep (s : TEX_Shared) (slot_idx ct cu : Nat) (hu : tex_unique s)
    (hash : U128) (top : TEX_Topology) (n : TEX_Node) (hn : tex_node_of s hash top = some n)
    (hk : tex_evictable ct cu n = false) :
    tex_node_of (tex_evictor_slot_pass s slot_idx ct cu) hash top = some n := by
  rw [tex_node_of_evict s slot_idx ct cu hu, hn]
  split
  · simp [Option.filter, hk]
  · rfl

/-- A node found after an eviction pass was the node of its identity before. -/
theorem tex_node_of_evict_some (s : TEX_Shared) (slot_idx ct cu : Nat) (hu : tex_unique s)
    (hash : U128) (top : TEX_Topology) (n : TEX_Node)
    (hn : tex_node_of (tex_evictor_slot_pass s slot_idx ct cu) hash top = some n) :
    tex_node_of s hash top = some n := by
  rw [tex_node_of_evict s slot_idx ct cu hu] at hn
  split at hn
  · cases h : tex_node_of s hash top with
    | none => rw [h] at hn; cases hn
    | some m =>
      rw [h] at hn
      simp only [Option.filter] at hn
      split at hn
      · exact hn
      · cases hn
  · exact hn

/-! ## Lemmas: the build invariant along the primitive steps -/

theorem tex_insert_if_absent_node_of (s : TEX_Shared) (hash h1 : U128) (top t1 : TEX_Topology) :
    tex_node_of (tex_insert_if_absent s hash top).2 h1 t1 =
      if (h1, t1) = (hash, top) then
        some ((tex_node_of s hash top).getD (tex_node_fresh hash top))
      else tex_node_of s h1 t1 := by
  split
  · rename_i hid
    obtain ⟨e1, e2⟩ := Prod.mk.inj hid
    subst e1; subst e2
    cases hn : tex_node_of s h1 t1 with
    | none => rw [tex_insert_if_absent_node_same s h1 t1 hn]; rfl
    | some n =>
      rw [tex_insert_if_absent_eq, hn]
      exact hn
  · rename_i hid
    exact tex_insert_if_absent_node_other s hash h1 top t1 hid

theorem tex_node_claim_fields (n : TEX_Node) :
    (tex_node_claim n).load_count = n.load_count ∧ (tex_node_claim n).texture = n.texture ∧
    (tex_node_claim n).scope_ref_count = n.scope_ref_count := by
  unfold tex_node_claim
  split <;> exact ⟨rfl, rfl, rfl⟩

/-- The workers' invariant reads the table only through the nodes found by
identity. -/
theorem tex_workers_inv_of_nodes (s s1 : TEX_Shared) (ws : List TEX_Worker)
    (hnode : ∀ h t n, tex_node_of s h t = some n → n.is_working = 1 → n.load_count = 0 →
      ∃ m, tex_node_of s1 h t = some m ∧ m.is_working = 1 ∧ m.load_count = 0)
    (hi : tex_workers_inv s ws) : tex_workers_inv s1 ws := by
  refine ⟨?_, hi.2⟩
  intro w hw
  obtain ⟨hg, n, hn, h1, h2⟩ := hi.1 w hw
  exact ⟨hg, hnode _ _ n hn h1 h2⟩

theorem tex_workers_inv_update (s : TEX_Shared) (ws : List TEX_Worker) (hash : U128)
    (top : TEX_Topology) (f : TEX_Node → TEX_Node)
    (hf : ∀ n, tex_node_id (f n) = tex_node_id n)
    (hl : ∀ n, (f n).load_count = n.load_count) (hw : ∀ n, (f n).is_working = n.is_working)
    (hi : tex_workers_inv s ws) : tex_workers_inv (tex_update_node s hash top f) ws := by
  apply tex_workers_inv_of_nodes s _ ws _ hi
  intro h t n hn h1 h2
  rw [tex_node_of_update s hash h top t f hf]
  split
  · exact ⟨f n, by rw [hn]; rfl, by rw [hw]; exact h1, by rw [hl]; exact h2⟩
  · exact ⟨n, hn, h1, h2⟩

theorem tex_workers_inv_insert (s : TEX_Shared) (ws : List TEX_Worker) (hash : U128)
    (top : TEX_Topology) (hi : tex_workers_inv s ws) :
    tex_workers_inv (tex_insert_if_absent s hash top).2 ws := by
  apply tex_workers_inv_of_nodes s _ ws _ hi
  intro h t n hn h1 h2
  rw [tex_insert_if_absent_node_of]
  split
  · rename_i hid
    obtain ⟨e1, e2⟩ := Prod.mk.inj hid
    subst e1; subst e2
    rw [hn]
    exact ⟨n, rfl, h1, h2⟩
  · exact ⟨n, hn, h1, h2⟩

theorem tex_workers_inv_congr (s s1 : TEX_Shared) (ws : List TEX_Worker)
    (h1 : s1.slots = s.slots) (h2 : s1.slots_count = s.slots_count)
    (hi : tex_workers_inv s ws) : tex_workers_inv s1 ws := by
  apply tex_workers_inv_of_nodes s _ ws _ hi
  intro h t n hn ha hb
  rw [tex_node_of_congr s s1 h1 h2]
  exact ⟨n, hn, ha, hb⟩

theorem tex_nodes_inv_update (s : TEX_Shared) (hash : U128) (top : TEX_Topology)
    (f : TEX_Node → TEX_Node) (hf : ∀ n, tex_node_id (f n) = tex_node_id n)
    (hl : ∀ n, (f n).load_count = n.load_count) (ht : ∀ n, (f n).texture = n.texture)
    (hi : tex_nodes_inv s) : tex_nodes_inv (tex_update_node s hash top f) := by
  intro h t m hm h0
  rw [tex_node_of_update s hash h top t f hf] at hm
  split at hm
  · cases hn : tex_node_of s h t with
    | none => rw [hn] at hm; cases hm
    | some n =>
      rw [hn] at hm
      simp only [Option.map_some', Option.some.injEq] at hm
      rw [← hm, ht]
      rw [← hm, hl] at h0
      exact hi h t n hn h0
  · exact hi h t m hm h0

theorem tex_nodes_inv_insert (s : TEX_Shared) (hash : U128) (top : TEX_Topology)
    (hi : tex_nodes_inv s) : tex_nodes_inv (tex_insert_if_absent s hash top).2 := by
  intro h t m hm h0
  rw [tex_insert_if_absent_node_of] at hm
  split at hm
  · rename_i hid
    cases hn : tex_node_of s hash top with
    | none =>
      rw [hn] at hm
      simp only [Option.getD_none, Option.some.injEq] at hm
      rw [← hm]
      rfl
    | some n =>
      rw [hn] at hm
      simp only [Option.getD_some, Option.some.injEq] at hm
      rw [← hm] at h0 ⊢
      exact hi hash top n hn h0
  · exact hi h t m hm h0

theorem tex_nodes_inv_congr (s s1 : TEX_Shared)
    (h1 : s1.slots = s.slots) (h2 : s1.slots_count = s.slots_count)
    (hi : tex_nodes_inv s) : tex_nodes_inv s1 := by
  intro h t m hm h0
  rw [tex_node_of_congr s s1 h1 h2] at hm
  exact hi h t m hm h0

/-- The eviction test needs a loaded node that is not being built. -/
theorem tex_evictable_false (ct cu : Nat) (n : TEX_Node)
    (h : n.load_count = 0 ∨ n.is_working ≠ 0 ∨ n.scope_ref_count ≠ 0) :
    tex_evictable ct cu n = false := by
  rw [← Bool.not_eq_true, tex_evictable_iff]
  rintro ⟨h1, _, _, h2, h3⟩
  rcases h with h | h | h
  · exact h2 h
  · exact h h3
  · exact h h1

theorem tex_ring_inv_evict (s : TEX_Shared) (slot_idx ct cu : Nat) (hu : tex_unique s)
    (hi : tex_ring_inv s) : tex_ring_inv (tex_evictor_slot_pass s slot_idx ct cu) := by
  apply tex_ring_inv_congr s _ _ _ hi
  · rw [tex_evictor_slot_pass_eq]
    exact ⟨rfl, rfl, rfl, rfl⟩
  · intro h t n hn h1 h2
    exact ⟨n, tex_node_of_evict_keep s slot_idx ct cu hu h t n hn
      (tex_evictable_false ct cu n (Or.inl h1)), h1, h2⟩

theorem tex_workers_inv_evict (s : TEX_Shared) (ws : List TEX_Worker) (slot_idx ct cu : Nat)
    (hu : tex_unique s) (hi : tex_workers_inv s ws) :
    tex_workers_inv (tex_evictor_slot_pass s slot_idx ct cu) ws := by
  apply tex_workers_inv_of_nodes s _ ws _ hi
  intro h t n hn h1 h2
  exact ⟨n, tex_node_of_evict_keep s slot_idx ct cu hu h t n hn
    (tex_evictable_false ct cu n (Or.inl h2)), h1, h2⟩

theorem tex_nodes_inv_evict (s : TEX_Shared) (slot_idx ct cu : Nat) (hu : tex_unique s)
    (hi : tex_nodes_inv s) : tex_nodes_inv (tex_evictor_slot_pass s slot_idx ct cu) := by
  intro h t m hm h0
  exact hi h t m (tex_node_of_evict_some s slot_idx ct cu hu h t m hm) h0

theorem tex_ring_inv_of_fields (s s1 : TEX_Shared)
    (h1 : s1.slots = s.slots) (h2 : s1.slots_count = s.slots_count)
    (hring : s1.u2x_ring_size = s.u2x_ring_size ∧ s1.u2x_ring_base = s.u2x_ring_base ∧
      s1.u2x_ring_write_pos = s.u2x_ring_write_pos ∧
      s1.u2x_ring_read_pos = s.u2x_ring_read_pos)
    (hi : tex_ring_inv s) : tex_ring_inv s1 := by
  apply tex_ring_inv_congr s _ hring _ hi
  intro h t n hn ha hb
  rw [tex_node_of_congr s s1 h1 h2]
  exact ⟨n, hn, ha, hb⟩

/-! ## Lemmas: the build invariant along the steps of the machine -/

/-- The second half of the turn of a worker that holds its task. -/
theorem tex_xfer_finish_task (s : TEX_Shared) (w : TEX_Worker) (bpp : Nat → Nat)
    (data_size : Nat) (alloc_result : R_Handle) (hg : w.got_task = true) :
    tex_xfer_finish s w bpp data_size alloc_result =
      tex_xfer_fallback_part
        (tex_update_node (tex_xfer_alloc s bpp true w.top data_size alloc_result).2 w.hash w.top
          (tex_node_commit (tex_xfer_alloc s bpp true w.top data_size alloc_result).1))
        w.key w.hash := by
  simp only [tex_xfer_finish, hg, if_true, tex_xfer_commit_eq]
  have hc : (true && !u128_match w.key u128_zero && !u128_match w.hash u128_zero) = true ↔
      w.key ≠ u128_zero ∧ w.hash ≠ u128_zero := by
    simp only [Bool.true_and, Bool.and_eq_true, Bool.not_eq_true', ← Bool.not_eq_true,
      u128_match_iff, ne_eq]
  unfold tex_xfer_fallback_part
  by_cases hkh : w.key ≠ u128_zero ∧ w.hash ≠ u128_zero
  · rw [if_pos (hc.mpr hkh), if_pos hkh]
  · rw [if_neg (fun h => hkh (hc.mp h)), if_neg hkh]

/-- The node view of the state after the second half of a turn. -/
theorem tex_xfer_finish_node_of (s : TEX_Shared) (w : TEX_Worker) (bpp : Nat → Nat)
    (data_size : Nat) (alloc_result : R_Handle) (hg : w.got_task = true) (h : U128)
    (t : TEX_Topology) :
    tex_node_of (tex_xfer_finish s w bpp data_size alloc_result) h t =
      if (h, t) = (w.hash, w.top) then
        (tex_node_of s h t).map
          (tex_node_commit (tex_xfer_alloc s bpp true w.top data_size alloc_result).1)
      else tex_node_of s h t := by
  rw [tex_xfer_finish_task s w bpp data_size alloc_result hg, tex_xfer_fallback_part_node_of,
    tex_node_of_update _ _ _ _ _ _ (tex_node_id_commit _), tex_xfer_alloc_node_of]

/-- What the second half of a turn leaves unchanged. -/
theorem tex_xfer_finish_fields (s : TEX_Shared) (w : TEX_Worker) (bpp : Nat → Nat)
    (data_size : Nat) (alloc_result : R_Handle) (hg : w.got_task = true) :
    (tex_xfer_finish s w bpp data_size alloc_result).slots_count = s.slots_count ∧
    ((tex_xfer_finish s w bpp data_size alloc_result).u2x_ring_size = s.u2x_ring_size ∧
     (tex_xfer_finish s w bpp data_size alloc_result).u2x_ring_base = s.u2x_ring_base ∧
     (tex_xfer_finish s w bpp data_size alloc_result).u2x_ring_write_pos =
       s.u2x_ring_write_pos ∧
     (tex_xfer_finish s w bpp data_size alloc_result).u2x_ring_read_pos =
       s.u2x_ring_read_pos) ∧
    (tex_xfer_finish s w bpp data_size alloc_result).r_tex2d_release_log =
      s.r_tex2d_release_log ∧
    (tex_xfer_finish s w bpp data_size alloc_result).r_tex2d_alloc_log =
      (tex_xfer_alloc s bpp true w.top data_size alloc_result).2.r_tex2d_alloc_log ∧
    (tex_xfer_finish s w bpp data_size alloc_result).user_clock_idx = s.user_clock_idx := by
  rw [tex_xfer_finish_task s w bpp data_size alloc_result hg]
  have h1 := tex_xfer_fallback_part_ring
    (tex_update_node (tex_xfer_alloc s bpp true w.top data_size alloc_result).2 w.hash w.top
      (tex_node_commit (tex_xfer_alloc s bpp true w.top data_size alloc_result).1)) w.key w.hash
  have h2 := tex_xfer_alloc_ring s bpp true w.top data_size alloc_result
  have h3 := tex_xfer_alloc_table s bpp true w.top data_size alloc_result
  refine ⟨?_, ?_, ?_, ?_, ?_⟩
  · rw [tex_xfer_fallback_part_slots_count, tex_update_node_slots_count]
    exact h3.2.1
  · exact ⟨h1.1.trans h2.1, h1.2.1.trans h2.2.1, h1.2.2.1.trans h2.2.2.1,
      h1.2.2.2.trans h2.2.2.2⟩
  · rw [tex_xfer_fallback_part_release_log]
    exact h3.2.2.2.2.2.2.2
  · rw [tex_xfer_fallback_part_alloc_log]
    rfl
  · rw [tex_xfer_fallback_part_user_clock]
    exact h3.2.2.2.2.2.2.1

theorem tex_xfer_finish_homed_unique (s : TEX_Shared) (w : TEX_Worker) (bpp : Nat → Nat)
    (data_size : Nat) (alloc_result : R_Handle) (hg : w.got_task = true)
    (hh : tex_homed s) (hu : tex_unique s) :
    tex_homed (tex_xfer_finish s w bpp data_size alloc_result) ∧
    tex_unique (tex_xfer_finish s w bpp data_size alloc_result) := by
  rw [tex_xfer_finish_task s w bpp data_size alloc_result hg]
  have h3 := tex_xfer_alloc_table s bpp true w.top data_size alloc_result
  constructor
  · apply tex_homed_of_slots _ _ (tex_xfer_fallback_part_slots _ _ _)
      (tex_xfer_fallback_part_slots_count _ _ _)
    apply tex_update_node_homed _ _ _ _ (tex_node_id_commit _)
    exact tex_homed_of_slots s _ h3.1 h3.2.1 hh
  · apply tex_unique_of_slots _ _ (tex_xfer_fallback_part_slots _ _ _)
    apply tex_update_node_unique _ _ _ _ (tex_node_id_commit _)
    exact tex_unique_of_slots s _ h3.1 hu

/-- A lookup keeps the workers' invariant and the nodes' invariant. -/
theorem tex_texture_workers_nodes (s : TEX_Shared) (ws : List TEX_Worker) (scope : TEX_Scope)
    (key hash : U128) (top : TEX_Topology) (now_us : Nat) (handle : R_Handle)
    (scope1 : TEX_Scope) (s1 : TEX_Shared)
    (hi : tex_workers_inv s ws ∧ tex_nodes_inv s)
    (h : tex_texture_from_key_hash_topology s scope key hash top now_us =
      some (handle, scope1, s1)) : tex_workers_inv s1 ws ∧ tex_nodes_inv s1 := by
  refine tex_texture_induction (fun x => tex_workers_inv x ws ∧ tex_nodes_inv x)
    ?_ ?_ ?_ s scope key hash top now_us handle scope1 s1 hi h
  · intro x h t now clk hx
    exact ⟨tex_workers_inv_update x ws h t _ (tex_node_id_touch _ _)
        (fun n => (tex_touch_node_load _ _ n).1) (fun n => (tex_touch_node_load _ _ n).2.1) hx.1,
      tex_nodes_inv_update x h t _ (tex_node_id_touch _ _)
        (fun n => (tex_touch_node_load _ _ n).1) (fun n => (tex_touch_node_load _ _ n).2.2) hx.2⟩
  · intro x h t hx
    exact ⟨tex_workers_inv_insert x ws h t hx.1, tex_nodes_inv_insert x h t hx.2⟩
  · intro x k h t e n g x1 hx henq
    have hf := tex_u2x_enqueue_req_fields _ _ _ _ _ _ _ _ henq
    exact ⟨tex_workers_inv_congr x x1 ws hf.1 hf.2.1 hx.1,
      tex_nodes_inv_congr x x1 hf.1 hf.2.1 hx.2⟩

/-- Closing a scope keeps the build invariant. -/
theorem tex_scope_close_build (s : TEX_Shared) (ws : List TEX_Worker) (scope : TEX_Scope)
    (hi : tex_homed s ∧ tex_unique s ∧ tex_ring_inv s ∧ tex_workers_inv s ws ∧ tex_nodes_inv s) :
    tex_homed (tex_scope_close s scope) ∧ tex_unique (tex_scope_close s scope) ∧
      tex_ring_inv (tex_scope_close s scope) ∧ tex_workers_inv (tex_scope_close s scope) ws ∧
      tex_nodes_inv (tex_scope_close s scope) := by
  refine tex_scope_close_induction
    (fun x => tex_homed x ∧ tex_unique x ∧ tex_ring_inv x ∧ tex_workers_inv x ws ∧
      tex_nodes_inv x) ?_ s scope hi
  intro x h t hx
  exact ⟨tex_update_node_homed x h t _ tex_node_id_unpin hx.1,
    tex_update_node_unique x h t _ tex_node_id_unpin hx.2.1,
    tex_ring_inv_update x h t _ tex_node_id_unpin (fun n => (tex_unpin_node_load n).1)
      (fun n => (tex_unpin_node_load n).2.1) hx.2.2.1,
    tex_workers_inv_update x ws h t _ tex_node_id_unpin (fun n => (tex_unpin_node_load n).1)
      (fun n => (tex_unpin_node_load n).2.1) hx.2.2.2.1,
    tex_nodes_inv_update x h t _ tex_node_id_unpin (fun n => (tex_unpin_node_load n).1)
      (fun n => (tex_unpin_node_load n).2.2) hx.2.2.2.2⟩

/-- The first half of a worker's turn in a state with the ring invariant: the
oldest request names a linked idle node, which the worker claims. -/
theorem tex_xfer_take_spec (s : TEX_Shared) (w : TEX_Worker) (s1 : TEX_Shared)
    (hi : tex_ring_inv s) (h : tex_xfer_take s = some (w, s1)) :
    w.got_task = true ∧
    (∃ n, tex_node_of s w.hash w.top = some n ∧ n.is_working = 0 ∧ n.load_count = 0) ∧
    (∀ h t, tex_node_of s1 h t =
      if (h, t) = (w.hash, w.top) then (tex_node_of s h t).map tex_node_claim
      else tex_node_of s h t) ∧
    s1.slots_count = s.slots_count ∧
    s1.r_tex2d_release_log = s.r_tex2d_release_log ∧
    s1.r_tex2d_alloc_log = s.r_tex2d_alloc_log ∧
    s1.user_clock_idx = s.user_clock_idx ∧
    s1.fallback_slots = s.fallback_slots ∧
    tex_ring_inv s1 ∧ (tex_homed s → tex_homed s1) ∧ (tex_unique s → tex_unique s1) := by
  obtain ⟨hwf, pending, hh, hp, hnd⟩ := hi
  cases pending with
  | nil =>
    have := u2x_dequeue_empty s hh
    unfold tex_xfer_take at h
    rw [this] at h
    cases h
  | cons r rs =>
    obtain ⟨hrw, n, hn, hl, hw⟩ := hp r (List.mem_cons_self _ _)
    obtain ⟨sd, _, hwfd, hhd, e1, e2, e3, e4, e5, e6, htake⟩ := tex_xfer_take_eq s r rs hwf hh hrw
    have hnd1 : tex_node_of sd r.hash r.top = some n := by
      rw [tex_node_of_congr s sd e1 e2]; exact hn
    have ht : tex_xfer_take_task sd r.hash r.top =
        (true, tex_update_node sd r.hash r.top tex_node_claim) := by
      rw [tex_xfer_take_task_eq, hnd1]
      simp only [hw, decide_True]
    rw [ht, h] at htake
    simp only [Option.some.injEq, Prod.mk.injEq] at htake
    obtain ⟨hw1, hs1⟩ := htake
    subst hw1
    subst hs1
    simp only
    have hview : ∀ h t, tex_node_of (tex_update_node sd r.hash r.top tex_node_claim) h t =
        if (h, t) = (r.hash, r.top) then (tex_node_of s h t).map tex_node_claim
        else tex_node_of s h t := by
      intro h t
      rw [tex_node_of_update _ _ _ _ _ _ tex_node_id_claim, tex_node_of_congr s sd e1 e2]
    rw [List.map_cons, List.nodup_cons] at hnd
    refine ⟨by trivial, ⟨n, hn, hw, hl⟩, hview, ?_, e3, e4, e6, e5, ?_, ?_, ?_⟩
    · rw [tex_update_node_slots_count]; exact e2
    · have hc := u2x_ring_congr sd (tex_update_node sd r.hash r.top tex_node_claim)
        (tex_update_node_ring sd r.hash r.top tex_node_claim) rs
      refine ⟨hc.1.mpr hwfd, rs, hc.2.1.mpr hhd, ?_, hnd.2⟩
      intro r1 hr1
      obtain ⟨hrw1, n1, hn1, hl1, hw1⟩ := hp r1 (List.mem_cons_of_mem _ hr1)
      refine ⟨hrw1, n1, ?_, hl1, hw1⟩
      rw [hview, if_neg]
      · exact hn1
      · intro heq
        exact hnd.1 (List.mem_map.mpr ⟨r1, hr1, heq⟩)
    · intro hho
      exact tex_update_node_homed sd _ _ _ tex_node_id_claim (tex_homed_of_slots s sd e1 e2 hho)
    · intro hu
      exact tex_update_node_unique sd _ _ _ tex_node_id_claim (tex_unique_of_slots s sd e1 hu)

theorem tex_node_claim_idle (n : TEX_Node) (h : n.is_working = 0) :
    (tex_node_claim n).is_working = 1 := by
  unfold tex_node_claim
  rw [if_pos h]

/-- The first half of a worker's turn keeps the build invariant, with the worker
added to those in flight. -/
theorem tex_xfer_take_build (m : TEX_Machine) (w : TEX_Worker) (s1 : TEX_Shared)
    (hi : tex_build_inv m) (h : tex_xfer_take m.shared = some (w, s1)) :
    tex_build_inv ⟨s1, m.readers, m.workers ++ [w]⟩ := by
  obtain ⟨hho, hu, hr, hws, hns⟩ := hi
  obtain ⟨hg, ⟨n, hn, hw, hl⟩, hview, _, _, _, _, _, hr1, hho1, hu1⟩ :=
    tex_xfer_take_spec m.shared w s1 hr h
  have hfresh : ∀ w0 ∈ m.workers, (w0.hash, w0.top) ≠ (w.hash, w.top) := by
    intro w0 hw0 heq
    obtain ⟨_, n0, hn0, hw0n, _⟩ := hws.1 w0 hw0
    obtain ⟨e1, e2⟩ := Prod.mk.inj heq
    rw [e1, e2, hn] at hn0
    cases hn0
    omega
  refine ⟨hho1 hho, hu1 hu, hr1, ⟨?_, ?_⟩, ?_⟩
  · intro w1 hw1
    rcases List.mem_append.mp hw1 with hw1 | hw1
    · obtain ⟨hg0, n0, hn0, ha, hb⟩ := hws.1 w1 hw1
      refine ⟨hg0, n0, ?_, ha, hb⟩
      rw [hview, if_neg (hfresh w1 hw1)]
      exact hn0
    · simp only [List.mem_singleton] at hw1
      subst hw1
      refine ⟨hg, tex_node_claim n, ?_, tex_node_claim_idle n hw, ?_⟩
      · rw [hview, if_pos rfl, hn]; rfl
      · rw [(tex_node_claim_fields n).1]; exact hl
  · rw [List.map_append, List.nodup_append]
    refine ⟨hws.2, by simp, ?_⟩
    intro a ha hb
    simp only [List.map_cons, List.map_nil, List.mem_singleton] at hb
    subst hb
    obtain ⟨w0, hw0, hid⟩ := List.mem_map.mp ha
    exact hfresh w0 hw0 hid
  · intro h t x hx h0
    rw [hview] at hx
    split at hx
    · cases hn1 : tex_node_of m.shared h t with
      | none => rw [hn1] at hx; cases hx
      | some n1 =>
        rw [hn1] at hx
        simp only [Option.map_some', Option.some.injEq] at hx
        rw [← hx, (tex_node_claim_fields n1).2.1]
        rw [← hx, (tex_node_claim_fields n1).1] at h0
        exact hns h t n1 hn1 h0
    · exact hns h t x hx h0

/-- The second half of a worker's turn keeps the build invariant, with the worker
removed from those in flight. -/
theorem tex_xfer_finish_build (m : TEX_Machine) (pre post : List TEX_Worker) (w : TEX_Worker)
    (bpp : Nat → Nat) (data_size : Nat) (alloc_result : R_Handle)
    (hi : tex_build_inv m) (hws : m.workers = pre ++ w :: post) :
    tex_build_inv ⟨tex_xfer_finish m.shared w bpp data_size alloc_result, m.readers,
      pre ++ post⟩ := by
  obtain ⟨hho, hu, hr, hwi, hns⟩ := hi
  rw [hws] at hwi
  obtain ⟨hg, n, hn, hw, hl⟩ := hwi.1 w (by simp)
  have hview := tex_xfer_finish_node_of m.shared w bpp data_size alloc_result hg
  have hf := tex_xfer_finish_fields m.shared w bpp data_size alloc_result hg
  have hhu := tex_xfer_finish_homed_unique m.shared w bpp data_size alloc_result hg hho hu
  have hnd := hwi.2
  rw [List.map_append, List.map_cons] at hnd
  have hnd1 : TEX_Worker.id w ∉ pre.map TEX_Worker.id ∧ TEX_Worker.id w ∉ post.map TEX_Worker.id := by
    rw [List.nodup_append] at hnd
    obtain ⟨_, h2, h3⟩ := hnd
    rw [List.nodup_cons] at h2
    exact ⟨fun ha => h3 ha (List.mem_cons_self _ _), h2.1⟩
  refine ⟨hhu.1, hhu.2, ?_, ⟨?_, ?_⟩, ?_⟩
  · apply tex_ring_inv_congr m.shared _ hf.2.1 _ hr
    intro h t x hx h1 h2
    refine ⟨x, ?_, h1, h2⟩
    rw [hview, if_neg]
    · exact hx
    · intro heq
      obtain ⟨e1, e2⟩ := Prod.mk.inj heq
      rw [e1, e2, hn] at hx
      cases hx
      omega
  · intro w1 hw1
    have hw1' : w1 ∈ pre ++ w :: post := by
      rcases List.mem_append.mp hw1 with h | h
      · exact List.mem_append_left _ h
      · exact List.mem_append_right _ (List.mem_cons_of_mem _ h)
    obtain ⟨hg1, n1, hn1, ha, hb⟩ := hwi.1 w1 hw1'
    refine ⟨hg1, n1, ?_, ha, hb⟩
    rw [hview, if_neg]
    · exact hn1
    · intro heq
      have hmem : TEX_Worker.id w1 ∈ pre.map TEX_Worker.id ∨
          TEX_Worker.id w1 ∈ post.map TEX_Worker.id := by
        rcases List.mem_append.mp hw1 with h | h
        · exact Or.inl (List.mem_map.mpr ⟨w1, h, rfl⟩)
        · exact Or.inr (List.mem_map.mpr ⟨w1, h, rfl⟩)
      have : TEX_Worker.id w1 = TEX_Worker.id w := heq
      rw [this] at hmem
      rcases hmem with h | h
      · exact hnd1.1 h
      · exact hnd1.2 h
  · rw [List.map_append]
    rw [List.nodup_append] at hnd ⊢
    obtain ⟨h1, h2, h3⟩ := hnd
    rw [List.nodup_cons] at h2
    exact ⟨h1, h2.2, fun a ha hb => h3 ha (List.mem_cons_of_mem _ hb)⟩
  · intro h t x hx h0
    rw [hview] at hx
    split at hx
    · rename_i heq
      obtain ⟨e1, e2⟩ := Prod.mk.inj heq
      rw [e1, e2, hn] at hx
      simp only [Option.map_some', Option.some.injEq] at hx
      rw [← hx] at h0
      simp only [tex_node_commit] at h0
      rw [hl, ins_atomic_u64_inc_eval_eq 0 (by norm_num)] at h0
      omega
    · exact hns h t x hx h0

theorem tex_init_ring_inv (c : Nat) (mem : Nat → Nat) : tex_ring_inv (tex_init c mem) := by
  obtain ⟨hwf, hh, _⟩ := tex_init_ring c mem
  exact ⟨hwf, [], hh, fun r hr => absurd hr (List.not_mem_nil r), List.nodup_nil⟩

theorem tex_init_build_inv (c : Nat) (mem : Nat → Nat) :
    tex_build_inv ⟨tex_init c mem, [], []⟩ := by
  refine ⟨(tex_init_homed_unique c mem).1, (tex_init_homed_unique c mem).2,
    tex_init_ring_inv c mem, ⟨fun w hw => absurd hw (List.not_mem_nil w), List.nodup_nil⟩, ?_⟩
  intro h t n hn
  rw [tex_node_of_nil _ _ _ rfl] at hn
  cases hn

/-- The build invariant read on the components of a machine state. -/
theorem tex_build_inv_evict_slot (s : TEX_Shared) (rds : List TEX_Reader)
    (ws : List TEX_Worker) (slot_idx ct cu : Nat) (hi : tex_build_inv ⟨s, rds, ws⟩) :
    tex_build_inv ⟨tex_evictor_slot_pass s slot_idx ct cu, rds, ws⟩ := by
  obtain ⟨hho, hu, hr, hwi, hns⟩ := hi
  exact ⟨tex_evictor_slot_pass_homed s slot_idx ct cu hho,
    tex_evictor_slot_pass_unique s slot_idx ct cu hu,
    tex_ring_inv_evict s slot_idx ct cu hu hr,
    tex_workers_inv_evict s ws slot_idx ct cu hu hwi,
    tex_nodes_inv_evict s slot_idx ct cu hu hns⟩

/-- One step of the machine keeps the build invariant. -/
theorem tex_build_inv_step (m m1 : TEX_Machine) (hstep : TEX_MachineStep m m1)
    (hi : tex_build_inv m) : tex_build_inv m1 := by
  cases hstep with
  | scope_open => exact hi
  | lookup pre post rd key hash top now_us handle scope1 s1 _ hk hh ht _ hcall =>
    obtain ⟨hho, hu, hr, hwi, hns⟩ := hi
    have h2 := tex_texture_workers_nodes m.shared m.workers rd.scope key hash top now_us handle
      scope1 s1 ⟨hwi, hns⟩ hcall
    exact ⟨tex_texture_homed _ _ _ _ _ _ _ _ _ hho hcall,
      tex_texture_unique _ _ _ _ _ _ _ _ _ hu hcall,
      tex_texture_ring_inv _ _ _ _ _ _ _ _ _ hk hh ht hr hcall, h2.1, h2.2⟩
  | scope_close pre post rd _ =>
    exact tex_scope_close_build m.shared m.workers rd.scope hi
  | xfer_take w s1 htake => exact tex_xfer_take_build m w s1 hi htake
  | xfer_finish pre post w bpp d a hws _ => exact tex_xfer_finish_build m pre post w bpp d a hi hws
  | evict_slot slot_idx ct cu => exact tex_build_inv_evict_slot _ _ _ slot_idx ct cu hi
  | evict_sweep now_us =>
    exact tex_evictor_sweep_induction (fun x => tex_build_inv ⟨x, m.readers, m.workers⟩)
      (fun x i ct cu hx => tex_build_inv_evict_slot x _ _ i ct cu hx) m.shared now_us hi
  | clock_tick =>
    obtain ⟨hho, hu, hr, hwi, hns⟩ := hi
    exact ⟨tex_homed_of_slots m.shared _ rfl rfl hho, tex_unique_of_slots m.shared _ rfl hu,
      tex_ring_inv_of_fields m.shared _ rfl rfl ⟨rfl, rfl, rfl, rfl⟩ hr,
      tex_workers_inv_congr m.shared _ _ rfl rfl hwi,
      tex_nodes_inv_congr m.shared _ rfl rfl hns⟩

/-- Every reachable state of the machine satisfies the build invariant. -/
theorem tex_reachable_build_inv (m : TEX_Machine) (h : TEX_MachineReachable m) :
    tex_build_inv m := by
  induction h with
  | init c mem => exact tex_init_build_inv c mem
  | step m m1 _ hstep ih => exact tex_build_inv_step m m1 hstep ih

/-! ## Lemmas: the sample states are reachable -/

theorem tex_example_machine_miss_reachable : TEX_MachineReachable tex_example_machine_miss :=
  TEX_MachineReachable.step _ _
    (TEX_MachineReachable.step _ _ (TEX_MachineReachable.init 8 (fun _ => 0))
      (TEX_MachineStep.scope_open _))
    (TEX_MachineStep.lookup ⟨tex_init 8 (fun _ => 0), [] ++ [⟨tex_scope_open, []⟩], []⟩ [] []
      ⟨tex_scope_open, []⟩ ⟨7, 9⟩ ⟨0, 1⟩ ⟨4, 4, 2⟩ 100 r_handle_zero tex_scope_open _
      rfl (by decide) (by decide) (by decide) (by decide)
      (tex_init_first_lookup 8 _ _ _ _ _ _ (by decide)))

theorem tex_example_take :
    tex_xfer_take tex_example_machine_miss.shared =
      some (tex_example_worker, tex_example_machine_taken.shared) := by
  obtain ⟨hwf, hh, hn⟩ := tex_init_after_miss 8 (fun _ => 0) ⟨7, 9⟩ ⟨0, 1⟩ ⟨4, 4, 2⟩
  obtain ⟨sd, hdq, _, _, _, _, _, _, _, _, htake⟩ :=
    tex_xfer_take_eq _ ⟨⟨7, 9⟩, ⟨0, 1⟩, ⟨4, 4, 2⟩⟩ [] hwf hh (by decide)
  obtain ⟨sd2, hdq2, _, _, hsd2⟩ := u2x_dequeue_holds _ [] ⟨⟨7, 9⟩, ⟨0, 1⟩, ⟨4, 4, 2⟩⟩ hwf hh
    (by decide)
  rw [hdq] at hdq2
  simp only [Option.some.injEq, Prod.mk.injEq, true_and] at hdq2
  rw [hdq2, hsd2] at htake
  have hnd : tex_node_of
      { tex_after_miss (tex_init 8 (fun _ => 0)) ⟨7, 9⟩ ⟨0, 1⟩ ⟨4, 4, 2⟩ with
        u2x_ring_read_pos :=
          ((tex_after_miss (tex_init 8 (fun _ => 0)) ⟨7, 9⟩ ⟨0, 1⟩
            ⟨4, 4, 2⟩).u2x_ring_read_pos + 40) % 2 ^ 64 }
      ⟨0, 1⟩ ⟨4, 4, 2⟩ = some (tex_node_fresh ⟨0, 1⟩ ⟨4, 4, 2⟩) := hn
  rw [tex_xfer_take_task_eq, hnd] at htake
  exact htake

theorem tex_example_machine_taken_reachable : TEX_MachineReachable tex_example_machine_taken :=
  TEX_MachineReachable.step _ _ tex_example_machine_miss_reachable
    (TEX_MachineStep.xfer_take tex_example_machine_miss tex_example_worker _ tex_example_take)

theorem tex_example_machine_built_reachable : TEX_MachineReachable tex_example_machine_built :=
  TEX_MachineReachable.step _ _ tex_example_machine_taken_reachable
    (TEX_MachineStep.xfer_finish tex_example_machine_taken [] [] tex_example_worker
      (fun _ => 4) 64 5 rfl (Or.inr (by decide)))

/-- The node of the sample identity in the sample states. -/
theorem tex_example_nodes :
    tex_node_of tex_example_machine_taken.shared ⟨0, 1⟩ ⟨4, 4, 2⟩ =
      some (tex_node_claim (tex_node_fresh ⟨0, 1⟩ ⟨4, 4, 2⟩)) ∧
    tex_node_of tex_example_machine_built.shared ⟨0, 1⟩ ⟨4, 4, 2⟩ =
      some (tex_node_commit 5 (tex_node_claim (tex_node_fresh ⟨0, 1⟩ ⟨4, 4, 2⟩))) := by
  obtain ⟨_, _, hn⟩ := tex_init_after_miss 8 (fun _ => 0) ⟨7, 9⟩ ⟨0, 1⟩ ⟨4, 4, 2⟩
  have h1 : tex_node_of tex_example_machine_taken.shared ⟨0, 1⟩ ⟨4, 4, 2⟩ =
      some (tex_node_claim (tex_node_fresh ⟨0, 1⟩ ⟨4, 4, 2⟩)) := by
    unfold tex_example_machine_taken
    simp only
    rw [tex_node_of_update _ _ _ _ _ _ tex_node_id_claim, if_pos rfl]
    have : tex_node_of
        { tex_example_machine_miss.shared with
          u2x_ring_read_pos :=
            (tex_example_machine_miss.shared.u2x_ring_read_pos + 40) % 2 ^ 64 }
        ⟨0, 1⟩ ⟨4, 4, 2⟩ = some (tex_node_fresh ⟨0, 1⟩ ⟨4, 4, 2⟩) := hn
    rw [this]
    rfl
  refine ⟨h1, ?_⟩
  unfold tex_example_machine_built
  simp only
  rw [tex_xfer_finish_node_of _ _ _ _ _ rfl]
  have hg : (tex_xfer_alloc tex_example_machine_taken.shared (fun _ => 4) true
      tex_example_worker.top 64 5).1 = 5 := by
    rw [tex_xfer_alloc_fst]
    rfl
  rw [hg]
  show (if ((⟨0, 1⟩ : U128), (⟨4, 4, 2⟩ : TEX_Topology)) = (⟨0, 1⟩, ⟨4, 4, 2⟩) then _ else _) = _
  rw [if_pos rfl, h1]
  rfl

theorem tex_example_step_hit :
    TEX_MachineStep tex_example_machine_built tex_example_machine_hit :=
  TEX_MachineStep.lookup tex_example_machine_built [] []
    ⟨tex_scope_open, [r_handle_zero]⟩ ⟨7, 9⟩ ⟨0, 1⟩ ⟨4, 4, 2⟩ 200 5
    ⟨[⟨⟨0, 1⟩, ⟨4, 4, 2⟩⟩]⟩ _
    rfl (by decide) (by decide) (by decide) (by decide)
    (tex_texture_hit _ _ _ _ _ _ _ (by decide) tex_example_nodes.2 (by decide))

theorem tex_example_machine_hit_reachable : TEX_MachineReachable tex_example_machine_hit :=
  TEX_MachineReachable.step _ _ tex_example_machine_built_reachable tex_example_step_hit

/-! ## Lemmas: a texture once written stays -/

/-- A lookup leaves every linked node linked, with its texture, load count and
working flag. -/
theorem tex_texture_keeps_node (s : TEX_Shared) (scope : TEX_Scope) (key hash : U128)
    (top : TEX_Topology) (now_us : Nat) (handle : R_Handle) (scope1 : TEX_Scope)
    (s1 : TEX_Shared) (h0 : U128) (t0 : TEX_Topology) (n : TEX_Node)
    (hn : tex_node_of s h0 t0 = some n)
    (h : tex_texture_from_key_hash_topology s scope key hash top now_us =
      some (handle, scope1, s1)) :
    ∃ n1, tex_node_of s1 h0 t0 = some n1 ∧ n1.texture = n.texture ∧
      n1.load_count = n.load_count ∧ n1.is_working = n.is_working := by
  refine tex_texture_induction
    (fun x => ∃ n1, tex_node_of x h0 t0 = some n1 ∧ n1.texture = n.texture ∧
      n1.load_count = n.load_count ∧ n1.is_working = n.is_working)
    ?_ ?_ ?_ s scope key hash top now_us handle scope1 s1 ⟨n, hn, rfl, rfl, rfl⟩ h
  · intro x h t now clk ⟨n1, h1, h2, h3, h4⟩
    rw [tex_node_of_update _ _ _ _ _ _ (tex_node_id_touch _ _), h1]
    split
    · exact ⟨_, rfl, h2, h3, h4⟩
    · exact ⟨n1, rfl, h2, h3, h4⟩
  · intro x h t ⟨n1, h1, h2⟩
    rw [tex_insert_if_absent_node_of]
    split
    · rename_i hid
      obtain ⟨e1, e2⟩ := Prod.mk.inj hid
      subst e1; subst e2
      rw [h1]
      exact ⟨n1, rfl, h2⟩
    · exact ⟨n1, h1, h2⟩
  · intro x k h t e nn g x1 ⟨n1, h1, h2⟩ henq
    have hf := tex_u2x_enqueue_req_fields _ _ _ _ _ _ _ _ henq
    rw [tex_node_of_congr x x1 hf.1 hf.2.1]
    exact ⟨n1, h1, h2⟩

/-- Closing a scope leaves every linked node linked, with its texture, load count
and working flag. -/
theorem tex_scope_close_keeps_node (s : TEX_Shared) (scope : TEX_Scope) (h0 : U128)
    (t0 : TEX_Topology) (n : TEX_Node) (hn : tex_node_of s h0 t0 = some n) :
    ∃ n1, tex_node_of (tex_scope_close s scope) h0 t0 = some n1 ∧ n1.texture = n.texture ∧
      n1.load_count = n.load_count ∧ n1.is_working = n.is_working := by
  refine tex_scope_close_induction
    (fun x => ∃ n1, tex_node_of x h0 t0 = some n1 ∧ n1.texture = n.texture ∧
      n1.load_count = n.load_count ∧ n1.is_working = n.is_working)
    ?_ s scope ⟨n, hn, rfl, rfl, rfl⟩
  intro x h t ⟨n1, h1, h2, h3, h4⟩
  rw [tex_node_of_update _ _ _ _ _ _ tex_node_id_unpin, h1]
  split
  · exact ⟨_, rfl, h2, h3, h4⟩
  · exact ⟨n1, rfl, h2, h3, h4⟩

/-- One step of the machine leaves a node that carries a texture linked with that
texture, unless the evictor unlinks it. -/
theorem tex_step_texture_stable (m m1 : TEX_Machine) (hstep : TEX_MachineStep m m1)
    (hi : tex_build_inv m) (hash : U128) (top : TEX_Topology) (n : TEX_Node)
    (hn : tex_node_of m.shared hash top = some n) (ht : n.texture ≠ r_handle_zero) :
    tex_node_of m1.shared hash top = none ∨
      ∃ n1, tex_node_of m1.shared hash top = some n1 ∧ n1.texture = n.texture := by
  obtain ⟨hho, hu, hr, hwi, hns⟩ := hi
  cases hstep with
  | scope_open => exact Or.inr ⟨n, hn, rfl⟩
  | lookup pre post rd key hash1 top1 now_us handle scope1 s1 _ _ _ _ _ hcall =>
    obtain ⟨n1, h1, h2, _⟩ := tex_texture_keeps_node _ _ _ _ _ _ _ _ _ hash top n hn hcall
    exact Or.inr ⟨n1, h1, h2⟩
  | scope_close pre post rd _ =>
    obtain ⟨n1, h1, h2, _⟩ := tex_scope_close_keeps_node m.shared rd.scope hash top n hn
    exact Or.inr ⟨n1, h1, h2⟩
  | xfer_take w s1 htake =>
    obtain ⟨_, _, hview, _⟩ := tex_xfer_take_spec m.shared w s1 hr htake
    right
    simp only
    rw [hview, hn]
    split
    · exact ⟨_, rfl, (tex_node_claim_fields n).2.1⟩
    · exact ⟨n, rfl, rfl⟩
  | xfer_finish pre post w bpp d a hws _ =>
    rw [hws] at hwi
    obtain ⟨hg, n0, hn0, _, hl0⟩ := hwi.1 w (by simp)
    right
    simp only
    rw [tex_xfer_finish_node_of m.shared w bpp d a hg, if_neg]
    · exact ⟨n, hn, rfl⟩
    · intro heq
      obtain ⟨e1, e2⟩ := Prod.mk.inj heq
      have hz := hns _ _ n0 hn0 hl0
      rw [e1, e2, hn0] at hn
      cases hn
      exact ht hz
  | evict_slot slot_idx ct cu =>
    simp only
    rw [tex_node_of_evict m.shared slot_idx ct cu hu, hn]
    split
    · simp only [Option.filter]
      split
      · exact Or.inr ⟨n, rfl, rfl⟩
      · exact Or.inl rfl
    · exact Or.inr ⟨n, rfl, rfl⟩
  | evict_sweep now_us =>
    have := tex_evictor_sweep_induction
      (fun x => tex_unique x ∧
        (tex_node_of x hash top = none ∨ tex_node_of x hash top = some n))
      (fun x i ct cu hx => by
        refine ⟨tex_evictor_slot_pass_unique x i ct cu hx.1, ?_⟩
        rw [tex_node_of_evict x i ct cu hx.1]
        rcases hx.2 with h | h
        · rw [h]; simp [Option.filter]
        · rw [h]
          split
          · simp only [Option.filter]
            split
            · exact Or.inr rfl
            · exact Or.inl rfl
          · exact Or.inr rfl)
      m.shared now_us ⟨hu, Or.inr hn⟩
    rcases this.2 with h | h
    · exact Or.inl h
    · exact Or.inr ⟨n, h, rfl⟩
  | clock_tick => exact Or.inr ⟨n, hn, rfl⟩

/-- Along a run in which the identity stays linked, a texture once written is
the texture at the end. -/
theorem tex_run_texture_stable (hash : U128) (top : TEX_Topology) (m m2 : TEX_Machine)
    (hrun : TEX_RunWithin (fun x => tex_linked x hash top) m m2)
    (hr : TEX_MachineReachable m) (n : TEX_Node)
    (hn : tex_node_of m.shared hash top = some n) (ht : n.texture ≠ r_handle_zero) :
    TEX_MachineReachable m2 ∧
      ∃ n2, tex_node_of m2.shared hash top = some n2 ∧ n2.texture = n.texture := by
  induction hrun with
  | refl _ => exact ⟨hr, n, hn, rfl⟩
  | step m1 m2 _ hstep hl ih =>
    obtain ⟨hr1, n1, hn1, ht1⟩ := ih
    refine ⟨TEX_MachineReachable.step _ _ hr1 hstep, ?_⟩
    rcases tex_step_texture_stable m1 m2 hstep (tex_reachable_build_inv m1 hr1) hash top n1 hn1
      (by rw [ht1]; exact ht) with h | ⟨n2, h2, h3⟩
    · unfold tex_linked at hl
      rw [h] at hl
      cases hl
    · exact ⟨n2, h2, h3.trans ht1⟩

/-! ## Lemmas: counting the touch records of the open scopes -/

theorem tex_touch_count_nil (id : U128 × TEX_Topology) : tex_touch_count [] id = 0 := rfl

theorem tex_touch_count_cons (rd : TEX_Reader) (rds : List TEX_Reader)
    (id : U128 × TEX_Topology) :
    tex_touch_count (rd :: rds) id =
      tex_touches_of rd.scope.top_touch id + tex_touch_count rds id := by
  simp only [tex_touch_count, tex_touches_of, List.map_cons, List.sum_cons]

theorem tex_touch_count_append (pre post : List TEX_Reader) (id : U128 × TEX_Topology) :
    tex_touch_count (pre ++ post) id = tex_touch_count pre id + tex_touch_count post id := by
  simp only [tex_touch_count, List.map_append, List.sum_append]

theorem tex_touch_total_cons (rd : TEX_Reader) (rds : List TEX_Reader) :
    tex_touch_total (rd :: rds) = rd.scope.top_touch.length + tex_touch_total rds := by
  simp only [tex_touch_total, List.map_cons, List.sum_cons]

theorem tex_touch_total_append (pre post : List TEX_Reader) :
    tex_touch_total (pre ++ post) = tex_touch_total pre + tex_touch_total post := by
  simp only [tex_touch_total, List.map_append, List.sum_append]

theorem tex_touches_of_le (l : List TEX_Touch) (id : U128 × TEX_Topology) :
    tex_touches_of l id ≤ l.length := by
  unfold tex_touches_of
  exact List.length_filter_le _ _

theorem tex_touch_count_le_total (rds : List TEX_Reader) (id : U128 × TEX_Topology) :
    tex_touch_count rds id ≤ tex_touch_total rds := by
  induction rds with
  | nil => exact Nat.le_refl _
  | cons rd rds ih =>
    rw [tex_touch_count_cons, tex_touch_total_cons]
    have := tex_touches_of_le rd.scope.top_touch id
    omega

theorem tex_touches_of_pos (l : List TEX_Touch) (t : TEX_Touch) (ht : t ∈ l) :
    0 < tex_touches_of l (t.hash, t.topology) := by
  unfold tex_touches_of
  rw [List.length_pos_iff_exists_mem]
  exact ⟨t, List.mem_filter.mpr ⟨ht, by simp⟩⟩

theorem tex_touches_of_pos_iff (l : List TEX_Touch) (id : U128 × TEX_Topology) :
    0 < tex_touches_of l id ↔ ∃ t ∈ l, (t.hash, t.topology) = id := by
  unfold tex_touches_of
  rw [List.length_pos_iff_exists_mem]
  constructor
  · rintro ⟨t, ht⟩
    obtain ⟨h1, h2⟩ := List.mem_filter.mp ht
    exact ⟨t, h1, by simpa using h2⟩
  · rintro ⟨t, h1, h2⟩
    exact ⟨t, List.mem_filter.mpr ⟨h1, by simpa using h2⟩⟩

theorem tex_touch_count_pos (rds : List TEX_Reader) (rd : TEX_Reader) (hrd : rd ∈ rds)
    (t : TEX_Touch) (ht : t ∈ rd.scope.top_touch) :
    0 < tex_touch_count rds (t.hash, t.topology) := by
  induction rds with
  | nil => cases hrd
  | cons a rds ih =>
    rw [tex_touch_count_cons]
    rcases List.mem_cons.mp hrd with h | h
    · subst h
      have := tex_touches_of_pos rd.scope.top_touch t ht
      omega
    · have := ih h
      omega

theorem tex_touch_count_pos_iff (rds : List TEX_Reader) (id : U128 × TEX_Topology) :
    0 < tex_touch_count rds id ↔
      ∃ rd ∈ rds, ∃ t ∈ rd.scope.top_touch, (t.hash, t.topology) = id := by
  constructor
  · intro h
    induction rds with
    | nil => rw [tex_touch_count_nil] at h; omega
    | cons a rds ih =>
      rw [tex_touch_count_cons] at h
      by_cases ha : 0 < tex_touches_of a.scope.top_touch id
      · obtain ⟨t, h1, h2⟩ := (tex_touches_of_pos_iff _ _).mp ha
        exact ⟨a, List.mem_cons_self _ _, t, h1, h2⟩
      · obtain ⟨rd, h1, h2⟩ := ih (by omega)
        exact ⟨rd, List.mem_cons_of_mem _ h1, h2⟩
  · rintro ⟨rd, hrd, t, ht, hid⟩
    rw [← hid]
    exact tex_touch_count_pos rds rd hrd t ht

/-- The counts of a list of readers one of whose scopes is replaced. -/
theorem tex_touch_count_replace (pre post : List TEX_Reader) (rd rd1 : TEX_Reader)
    (id : U128 × TEX_Topology) :
    tex_touch_count (pre ++ rd1 :: post) id + tex_touches_of rd.scope.top_touch id =
      tex_touch_count (pre ++ rd :: post) id + tex_touches_of rd1.scope.top_touch id := by
  simp only [tex_touch_count_append, tex_touch_count_cons]
  omega

theorem tex_touch_total_replace (pre post : List TEX_Reader) (rd rd1 : TEX_Reader) :
    tex_touch_total (pre ++ rd1 :: post) + rd.scope.top_touch.length =
      tex_touch_total (pre ++ rd :: post) + rd1.scope.top_touch.length := by
  simp only [tex_touch_total_append, tex_touch_total_cons]
  omega

theorem tex_touch_count_remove (pre post : List TEX_Reader) (rd : TEX_Reader)
    (id : U128 × TEX_Topology) :
    tex_touch_count (pre ++ rd :: post) id =
      tex_touch_count (pre ++ post) id + tex_touches_of rd.scope.top_touch id := by
  simp only [tex_touch_count_append, tex_touch_count_cons]
  omega

theorem tex_touch_total_remove (pre post : List TEX_Reader) (rd : TEX_Reader) :
    tex_touch_total (pre ++ rd :: post) =
      tex_touch_total (pre ++ post) + rd.scope.top_touch.length := by
  simp only [tex_touch_total_append, tex_touch_total_cons]
  omega

/-! ## Lemmas: the pin invariant along the primitive steps -/

theorem tex_node_of_isSome_update (s : TEX_Shared) (hash h1 : U128) (top t1 : TEX_Topology)
    (f : TEX_Node → TEX_Node) (hf : ∀ n, tex_node_id (f n) = tex_node_id n) :
    (tex_node_of (tex_update_node s hash top f) h1 t1).isSome = (tex_node_of s h1 t1).isSome := by
  rw [tex_node_of_update s hash h1 top t1 f hf]
  split
  · cases tex_node_of s h1 t1 <;> rfl
  · rfl

/-- The pin invariant reads the table only through the pin counts of the nodes
found by identity. -/
theorem tex_pins_inv_of_nodes (s s1 : TEX_Shared) (rds : List TEX_Reader)
    (h : ∀ h t, (tex_node_of s1 h t).map (fun n => n.scope_ref_count) =
      (tex_node_of s h t).map (fun n => n.scope_ref_count))
    (hi : tex_pins_inv s rds) : tex_pins_inv s1 rds := by
  obtain ⟨ha, hb, hc⟩ := hi
  refine ⟨?_, ?_, hc⟩
  · intro h1 t1 m hm
    have := h h1 t1
    rw [hm] at this
    cases hn : tex_node_of s h1 t1 with
    | none => rw [hn] at this; cases this
    | some n =>
      rw [hn] at this
      simp only [Option.map_some', Option.some.injEq] at this
      rw [this]
      exact ha h1 t1 n hn
  · intro rd hrd t ht
    have h1 := hb rd hrd t ht
    have := h t.hash t.topology
    cases hn : tex_node_of s t.hash t.topology with
    | none => rw [hn] at h1; cases h1
    | some n =>
      rw [hn] at this
      cases hm : tex_node_of s1 t.hash t.topology with
      | none => rw [hm] at this; cases this
      | some m => rfl

theorem tex_pins_inv_congr (s s1 : TEX_Shared) (rds : List TEX_Reader)
    (h1 : s1.slots = s.slots) (h2 : s1.slots_count = s.slots_count)
    (hi : tex_pins_inv s rds) : tex_pins_inv s1 rds :=
  tex_pins_inv_of_nodes s s1 rds (fun h t => by rw [tex_node_of_congr s s1 h1 h2]) hi

theorem tex_pins_inv_update (s : TEX_Shared) (rds : List TEX_Reader) (hash : U128)
    (top : TEX_Topology) (f : TEX_Node → TEX_Node)
    (hf : ∀ n, tex_node_id (f n) = tex_node_id n)
    (hr : ∀ n, (f n).scope_ref_count = n.scope_ref_count)
    (hi : tex_pins_inv s rds) : tex_pins_inv (tex_update_node s hash top f) rds := by
  apply tex_pins_inv_of_nodes s _ rds _ hi
  intro h t
  rw [tex_node_of_update s hash h top t f hf]
  split
  · cases tex_node_of s h t with
    | none => rfl
    | some n => simp only [Option.map_some', hr]
  · rfl

/-- The pin invariant reads the readers only through their scopes. -/
theorem tex_pins_inv_readers (s : TEX_Shared) (rds rds1 : List TEX_Reader)
    (h : rds1.map (fun rd => rd.scope) = rds.map (fun rd => rd.scope))
    (hi : tex_pins_inv s rds) : tex_pins_inv s rds1 := by
  obtain ⟨ha, hb, hc⟩ := hi
  have hcount : ∀ id, tex_touch_count rds1 id = tex_touch_count rds id := by
    intro id
    have e : ∀ l : List TEX_Reader, tex_touch_count l id =
        ((l.map (fun rd => rd.scope)).map
          (fun sc => (sc.top_touch.filter
            (fun t => decide ((t.hash, t.topology) = id))).length)).sum := by
      intro l
      simp only [tex_touch_count, List.map_map, Function.comp_def]
    rw [e, e, h]
  have htotal : tex_touch_total rds1 = tex_touch_total rds := by
    have e : ∀ l : List TEX_Reader, tex_touch_total l =
        ((l.map (fun rd => rd.scope)).map (fun sc => sc.top_touch.length)).sum := by
      intro l
      simp only [tex_touch_total, List.map_map, Function.comp_def]
    rw [e, e, h]
  refine ⟨?_, ?_, by rw [htotal]; exact hc⟩
  · intro h1 t1 n hn
    rw [hcount]
    exact ha h1 t1 n hn
  · intro rd hrd t ht
    have : rd.scope ∈ rds1.map (fun rd => rd.scope) := List.mem_map.mpr ⟨rd, hrd, rfl⟩
    rw [h] at this
    obtain ⟨rd0, hrd0, hsc⟩ := List.mem_map.mp this
    exact hb rd0 hrd0 t (by rw [hsc]; exact ht)

/-- A touch: the node found is pinned once more and the scope records it. -/
theorem tex_pins_inv_touch (s : TEX_Shared) (pre post : List TEX_Reader) (rd rd1 : TEX_Reader)
    (hash : U128) (top : TEX_Topology) (n : TEX_Node) (now clk : Nat)
    (hn : tex_node_of s hash top = some n)
    (hrd1 : rd1.scope.top_touch = { hash := hash, topology := top } :: rd.scope.top_touch)
    (hbound : tex_touch_total (pre ++ rd :: post) + 1 < 2 ^ 64)
    (hi : tex_pins_inv s (pre ++ rd :: post)) :
    tex_pins_inv (tex_update_node s hash top (tex_touch_node now clk)) (pre ++ rd1 :: post) := by
  obtain ⟨ha, hb, _⟩ := hi
  have hcount := fun id => tex_touch_count_replace pre post rd rd1 id
  have htotal := tex_touch_total_replace pre post rd rd1
  rw [hrd1, List.length_cons] at htotal
  refine ⟨?_, ?_, by omega⟩
  · intro h1 t1 m hm
    have hc := hcount (h1, t1)
    rw [hrd1, tex_touches_of_cons] at hc
    rw [tex_node_of_update s hash h1 top t1 _ (tex_node_id_touch _ _)] at hm
    split at hm
    · rename_i hid
      obtain ⟨e1, e2⟩ := Prod.mk.inj hid
      subst e1; subst e2
      rw [hn] at hm
      simp only [Option.map_some', Option.some.injEq] at hm
      rw [← hm]
      simp only [if_true] at hc
      have hle := tex_touch_count_le_total (pre ++ rd :: post) (h1, t1)
      have href := ha h1 t1 n hn
      simp only [tex_touch_node]
      rw [ins_atomic_u64_inc_eval_eq _ (by omega)]
      omega
    · rename_i hid
      simp only at hc
      rw [if_neg (fun e => hid e.symm)] at hc
      have href := ha h1 t1 m hm
      omega
  · intro rd2 hrd2 t ht
    rw [tex_node_of_isSome_update _ _ _ _ _ _ (tex_node_id_touch _ _)]
    rcases List.mem_append.mp hrd2 with h | h
    · exact hb rd2 (List.mem_append_left _ h) t ht
    · rcases List.mem_cons.mp h with h | h
      · subst h
        rw [hrd1] at ht
        rcases List.mem_cons.mp ht with h2 | h2
        · subst h2
          simp only [hn, Option.isSome_some]
        · exact hb rd (List.mem_append_right _ (List.mem_cons_self _ _)) t h2
      · exact hb rd2 (List.mem_append_right _ (List.mem_cons_of_mem _ h)) t ht

/-- The insertion of a fresh node keeps the pin invariant: no touch names an
identity that was not linked. -/
theorem tex_pins_inv_insert (s : TEX_Shared) (rds : List TEX_Reader) (hash : U128)
    (top : TEX_Topology) (hi : tex_pins_inv s rds) :
    tex_pins_inv (tex_insert_if_absent s hash top).2 rds := by
  obtain ⟨ha, hb, hc⟩ := hi
  refine ⟨?_, ?_, hc⟩
  · intro h1 t1 m hm
    rw [tex_insert_if_absent_node_of] at hm
    split at hm
    · rename_i hid
      obtain ⟨e1, e2⟩ := Prod.mk.inj hid
      subst e1; subst e2
      cases hn : tex_node_of s h1 t1 with
      | some n =>
        rw [hn] at hm
        simp only [Option.getD_some, Option.some.injEq] at hm
        rw [← hm]
        exact ha h1 t1 n hn
      | none =>
        rw [hn] at hm
        simp only [Option.getD_none, Option.some.injEq] at hm
        rw [← hm]
        have hz : ¬ 0 < tex_touch_count rds (h1, t1) := by
          intro hpos
          obtain ⟨rd, hrd, t, ht, hid⟩ := (tex_touch_count_pos_iff rds (h1, t1)).mp hpos
          have := hb rd hrd t ht
          obtain ⟨e1, e2⟩ := Prod.mk.inj hid
          rw [e1, e2, hn] at this
          cases this
        show 0 = _
        omega
    · exact ha h1 t1 m hm
  · intro rd hrd t ht
    have := hb rd hrd t ht
    rw [tex_insert_if_absent_node_of]
    split
    · rfl
    · exact this

/-- The two ways the fallback part of a lookup ends: nothing done, or the node of
the key's fallback hash touched and its texture returned. -/
theorem tex_lookup_fallback_cases (s : TEX_Shared) (scope : TEX_Scope) (key : U128)
    (top : TEX_Topology) (handle : R_Handle) (now_us : Nat) :
    tex_lookup_fallback s scope key top handle now_us = (handle, scope, s) ∨
    (handle = r_handle_zero ∧ tex_fallback_hash s key ≠ u128_zero ∧
      ∃ m, tex_node_of s (tex_fallback_hash s key) top = some m ∧
        tex_lookup_fallback s scope key top handle now_us =
          (m.texture,
            { top_touch := { hash := tex_fallback_hash s key, topology := top } ::
                scope.top_touch },
            tex_update_node s (tex_fallback_hash s key) top
              (tex_touch_node now_us s.user_clock_idx))) := by
  by_cases hz : handle = r_handle_zero
  · subst hz
    rw [tex_lookup_fallback_null]
    by_cases hf : tex_fallback_hash s key = u128_zero
    · left
      rw [if_pos hf]
    · rw [if_neg hf]
      cases hm : tex_node_of s (tex_fallback_hash s key) top with
      | none => left; rfl
      | some m =>
        right
        refine ⟨rfl, hf, m, rfl, ?_⟩
        have hid := tex_node_of_id _ _ _ _ hm
        simp only [hid.1, hid.2]
  · left
    exact tex_lookup_fallback_nonnull s scope key top handle now_us hz

/-- The fallback part of a lookup keeps the pin invariant. -/
theorem tex_lookup_fallback_pins (s : TEX_Shared) (pre post : List TEX_Reader)
    (rd : TEX_Reader) (key : U128) (top : TEX_Topology) (handle : R_Handle) (now_us : Nat)
    (obs : List R_Handle)
    (hbound : tex_touch_total (pre ++ rd :: post) + 1 < 2 ^ 64)
    (hi : tex_pins_inv s (pre ++ rd :: post)) :
    tex_pins_inv (tex_lookup_fallback s rd.scope key top handle now_us).2.2
      (pre ++ ⟨(tex_lookup_fallback s rd.scope key top handle now_us).2.1, obs⟩ :: post) := by
  rcases tex_lookup_fallback_cases s rd.scope key top handle now_us with h | ⟨_, _, m, hm, h⟩
  · rw [h]
    exact tex_pins_inv_readers s _ _ (by simp) hi
  · rw [h]
    exact tex_pins_inv_touch s pre post rd _ _ top m now_us _ hm rfl hbound hi

/-- A lookup keeps the pin invariant. -/
theorem tex_texture_pins (s : TEX_Shared) (pre post : List TEX_Reader) (rd : TEX_Reader)
    (key hash : U128) (top : TEX_Topology) (now_us : Nat) (handle : R_Handle)
    (scope1 : TEX_Scope) (s1 : TEX_Shared) (obs : List R_Handle)
    (hbound : tex_touch_total (pre ++ rd :: post) + 2 < 2 ^ 64)
    (hi : tex_pins_inv s (pre ++ rd :: post))
    (h : tex_texture_from_key_hash_topology s rd.scope key hash top now_us =
      some (handle, scope1, s1)) :
    tex_pins_inv s1 (pre ++ ⟨scope1, obs⟩ :: post) := by
  rcases tex_texture_cases s rd.scope key hash top now_us handle scope1 s1 h with
    ⟨_, _, h2, h3⟩ | ⟨_, n, hn, he⟩ | ⟨_, hn, g, s3, henq, he⟩
  · rw [h2, h3]
    exact tex_pins_inv_readers s _ _ (by simp) hi
  · have hid := tex_node_of_id _ _ _ _ hn
    have h1 := tex_pins_inv_touch s pre post rd
      ⟨{ top_touch := { hash := n.hash, topology := n.topology } :: rd.scope.top_touch }, obs⟩
      hash top n now_us s.user_clock_idx hn (by simp only [hid.1, hid.2]) (by omega) hi
    have hb2 : tex_touch_total (pre ++
        (⟨{ top_touch := { hash := n.hash, topology := n.topology } :: rd.scope.top_touch },
          obs⟩ : TEX_Reader) :: post) + 1 < 2 ^ 64 := by
      have := tex_touch_total_replace pre post rd
        ⟨{ top_touch := { hash := n.hash, topology := n.topology } :: rd.scope.top_touch }, obs⟩
      simp only [List.length_cons] at this
      omega
    have h2 := tex_lookup_fallback_pins _ pre post _ key top n.texture now_us obs hb2 h1
    simp only at h2
    rw [← he] at h2
    exact h2
  · have hf := tex_u2x_enqueue_req_fields _ _ _ _ _ _ _ _ henq
    have h1 := tex_pins_inv_congr _ s3 _ hf.1 hf.2.1 (tex_pins_inv_insert s _ hash top hi)
    have h2 := tex_lookup_fallback_pins s3 pre post rd key top r_handle_zero now_us obs
      (by omega) h1
    rw [← he] at h2
    exact h2

/-- Undoing the touches of a closing scope, one by one. -/
theorem tex_pins_close_fold (rds : List TEX_Reader) (L : List TEX_Touch) :
    ∀ s : TEX_Shared,
      (∀ h t n, tex_node_of s h t = some n →
        n.scope_ref_count = tex_touch_count rds (h, t) + tex_touches_of L (h, t)) →
      (∀ rd ∈ rds, ∀ t ∈ rd.scope.top_touch, (tex_node_of s t.hash t.topology).isSome) →
      (∀ t ∈ L, (tex_node_of s t.hash t.topology).isSome) →
      tex_touch_total rds < 2 ^ 64 →
      tex_pins_inv (L.foldl tex_scope_close_touch s) rds := by
  induction L with
  | nil =>
    intro s ha hb _ hc
    refine ⟨?_, hb, hc⟩
    intro h t n hn
    have := ha h t n hn
    simp only [tex_touches_of, List.filter_nil, List.length_nil, Nat.add_zero] at this
    exact this
  | cons τ L ih =>
    intro s ha hb hl hc
    rw [List.foldl_cons, tex_scope_close_touch_eq]
    apply ih
    · intro h t m hm
      rw [tex_node_of_update _ _ _ _ _ _ tex_node_id_unpin] at hm
      split at hm
      · rename_i hid
        cases hn : tex_node_of s h t with
        | none => rw [hn] at hm; cases hm
        | some n =>
          rw [hn] at hm
          simp only [Option.map_some', Option.some.injEq] at hm
          have href := ha h t n hn
          rw [tex_touches_of_cons, if_pos hid.symm] at href
          rw [← hm]
          simp only [tex_unpin_node]
          rw [href, ← Nat.add_assoc, ins_atomic_u64_dec_succ]
      · rename_i hid
        have href := ha h t m hm
        rw [tex_touches_of_cons, if_neg (fun e => hid e.symm)] at href
        exact href
    · intro rd hrd t ht
      rw [tex_node_of_isSome_update _ _ _ _ _ _ tex_node_id_unpin]
      exact hb rd hrd t ht
    · intro t ht
      rw [tex_node_of_isSome_update _ _ _ _ _ _ tex_node_id_unpin]
      exact hl t (List.mem_cons_of_mem _ ht)
    · exact hc

/-- Closing a scope keeps the pin invariant for the scopes that stay open. -/
theorem tex_scope_close_pins (s : TEX_Shared) (pre post : List TEX_Reader) (rd : TEX_Reader)
    (hi : tex_pins_inv s (pre ++ rd :: post)) :
    tex_pins_inv (tex_scope_close s rd.scope) (pre ++ post) := by
  obtain ⟨ha, hb, hc⟩ := hi
  unfold tex_scope_close
  apply tex_pins_close_fold
  · intro h t n hn
    rw [← tex_touch_count_remove]
    exact ha h t n hn
  · intro rd1 hrd1 t ht
    apply hb rd1 _ t ht
    rcases List.mem_append.mp hrd1 with h | h
    · exact List.mem_append_left _ h
    · exact List.mem_append_right _ (List.mem_cons_of_mem _ h)
  · intro t ht
    exact hb rd (List.mem_append_right _ (List.mem_cons_self _ _)) t ht
  · have := tex_touch_total_remove pre post rd
    omega

/-- An eviction pass keeps the pin invariant: a node named by a touch has a
positive pin count. -/
theorem tex_pins_inv_evict (s : TEX_Shared) (rds : List TEX_Reader) (slot_idx ct cu : Nat)
    (hu : tex_unique s) (hi : tex_pins_inv s rds) :
    tex_pins_inv (tex_evictor_slot_pass s slot_idx ct cu) rds := by
  obtain ⟨ha, hb, hc⟩ := hi
  refine ⟨?_, ?_, hc⟩
  · intro h t m hm
    exact ha h t m (tex_node_of_evict_some s slot_idx ct cu hu h t m hm)
  · intro rd hrd t ht
    have hp := hb rd hrd t ht
    cases hn : tex_node_of s t.hash t.topology with
    | none => rw [hn] at hp; cases hp
    | some n =>
      have href := ha _ _ n hn
      have hpos := tex_touch_count_pos rds rd hrd t ht
      rw [tex_node_of_evict_keep s slot_idx ct cu hu _ _ n hn
        (tex_evictable_false ct cu n (Or.inr (Or.inr (by omega))))]
      rfl

/-! ## Lemmas: the handle invariant along the steps that keep every texture -/

theorem tex_same_textures_refl (s : TEX_Shared) : tex_same_textures s s :=
  ⟨fun _ _ n hn => ⟨n, hn, rfl⟩, fun _ _ m hm _ => ⟨m, hm, rfl⟩, rfl, rfl⟩

theorem tex_same_textures_trans (s s1 s2 : TEX_Shared) (h1 : tex_same_textures s s1)
    (h2 : tex_same_textures s1 s2) : tex_same_textures s s2 := by
  refine ⟨?_, ?_, h2.2.2.1.trans h1.2.2.1, h2.2.2.2.trans h1.2.2.2⟩
  · intro h t n hn
    obtain ⟨m, hm, e⟩ := h1.1 h t n hn
    obtain ⟨m2, hm2, e2⟩ := h2.1 h t m hm
    exact ⟨m2, hm2, e2.trans e⟩
  · intro h t m hm hz
    obtain ⟨n1, hn1, e1⟩ := h2.2.1 h t m hm hz
    obtain ⟨n, hn, e⟩ := h1.2.1 h t n1 hn1 (by rw [e1]; exact hz)
    exact ⟨n, hn, e.trans e1⟩

theorem tex_same_textures_update (s : TEX_Shared) (hash : U128) (top : TEX_Topology)
    (f : TEX_Node → TEX_Node) (hf : ∀ n, tex_node_id (f n) = tex_node_id n)
    (ht : ∀ n, (f n).texture = n.texture) :
    tex_same_textures s (tex_update_node s hash top f) := by
  refine ⟨?_, ?_, rfl, rfl⟩
  · intro h t n hn
    rw [tex_node_of_update s hash h top t f hf, hn]
    split
    · exact ⟨f n, rfl, ht n⟩
    · exact ⟨n, rfl, rfl⟩
  · intro h t m hm _
    rw [tex_node_of_update s hash h top t f hf] at hm
    split at hm
    · cases hn : tex_node_of s h t with
      | none => rw [hn] at hm; cases hm
      | some n =>
        rw [hn] at hm
        simp only [Option.map_some', Option.some.injEq] at hm
        exact ⟨n, rfl, by rw [← hm, ht]⟩
    · exact ⟨m, hm, rfl⟩

theorem tex_same_textures_insert (s : TEX_Shared) (hash : U128) (top : TEX_Topology) :
    tex_same_textures s (tex_insert_if_absent s hash top).2 := by
  refine ⟨?_, ?_, ?_, ?_⟩
  · intro h t n hn
    rw [tex_insert_if_absent_node_of]
    split
    · rename_i hid
      obtain ⟨e1, e2⟩ := Prod.mk.inj hid
      subst e1; subst e2
      rw [hn]
      exact ⟨n, rfl, rfl⟩
    · exact ⟨n, hn, rfl⟩
  · intro h t m hm hz
    rw [tex_insert_if_absent_node_of] at hm
    split at hm
    · rename_i hid
      obtain ⟨e1, e2⟩ := Prod.mk.inj hid
      subst e1; subst e2
      cases hn : tex_node_of s h t with
      | none =>
        rw [hn] at hm
        simp only [Option.getD_none, Option.some.injEq] at hm
        rw [← hm] at hz
        exact absurd rfl hz
      | some n =>
        rw [hn] at hm
        simp only [Option.getD_some, Option.some.injEq] at hm
        exact ⟨n, rfl, by rw [hm]⟩
    · exact ⟨m, hm, rfl⟩
  · rw [tex_insert_if_absent_eq]
    cases tex_node_of s hash top <;> rfl
  · rw [tex_insert_if_absent_eq]
    cases tex_node_of s hash top <;> rfl

theorem tex_same_textures_congr (s s1 : TEX_Shared) (h1 : s1.slots = s.slots)
    (h2 : s1.slots_count = s.slots_count)
    (h3 : s1.r_tex2d_release_log = s.r_tex2d_release_log)
    (h4 : s1.r_tex2d_alloc_log = s.r_tex2d_alloc_log) : tex_same_textures s s1 := by
  refine ⟨?_, ?_, h3, h4⟩
  · intro h t n hn
    rw [tex_node_of_congr s s1 h1 h2]
    exact ⟨n, hn, rfl⟩
  · intro h t m hm _
    rw [tex_node_of_congr s s1 h1 h2] at hm
    exact ⟨m, hm, rfl⟩

/-- A lookup keeps every texture. -/
theorem tex_texture_same_textures (s : TEX_Shared) (scope : TEX_Scope) (key hash : U128)
    (top : TEX_Topology) (now_us : Nat) (handle : R_Handle) (scope1 : TEX_Scope)
    (s1 : TEX_Shared)
    (h : tex_texture_from_key_hash_topology s scope key hash top now_us =
      some (handle, scope1, s1)) : tex_same_textures s s1 := by
  refine tex_texture_induction (fun x => tex_same_textures s x)
    ?_ ?_ ?_ s scope key hash top now_us handle scope1 s1 (tex_same_textures_refl s) h
  · intro x h t now clk hx
    exact tex_same_textures_trans s x _ hx
      (tex_same_textures_update x h t _ (tex_node_id_touch _ _)
        (fun n => (tex_touch_node_load _ _ n).2.2))
  · intro x h t hx
    exact tex_same_textures_trans s x _ hx (tex_same_textures_insert x h t)
  · intro x k h t e n g x1 hx henq
    have hf := tex_u2x_enqueue_req_fields _ _ _ _ _ _ _ _ henq
    exact tex_same_textures_trans s x _ hx
      (tex_same_textures_congr x x1 hf.1 hf.2.1 hf.2.2.2.2.2.2.2.1 hf.2.2.2.2.2.2.2.2)

/-- Closing a scope keeps every texture. -/
theorem tex_scope_close_same_textures (s : TEX_Shared) (scope : TEX_Scope) :
    tex_same_textures s (tex_scope_close s scope) := by
  refine tex_scope_close_induction (fun x => tex_same_textures s x) ?_ s scope
    (tex_same_textures_refl s)
  intro x h t hx
  exact tex_same_textures_trans s x _ hx
    (tex_same_textures_update x h t _ tex_node_id_unpin (fun n => (tex_unpin_node_load n).2.2))

/-- The part of the handle invariant that does not mention the readers is kept
when every texture is. -/
theorem tex_handles_inv_of_same (s s1 : TEX_Shared) (rds rds1 : List TEX_Reader)
    (hsame : tex_same_textures s s1)
    (hobs : ∀ rd ∈ rds1, ∀ x ∈ rd.observed, x ≠ r_handle_zero →
      ∃ t ∈ rd.scope.top_touch, ∃ n, tex_node_of s1 t.hash t.topology = some n ∧ n.texture = x)
    (hi : tex_handles_inv s rds) : tex_handles_inv s1 rds1 := by
  obtain ⟨h1, h2, h3, _⟩ := hi
  obtain ⟨_, hback, hrel, hall⟩ := hsame
  refine ⟨?_, ?_, ?_, hobs⟩
  · intro h t m hm hz
    obtain ⟨n, hn, e⟩ := hback h t m hm hz
    have := h1 h t n hn (by rw [e]; exact hz)
    unfold r_handle_live at this ⊢
    rw [hrel, hall, ← e]
    exact this
  · intro x hx
    rw [hrel, hall]
    exact h2 x hx
  · intro h t m h' t' m' hm hm' e hz
    obtain ⟨n, hn, e1⟩ := hback h t m hm hz
    obtain ⟨n', hn', e2⟩ := hback h' t' m' hm' (by rw [← e]; exact hz)
    exact h3 h t n h' t' n' hn hn' (by rw [e1, e2, e]) (by rw [e1]; exact hz)

/-- The observed handles are kept justified when every texture is and the scopes
only grow or close. -/
theorem tex_observed_of_same (s s1 : TEX_Shared) (rds : List TEX_Reader) (rd1 : TEX_Reader)
    (hsame : tex_same_textures s s1) (rd : TEX_Reader) (hrd : rd ∈ rds)
    (hsc : ∀ t ∈ rd.scope.top_touch, t ∈ rd1.scope.top_touch)
    (hi : tex_handles_inv s rds) :
    ∀ x ∈ rd.observed, x ≠ r_handle_zero →
      ∃ t ∈ rd1.scope.top_touch, ∃ n, tex_node_of s1 t.hash t.topology = some n ∧
        n.texture = x := by
  intro x hx hz
  obtain ⟨t, ht, n, hn, e⟩ := hi.2.2.2 rd hrd x hx hz
  obtain ⟨m, hm, e1⟩ := hsame.1 _ _ n hn
  exact ⟨t, hsc t ht, m, hm, e1.trans e⟩

/-- The scope and handle left by the fallback part of a lookup: the scope only
grows, and a non-null handle is the texture of a node named by a touch of the
scope. -/
theorem tex_lookup_fallback_scope_spec (s : TEX_Shared) (scope : TEX_Scope) (key : U128)
    (top : TEX_Topology) (handle : R_Handle) (now_us : Nat)
    (hpre : handle ≠ r_handle_zero → ∃ t ∈ scope.top_touch, ∃ n,
      tex_node_of s t.hash t.topology = some n ∧ n.texture = handle) :
    (∀ t ∈ scope.top_touch,
      t ∈ (tex_lookup_fallback s scope key top handle now_us).2.1.top_touch) ∧
    ((tex_lookup_fallback s scope key top handle now_us).1 ≠ r_handle_zero →
      ∃ t ∈ (tex_lookup_fallback s scope key top handle now_us).2.1.top_touch, ∃ n,
        tex_node_of (tex_lookup_fallback s scope key top handle now_us).2.2 t.hash t.topology =
          some n ∧
        n.texture = (tex_lookup_fallback s scope key top handle now_us).1) := by
  rcases tex_lookup_fallback_cases s scope key top handle now_us with h | ⟨_, _, m, hm, h⟩
  · rw [h]
    exact ⟨fun _ ht => ht, hpre⟩
  · rw [h]
    refine ⟨fun t ht => List.mem_cons_of_mem _ ht, ?_⟩
    intro _
    refine ⟨_, List.mem_cons_self _ _, tex_touch_node now_us s.user_clock_idx m, ?_, rfl⟩
    simp only
    rw [tex_node_of_update _ _ _ _ _ _ (tex_node_id_touch _ _), if_pos rfl, hm]
    rfl

/-- The scope and handle left by a lookup. -/
theorem tex_texture_scope_spec (s : TEX_Shared) (scope : TEX_Scope) (key hash : U128)
    (top : TEX_Topology) (now_us : Nat) (handle : R_Handle) (scope1 : TEX_Scope)
    (s1 : TEX_Shared)
    (h : tex_texture_from_key_hash_topology s scope key hash top now_us =
      some (handle, scope1, s1)) :
    (∀ t ∈ scope.top_touch, t ∈ scope1.top_touch) ∧
    (handle ≠ r_handle_zero → ∃ t ∈ scope1.top_touch, ∃ n,
      tex_node_of s1 t.hash t.topology = some n ∧ n.texture = handle) := by
  rcases tex_texture_cases s scope key hash top now_us handle scope1 s1 h with
    ⟨_, h1, h2, _⟩ | ⟨_, n, hn, he⟩ | ⟨_, hn, g, s3, henq, he⟩
  · rw [h1, h2]
    exact ⟨fun _ ht => ht, fun hz => absurd rfl hz⟩
  · have hid := tex_node_of_id _ _ _ _ hn
    have hsp := tex_lookup_fallback_scope_spec
      (tex_update_node s hash top (tex_touch_node now_us s.user_clock_idx))
      { top_touch := { hash := n.hash, topology := n.topology } :: scope.top_touch }
      key top n.texture now_us (by
        intro _
        refine ⟨_, List.mem_cons_self _ _, tex_touch_node now_us s.user_clock_idx n, ?_, rfl⟩
        simp only [hid.1, hid.2]
        rw [tex_node_of_update _ _ _ _ _ _ (tex_node_id_touch _ _), if_pos rfl, hn]
        rfl)
    rw [← he] at hsp
    exact ⟨fun t ht => hsp.1 t (List.mem_cons_of_mem _ ht), hsp.2⟩
  · have hsp := tex_lookup_fallback_scope_spec s3 scope key top r_handle_zero now_us
      (fun hz => absurd rfl hz)
    rw [← he] at hsp
    exact hsp

/-- A lookup keeps the handle invariant; the handle it returns is recorded as
observed. -/
theorem tex_texture_handles (s : TEX_Shared) (pre post : List TEX_Reader) (rd : TEX_Reader)
    (key hash : U128) (top : TEX_Topology) (now_us : Nat) (handle : R_Handle)
    (scope1 : TEX_Scope) (s1 : TEX_Shared)
    (hi : tex_handles_inv s (pre ++ rd :: post))
    (h : tex_texture_from_key_hash_topology s rd.scope key hash top now_us =
      some (handle, scope1, s1)) :
    tex_handles_inv s1 (pre ++ ⟨scope1, handle :: rd.observed⟩ :: post) := by
  have hsame := tex_texture_same_textures s rd.scope key hash top now_us handle scope1 s1 h
  have hsp := tex_texture_scope_spec s rd.scope key hash top now_us handle scope1 s1 h
  apply tex_handles_inv_of_same s s1 (pre ++ rd :: post) _ hsame _ hi
  intro rd1 hrd1 x hx hz
  rcases List.mem_append.mp hrd1 with hm | hm
  · exact tex_observed_of_same s s1 _ rd1 hsame rd1 (List.mem_append_left _ hm)
      (fun _ ht => ht) hi x hx hz
  · rcases List.mem_cons.mp hm with hm | hm
    · subst hm
      simp only at hx ⊢
      rcases List.mem_cons.mp hx with hx | hx
      · subst hx
        exact hsp.2 hz
      · exact tex_observed_of_same s s1 _ ⟨scope1, handle :: rd.observed⟩ hsame rd
          (List.mem_append_right _ (List.mem_cons_self _ _)) hsp.1 hi x hx hz
    · exact tex_observed_of_same s s1 _ rd1 hsame rd1
        (List.mem_append_right _ (List.mem_cons_of_mem _ hm)) (fun _ ht => ht) hi x hx hz

/-- Closing a scope keeps the handle invariant for the scopes that stay open. -/
theorem tex_scope_close_handles (s : TEX_Shared) (pre post : List TEX_Reader) (rd : TEX_Reader)
    (hi : tex_handles_inv s (pre ++ rd :: post)) :
    tex_handles_inv (tex_scope_close s rd.scope) (pre ++ post) := by
  have hsame := tex_scope_close_same_textures s rd.scope
  apply tex_handles_inv_of_same s _ (pre ++ rd :: post) _ hsame _ hi
  intro rd1 hrd1 x hx hz
  apply tex_observed_of_same s _ _ rd1 hsame rd1 _ (fun _ ht => ht) hi x hx hz
  rcases List.mem_append.mp hrd1 with h | h
  · exact List.mem_append_left _ h
  · exact List.mem_append_right _ (List.mem_cons_of_mem _ h)

/-- A step that keeps every texture and the readers keeps the handle
invariant. -/
theorem tex_handles_inv_same_readers (s s1 : TEX_Shared) (rds : List TEX_Reader)
    (hsame : tex_same_textures s s1) (hi : tex_handles_inv s rds) :
    tex_handles_inv s1 rds :=
  tex_handles_inv_of_same s s1 rds rds hsame
    (fun rd1 hrd1 x hx hz =>
      tex_observed_of_same s s1 rds rd1 hsame rd1 hrd1 (fun _ ht => ht) hi x hx hz) hi

/-! ## Lemmas: the handle invariant along the commit and the eviction -/

/-- The second half of a worker's turn keeps the handle invariant, when the node
it commits to carried no texture and the backend returned a handle that was not
live. -/
theorem tex_xfer_finish_handles (s : TEX_Shared) (rds : List TEX_Reader) (w : TEX_Worker)
    (bpp : Nat → Nat) (data_size : Nat) (alloc_result : R_Handle) (hg : w.got_task = true)
    (n : TEX_Node) (hn : tex_node_of s w.hash w.top = some n)
    (hz : n.texture = r_handle_zero)
    (hfresh : alloc_result = r_handle_zero ∨ ¬ r_handle_live s alloc_result)
    (hi : tex_handles_inv s rds) :
    tex_handles_inv (tex_xfer_finish s w bpp data_size alloc_result) rds := by
  obtain ⟨h1, h2, h3, h4⟩ := hi
  have hview := tex_xfer_finish_node_of s w bpp data_size alloc_result hg
  have hf := tex_xfer_finish_fields s w bpp data_size alloc_result hg
  have hrel := hf.2.2.1
  have hall := hf.2.2.2.1
  rw [tex_xfer_alloc_log] at hall
  rw [tex_xfer_alloc_fst] at hview
  have hcount : ∀ x, (s.r_tex2d_alloc_log.map (fun c => c.result)).count x ≤
      ((tex_xfer_finish s w bpp data_size alloc_result).r_tex2d_alloc_log.map
        (fun c => c.result)).count x := by
    intro x
    rw [hall]
    split
    · rw [List.map_append, List.count_append]
      omega
    · exact Nat.le_refl _
  -- a committed non-null texture is the fresh handle
  have hnew : ∀ m, (tex_node_of s w.hash w.top).map
      (tex_node_commit (if tex_xfer_alloc_guard bpp true w.top data_size = true then alloc_result
        else r_handle_zero)) = some m → m.texture ≠ r_handle_zero →
      m.texture = alloc_result ∧ tex_xfer_alloc_guard bpp true w.top data_size = true ∧
        ¬ r_handle_live s alloc_result := by
    intro m hm hmz
    rw [hn] at hm
    simp only [Option.map_some', Option.some.injEq] at hm
    rw [← hm] at hmz ⊢
    simp only [tex_node_commit] at hmz ⊢
    by_cases hgd : tex_xfer_alloc_guard bpp true w.top data_size = true
    · rw [if_pos hgd] at hmz ⊢
      rcases hfresh with h | h
      · exact absurd h hmz
      · exact ⟨rfl, hgd, h⟩
    · rw [if_neg hgd] at hmz
      exact absurd rfl hmz
  refine ⟨?_, ?_, ?_, ?_⟩
  · intro h t m hm hmz
    rw [hview] at hm
    unfold r_handle_live
    rw [hrel]
    split at hm
    · rename_i hid
      obtain ⟨e1, e2⟩ := Prod.mk.inj hid
      rw [e1, e2] at hm
      obtain ⟨ea, hgd, hnl⟩ := hnew m hm hmz
      rw [hall, if_pos hgd, List.map_append, List.count_append, ea]
      have := h2 alloc_result (by rw [← ea]; exact hmz)
      unfold r_handle_live at hnl
      simp only [List.map_cons, List.map_nil, List.count_singleton_self]
      omega
    · have := h1 h t m hm hmz
      unfold r_handle_live at this
      have := hcount m.texture
      omega
  · intro x hx
    rw [hrel]
    have := h2 x hx
    have := hcount x
    omega
  · intro h t m h' t' m' hm hm' e hmz
    rw [hview] at hm hm'
    by_cases hid : (h, t) = (w.hash, w.top)
    · by_cases hid' : (h', t') = (w.hash, w.top)
      · rw [hid, hid']
      · rw [if_pos hid] at hm
        rw [if_neg hid'] at hm'
        obtain ⟨e1, e2⟩ := Prod.mk.inj hid
        rw [e1, e2] at hm
        obtain ⟨ea, _, hnl⟩ := hnew m hm hmz
        have := h1 h' t' m' hm' (by rw [← e]; exact hmz)
        rw [← e, ea] at this
        exact absurd this hnl
    · by_cases hid' : (h', t') = (w.hash, w.top)
      · rw [if_neg hid] at hm
        rw [if_pos hid'] at hm'
        obtain ⟨e1, e2⟩ := Prod.mk.inj hid'
        rw [e1, e2] at hm'
        obtain ⟨ea, _, hnl⟩ := hnew m' hm' (by rw [← e]; exact hmz)
        have := h1 h t m hm hmz
        rw [e, ea] at this
        exact absurd this hnl
      · rw [if_neg hid] at hm
        rw [if_neg hid'] at hm'
        exact h3 h t m h' t' m' hm hm' e hmz
  · intro rd hrd x hx hxz
    obtain ⟨t, ht, n1, hn1, e⟩ := h4 rd hrd x hx hxz
    refine ⟨t, ht, n1, ?_, e⟩
    rw [hview, if_neg]
    · exact hn1
    · intro hid
      obtain ⟨e1, e2⟩ := Prod.mk.inj hid
      rw [e1, e2, hn] at hn1
      cases hn1
      rw [hz] at e
      exact hxz e.symm

/-- The handles an eviction pass releases: each is the non-null texture of an
evictable node of the slot, and none is released twice. -/
theorem tex_evict_released (s : TEX_Shared) (slot_idx ct cu : Nat) (hh : tex_homed s)
    (hu : tex_unique s) (rds : List TEX_Reader) (hi : tex_handles_inv s rds) :
    ∃ R : List R_Handle,
      (tex_evictor_slot_pass s slot_idx ct cu).r_tex2d_release_log =
        s.r_tex2d_release_log ++ R ∧
      R.Nodup ∧
      ∀ x ∈ R, x ≠ r_handle_zero ∧ ∃ e, tex_node_of s e.hash e.topology = some e ∧
        tex_slot_idx s e.hash = slot_idx ∧ tex_evictable ct cu e = true ∧ e.texture = x := by
  refine ⟨(((s.slots slot_idx).filter (tex_evictable ct cu)).map (fun n => n.texture)).filter
    (fun h => !r_handle_match h r_handle_zero), ?_, ?_, ?_⟩
  · rw [tex_evictor_slot_pass_eq]
  · rw [List.filter_map]
    apply List.Nodup.map_on
    · intro x hx y hy hxy
      obtain ⟨hx1, hx2⟩ := List.mem_filter.mp hx
      obtain ⟨hy1, _⟩ := List.mem_filter.mp hy
      have hxm := (List.mem_filter.mp hx1).1
      have hym := (List.mem_filter.mp hy1).1
      have hnx := tex_node_of_of_mem s hh hu slot_idx x hxm
      have hny := tex_node_of_of_mem s hh hu slot_idx y hym
      have hxz : x.texture ≠ r_handle_zero := by
        simp only [Function.comp, Bool.not_eq_true', ← Bool.not_eq_true,
          r_handle_match_iff] at hx2
        exact hx2
      have := hi.2.2.1 _ _ x _ _ y hnx hny hxy hxz
      obtain ⟨e1, e2⟩ := Prod.mk.inj this
      rw [e1, e2, hny] at hnx
      exact (Option.some.inj hnx).symm
    · exact List.Nodup.filter _ (List.Nodup.filter _ (List.Nodup.of_map _ (hu slot_idx)))
  · intro x hx
    obtain ⟨hx1, hx2⟩ := List.mem_filter.mp hx
    obtain ⟨e, he, hex⟩ := List.mem_map.mp hx1
    obtain ⟨hem, hev⟩ := List.mem_filter.mp he
    refine ⟨?_, e, tex_node_of_of_mem s hh hu slot_idx e hem, hh slot_idx e hem, hev, hex⟩
    simp only [Bool.not_eq_true', ← Bool.not_eq_true, r_handle_match_iff] at hx2
    exact hx2

/-- An eviction pass keeps the handle invariant. -/
theorem tex_handles_inv_evict (s : TEX_Shared) (rds : List TEX_Reader) (slot_idx ct cu : Nat)
    (hh : tex_homed s) (hu : tex_unique s) (hp : tex_pins_inv s rds)
    (hi : tex_handles_inv s rds) :
    tex_handles_inv (tex_evictor_slot_pass s slot_idx ct cu) rds := by
  obtain ⟨R, hrel, hnd, hR⟩ := tex_evict_released s slot_idx ct cu hh hu rds hi
  obtain ⟨h1, h2, h3, h4⟩ := hi
  have hall : (tex_evictor_slot_pass s slot_idx ct cu).r_tex2d_alloc_log =
      s.r_tex2d_alloc_log := by
    rw [tex_evictor_slot_pass_eq]
  have hcnt : ∀ x, R.count x ≤ 1 := fun x => List.nodup_iff_count_le_one.mp hnd x
  refine ⟨?_, ?_, ?_, ?_⟩
  · intro h t m hm hmz
    have hm0 := tex_node_of_evict_some s slot_idx ct cu hu h t m hm
    have hlive := h1 h t m hm0 hmz
    unfold r_handle_live at hlive ⊢
    rw [hrel, hall, List.count_append]
    have : R.count m.texture = 0 := by
      rw [List.count_eq_zero]
      intro hmem
      obtain ⟨_, e, he, hslot, hev, hex⟩ := hR _ hmem
      have hid := h3 _ _ e _ _ m he hm0 hex (by rw [hex]; exact hmz)
      obtain ⟨e1, e2⟩ := Prod.mk.inj hid
      rw [e1, e2, hm0] at he
      have hem : m = e := Option.some.inj he
      rw [tex_node_of_evict s slot_idx ct cu hu, hm0] at hm
      rw [← e1, hslot, if_pos rfl] at hm
      simp only [Option.filter, hem, hev, Bool.not_true, Bool.false_eq_true, if_false] at hm
      cases hm
    omega
  · intro x hx
    rw [hrel, hall, List.count_append]
    by_cases hmem : x ∈ R
    · obtain ⟨_, e, he, _, _, hex⟩ := hR _ hmem
      have hlive := h1 _ _ e he (by rw [hex]; exact hx)
      unfold r_handle_live at hlive
      rw [hex] at hlive
      have := hcnt x
      omega
    · rw [List.count_eq_zero.mpr hmem]
      exact h2 x hx
  · intro h t m h' t' m' hm hm' e hmz
    exact h3 h t m h' t' m' (tex_node_of_evict_some s slot_idx ct cu hu h t m hm)
      (tex_node_of_evict_some s slot_idx ct cu hu h' t' m' hm') e hmz
  · intro rd hrd x hx hxz
    obtain ⟨t, ht, n1, hn1, e⟩ := h4 rd hrd x hx hxz
    refine ⟨t, ht, n1, ?_, e⟩
    have href := hp.1 _ _ n1 hn1
    have hpos := tex_touch_count_pos rds rd hrd t ht
    exact tex_node_of_evict_keep s slot_idx ct cu hu _ _ n1 hn1
      (tex_evictable_false ct cu n1 (Or.inr (Or.inr (by omega))))

/-! ## Lemmas: the invariant of the machine -/

theorem tex_init_machine_inv (c : Nat) (mem : Nat → Nat) :
    tex_machine_inv ⟨tex_init c mem, [], []⟩ := by
  refine ⟨tex_init_build_inv c mem, ⟨?_, ?_, ?_⟩, ⟨?_, ?_, ?_, ?_⟩⟩
  · intro h t n hn
    rw [tex_node_of_nil _ _ _ rfl] at hn
    cases hn
  · intro rd hrd
    cases hrd
  · show (0 : Nat) < 2 ^ 64
    norm_num
  · intro h t n hn
    rw [tex_node_of_nil _ _ _ rfl] at hn
    cases hn
  · intro x _
    simp [tex_init]
  · intro h t n h1 t1 n1 hn
    rw [tex_node_of_nil _ _ _ rfl] at hn
    cases hn
  · intro rd hrd
    cases hrd

theorem tex_machine_inv_evict_slot (s : TEX_Shared) (rds : List TEX_Reader)
    (ws : List TEX_Worker) (slot_idx ct cu : Nat) (hi : tex_machine_inv ⟨s, rds, ws⟩) :
    tex_machine_inv ⟨tex_evictor_slot_pass s slot_idx ct cu, rds, ws⟩ := by
  obtain ⟨hb, hp, hh⟩ := hi
  exact ⟨tex_build_inv_evict_slot s rds ws slot_idx ct cu hb,
    tex_pins_inv_evict s rds slot_idx ct cu hb.2.1 hp,
    tex_handles_inv_evict s rds slot_idx ct cu hb.1 hb.2.1 hp hh⟩

/-- One step of the machine keeps its invariant. -/
theorem tex_machine_inv_step (m m1 : TEX_Machine) (hstep : TEX_MachineStep m m1)
    (hi : tex_machine_inv m) : tex_machine_inv m1 := by
  have hb1 := tex_build_inv_step m m1 hstep hi.1
  obtain ⟨hb, hp, hh⟩ := hi
  refine ⟨hb1, ?_⟩
  cases hstep with
  | scope_open =>
    constructor
    · obtain ⟨ha, hbp, hc⟩ := hp
      refine ⟨?_, ?_, ?_⟩
      · intro h t n hn
        rw [tex_touch_count_append, tex_touch_count_cons, tex_touch_count_nil]
        have := ha h t n hn
        simp only [tex_scope_open, tex_touches_of, List.filter_nil, List.length_nil] at this ⊢
        omega
      · intro rd hrd t ht
        rcases List.mem_append.mp hrd with h | h
        · exact hbp rd h t ht
        · simp only [List.mem_singleton] at h
          subst h
          cases ht
      · rw [tex_touch_total_append, tex_touch_total_cons]
        have e : tex_touch_total [] = 0 := rfl
        rw [e]
        simp only [tex_scope_open, List.length_nil]
        omega
    · apply tex_handles_inv_of_same m.shared m.shared m.readers _ (tex_same_textures_refl _) _ hh
      intro rd hrd x hx hz
      rcases List.mem_append.mp hrd with h | h
      · exact hh.2.2.2 rd h x hx hz
      · simp only [List.mem_singleton] at h
        subst h
        cases hx
  | lookup pre post rd key hash top now_us handle scope1 s1 hrds _ _ _ hbound hcall =>
    rw [hrds] at hp hh hbound
    exact ⟨tex_texture_pins m.shared pre post rd key hash top now_us handle scope1 s1 _ hbound
        hp hcall,
      tex_texture_handles m.shared pre post rd key hash top now_us handle scope1 s1 hh hcall⟩
  | scope_close pre post rd hrds =>
    rw [hrds] at hp hh
    exact ⟨tex_scope_close_pins m.shared pre post rd hp,
      tex_scope_close_handles m.shared pre post rd hh⟩
  | xfer_take w s1 htake =>
    obtain ⟨_, _, hview, _, hrel, hall, _⟩ := tex_xfer_take_spec m.shared w s1 hb.2.2.1 htake
    constructor
    · apply tex_pins_inv_of_nodes m.shared s1 m.readers _ hp
      intro h t
      rw [hview]
      split
      · cases tex_node_of m.shared h t with
        | none => rfl
        | some n => simp only [Option.map_some', (tex_node_claim_fields n).2.2]
      · rfl
    · apply tex_handles_inv_same_readers m.shared s1 m.readers _ hh
      refine ⟨?_, ?_, hrel, hall⟩
      · intro h t n hn
        rw [hview, hn]
        split
        · exact ⟨_, rfl, (tex_node_claim_fields n).2.1⟩
        · exact ⟨n, rfl, rfl⟩
      · intro h t x hx _
        rw [hview] at hx
        split at hx
        · cases hn : tex_node_of m.shared h t with
          | none => rw [hn] at hx; cases hx
          | some n =>
            rw [hn] at hx
            simp only [Option.map_some', Option.some.injEq] at hx
            exact ⟨n, rfl, by rw [← hx, (tex_node_claim_fields n).2.1]⟩
        · exact ⟨x, hx, rfl⟩
  | xfer_finish pre post w bpp d a hws hfresh =>
    have hwi := hb.2.2.2.1
    rw [hws] at hwi
    obtain ⟨hg, n, hn, _, hl⟩ := hwi.1 w (by simp)
    have hz := hb.2.2.2.2 _ _ n hn hl
    constructor
    · apply tex_pins_inv_of_nodes m.shared _ m.readers _ hp
      intro h t
      rw [tex_xfer_finish_node_of m.shared w bpp d a hg]
      split
      · cases tex_node_of m.shared h t with
        | none => rfl
        | some n1 => rfl
      · rfl
    · exact tex_xfer_finish_handles m.shared m.readers w bpp d a hg n hn hz hfresh hh
  | evict_slot slot_idx ct cu =>
    exact (tex_machine_inv_evict_slot m.shared m.readers m.workers slot_idx ct cu
      ⟨hb, hp, hh⟩).2
  | evict_sweep now_us =>
    exact (tex_evictor_sweep_induction (fun x => tex_machine_inv ⟨x, m.readers, m.workers⟩)
      (fun x i ct cu hx => tex_machine_inv_evict_slot x _ _ i ct cu hx) m.shared now_us
      ⟨hb, hp, hh⟩).2
  | clock_tick =>
    exact ⟨tex_pins_inv_congr m.shared _ _ rfl rfl hp,
      tex_handles_inv_same_readers m.shared _ _
        (tex_same_textures_congr m.shared _ rfl rfl rfl rfl) hh⟩

/-- Every reachable state of the machine satisfies its invariant. -/
theorem tex_reachable_machine_inv (m : TEX_Machine) (h : TEX_MachineReachable m) :
    tex_machine_inv m := by
  induction h with
  | init c mem => exact tex_init_machine_inv c mem
  | step m m1 _ hstep ih => exact tex_machine_inv_step m m1 hstep ih

/-! ## Lemmas: pinned nodes and observed handles -/

/-- A node named by a touch of an open scope is linked with a positive pin
count. -/
theorem tex_pinned_node (s : TEX_Shared) (rds : List TEX_Reader) (hp : tex_pins_inv s rds)
    (rd : TEX_Reader) (hrd : rd ∈ rds) (t : TEX_Touch) (ht : t ∈ rd.scope.top_touch) :
    ∃ n, tex_node_of s t.hash t.topology = some n ∧ 0 < n.scope_ref_count := by
  have h := hp.2.1 rd hrd t ht
  cases hn : tex_node_of s t.hash t.topology with
  | none => rw [hn] at h; cases h
  | some n =>
    have href := hp.1 _ _ n hn
    have hpos := tex_touch_count_pos rds rd hrd t ht
    exact ⟨n, rfl, by omega⟩

/-- A node with a positive pin count survives a sweep of the evictor. -/
theorem tex_node_of_sweep_keep (s : TEX_Shared) (now_us : Nat) (hu : tex_unique s) (hash : U128)
    (top : TEX_Topology) (n : TEX_Node) (hn : tex_node_of s hash top = some n)
    (hk : n.load_count = 0 ∨ n.is_working ≠ 0 ∨ n.scope_ref_count ≠ 0) :
    tex_node_of (tex_evictor_sweep s now_us) hash top = some n :=
  (tex_evictor_sweep_induction (fun x => tex_unique x ∧ tex_node_of x hash top = some n)
    (fun x i ct cu hx => ⟨tex_evictor_slot_pass_unique x i ct cu hx.1,
      tex_node_of_evict_keep x i ct cu hx.1 hash top n hx.2 (tex_evictable_false ct cu n hk)⟩)
    s now_us ⟨hu, hn⟩).2

/-- An eviction pass releases no handle observed in an open scope. -/
theorem tex_evict_release_observed (s : TEX_Shared) (rds : List TEX_Reader)
    (ws : List TEX_Worker) (slot_idx ct cu : Nat) (hi : tex_machine_inv ⟨s, rds, ws⟩)
    (rd : TEX_Reader) (hrd : rd ∈ rds) (x : R_Handle) (hx : x ∈ rd.observed) :
    (tex_evictor_slot_pass s slot_idx ct cu).r_tex2d_release_log.count x =
      s.r_tex2d_release_log.count x := by
  obtain ⟨hb, hp, hh⟩ := hi
  obtain ⟨R, hrel, _, hR⟩ := tex_evict_released s slot_idx ct cu hb.1 hb.2.1 rds hh
  rw [hrel, List.count_append]
  have : R.count x = 0 := by
    rw [List.count_eq_zero]
    intro hmem
    obtain ⟨hz, e, he, _, hev, hex⟩ := hR x hmem
    obtain ⟨t, ht, n1, hn1, e1⟩ := hh.2.2.2 rd hrd x hx hz
    have hid := hh.2.2.1 _ _ e _ _ n1 he hn1 (by rw [hex, e1]) (by rw [hex]; exact hz)
    obtain ⟨i1, i2⟩ := Prod.mk.inj hid
    rw [i1, i2, hn1] at he
    have hen : n1 = e := Option.some.inj he
    obtain ⟨n2, hn2, hpos⟩ := tex_pinned_node s rds hp rd hrd t ht
    rw [hn1] at hn2
    have : n1 = n2 := Option.some.inj hn2
    rw [← this, hen] at hpos
    have := tex_evictable_false ct cu e (Or.inr (Or.inr (by omega)))
    rw [this] at hev
    cases hev
  omega

/-- No step of the machine releases a handle observed in an open scope. -/
theorem tex_step_release_observed (m m1 : TEX_Machine) (hstep : TEX_MachineStep m m1)
    (hi : tex_machine_inv m) (rd : TEX_Reader) (hrd : rd ∈ m.readers) (x : R_Handle)
    (hx : x ∈ rd.observed) :
    m1.shared.r_tex2d_release_log.count x = m.shared.r_tex2d_release_log.count x := by
  cases hstep with
  | scope_open => rfl
  | lookup pre post rd1 key hash top now_us handle scope1 s1 _ _ _ _ _ hcall =>
    rw [(tex_texture_same_textures _ _ _ _ _ _ _ _ _ hcall).2.2.1]
  | scope_close pre post rd1 _ =>
    rw [(tex_scope_close_same_textures m.shared rd1.scope).2.2.1]
  | xfer_take w s1 htake =>
    obtain ⟨_, _, _, _, hrel, _⟩ := tex_xfer_take_spec m.shared w s1 hi.1.2.2.1 htake
    simp only
    rw [hrel]
  | xfer_finish pre post w bpp d a hws _ =>
    have hwi := hi.1.2.2.2.1
    rw [hws] at hwi
    obtain ⟨hg, _⟩ := hwi.1 w (by simp)
    simp only
    rw [(tex_xfer_finish_fields m.shared w bpp d a hg).2.2.1]
  | evict_slot slot_idx ct cu =>
    exact tex_evict_release_observed m.shared m.readers m.workers slot_idx ct cu hi rd hrd x hx
  | evict_sweep now_us =>
    exact (tex_evictor_sweep_induction
      (fun s => tex_machine_inv ⟨s, m.readers, m.workers⟩ ∧
        s.r_tex2d_release_log.count x = m.shared.r_tex2d_release_log.count x)
      (fun s i ct cu hs => ⟨tex_machine_inv_evict_slot s _ _ i ct cu hs.1,
        (tex_evict_release_observed s m.readers m.workers i ct cu hs.1 rd hrd x hx).trans
          hs.2⟩)
      m.shared now_us ⟨hi, rfl⟩).2
  | clock_tick => rfl

/-- Along a run in which some open scope holds a touch of the identity, the node
stays linked with its texture. -/
theorem tex_run_pinned_stable (hash : U128) (top : TEX_Topology) (m m2 : TEX_Machine)
    (hrun : TEX_RunWithin (fun x => tex_pinned x hash top) m m2)
    (hr : TEX_MachineReachable m) (n : TEX_Node)
    (hn : tex_node_of m.shared hash top = some n) (ht : n.texture ≠ r_handle_zero) :
    TEX_MachineReachable m2 ∧
      ∃ n2, tex_node_of m2.shared hash top = some n2 ∧ n2.texture = n.texture := by
  induction hrun with
  | refl _ => exact ⟨hr, n, hn, rfl⟩
  | step m1 m2 _ hstep hl ih =>
    obtain ⟨hr1, n1, hn1, ht1⟩ := ih
    have hr2 := TEX_MachineReachable.step _ _ hr1 hstep
    refine ⟨hr2, ?_⟩
    rcases tex_step_texture_stable m1 m2 hstep (tex_reachable_build_inv m1 hr1) hash top n1 hn1
      (by rw [ht1]; exact ht) with h | ⟨n2, h2, h3⟩
    · obtain ⟨rd, hrd, htouch⟩ := hl
      obtain ⟨n3, hn3, _⟩ := tex_pinned_node m2.shared m2.readers
        (tex_reachable_machine_inv m2 hr2).2.1 rd hrd _ htouch
      simp only at hn3
      rw [h] at hn3
      cases hn3
    · exact ⟨n2, h2, h3.trans ht1⟩

/-! ## Lemmas: repeated lookups of one identity -/

theorem tex_ring_inv_at_intro (s : TEX_Shared) (hi : tex_ring_inv s) :
    ∃ waiting, tex_ring_inv_at s waiting := by
  obtain ⟨hwf, pending, hh, hp, hnd⟩ := hi
  exact ⟨pending, hwf, hh, hp, hnd⟩

theorem tex_ring_inv_at_congr (s s1 : TEX_Shared) (waiting : List TEX_Request)
    (hring : s1.u2x_ring_size = s.u2x_ring_size ∧ s1.u2x_ring_base = s.u2x_ring_base ∧
      s1.u2x_ring_write_pos = s.u2x_ring_write_pos ∧
      s1.u2x_ring_read_pos = s.u2x_ring_read_pos)
    (hnode : ∀ h t n, tex_node_of s h t = some n → n.load_count = 0 → n.is_working = 0 →
      ∃ m, tex_node_of s1 h t = some m ∧ m.load_count = 0 ∧ m.is_working = 0)
    (hi : tex_ring_inv_at s waiting) : tex_ring_inv_at s1 waiting := by
  obtain ⟨hwf, hh, hp, hnd⟩ := hi
  have hc := u2x_ring_congr s s1 hring waiting
  refine ⟨hc.1.mpr hwf, hc.2.1.mpr hh, ?_, hnd⟩
  intro r hr
  obtain ⟨hrw, n, hn, hl, hw⟩ := hp r hr
  exact ⟨hrw, hnode _ _ n hn hl hw⟩

theorem tex_ring_inv_at_touch (s : TEX_Shared) (waiting : List TEX_Request) (hash : U128)
    (top : TEX_Topology) (now clk : Nat) (hi : tex_ring_inv_at s waiting) :
    tex_ring_inv_at (tex_update_node s hash top (tex_touch_node now clk)) waiting := by
  apply tex_ring_inv_at_congr s _ waiting (tex_update_node_ring s hash top _) _ hi
  intro h t n hn h1 h2
  rw [tex_node_of_update s hash h top t _ (tex_node_id_touch now clk)]
  split
  · exact ⟨tex_touch_node now clk n, by rw [hn]; rfl,
      by rw [(tex_touch_node_load now clk n).1]; exact h1,
      by rw [(tex_touch_node_load now clk n).2.1]; exact h2⟩
  · exact ⟨n, hn, h1, h2⟩

theorem tex_ring_inv_at_after_miss (s : TEX_Shared) (waiting : List TEX_Request)
    (key hash : U128) (top : TEX_Topology)
    (hk : key.wf) (hh : hash.wf) (ht : top.wf) (hn : tex_node_of s hash top = none)
    (hroom : u2x_unconsumed_size s + 40 ≤ s.u2x_ring_size) (hi : tex_ring_inv_at s waiting) :
    tex_ring_inv_at (tex_after_miss s key hash top) (waiting ++ [⟨key, hash, top⟩]) := by
  obtain ⟨hwf, hhold, hp, hnd⟩ := hi
  have hsz := u2x_ring_holds_size s waiting hhold
  have hr := tex_after_miss_ring s key hash top waiting hwf hhold (by omega)
  have hnot : ∀ r ∈ waiting, (r.hash, r.top) ≠ (hash, top) := by
    intro r hr heq
    obtain ⟨_, n, hnode, _, _⟩ := hp r hr
    obtain ⟨e1, e2⟩ := Prod.mk.inj heq
    rw [e1, e2, hn] at hnode
    cases hnode
  refine ⟨hr.1, hr.2, ?_, ?_⟩
  · intro r hr
    rcases List.mem_append.mp hr with h | h
    · obtain ⟨hrw, n, hnode, h1, h2⟩ := hp r h
      refine ⟨hrw, n, ?_, h1, h2⟩
      rw [tex_after_miss_node_other _ _ _ _ _ _ (hnot r h)]
      exact hnode
    · simp only [List.mem_singleton] at h
      subst h
      exact ⟨⟨hk, hh, ht⟩, tex_node_fresh hash top, tex_after_miss_node s key hash top hn,
        rfl, rfl⟩
  · rw [List.map_append, List.nodup_append]
    refine ⟨hnd, by simp, ?_⟩
    intro a ha hb
    simp only [List.map_cons, List.map_nil, List.mem_singleton] at hb
    subst hb
    obtain ⟨r, hr, hid⟩ := List.mem_map.mp ha
    exact hnot r hr hid

theorem tex_after_miss_slots (s : TEX_Shared) (key hash : U128) (top : TEX_Topology)
    (hn : tex_node_of s hash top = none) :
    (tex_after_miss s key hash top).slots = (tex_insert_if_absent s hash top).2.slots ∧
    (tex_after_miss s key hash top).slots_count =
      (tex_insert_if_absent s hash top).2.slots_count := by
  rw [tex_insert_if_absent_eq, hn]
  exact ⟨rfl, rfl⟩

theorem tex_homed_after_miss (s : TEX_Shared) (key hash : U128) (top : TEX_Topology)
    (hn : tex_node_of s hash top = none) (hh : tex_homed s) :
    tex_homed (tex_after_miss s key hash top) :=
  tex_homed_of_slots _ _ (tex_after_miss_slots s key hash top hn).1
    (tex_after_miss_slots s key hash top hn).2 (tex_insert_if_absent_homed s hash top hh)

theorem tex_unique_after_miss (s : TEX_Shared) (key hash : U128) (top : TEX_Topology)
    (hn : tex_node_of s hash top = none) (hu : tex_unique s) :
    tex_unique (tex_after_miss s key hash top) :=
  tex_unique_of_slots _ _ (tex_after_miss_slots s key hash top hn).1
    (tex_insert_if_absent_unique s hash top hu)

/-- The touch of any node keeps the progress of a schedule. -/
theorem tex_repeat_inv_touch (req : TEX_Request) (wp0 : Nat) (pending : List TEX_Request)
    (s : TEX_Shared) (called : Bool) (done waiting : List TEX_Request) (hash : U128)
    (top : TEX_Topology) (now clk : Nat)
    (hi : tex_repeat_inv req wp0 pending s called done waiting) :
    tex_repeat_inv req wp0 pending (tex_update_node s hash top (tex_touch_node now clk))
      called done waiting := by
  obtain ⟨hh, hu, hr, ha, hb⟩ := hi
  have hnode := tex_node_of_update s hash req.hash top req.top _ (tex_node_id_touch now clk)
  refine ⟨tex_update_node_homed s hash top _ (tex_node_id_touch now clk) hh,
    tex_update_node_unique s hash top _ (tex_node_id_touch now clk) hu,
    tex_ring_inv_at_touch s waiting hash top now clk hr, ?_, ?_⟩
  · intro hc
    obtain ⟨h1, h2, h3⟩ := ha hc
    refine ⟨?_, h2, h3⟩
    rw [hnode, h1]
    split <;> rfl
  · intro hc
    obtain ⟨h1, h2, n, hn, hw, hl⟩ := hb hc
    refine ⟨h1, h2, ?_⟩
    rw [hnode, hn]
    split
    · refine ⟨tex_touch_node now clk n, rfl, ?_, ?_⟩
      · rw [(tex_touch_node_load now clk n).2.1]; exact hw
      · rw [(tex_touch_node_load now clk n).1]; exact hl
    · exact ⟨n, rfl, hw, hl⟩

/-- A call of the schedule: the first one inserts the node and enqueues the
request, every later one finds the node and enqueues nothing. -/
theorem tex_repeat_call_step (key hash : U128) (top : TEX_Topology) (wp0 : Nat)
    (pending : List TEX_Request) (s : TEX_Shared) (called : Bool)
    (done waiting : List TEX_Request) (scope : TEX_Scope) (now_us : Nat)
    (handle : R_Handle) (scope1 : TEX_Scope) (s1 : TEX_Shared)
    (hk : key.wf) (hhw : hash.wf) (ht : top.wf) (hh0 : hash ≠ u128_zero)
    (hclock : now_us < max_U64)
    (hi : tex_repeat_inv ⟨key, hash, top⟩ wp0 pending s called done waiting)
    (h : tex_texture_from_key_hash_topology s scope key hash top now_us =
      some (handle, scope1, s1)) :
    tex_repeat_inv ⟨key, hash, top⟩ wp0 pending s1 true done
      (if called = true then waiting else waiting ++ [⟨key, hash, top⟩]) := by
  rcases tex_texture_state s scope key hash top now_us handle scope1 s1 hi.2.2.1.1 h with
    ⟨hz, _⟩ | ⟨_, sm, hsm, hs1⟩
  · exact absurd hz hh0
  · have hm : tex_repeat_inv ⟨key, hash, top⟩ wp0 pending sm true done
        (if called = true then waiting else waiting ++ [⟨key, hash, top⟩]) := by
      rcases hsm with ⟨n, hn, e⟩ | ⟨hn, hroom, e⟩ | ⟨_, _, hc, _⟩
      · cases called with
        | false =>
          have := (hi.2.2.2.1 rfl).1
          rw [hn] at this
          cases this
        | true =>
          rw [e]
          simp only [if_true]
          exact tex_repeat_inv_touch _ _ _ _ _ _ _ _ _ _ _ hi
      · cases called with
        | true =>
          obtain ⟨_, _, n, hn1, _⟩ := hi.2.2.2.2 rfl
          rw [hn] at hn1
          cases hn1
        | false =>
          obtain ⟨hh, hu, hr, ha, _⟩ := hi
          obtain ⟨_, hdone, hwp⟩ := ha rfl
          have hs1i : tex_texture_from_key_hash_topology s scope key hash top now_us =
              some (handle, scope1, s1) := h
          simp only [Bool.false_eq_true, if_false]
          rw [e]
          refine ⟨?_, ?_, tex_ring_inv_at_after_miss s waiting key hash top hk hhw ht hn hroom hr,
            fun hc => (by cases hc), fun _ => ⟨?_, ?_, tex_node_fresh hash top,
              tex_after_miss_node s key hash top hn, rfl, Or.inl ⟨by simp, rfl⟩⟩⟩
          · exact tex_homed_after_miss s key hash top hn hh
          · exact tex_unique_after_miss s key hash top hn hu
          · rw [← List.append_assoc, hdone]
          · show (s.u2x_ring_write_pos + 40) % 2 ^ 64 = _
            rw [hwp]
      · exact absurd hclock (by omega)
    rcases hs1 with e | e
    · rw [e]; exact hm
    · rw [e]; exact tex_repeat_inv_touch _ _ _ _ _ _ _ _ _ _ _ hm

/-- A worker iteration of the schedule: it consumes the oldest waiting request,
and builds the node of the identity exactly when that request is its own. -/
theorem tex_repeat_work_step (req : TEX_Request) (wp0 : Nat) (pending : List TEX_Request)
    (s : TEX_Shared) (called : Bool) (done : List TEX_Request) (r : TEX_Request)
    (rs : List TEX_Request) (bpp : Nat → Nat) (data_size : Nat) (alloc_result : R_Handle)
    (hi : tex_repeat_inv req wp0 pending s called done (r :: rs)) :
    ∃ s1, tex_xfer_thread__iteration s bpp data_size alloc_result = some s1 ∧
      tex_repeat_inv req wp0 pending s1 called (done ++ [r]) rs := by
  obtain ⟨hh, hu, ⟨hwf, hhold, hp, hnd⟩, ha, hb⟩ := hi
  obtain ⟨hrw, n, hn, hl, hw⟩ := hp r (List.mem_cons_self _ _)
  obtain ⟨s1, h1, hwf1, hh1, hnode, hoth, _, _, _, _, _⟩ :=
    tex_xfer_iteration_build s bpp data_size alloc_result r rs n hwf hhold hrw hn hw
  have hwp : s1.u2x_ring_write_pos = s.u2x_ring_write_pos := by
    have hd := tex_xfer_iteration_dequeue s bpp data_size alloc_result r rs hwf hhold hrw
    rw [hd] at h1
    have e := Option.some.inj h1
    rw [← e]
    have hnd : tex_node_of { s with u2x_ring_read_pos := (s.u2x_ring_read_pos + 40) % 2 ^ 64 }
        r.hash r.top = some n := hn
    rw [tex_xfer_process_task _ bpp r.key r.hash r.top data_size alloc_result n hnd hw]
    exact ((tex_xfer_fallback_part_ring _ _ _).2.2.1).trans
      ((tex_xfer_alloc_ring _ bpp true r.top data_size alloc_result).2.2.1)
  rw [List.map_cons, List.nodup_cons] at hnd
  have hring : tex_ring_inv_at s1 rs := by
    refine ⟨hwf1, hh1, ?_, hnd.2⟩
    intro r1 hr1
    obtain ⟨hrw1, n1, hn1, hl1, hw1⟩ := hp r1 (List.mem_cons_of_mem _ hr1)
    refine ⟨hrw1, n1, ?_, hl1, hw1⟩
    rw [hoth r1.hash r1.top]
    · exact hn1
    · intro heq
      exact hnd.1 (List.mem_map.mpr ⟨r1, hr1, heq⟩)
  refine ⟨s1, h1, tex_xfer_iteration_homed s bpp data_size alloc_result s1 hh h1,
    tex_xfer_iteration_unique s bpp data_size alloc_result s1 hu h1, hring, ?_, ?_⟩
  · intro hc
    obtain ⟨habs, hdone, hw0⟩ := ha hc
    refine ⟨?_, ?_, hwp.trans hw0⟩
    · rw [hoth req.hash req.top]
      · exact habs
      · intro heq
        obtain ⟨e1, e2⟩ := Prod.mk.inj heq
        rw [e1, e2, hn] at habs
        cases habs
    · rw [List.append_assoc]; exact hdone
  · intro hc
    obtain ⟨hdone, hw0, m, hm, hmw, hml⟩ := hb hc
    refine ⟨by rw [List.append_assoc]; exact hdone, hwp.trans hw0, ?_⟩
    by_cases hid : (req.hash, req.top) = (r.hash, r.top)
    · obtain ⟨e1, e2⟩ := Prod.mk.inj hid
      have hnot : req ∉ rs := fun hmem =>
        hnd.1 (List.mem_map.mpr ⟨req, hmem, hid⟩)
      rw [e1, e2, hnode]
      refine ⟨_, rfl, rfl, Or.inr ⟨hnot, ?_⟩⟩
      show ins_atomic_u64_inc_eval (tex_node_claim n).load_count = 1
      have : (tex_node_claim n).load_count = 0 := by
        unfold tex_node_claim
        split
        · exact hl
        · exact hl
      rw [this]
      exact ins_atomic_u64_inc_eval_eq 0 (by norm_num)
    · rw [hoth req.hash req.top hid]
      refine ⟨m, hm, hmw, ?_⟩
      rcases hml with ⟨hmem, h0⟩ | ⟨hmem, h1⟩
      · left
        refine ⟨?_, h0⟩
        rcases List.mem_cons.mp hmem with e | e
        · exact absurd (by rw [e]) hid
        · exact e
      · right
        exact ⟨fun hmem1 => hmem (List.mem_cons_of_mem _ hmem1), h1⟩

/-- The progress of a schedule that runs to its end. -/
theorem tex_repeat_run_inv (key hash : U128) (top : TEX_Topology) (wp0 : Nat)
    (pending : List TEX_Request)
    (hk : key.wf) (hhw : hash.wf) (ht : top.wf) (hh0 : hash ≠ u128_zero) :
    ∀ (acts : List TEX_RepeatAction) (s : TEX_Shared) (called : Bool)
      (done waiting : List TEX_Request) (s1 : TEX_Shared),
      tex_repeat_inv ⟨key, hash, top⟩ wp0 pending s called done waiting →
      (∀ now ∈ tex_repeat_clocks acts, now < max_U64) →
      tex_repeat_run key hash top s acts = some s1 →
      ∃ done1 waiting1,
        tex_repeat_inv ⟨key, hash, top⟩ wp0 pending s1
          (called || decide (0 < tex_repeat_calls acts)) done1 waiting1 ∧
        done1.length = done.length + tex_repeat_works acts := by
  intro acts
  induction acts with
  | nil =>
    intro s called done waiting s1 hi _ hrun
    simp only [tex_repeat_run, Option.some.injEq] at hrun
    subst hrun
    refine ⟨done, waiting, ?_, rfl⟩
    simpa [tex_repeat_calls] using hi
  | cons a rest ih =>
    intro s called done waiting s1 hi hclock hrun
    cases a with
    | call scope now_us =>
      simp only [tex_repeat_run] at hrun
      cases hc : tex_texture_from_key_hash_topology s scope key hash top now_us with
      | none => rw [hc] at hrun; cases hrun
      | some res =>
        obtain ⟨handle, scope1, s2⟩ := res
        rw [hc] at hrun
        simp only at hrun
        have hstep := tex_repeat_call_step key hash top wp0 pending s called done waiting scope
          now_us handle scope1 s2 hk hhw ht hh0
          (hclock now_us (by simp [tex_repeat_clocks])) hi hc
        obtain ⟨done1, waiting1, hinv, hlen⟩ := ih s2 true done _ s1 hstep
          (fun now hmem => hclock now (by simp [tex_repeat_clocks, hmem])) hrun
        refine ⟨done1, waiting1, ?_, ?_⟩
        · simpa [tex_repeat_calls] using hinv
        · simpa [tex_repeat_works] using hlen
    | work bpp data_size alloc_result =>
      simp only [tex_repeat_run] at hrun
      cases waiting with
      | nil =>
        have := u2x_dequeue_empty s hi.2.2.1.2.1
        simp only [tex_xfer_thread__iteration, this] at hrun
        cases hrun
      | cons r rs =>
        obtain ⟨s2, h2, hstep⟩ := tex_repeat_work_step _ wp0 pending s called done r rs bpp
          data_size alloc_result hi
        rw [h2] at hrun
        simp only at hrun
        obtain ⟨done1, waiting1, hinv, hlen⟩ := ih s2 called _ rs s1 hstep
          (fun now hmem => hclock now (by simpa [tex_repeat_clocks] using hmem)) hrun
        refine ⟨done1, waiting1, ?_, ?_⟩
        · simpa [tex_repeat_calls] using hinv
        · rw [hlen, List.length_append]
          simp [tex_repeat_works]
          omega

/-- The workers drain the ring: as many iterations as requests wait all run, and
leave the ring empty. -/
theorem tex_repeat_drain (key hash : U128) (top : TEX_Topology) (wp0 : Nat)
    (pending : List TEX_Request) (called : Bool) :
    ∀ (waiting : List TEX_Request) (s : TEX_Shared) (done : List TEX_Request)
      (ws : List ((Nat → Nat) × Nat × R_Handle)),
      tex_repeat_inv ⟨key, hash, top⟩ wp0 pending s called done waiting →
      ws.length = waiting.length →
      ∃ s1, tex_repeat_run key hash top s
          (ws.map (fun w => TEX_RepeatAction.work w.1 w.2.1 w.2.2)) = some s1 ∧
        tex_repeat_inv ⟨key, hash, top⟩ wp0 pending s1 called (done ++ waiting) [] := by
  intro waiting
  induction waiting with
  | nil =>
    intro s done ws hi hlen
    have : ws = [] := List.length_eq_zero.mp hlen
    subst this
    refine ⟨s, rfl, ?_⟩
    rw [List.append_nil]
    exact hi
  | cons r rs ih =>
    intro s done ws hi hlen
    cases ws with
    | nil => simp at hlen
    | cons w ws1 =>
      obtain ⟨s2, h2, hstep⟩ := tex_repeat_work_step _ wp0 pending s called done r rs w.1
        w.2.1 w.2.2 hi
      obtain ⟨s1, hrun, hinv⟩ := ih s2 (done ++ [r]) ws1 hstep (by simpa using hlen)
      refine ⟨s1, ?_, ?_⟩
      · simp only [List.map_cons, tex_repeat_run, h2]
        exact hrun
      · rw [List.append_assoc] at hinv
        exact hinv

/-- A table with unique identities holds exactly one node of a linked identity,
in the slot of its hash. -/
theorem tex_node_count_one (s : TEX_Shared) (hh : tex_homed s) (hu : tex_unique s)
    (hash : U128) (top : TEX_Topology) (n : TEX_Node)
    (hn : tex_node_of s hash top = some n) (i : Nat) :
    ((s.slots i).filter (tex_node_match hash top)).length =
      if i = tex_slot_idx s hash then 1 else 0 := by
  have hchain : ∀ (l : List TEX_Node), (l.map tex_node_id).Nodup →
      ∀ m, l.find? (tex_node_match hash top) = some m →
      (l.filter (tex_node_match hash top)).length = 1 := by
    intro l
    induction l with
    | nil => intro _ m hm; cases hm
    | cons a l ih =>
      intro hnd m hm
      rw [List.map_cons, List.nodup_cons] at hnd
      by_cases ha : tex_node_match hash top a = true
      · rw [List.filter_cons_of_pos ha]
        have hnone : l.filter (tex_node_match hash top) = [] := by
          rw [List.filter_eq_nil_iff]
          intro b hb hmb
          apply hnd.1
          rw [tex_node_match_iff] at ha hmb
          exact List.mem_map.mpr ⟨b, hb, by
            rw [ha, hmb]⟩
        rw [hnone]
        rfl
      · rw [List.filter_cons_of_neg ha]
        rw [List.find?_cons_of_neg _ ha] at hm
        exact ih hnd.2 m hm
  by_cases hi : i = tex_slot_idx s hash
  · rw [if_pos hi, hi]
    exact hchain _ (hu _) n hn
  · rw [if_neg hi]
    rw [List.length_eq_zero, List.filter_eq_nil_iff]
    intro b hb hmb
    rw [tex_node_match_iff] at hmb
    apply hi
    have e : b.hash = hash := congrArg Prod.fst hmb
    rw [← hh i b hb, e]

/-! ## Lemmas: the sample state of the fallback table -/

theorem tex_fallback_reachable_texture_shared (s : TEX_Shared) (hr : TEX_FallbackReachable s)
    (scope : TEX_Scope) (key hash : U128) (top : TEX_Topology) (now_us : Nat) :
    TEX_FallbackReachable (tex_texture_shared s scope key hash top now_us) := by
  unfold tex_texture_shared
  cases h : tex_texture_from_key_hash_topology s scope key hash top now_us with
  | none => exact hr
  | some r =>
    obtain ⟨handle, scope1, s1⟩ := r
    exact TEX_FallbackReachable.lookup s scope key hash top now_us handle scope1 s1 hr h

theorem tex_example_guard_state_reachable : TEX_FallbackReachable tex_example_guard_state :=
  TEX_FallbackReachable.work tex_example_second_miss (fun _ => 4) ⟨7, 9⟩ ⟨0, 2⟩ ⟨4, 4, 2⟩ 64 6
    (tex_fallback_reachable_texture_shared tex_example_zero_key_built
      (TEX_FallbackReachable.work tex_example_zero_key_miss (fun _ => 4) ⟨0, 0⟩ ⟨0, 1⟩ ⟨4, 4, 2⟩
        64 5
        (tex_fallback_reachable_texture_shared (tex_init 8 (fun _ => 0))
          (TEX_FallbackReachable.init 8 (fun _ => 0)) tex_scope_open ⟨0, 0⟩ ⟨0, 1⟩ ⟨4, 4, 2⟩
          100))
      tex_scope_open ⟨7, 9⟩ ⟨0, 2⟩ ⟨4, 4, 2⟩ 200)

/-- The sample state: the worker took the task of the zero-key tuple and built
its node, and the table holds the entry of the key `(7, 9)`. -/
theorem tex_example_guard_state_facts :
    (tex_node_of tex_example_zero_key_miss ⟨0, 1⟩ ⟨4, 4, 2⟩).map
        (fun n => (n.is_working, n.load_count)) = some (0, 0) ∧
    (tex_node_of tex_example_guard_state ⟨0, 1⟩ ⟨4, 4, 2⟩).map
        (fun n => (n.texture, n.is_working, n.load_count)) = some (5, 0, 1) ∧
    tex_fallback_hash tex_example_guard_state ⟨7, 9⟩ = ⟨0, 2⟩ := by
  decide!
/-! ## The request ring: FIFO order and backpressure -/

/-- C8 (ring FIFO round trip). Start from an empty well-formed ring (write
position equal to read position, buffer size dividing `2 ^ 64` as the 64 KiB
buffer does) and run any sequence of enqueues and dequeues that all succeed,
the requests being values of their C types. Then the k-th dequeue returns
exactly the request given to the k-th enqueue. The ring functions copy bytes
at the position modulo the ring size with wrap-around, so a request that
straddles the end of the buffer is covered. -/
theorem u2x_ring_fifo_round_trip (s : TEX_Shared) (ops : List U2X_Op)
    (outs : List TEX_Request) (hwf : u2x_ring_wf s)
    (hempty : s.u2x_ring_write_pos = s.u2x_ring_read_pos)
    (hreq : ∀ r ∈ u2x_enqueued ops, r.wf)
    (hrun : (u2x_run s ops).map Prod.fst = some outs) :
    outs.length ≤ (u2x_enqueued ops).length ∧
      ∀ k, k < outs.length → outs[k]? = (u2x_enqueued ops)[k]? := by
  cases hres : u2x_run s ops with
  | none => simp [hres] at hrun
  | some res =>
    obtain ⟨outs1, s1⟩ := res
    simp only [hres, Option.map_some', Option.some.injEq] at hrun
    subst hrun
    obtain ⟨rest, hrest, _, _⟩ := u2x_run_fifo ops s [] outs1 s1 hwf
      (u2x_ring_holds_nil s hempty) (by simp) hreq hres
    simp only [List.nil_append] at hrest
    rw [hrest]
    refine ⟨by simp, ?_⟩
    intro k hk
    rw [List.getElem?_append_left hk]

/-- Witness of C8: on the 64 KiB ring with both positions 16 bytes before the
end of the buffer, three requests go through in order; the first one wraps
around the end of the buffer. -/
theorem u2x_ring_fifo_round_trip_witness :
    u2x_ring_wf u2x_example_ring ∧
      (u2x_run u2x_example_ring u2x_example_ops).map Prod.fst =
        some [u2x_example_req1, u2x_example_req2, u2x_example_req1] ∧
      ∀ k, k < [u2x_example_req1, u2x_example_req2, u2x_example_req1].length →
        [u2x_example_req1, u2x_example_req2, u2x_example_req1][k]? =
          (u2x_enqueued u2x_example_ops)[k]? :=
  ⟨by decide, by decide!,
    (u2x_ring_fifo_round_trip u2x_example_ring u2x_example_ops
      [u2x_example_req1, u2x_example_req2, u2x_example_req1]
      (by decide) rfl (by decide) (by decide!)).2⟩

/-- C9 (ring backpressure). On a well-formed ring, an enqueue whose deadline has
passed returns at once; it returns true exactly when the free space
`ring_size - (write_pos - read_pos)` is at least the request size. On true the
write position advances by the request size (64-bit addition), so does the
unconsumed size, the read position and the unconsumed bytes are unchanged. On
false the state is unchanged. -/
theorem tex_u2x_enqueue_req_backpressure (s : TEX_Shared) (key hash : U128)
    (top : TEX_Topology) (endt_us now_us : Nat) (hwf : u2x_ring_wf s)
    (hdeadline : endt_us ≤ now_us) :
    ∃ good s1, tex_u2x_enqueue_req s key hash top endt_us now_us = some (good, s1) ∧
      (good = true ↔ u2x_request_size ≤ s.u2x_ring_size - u2x_unconsumed_size s) ∧
      (good = true →
        s1.u2x_ring_write_pos = (s.u2x_ring_write_pos + u2x_request_size) % 2 ^ 64 ∧
        u2x_unconsumed_size s1 = u2x_unconsumed_size s + u2x_request_size ∧
        s1.u2x_ring_read_pos = s.u2x_ring_read_pos ∧
        s1.u2x_ring_size = s.u2x_ring_size ∧
        ring_read s1.u2x_ring_base s1.u2x_ring_size s1.u2x_ring_read_pos
          (u2x_unconsumed_size s) = u2x_unconsumed_bytes s) ∧
      (good = false → s1 = s) := by
  have hu := hwf.2.2.2.2.2
  by_cases hroom : u2x_unconsumed_size s + 40 ≤ s.u2x_ring_size
  · have h1 := tex_u2x_enqueue_req_room s ⟨key, hash, top⟩ endt_us now_us hwf hroom
    have h2 := u2x_enqueue_effect s ⟨key, hash, top⟩ hwf hroom _ rfl
    refine ⟨true, _, h1, ?_, ?_, by simp⟩
    · simp only [u2x_request_size, sizeof_U128, sizeof_TEX_Topology, true_iff]; omega
    · intro _
      refine ⟨rfl, h2.1, rfl, rfl, ?_⟩
      have h3 := h2.2.2
      unfold u2x_unconsumed_bytes at h3
      rw [h2.1, ring_read_add] at h3
      have hl : (ring_read
          (ring_write s.u2x_ring_base s.u2x_ring_size s.u2x_ring_write_pos
            (u2x_request_bytes ⟨key, hash, top⟩)) s.u2x_ring_size s.u2x_ring_read_pos
          (u2x_unconsumed_size s)).length =
          (ring_read s.u2x_ring_base s.u2x_ring_size s.u2x_ring_read_pos
            (u2x_unconsumed_size s)).length := by
        rw [ring_read_length, ring_read_length]
      exact (List.append_inj h3 hl).1
  · have h1 := tex_u2x_enqueue_req_full s key hash top endt_us now_us hwf (by omega)
    rw [if_pos hdeadline] at h1
    refine ⟨false, s, h1, ?_, by simp, fun _ => rfl⟩
    simp only [u2x_request_size, sizeof_U128, sizeof_TEX_Topology]
    constructor
    · intro h; cases h
    · intro h; omega

/-- Witness of C9: an enqueue with a passed deadline on the example ring. -/
theorem tex_u2x_enqueue_req_backpressure_witness :
    u2x_ring_wf u2x_example_ring ∧ (5 : Nat) ≤ 7 ∧
    ∃ good s1, tex_u2x_enqueue_req u2x_example_ring ⟨7, 9⟩ ⟨0, 1⟩ ⟨4, 4, 2⟩ 5 7 =
        some (good, s1) ∧
      (good = true ↔
        u2x_request_size ≤ u2x_example_ring.u2x_ring_size - u2x_unconsumed_size u2x_example_ring) ∧
      (good = true →
        s1.u2x_ring_write_pos =
          (u2x_example_ring.u2x_ring_write_pos + u2x_request_size) % 2 ^ 64 ∧
        u2x_unconsumed_size s1 = u2x_unconsumed_size u2x_example_ring + u2x_request_size ∧
        s1.u2x_ring_read_pos = u2x_example_ring.u2x_ring_read_pos ∧
        s1.u2x_ring_size = u2x_example_ring.u2x_ring_size ∧
        ring_read s1.u2x_ring_base s1.u2x_ring_size s1.u2x_ring_read_pos
          (u2x_unconsumed_size u2x_example_ring) = u2x_unconsumed_bytes u2x_example_ring) ∧
      (good = false → s1 = u2x_example_ring) :=
  ⟨by decide, by decide,
    tex_u2x_enqueue_req_backpressure u2x_example_ring ⟨7, 9⟩ ⟨0, 1⟩ ⟨4, 4, 2⟩ 5 7
      (by decide) (by decide)⟩

/-! ## Zero hash and the eviction pass -/

/-- C3 (zero hash). A lookup with the zero hash returns the null handle and
leaves the scope and the whole shared state as they were: no node is created
or touched, nothing is enqueued, the fallback table is not read for a result
and no touch is pushed. -/
theorem tex_texture_zero_hash (s : TEX_Shared) (scope : TEX_Scope) (key : U128)
    (topology : TEX_Topology) (now_us : Nat) :
    tex_texture_from_key_hash_topology s scope key u128_zero topology now_us =
      some (r_handle_zero, scope, s) := by
  have h : u128_match u128_zero u128_zero = true := (u128_match_iff _ _).mpr rfl
  simp only [tex_texture_from_key_hash_topology, h, if_true]

/-- C6 (eviction predicate). One pass of the evictor over a slot, with any
recorded `check_time_us` and `check_user_clock`, unlinks exactly the nodes for
which `scope_ref_count == 0`, `last_time_touched_us + 10,000,000 <= check_time_us`,
`last_user_clock_idx_touched + 10 <= check_user_clock` (both sums as the code
computes them, in unsigned 64-bit), `load_count != 0` and `is_working == 0`: the
chain keeps the other nodes in their order, other slots are untouched, the
release log grows by the non-null textures of the unlinked nodes (one entry
each, in chain order), and the unlinked nodes are pushed on the free list of
the slot's stripe. A node for which either clock has not advanced by its
threshold survives. -/
theorem tex_evictor_slot_pass_evicts (s : TEX_Shared) (slot_idx check_time_us check_user_clock : Nat) :
    (tex_evictor_slot_pass s slot_idx check_time_us check_user_clock).slots slot_idx =
        (s.slots slot_idx).filter (fun n => !decide
          (n.scope_ref_count = 0 ∧
            (n.last_time_touched_us + 10000000) % 2 ^ 64 ≤ check_time_us ∧
            (n.last_user_clock_idx_touched + 10) % 2 ^ 64 ≤ check_user_clock ∧
            n.load_count ≠ 0 ∧ n.is_working = 0)) ∧
      (∀ i, i ≠ slot_idx →
        (tex_evictor_slot_pass s slot_idx check_time_us check_user_clock).slots i = s.slots i) ∧
      (tex_evictor_slot_pass s slot_idx check_time_us check_user_clock).r_tex2d_release_log =
        s.r_tex2d_release_log ++
          (((s.slots slot_idx).filter (fun n => decide
            (n.scope_ref_count = 0 ∧
              (n.last_time_touched_us + 10000000) % 2 ^ 64 ≤ check_time_us ∧
              (n.last_user_clock_idx_touched + 10) % 2 ^ 64 ≤ check_user_clock ∧
              n.load_count ≠ 0 ∧ n.is_working = 0))).map (fun n => n.texture)).filter
            (fun h => decide (h ≠ 0)) ∧
      (tex_evictor_slot_pass s slot_idx check_time_us check_user_clock).stripes_free_nodes
          (slot_idx % s.stripes_count) =
        ((s.slots slot_idx).filter (fun n => decide
            (n.scope_ref_count = 0 ∧
              (n.last_time_touched_us + 10000000) % 2 ^ 64 ≤ check_time_us ∧
              (n.last_user_clock_idx_touched + 10) % 2 ^ 64 ≤ check_user_clock ∧
              n.load_count ≠ 0 ∧ n.is_working = 0))).reverse ++
          s.stripes_free_nodes (slot_idx % s.stripes_count) ∧
      (∀ j, j ≠ slot_idx % s.stripes_count →
        (tex_evictor_slot_pass s slot_idx check_time_us check_user_clock).stripes_free_nodes j =
          s.stripes_free_nodes j) ∧
      (∀ n ∈ s.slots slot_idx,
        (check_time_us < (n.last_time_touched_us + 10000000) % 2 ^ 64 ∨
          check_user_clock < (n.last_user_clock_idx_touched + 10) % 2 ^ 64) →
        n ∈ (tex_evictor_slot_pass s slot_idx check_time_us check_user_clock).slots slot_idx) ∧
      (∀ n ∈ s.slots slot_idx,
        n.last_time_touched_us + 10000000 < 2 ^ 64 →
        n.last_user_clock_idx_touched + 10 < 2 ^ 64 →
        (check_time_us < n.last_time_touched_us + 10000000 ∨
          check_user_clock < n.last_user_clock_idx_touched + 10) →
        n ∈ (tex_evictor_slot_pass s slot_idx check_time_us check_user_clock).slots slot_idx) := by
  have hp : (fun n : TEX_Node => decide
      (n.scope_ref_count = 0 ∧
        (n.last_time_touched_us + 10000000) % 2 ^ 64 ≤ check_time_us ∧
        (n.last_user_clock_idx_touched + 10) % 2 ^ 64 ≤ check_user_clock ∧
        n.load_count ≠ 0 ∧ n.is_working = 0)) = tex_evictable check_time_us check_user_clock := by
    funext n
    rw [Bool.eq_iff_iff, tex_evictable_iff, decide_eq_true_iff]
  have hz : (fun h : R_Handle => decide (h ≠ 0)) = fun h => !r_handle_match h r_handle_zero := by
    funext h
    rw [Bool.eq_iff_iff]
    simp [r_handle_match, r_handle_zero]
  have hsurvive : ∀ n ∈ s.slots slot_idx,
      (check_time_us < (n.last_time_touched_us + 10000000) % 2 ^ 64 ∨
        check_user_clock < (n.last_user_clock_idx_touched + 10) % 2 ^ 64) →
      n ∈ (tex_evictor_slot_pass s slot_idx check_time_us check_user_clock).slots slot_idx := by
    intro n hn hc
    rw [tex_evictor_slot_pass_eq]
    simp only [Function.update_same, List.mem_filter, hn, true_and, Bool.not_eq_true']
    rw [← Bool.not_eq_true, tex_evictable_iff]
    omega
  have hq : (fun n : TEX_Node => !decide
      (n.scope_ref_count = 0 ∧
        (n.last_time_touched_us + 10000000) % 2 ^ 64 ≤ check_time_us ∧
        (n.last_user_clock_idx_touched + 10) % 2 ^ 64 ≤ check_user_clock ∧
        n.load_count ≠ 0 ∧ n.is_working = 0)) =
      fun n => !tex_evictable check_time_us check_user_clock n := by
    funext n
    rw [← congrFun hp n]
  rw [hq, hp, hz]
  refine ⟨?_, ?_, ?_, ?_, ?_, hsurvive, ?_⟩
  · rw [tex_evictor_slot_pass_eq]; simp only [Function.update_same]
  · intro i hi
    rw [tex_evictor_slot_pass_eq]
    simp [Function.update_noteq hi]
  · rw [tex_evictor_slot_pass_eq]
  · rw [tex_evictor_slot_pass_eq]; simp
  · intro j hj
    rw [tex_evictor_slot_pass_eq]
    simp [Function.update_noteq hj]
  · intro n hn h1 h2 hc
    apply hsurvive n hn
    rw [Nat.mod_eq_of_lt h1, Nat.mod_eq_of_lt h2]
    exact hc

/-! ## Cold miss, warm hit -/

/-- C1 (cold miss then warm hit). Start from a cache with no node, an empty
fallback table and an empty well-formed ring with room for one request. For a
non-zero hash `H`, a topology `T` with positive width and height and a payload
of at least `width * height * bytes_per_pixel` bytes: the first lookup returns
the null handle and the ring, which held nothing, holds exactly the request
`(K, H, T)`; one worker iteration in which the backend returns the non-null
handle `R` completes (and asks the backend once); the second lookup returns
`R`; the slot then holds the single node of `(H, T)` with `load_count` 1 and
`scope_ref_count` 1, and after `tex_scope_close` the same node with
`scope_ref_count` 0. -/
theorem tex_cold_miss_then_warm_hit (s0 : TEX_Shared) (K H : U128) (T : TEX_Topology)
    (bpp : Nat → Nat) (data_size : Nat) (R : R_Handle) (now1 now2 : Nat)
    (hslots : ∀ i, s0.slots i = []) (hfb : ∀ i, s0.fallback_slots i = [])
    (hwf : u2x_ring_wf s0) (hempty : s0.u2x_ring_write_pos = s0.u2x_ring_read_pos)
    (hsize : u2x_request_size ≤ s0.u2x_ring_size)
    (hK : K.wf) (hH : H.wf) (hT : T.wf) (hH0 : H ≠ u128_zero)
    (hx : 0 < T.dim_x) (hy : 0 < T.dim_y)
    (hdata : T.dim_x.toNat * T.dim_y.toNat * bpp T.fmt ≤ data_size)
    (hR : R ≠ r_handle_zero) :
    ∃ s1 s2 scope2 s3 n,
      tex_texture_from_key_hash_topology s0 tex_scope_open K H T now1 =
        some (r_handle_zero, tex_scope_open, s1) ∧
      u2x_ring_holds s0 [] ∧ u2x_ring_holds s1 [⟨K, H, T⟩] ∧
      tex_xfer_thread__iteration s1 bpp data_size R = some s2 ∧
      s2.r_tex2d_alloc_log = s0.r_tex2d_alloc_log ++ [⟨T.dim_x, T.dim_y, T.fmt, R⟩] ∧
      tex_texture_from_key_hash_topology s2 tex_scope_open K H T now2 = some (R, scope2, s3) ∧
      s3.slots (tex_slot_idx s3 H) = [n] ∧ n.hash = H ∧ n.topology = T ∧ n.texture = R ∧
      n.load_count = 1 ∧ n.scope_ref_count = 1 ∧
      (tex_scope_close s3 scope2).slots (tex_slot_idx s3 H) =
        [{ n with scope_ref_count := 0 }] := by
  -- first lookup
  have hnone : tex_node_of s0 H T = none := tex_node_of_nil s0 H T (hslots _)
  have hh0 : u2x_ring_holds s0 [] := u2x_ring_holds_nil s0 hempty
  have hsz0 := u2x_ring_holds_size s0 [] hh0
  simp only [List.length_nil, Nat.mul_zero] at hsz0
  have hsize1 : 40 ≤ s0.u2x_ring_size := hsize
  have hcall1 := tex_texture_miss s0 tex_scope_open K H T now1 hH0 hnone hwf (by omega)
  have hring1 := tex_after_miss_ring s0 K H T [] hwf hh0 (by simpa using hsize1)
  have hfb1 : tex_fallback_hash (tex_after_miss s0 K H T) K = u128_zero :=
    tex_fallback_hash_nil _ _ (hfb _)
  rw [tex_lookup_fallback_null, if_pos hfb1] at hcall1
  -- worker
  obtain ⟨s1d, hdq, hwf1d, hh1d, _⟩ :=
    u2x_dequeue_holds (tex_after_miss s0 K H T) [] ⟨K, H, T⟩ hring1.1
      (by simpa using hring1.2) ⟨hK, hH, hT⟩
  have hfr := tex_u2x_dequeue_req_fields _ _ _ _ _ hdq
  have hslots1d : s1d.slots = (tex_after_miss s0 K H T).slots := hfr.1
  have hcount1d : s1d.slots_count = s0.slots_count := hfr.2.1
  have hlog1d : s1d.r_tex2d_alloc_log = s0.r_tex2d_alloc_log := hfr.2.2.2.2.2.2.2.2
  have hnode1 : tex_node_of s1d H T = some (tex_node_fresh H T) := by
    rw [tex_node_of_congr _ s1d hslots1d hfr.2.1]
    exact tex_after_miss_node s0 K H T hnone
  have hguard := tex_xfer_alloc_guard_of_payload bpp T data_size hx hy hdata
  have hproc := tex_xfer_process_task s1d bpp K H T data_size R (tex_node_fresh H T) hnode1 rfl
  have hfst := tex_xfer_alloc_fst s1d bpp true T data_size R
  rw [if_pos hguard] at hfst
  rw [hfst] at hproc
  have hiter : tex_xfer_thread__iteration (tex_after_miss s0 K H T) bpp data_size R =
      some (tex_xfer_process s1d bpp K H T data_size R) := by
    simp only [tex_xfer_thread__iteration, hdq]
  -- the node after the build
  have hid : ∀ m, tex_node_id ((tex_node_commit R ∘ tex_node_claim) m) = tex_node_id m :=
    fun m => (tex_node_id_commit R _).trans (tex_node_id_claim m)
  have hnode2 : tex_node_of (tex_xfer_process s1d bpp K H T data_size R) H T =
      some (tex_node_commit R (tex_node_claim (tex_node_fresh H T))) := by
    rw [hproc, tex_xfer_fallback_part_node_of,
      tex_node_of_update_same _ _ _ (tex_node_commit R ∘ tex_node_claim) hid,
      tex_xfer_alloc_node_of, hnode1]
    rfl
  have hm : tex_node_match H T (tex_node_fresh H T) = true := by
    rw [tex_node_match_iff]; rfl
  have hidx : ∀ st : TEX_Shared, st.slots_count = s0.slots_count →
      tex_slot_idx st H = tex_slot_idx s0 H := by
    intro st h; unfold tex_slot_idx; rw [h]
  have hslot2 : (tex_xfer_process s1d bpp K H T data_size R).slots (tex_slot_idx s0 H) =
      [tex_node_commit R (tex_node_claim (tex_node_fresh H T))] := by
    rw [hproc, tex_xfer_fallback_part_slots, tex_update_node_slots,
      hidx _ ((tex_xfer_alloc_table ..).2.1.trans hcount1d), if_pos rfl,
      (tex_xfer_alloc_table ..).1, hslots1d]
    simp only [tex_after_miss, Function.update_same, hslots, List.nil_append,
      chain_update_first, hm, if_true, Function.comp]
  have hbuilt := tex_node_commit_claim R (tex_node_fresh H T)
  have hload : ins_atomic_u64_inc_eval (tex_node_fresh H T).load_count = 1 :=
    ins_atomic_u64_inc_eval_eq 0 (by norm_num)
  have hcount2 : (tex_xfer_process s1d bpp K H T data_size R).slots_count = s0.slots_count := by
    rw [hproc, tex_xfer_fallback_part_slots_count, tex_update_node_slots_count,
      (tex_xfer_alloc_table ..).2.1, hcount1d]
  -- second lookup
  have hcall2 := tex_texture_hit (tex_xfer_process s1d bpp K H T data_size R) tex_scope_open
    K H T now2 _ hH0 hnode2 (by rw [hbuilt]; exact hR)
  have hm2 : tex_node_match H T (tex_node_commit R (tex_node_claim (tex_node_fresh H T))) = true := by
    rw [tex_node_match_iff, tex_node_id_commit, tex_node_id_claim]; rfl
  have href : ins_atomic_u64_inc_eval
      (tex_node_commit R (tex_node_claim (tex_node_fresh H T))).scope_ref_count = 1 := by
    rw [hbuilt]
    exact ins_atomic_u64_inc_eval_eq 0 (by norm_num)
  have hm3 : tex_node_match H T (tex_touch_node now2
      (tex_xfer_process s1d bpp K H T data_size R).user_clock_idx
      (tex_node_commit R (tex_node_claim (tex_node_fresh H T)))) = true := by
    rw [tex_node_match_iff, tex_node_id_touch, tex_node_id_commit, tex_node_id_claim]; rfl
  have hslot3 : (tex_update_node (tex_xfer_process s1d bpp K H T data_size R) H T
      (tex_touch_node now2 (tex_xfer_process s1d bpp K H T data_size R).user_clock_idx)).slots
      (tex_slot_idx s0 H) =
      [tex_touch_node now2 (tex_xfer_process s1d bpp K H T data_size R).user_clock_idx
        (tex_node_commit R (tex_node_claim (tex_node_fresh H T)))] := by
    rw [tex_update_node_slots, if_pos (hidx _ hcount2).symm, hidx _ hcount2, hslot2]
    simp only [chain_update_first, hm2, if_true]
  refine ⟨_, _, _, _,
    tex_touch_node now2 (tex_xfer_process s1d bpp K H T data_size R).user_clock_idx
      (tex_node_commit R (tex_node_claim (tex_node_fresh H T))),
    hcall1, hh0, by simpa using hring1.2, hiter, ?_, hcall2, ?_, ?_, ?_, ?_, ?_, ?_, ?_⟩
  · rw [hproc, tex_xfer_fallback_part_alloc_log]
    show (tex_xfer_alloc s1d bpp true T data_size R).2.r_tex2d_alloc_log = _
    rw [tex_xfer_alloc_log, if_pos hguard, hlog1d]
  · rw [tex_update_node_slot_idx, hidx _ hcount2, hslot3]
  · rw [hbuilt]; rfl
  · rw [hbuilt]; rfl
  · rw [hbuilt]; rfl
  · simp only [tex_touch_node]; rw [hbuilt]; exact hload
  · simp only [tex_touch_node]; exact href
  · have e1 : (tex_node_commit R (tex_node_claim (tex_node_fresh H T))).hash = H := by
      rw [hbuilt]; rfl
    have e2 : (tex_node_commit R (tex_node_claim (tex_node_fresh H T))).topology = T := by
      rw [hbuilt]; rfl
    simp only [tex_scope_close, tex_scope_open, List.foldl_cons, List.foldl_nil,
      tex_scope_close_touch_eq, e1, e2]
    rw [tex_update_node_slots, tex_update_node_slot_idx, hidx _ hcount2, if_pos rfl, hslot3]
    have hu : chain_update_first (tex_node_match H T) tex_unpin_node
        [tex_touch_node now2 (tex_xfer_process s1d bpp K H T data_size R).user_clock_idx
          (tex_node_commit R (tex_node_claim (tex_node_fresh H T)))] =
        [tex_unpin_node (tex_touch_node now2
          (tex_xfer_process s1d bpp K H T data_size R).user_clock_idx
          (tex_node_commit R (tex_node_claim (tex_node_fresh H T))))] := by
      simp only [chain_update_first, hm3, if_true]
    rw [hu]
    have hd : ins_atomic_u64_dec_eval (tex_touch_node now2
        (tex_xfer_process s1d bpp K H T data_size R).user_clock_idx
        (tex_node_commit R (tex_node_claim (tex_node_fresh H T)))).scope_ref_count = 0 := by
      simp only [tex_touch_node, href]
      exact ins_atomic_u64_dec_succ 0
    simp only [tex_unpin_node, hd]

/-- Witness of C1: the scenario of the design, hash `(0, 1)`, topology
`(4, 4)` with a 4-byte format, a 64-byte payload, on the state of `tex_init`. -/
theorem tex_cold_miss_then_warm_hit_witness :
    ∃ s1 s2 scope2 s3 n,
      tex_texture_from_key_hash_topology (tex_init 8 (fun _ => 0)) tex_scope_open ⟨7, 9⟩ ⟨0, 1⟩
        ⟨4, 4, 2⟩ 100 = some (r_handle_zero, tex_scope_open, s1) ∧
      u2x_ring_holds (tex_init 8 (fun _ => 0)) [] ∧
      u2x_ring_holds s1 [⟨⟨7, 9⟩, ⟨0, 1⟩, ⟨4, 4, 2⟩⟩] ∧
      tex_xfer_thread__iteration s1 (fun _ => 4) 64 5 = some s2 ∧
      s2.r_tex2d_alloc_log =
        (tex_init 8 (fun _ => 0)).r_tex2d_alloc_log ++ [⟨4, 4, 2, 5⟩] ∧
      tex_texture_from_key_hash_topology s2 tex_scope_open ⟨7, 9⟩ ⟨0, 1⟩ ⟨4, 4, 2⟩ 200 =
        some (5, scope2, s3) ∧
      s3.slots (tex_slot_idx s3 ⟨0, 1⟩) = [n] ∧ n.hash = ⟨0, 1⟩ ∧ n.topology = ⟨4, 4, 2⟩ ∧
      n.texture = 5 ∧ n.load_count = 1 ∧ n.scope_ref_count = 1 ∧
      (tex_scope_close s3 scope2).slots (tex_slot_idx s3 ⟨0, 1⟩) =
        [{ n with scope_ref_count := 0 }] :=
  tex_cold_miss_then_warm_hit (tex_init 8 (fun _ => 0)) ⟨7, 9⟩ ⟨0, 1⟩ ⟨4, 4, 2⟩ (fun _ => 4) 64 5
    100 200 (fun _ => rfl) (fun _ => rfl) (by decide) rfl (by decide) (by decide) (by decide)
    (by decide) (by decide) (by decide) (by decide) (by decide) (by decide)

/-! ## Fallback resolution -/

/-- C2 (fallback resolution). Let a worker process the request `(K, H1, T)` on a
present idle node, the backend returning `R1`, in a state with no `(H2, T)`
node; `K`, `H1`, `H2` are non-zero and `H1`, `H2` differ. In the
state this leaves, the `(H1, T)` node carries `R1`, and a lookup of
`(K, H2, T)` returns `R1`, links the fresh `(H2, T)` node at the tail of its
slot, leaves exactly the request `(K, H2, T)` in the ring, which was empty,
and touches the `(H1, T)` node: its pin count is incremented and a touch
naming it is pushed on the scope. After a worker has then built `(K, H2, T)`
with the non-null `R2` (no eviction in between), a lookup of `(K, H2, T)`
returns `R2`. -/
theorem tex_fallback_resolution (s0 : TEX_Shared) (scope : TEX_Scope) (K H1 H2 : U128)
    (T : TEX_Topology) (bpp : Nat → Nat) (data1 data2 : Nat) (R1 R2 : R_Handle)
    (now1 now2 : Nat) (n1 : TEX_Node)
    (hwf : u2x_ring_wf s0) (hring : u2x_ring_holds s0 [⟨K, H1, T⟩])
    (hK : K.wf) (hH1 : H1.wf) (hH2 : H2.wf) (hT : T.wf)
    (hK0 : K ≠ u128_zero) (hH10 : H1 ≠ u128_zero) (hH20 : H2 ≠ u128_zero) (hne : H1 ≠ H2)
    (hnode1 : tex_node_of s0 H1 T = some n1) (hidle : n1.is_working = 0)
    (habs : tex_node_of s0 H2 T = none)
    (hg1 : tex_xfer_alloc_guard bpp true T data1 = true)
    (hg2 : tex_xfer_alloc_guard bpp true T data2 = true) (hR2 : R2 ≠ r_handle_zero) :
    ∃ s1 m1 scope1 s2 m2 s3 scope3 s4,
      tex_xfer_thread__iteration s0 bpp data1 R1 = some s1 ∧
      tex_node_of s1 H1 T = some m1 ∧ m1.texture = R1 ∧ tex_node_of s1 H2 T = none ∧
      u2x_ring_holds s1 [] ∧
      tex_texture_from_key_hash_topology s1 scope K H2 T now1 = some (R1, scope1, s2) ∧
      (s2.slots (tex_slot_idx s2 H2)).map tex_node_id =
        (s1.slots (tex_slot_idx s1 H2)).map tex_node_id ++ [(H2, T)] ∧
      tex_node_of s2 H2 T = some (tex_node_fresh H2 T) ∧
      u2x_ring_holds s2 [⟨K, H2, T⟩] ∧
      scope1.top_touch = ⟨H1, T⟩ :: scope.top_touch ∧
      tex_node_of s2 H1 T = some m2 ∧
      m2.scope_ref_count = ins_atomic_u64_inc_eval m1.scope_ref_count ∧
      tex_xfer_thread__iteration s2 bpp data2 R2 = some s3 ∧
      tex_texture_from_key_hash_topology s3 scope1 K H2 T now2 = some (R2, scope3, s4) := by
  have hne12 : ((H2, T) : U128 × TEX_Topology) ≠ (H1, T) := by
    intro h; exact hne (Prod.mk.inj h).1.symm
  have hne21 : ((H1, T) : U128 × TEX_Topology) ≠ (H2, T) := by
    intro h; exact hne (Prod.mk.inj h).1
  -- first build
  obtain ⟨s1, hit1, hwf1, hh1, hn1, hoth1, hfbk1, hcnt1, hclk1, _, hsz1e⟩ :=
    tex_xfer_iteration_build s0 bpp data1 R1 ⟨K, H1, T⟩ [] n1 hwf hring ⟨hK, hH1, hT⟩
      hnode1 hidle
  simp only [hg1, if_true] at hn1
  have habs1 : tex_node_of s1 H2 T = none := by
    rw [hoth1 H2 T hne12]; exact habs
  have hfb1 : tex_fallback_hash s1 K = H1 := hfbk1 hK0 hH10
  have hsz1 := u2x_ring_holds_size s1 [] hh1
  simp only [List.length_nil, Nat.mul_zero] at hsz1
  have hsz0 := u2x_ring_holds_size s0 _ hring
  simp only [List.length_cons, List.length_nil] at hsz0
  have hsize : 40 ≤ s1.u2x_ring_size := by
    have := hwf.2.2.2.2.2
    omega
  -- the lookup of (K, H2, T)
  have hcall := tex_texture_miss s1 scope K H2 T now1 hH20 habs1 hwf1 (by omega)
  have hring2 := tex_after_miss_ring s1 K H2 T [] hwf1 hh1 (by simpa using hsize)
  have hfb2 : tex_fallback_hash (tex_after_miss s1 K H2 T) K = H1 := hfb1
  have hn2 : tex_node_of (tex_after_miss s1 K H2 T) H1 T =
      some (tex_node_commit R1 (tex_node_claim n1)) := by
    rw [tex_after_miss_node_other _ _ _ _ _ _ hne21]; exact hn1
  rw [tex_lookup_fallback_null, hfb2, if_neg hH10] at hcall
  simp only [hn2] at hcall
  have hb1 := tex_node_commit_claim R1 n1
  have e1 : (tex_node_commit R1 (tex_node_claim n1)).texture = R1 := by rw [hb1]
  have e2 : (tex_node_commit R1 (tex_node_claim n1)).hash = H1 := by
    rw [hb1]; exact (tex_node_of_id _ _ _ _ hnode1).1
  have e3 : (tex_node_commit R1 (tex_node_claim n1)).topology = T := by
    rw [hb1]; exact (tex_node_of_id _ _ _ _ hnode1).2
  rw [e1, e2, e3] at hcall
  -- the state after the lookup
  have hfresh2 : tex_node_of (tex_update_node (tex_after_miss s1 K H2 T) H1 T
      (tex_touch_node now1 (tex_after_miss s1 K H2 T).user_clock_idx)) H2 T =
      some (tex_node_fresh H2 T) := by
    rw [tex_node_of_update_other _ _ _ _ _ _ (tex_node_id_touch _ _) hne12]
    exact tex_after_miss_node s1 K H2 T habs1
  have hcong2 := u2x_ring_congr (tex_after_miss s1 K H2 T) _
    (tex_update_node_ring (tex_after_miss s1 K H2 T) H1 T
      (tex_touch_node now1 (tex_after_miss s1 K H2 T).user_clock_idx)) [⟨K, H2, T⟩]
  have hh2 := hcong2.2.1.mpr (by simpa using hring2.2)
  have hwf2 := hcong2.1.mpr hring2.1
  -- second build
  obtain ⟨s3, hit3, _, _, hn3, _, _, _, _, _, _⟩ :=
    tex_xfer_iteration_build _ bpp data2 R2 ⟨K, H2, T⟩ [] (tex_node_fresh H2 T) hwf2 hh2
      ⟨hK, hH2, hT⟩ hfresh2 rfl
  simp only [hg2, if_true] at hn3
  have hb3 := tex_node_commit_claim R2 (tex_node_fresh H2 T)
  have hcall3 := tex_texture_hit s3 { top_touch := ⟨H1, T⟩ :: scope.top_touch } K H2 T now2 _
    hH20 hn3 (by rw [hb3]; exact hR2)
  have e4 : (tex_node_commit R2 (tex_node_claim (tex_node_fresh H2 T))).texture = R2 := by
    rw [hb3]
  rw [e4] at hcall3
  refine ⟨s1, _, _, _,
    tex_touch_node now1 (tex_after_miss s1 K H2 T).user_clock_idx
      (tex_node_commit R1 (tex_node_claim n1)),
    s3, _, _, hit1, hn1, e1, habs1, hh1, hcall, ?_, hfresh2, hh2, rfl,
    ?_, ?_, hit3, hcall3⟩
  · rw [tex_update_node_slot_idx, tex_update_node_slots]
    have hs : (tex_after_miss s1 K H2 T).slots (tex_slot_idx s1 H2) =
        s1.slots (tex_slot_idx s1 H2) ++ [tex_node_fresh H2 T] := by
      simp only [tex_after_miss, Function.update_same]
    have hi : tex_slot_idx (tex_after_miss s1 K H2 T) H2 = tex_slot_idx s1 H2 := rfl
    have hi1 : tex_slot_idx (tex_after_miss s1 K H2 T) H1 = tex_slot_idx s1 H1 := rfl
    rw [hi, hi1]
    split
    · rename_i heq
      rw [chain_update_first_map _ _ _ (tex_node_id_touch _ _), ← heq, hs]
      simp only [List.map_append, List.map_cons, List.map_nil]
      rfl
    · rw [hs]
      simp only [List.map_append, List.map_cons, List.map_nil]
      rfl
  · rw [tex_node_of_update_same _ _ _ _ (tex_node_id_touch _ _), hn2]
    rfl
  · simp only [tex_touch_node]

/-- Witness of C2: on the state left by a first lookup of `(K, H1, T)` on the
state of `tex_init`. -/
theorem tex_fallback_resolution_witness :
    ∃ s1 m1 scope1 s2 m2 s3 scope3 s4,
      tex_xfer_thread__iteration (tex_after_miss (tex_init 8 (fun _ => 0)) ⟨7, 9⟩ ⟨0, 1⟩ ⟨4, 4, 2⟩)
        (fun _ => 4) 64 5 = some s1 ∧
      tex_node_of s1 ⟨0, 1⟩ ⟨4, 4, 2⟩ = some m1 ∧ m1.texture = 5 ∧
      tex_node_of s1 ⟨0, 2⟩ ⟨4, 4, 2⟩ = none ∧
      u2x_ring_holds s1 [] ∧
      tex_texture_from_key_hash_topology s1 tex_scope_open ⟨7, 9⟩ ⟨0, 2⟩ ⟨4, 4, 2⟩ 100 =
        some (5, scope1, s2) ∧
      (s2.slots (tex_slot_idx s2 ⟨0, 2⟩)).map tex_node_id =
        (s1.slots (tex_slot_idx s1 ⟨0, 2⟩)).map tex_node_id ++ [(⟨0, 2⟩, ⟨4, 4, 2⟩)] ∧
      tex_node_of s2 ⟨0, 2⟩ ⟨4, 4, 2⟩ = some (tex_node_fresh ⟨0, 2⟩ ⟨4, 4, 2⟩) ∧
      u2x_ring_holds s2 [⟨⟨7, 9⟩, ⟨0, 2⟩, ⟨4, 4, 2⟩⟩] ∧
      scope1.top_touch = ⟨⟨0, 1⟩, ⟨4, 4, 2⟩⟩ :: tex_scope_open.top_touch ∧
      tex_node_of s2 ⟨0, 1⟩ ⟨4, 4, 2⟩ = some m2 ∧
      m2.scope_ref_count = ins_atomic_u64_inc_eval m1.scope_ref_count ∧
      tex_xfer_thread__iteration s2 (fun _ => 4) 64 6 = some s3 ∧
      tex_texture_from_key_hash_topology s3 scope1 ⟨7, 9⟩ ⟨0, 2⟩ ⟨4, 4, 2⟩ 200 =
        some (6, scope3, s4) :=
  tex_fallback_resolution (tex_after_miss (tex_init 8 (fun _ => 0)) ⟨7, 9⟩ ⟨0, 1⟩ ⟨4, 4, 2⟩)
    tex_scope_open ⟨7, 9⟩ ⟨0, 1⟩ ⟨0, 2⟩ ⟨4, 4, 2⟩ (fun _ => 4) 64 64 5 6 100 200
    (tex_node_fresh ⟨0, 1⟩ ⟨4, 4, 2⟩)
    (tex_after_miss_ring (tex_init 8 (fun _ => 0)) ⟨7, 9⟩ ⟨0, 1⟩ ⟨4, 4, 2⟩ [] (by decide)
      (u2x_ring_holds_nil _ rfl) (by decide)).1
    (tex_after_miss_ring (tex_init 8 (fun _ => 0)) ⟨7, 9⟩ ⟨0, 1⟩ ⟨4, 4, 2⟩ [] (by decide)
      (u2x_ring_holds_nil _ rfl) (by decide)).2
    (by decide) (by decide) (by decide) (by decide) (by decide) (by decide) (by decide)
    (by decide) (by decide!) rfl (by decide!) (by decide!) (by decide!) (by decide)

/-! ## Uniqueness of nodes -/

/-- C4 (uniqueness invariant). In every state reachable from the state of
`tex_init` by the steps of the system (lookups, worker iterations, evictor
slot passes and sweeps, and also scope opens and closes and clock ticks), no
slot chain holds two nodes with equal `(hash, topology)`, and nodes with equal
identity lie in the same slot, so neither does the whole table. Each of the
three operations, run from any state whose chains have no duplicate, leaves
the chains without duplicate. -/
theorem tex_uniqueness_invariant :
    (∀ σ, TEX_Reachable σ →
      (∀ i, ((σ.shared.slots i).map tex_node_id).Nodup) ∧
      (∀ i j n m, n ∈ σ.shared.slots i → m ∈ σ.shared.slots j →
        tex_node_id n = tex_node_id m → i = j)) ∧
    (∀ s scope key hash top now_us handle scope1 s1, tex_unique s →
      tex_texture_from_key_hash_topology s scope key hash top now_us =
        some (handle, scope1, s1) → tex_unique s1) ∧
    (∀ s bpp data_size alloc_result s1, tex_unique s →
      tex_xfer_thread__iteration s bpp data_size alloc_result = some s1 → tex_unique s1) ∧
    (∀ s now_us, tex_unique s → tex_unique (tex_evictor_sweep s now_us)) := by
  refine ⟨?_, ?_, ?_, ?_⟩
  · intro σ hσ
    have h := tex_reachable_homed_unique σ hσ
    refine ⟨h.2, ?_⟩
    intro i j n m hn hm hid
    have h1 := h.1 i n hn
    have h2 := h.1 j m hm
    have : n.hash = m.hash := (Prod.mk.inj hid).1
    rw [← h1, ← h2, this]
  · intro s scope key hash top now_us handle scope1 s1 hu hcall
    exact tex_texture_unique s scope key hash top now_us handle scope1 s1 hu hcall
  · intro s bpp data_size alloc_result s1 hu hit
    exact tex_xfer_iteration_unique s bpp data_size alloc_result s1 hu hit
  · intro s now_us hu
    exact tex_evictor_sweep_unique s now_us hu

/-- Witness of C4: the state reached from `tex_init` by opening a scope and
looking up the hash `(0, 1)`; and a lookup, a worker iteration and a sweep on
states without duplicate. -/
theorem tex_uniqueness_invariant_witness :
    ((∀ i, (((tex_after_miss (tex_init 8 (fun _ => 0)) ⟨7, 9⟩ ⟨0, 1⟩ ⟨4, 4, 2⟩).slots i).map
        tex_node_id).Nodup) ∧
      (∀ i j n m,
        n ∈ (tex_after_miss (tex_init 8 (fun _ => 0)) ⟨7, 9⟩ ⟨0, 1⟩ ⟨4, 4, 2⟩).slots i →
        m ∈ (tex_after_miss (tex_init 8 (fun _ => 0)) ⟨7, 9⟩ ⟨0, 1⟩ ⟨4, 4, 2⟩).slots j →
        tex_node_id n = tex_node_id m → i = j)) ∧
    tex_unique (tex_after_miss (tex_init 8 (fun _ => 0)) ⟨7, 9⟩ ⟨0, 1⟩ ⟨4, 4, 2⟩) ∧
    tex_unique (tex_evictor_sweep (tex_init 8 (fun _ => 0)) 5) :=
  ⟨tex_uniqueness_invariant.1
      ⟨tex_after_miss (tex_init 8 (fun _ => 0)) ⟨7, 9⟩ ⟨0, 1⟩ ⟨4, 4, 2⟩,
        [] ++ ⟨tex_scope_open, [r_handle_zero]⟩ :: []⟩
      (TEX_Reachable.step _ _
        (TEX_Reachable.step _ _ (TEX_Reachable.init 8 (fun _ => 0))
          (TEX_Step.scope_open _))
        (TEX_Step.lookup ⟨tex_init 8 (fun _ => 0), [] ++ [⟨tex_scope_open, []⟩]⟩ [] []
          ⟨tex_scope_open, []⟩ ⟨7, 9⟩ ⟨0, 1⟩ ⟨4, 4, 2⟩ 100 r_handle_zero tex_scope_open _
          rfl (by decide) (by decide) (by decide) (by decide)
          (tex_init_first_lookup 8 _ _ _ _ _ _ (by decide)))),
    tex_uniqueness_invariant.2.1 (tex_init 8 (fun _ => 0)) tex_scope_open ⟨7, 9⟩ ⟨0, 1⟩
      ⟨4, 4, 2⟩ 100 r_handle_zero tex_scope_open _ (tex_init_homed_unique _ _).2
      (tex_init_first_lookup 8 _ _ _ _ _ _ (by decide)),
    tex_uniqueness_invariant.2.2.2 (tex_init 8 (fun _ => 0)) 5 (tex_init_homed_unique _ _).2⟩

/-! ## Closing a scope -/

/-- C7 (scope close undoes every touch). Take a table that is homed and without
duplicates and whose pin counts are 64-bit values. Open a scope and run any
sequence of lookups in it, with worker iterations and clock ticks in between
and no eviction, every lookup returning. After `tex_scope_close`, each node of
the original table is still in its slot with the pin count it had before the
scope was opened, and each node of the final table either is such a node or
was created since and has pin count zero: the decrements of the close are as
many as the increments of the touches recorded in the scope, node by node. -/
theorem tex_scope_close_undoes_touches (s : TEX_Shared) (acts : List TEX_ScopeAction)
    (r : TEX_Scope × TEX_Shared) (hh : tex_homed s) (hu : tex_unique s) (hwf : tex_refs_wf s)
    (hrun : tex_scope_run s tex_scope_open acts = some r) :
    (∀ i, ∀ n ∈ s.slots i, ∃ n2 ∈ (tex_scope_close r.2 r.1).slots i,
      tex_node_id n2 = tex_node_id n ∧ n2.scope_ref_count = n.scope_ref_count) ∧
    (∀ i, ∀ n2 ∈ (tex_scope_close r.2 r.1).slots i,
      (∃ n ∈ s.slots i, tex_node_id n = tex_node_id n2 ∧
        n.scope_ref_count = n2.scope_ref_count) ∨
      (tex_node_of s n2.hash n2.topology = none ∧ n2.scope_ref_count = 0)) := by
  obtain ⟨scope1, s1⟩ := r
  have hb1 := tex_scope_run_balance s acts s tex_scope_open scope1 s1
    (tex_scope_balance_init s) hrun
  have hb2 := tex_scope_close_balance s hwf scope1.top_touch s1 hb1
  have ht := tex_scope_run_table acts s tex_scope_open scope1 s1 hh hu hrun
  have hh2 : tex_homed (tex_scope_close s1 scope1) :=
    tex_scope_close_induction tex_homed
      (fun st h t hP => tex_update_node_homed st h t _ tex_node_id_unpin hP) _ _ ht.1
  have hu2 : tex_unique (tex_scope_close s1 scope1) :=
    tex_scope_close_induction tex_unique
      (fun st h t hP => tex_update_node_unique st h t _ tex_node_id_unpin hP) _ _ ht.2.1
  have hc2 : (tex_scope_close s1 scope1).slots_count = s.slots_count :=
    (tex_scope_close_slots_count s1 scope1).trans ht.2.2
  have hidx : ∀ h : U128, tex_slot_idx (tex_scope_close s1 scope1) h = tex_slot_idx s h := by
    intro h; unfold tex_slot_idx; rw [hc2]
  have hfin : tex_scope_balance s [] (tex_scope_close s1 scope1) := hb2
  constructor
  · intro i n hn
    have hof := tex_node_of_of_mem s hh hu i n hn
    rcases hfin (n.hash, n.topology) with ⟨_, _, h3⟩ | ⟨n2, h1, h2⟩
    · simp only at h3; rw [hof] at h3; cases h3
    · simp only at h1
      refine ⟨n2, ?_, ?_, ?_⟩
      · have hm := tex_node_of_mem _ _ _ _ h1
        rw [hidx, hh i n hn] at hm
        exact hm
      · have := tex_node_of_id _ _ _ _ h1
        simp only [tex_node_id, this.1, this.2]
      · rw [h2]
        simp only [tex_touches_of, List.filter_nil, List.length_nil, Function.iterate_zero,
          id_eq, tex_ref_of, hof]
  · intro i n2 hn2
    have hof2 := tex_node_of_of_mem _ hh2 hu2 i n2 hn2
    rcases hfin (n2.hash, n2.topology) with ⟨h1, _, _⟩ | ⟨m, h1, h2⟩
    · simp only at h1; rw [hof2] at h1; cases h1
    · simp only at h1
      rw [hof2] at h1
      simp only [Option.some.injEq] at h1
      subst h1
      simp only [tex_touches_of, List.filter_nil, List.length_nil, Function.iterate_zero,
        id_eq, tex_ref_of] at h2
      cases hs : tex_node_of s n2.hash n2.topology with
      | none =>
        right
        rw [hs] at h2
        exact ⟨rfl, h2⟩
      | some n =>
        left
        rw [hs] at h2
        refine ⟨n, ?_, ?_, h2.symm⟩
        · have hm := tex_node_of_mem _ _ _ _ hs
          rw [← hidx, hh2 i n2 hn2] at hm
          exact hm
        · have := tex_node_of_id _ _ _ _ hs
          simp only [tex_node_id, this.1, this.2]

/-- Witness of C7: on the sample state, whose node of hash `(0, 1)` is pinned
once by a scope still open, a second scope hits that node, lets the clock
tick, misses on hash `(0, 2)`, and is closed. -/
theorem tex_scope_close_undoes_touches_witness :
    ∃ r, tex_scope_run tex_example_state tex_scope_open tex_example_acts2 = some r ∧
      (∀ i, ∀ n ∈ tex_example_state.slots i, ∃ n2 ∈ (tex_scope_close r.2 r.1).slots i,
        tex_node_id n2 = tex_node_id n ∧ n2.scope_ref_count = n.scope_ref_count) ∧
      (∀ i, ∀ n2 ∈ (tex_scope_close r.2 r.1).slots i,
        (∃ n ∈ tex_example_state.slots i, tex_node_id n = tex_node_id n2 ∧
          n.scope_ref_count = n2.scope_ref_count) ∨
        (tex_node_of tex_example_state n2.hash n2.topology = none ∧ n2.scope_ref_count = 0)) :=
  ⟨(tex_scope_run tex_example_state tex_scope_open tex_example_acts2).get (by decide!),
    (Option.some_get _).symm,
    tex_scope_close_undoes_touches tex_example_state tex_example_acts2 _
      tex_example_state_table.1 tex_example_state_table.2.1 tex_example_state_table.2.2
      (Option.some_get _).symm⟩

/-! ## The worker pool -/

/-- C16 (worker pool size), evaluated at the single-core input. With one logical
core `tex_init` computes `Min(4, 1 - 1) = 0` transfer threads: the launch loop
of lines 53-56 runs zero times and no worker exists. -/
theorem tex_init_single_core (ring_memory : Nat → Nat) :
    (tex_init 1 ring_memory).xfer_thread_count = 0 := by
  simp [tex_init, Min]

/-! ## The allocation guard -/

/-- C19 (allocation guard), as the claim states it, fails: a topology with the
negative dimensions `-2` and `-3` passes the test `dim != 0`, the product of
the two sign-extended values is `6` modulo `2 ^ 64`, and with four bytes per
pixel a 24-byte slice lets the worker call `r_tex2d_alloc`. -/
theorem tex_xfer_alloc_guard_negative_dims :
    ¬ (∀ (s : TEX_Shared) (bpp : Nat → Nat) (got_task : Bool) (top : TEX_Topology)
        (data_size : Nat) (alloc_result : R_Handle), top.wf →
        (tex_xfer_alloc s bpp got_task top data_size alloc_result).2.r_tex2d_alloc_log ≠
          s.r_tex2d_alloc_log →
        got_task = true ∧ 0 < top.dim_x ∧ 0 < top.dim_y ∧
          top.dim_x * top.dim_y * (bpp top.fmt : Int) ≤ (data_size : Int)) := by
  intro h
  have h1 := h (tex_init 8 (fun _ => 0)) (fun _ => 4) true ⟨-2, -3, 0⟩ 24 5 (by decide)
    (by decide)
  exact absurd h1.2.1 (by decide)

/-- C19 (allocation guard), amended. The worker calls `r_tex2d_alloc` exactly
when it holds the task, `dim.x != 0`, `dim.y != 0` and the slice is at least
`(U64)dim.x * (U64)dim.y * bytes_per_pixel(fmt)` long, the product taken modulo
`2 ^ 64`; the call passes the topology's dimensions and format. For positive
dimensions of a 16-bit topology and a table entry below `2 ^ 34` that product
is the exact integer product. With a zero dimension the backend is not called
and the texture stays null. -/
theorem tex_xfer_alloc_guard_spec (s : TEX_Shared) (bpp : Nat → Nat) (got_task : Bool)
    (top : TEX_Topology) (data_size : Nat) (alloc_result : R_Handle) :
    ((tex_xfer_alloc s bpp got_task top data_size alloc_result).2.r_tex2d_alloc_log ≠
        s.r_tex2d_alloc_log ↔
      (got_task = true ∧ top.dim_x ≠ 0 ∧ top.dim_y ≠ 0 ∧
        (u64_cast top.dim_x * u64_cast top.dim_y % 2 ^ 64 * bpp top.fmt) % 2 ^ 64 ≤
          data_size)) ∧
    ((tex_xfer_alloc s bpp got_task top data_size alloc_result).2.r_tex2d_alloc_log ≠
        s.r_tex2d_alloc_log →
      (tex_xfer_alloc s bpp got_task top data_size alloc_result).2.r_tex2d_alloc_log =
          s.r_tex2d_alloc_log ++ [⟨top.dim_x, top.dim_y, top.fmt, alloc_result⟩] ∧
        (tex_xfer_alloc s bpp got_task top data_size alloc_result).1 = alloc_result) ∧
    (top.wf → 0 < top.dim_x → 0 < top.dim_y → bpp top.fmt < 2 ^ 34 →
      (u64_cast top.dim_x * u64_cast top.dim_y % 2 ^ 64 * bpp top.fmt) % 2 ^ 64 =
        top.dim_x.toNat * top.dim_y.toNat * bpp top.fmt) ∧
    (top.dim_x = 0 ∨ top.dim_y = 0 →
      tex_xfer_alloc s bpp got_task top data_size alloc_result = (r_handle_zero, s)) := by
  have hg : tex_xfer_alloc_guard bpp got_task top data_size = true ↔
      (got_task = true ∧ top.dim_x ≠ 0 ∧ top.dim_y ≠ 0 ∧
        (u64_cast top.dim_x * u64_cast top.dim_y % 2 ^ 64 * bpp top.fmt) % 2 ^ 64 ≤
          data_size) := by
    simp only [tex_xfer_alloc_guard, Bool.and_eq_true, bne_iff_ne, ne_eq, ge_iff_le,
      decide_eq_true_eq, and_assoc]
  refine ⟨?_, ?_, ?_, ?_⟩
  · rw [← hg, tex_xfer_alloc_log]
    by_cases hc : tex_xfer_alloc_guard bpp got_task top data_size = true
    · simp [hc]
    · simp [hc]
  · intro hne
    rw [tex_xfer_alloc_log] at hne ⊢
    rw [tex_xfer_alloc_fst]
    by_cases hc : tex_xfer_alloc_guard bpp got_task top data_size = true
    · simp [hc]
    · simp [hc] at hne
  · intro hwf hx hy hb
    obtain ⟨_, hx2, _, hy2, _⟩ := hwf
    have e1 : u64_cast top.dim_x = top.dim_x.toNat := by unfold u64_cast; omega
    have e2 : u64_cast top.dim_y = top.dim_y.toNat := by unfold u64_cast; omega
    rw [e1, e2]
    have b1 : top.dim_x.toNat < 2 ^ 15 := by omega
    have b2 : top.dim_y.toNat < 2 ^ 15 := by omega
    have b3 : top.dim_x.toNat * top.dim_y.toNat < 2 ^ 30 := by
      calc top.dim_x.toNat * top.dim_y.toNat < 2 ^ 15 * 2 ^ 15 :=
            Nat.mul_lt_mul'' b1 b2
        _ = 2 ^ 30 := by norm_num
    have b4 : top.dim_x.toNat * top.dim_y.toNat * bpp top.fmt < 2 ^ 64 := by
      calc top.dim_x.toNat * top.dim_y.toNat * bpp top.fmt
          ≤ 2 ^ 30 * bpp top.fmt := Nat.mul_le_mul_right _ b3.le
        _ < 2 ^ 30 * 2 ^ 34 := Nat.mul_lt_mul_of_pos_left hb (by norm_num)
        _ = 2 ^ 64 := by norm_num
    rw [Nat.mod_eq_of_lt (lt_trans b3 (by norm_num)), Nat.mod_eq_of_lt b4]
  · intro hz
    have hc : tex_xfer_alloc_guard bpp got_task top data_size = false := by
      rw [← Bool.not_eq_true, hg]
      rintro ⟨_, hx, hy, _⟩
      rcases hz with h | h
      · exact hx h
      · exact hy h
    simp only [tex_xfer_alloc, hc, Bool.false_eq_true, if_false]

theorem tex_xfer_alloc_guard_spec_witness :
    (tex_xfer_alloc (tex_init 8 (fun _ => 0)) (fun _ => 4) true ⟨4, 0, 2⟩ 64 5 =
      (r_handle_zero, tex_init 8 (fun _ => 0))) ∧
    ((u64_cast 4 * u64_cast 4 % 2 ^ 64 * 4) % 2 ^ 64 = (4 : Int).toNat * (4 : Int).toNat * 4) :=
  ⟨(tex_xfer_alloc_guard_spec (tex_init 8 (fun _ => 0)) (fun _ => 4) true ⟨4, 0, 2⟩ 64
      5).2.2.2 (Or.inr rfl),
    (tex_xfer_alloc_guard_spec (tex_init 8 (fun _ => 0)) (fun _ => 4) true ⟨4, 4, 2⟩ 64
      5).2.2.1 (by decide) (by decide) (by decide) (by decide)⟩

/-! ## The commit on a vanished node -/

/-- C15 (short payload does not mark a load), as the claim states it, fails: on
the state after one miss, the worker iteration that receives 10 bytes for a
4 x 4 texture of 4 bytes per pixel leaves the node with `load_count == 1`,
where it was 0. -/
theorem tex_xfer_short_payload_marks_load :
    ∃ (s1 : TEX_Shared) (n n1 : TEX_Node),
      u2x_ring_holds (tex_after_miss (tex_init 8 (fun _ => 0)) ⟨7, 9⟩ ⟨0, 1⟩ ⟨4, 4, 2⟩)
        [⟨⟨7, 9⟩, ⟨0, 1⟩, ⟨4, 4, 2⟩⟩] ∧
      tex_node_of (tex_after_miss (tex_init 8 (fun _ => 0)) ⟨7, 9⟩ ⟨0, 1⟩ ⟨4, 4, 2⟩) ⟨0, 1⟩
        ⟨4, 4, 2⟩ = some n ∧ n.is_working = 0 ∧ 10 < 4 * 4 * 4 ∧
      tex_xfer_thread__iteration (tex_after_miss (tex_init 8 (fun _ => 0)) ⟨7, 9⟩ ⟨0, 1⟩
        ⟨4, 4, 2⟩) (fun _ => 4) 10 5 = some s1 ∧
      tex_node_of s1 ⟨0, 1⟩ ⟨4, 4, 2⟩ = some n1 ∧
      n1.load_count ≠ n.load_count := by
  obtain ⟨hwf, hh, hn⟩ := tex_init_after_miss 8 (fun _ => 0) ⟨7, 9⟩ ⟨0, 1⟩ ⟨4, 4, 2⟩
  obtain ⟨s1, h1, _, _, h2, _⟩ := tex_xfer_iteration_build _ (fun _ => 4) 10 5
    ⟨⟨7, 9⟩, ⟨0, 1⟩, ⟨4, 4, 2⟩⟩ [] _ hwf hh (by decide) hn rfl
  refine ⟨s1, _, _, hh, hn, rfl, by decide, h1, h2, ?_⟩
  simp only [tex_node_commit, tex_node_claim, tex_node_fresh, tex_node_zero, if_true]
  rw [ins_atomic_u64_inc_eval_eq 0 (by norm_num)]
  decide

/-- C15 (short payload), amended. For a dequeued tuple whose node exists with
`is_working == 0`, when the hash store returns fewer bytes than
`(U64)dim.x * (U64)dim.y * bytes_per_pixel(fmt)` (the product as the code
computes it, modulo `2 ^ 64`), the worker iteration does not call the backend
and leaves the node in the table, in a chain of the same length, with a null
texture and `is_working == 0`; its `load_count` is incremented by one (modulo
`2 ^ 64`), and its pin count and touch times are as before. -/
theorem tex_xfer_short_payload (s : TEX_Shared) (bpp : Nat → Nat) (data_size : Nat)
    (alloc_result : R_Handle) (r : TEX_Request) (rs : List TEX_Request) (n : TEX_Node)
    (hwf : u2x_ring_wf s) (hh : u2x_ring_holds s (r :: rs)) (hr : r.wf)
    (hn : tex_node_of s r.hash r.top = some n) (hidle : n.is_working = 0)
    (hshort : data_size <
      (u64_cast r.top.dim_x * u64_cast r.top.dim_y % 2 ^ 64 * bpp r.top.fmt) % 2 ^ 64) :
    ∃ s1 n1, tex_xfer_thread__iteration s bpp data_size alloc_result = some s1 ∧
      tex_node_of s1 r.hash r.top = some n1 ∧
      n1.texture = r_handle_zero ∧ n1.is_working = 0 ∧
      n1.load_count = (n.load_count + 1) % 2 ^ 64 ∧
      n1.scope_ref_count = n.scope_ref_count ∧
      n1.last_time_touched_us = n.last_time_touched_us ∧
      n1.last_user_clock_idx_touched = n.last_user_clock_idx_touched ∧
      s1.r_tex2d_alloc_log = s.r_tex2d_alloc_log ∧
      (∀ i, (s1.slots i).length = (s.slots i).length) := by
  have hg : tex_xfer_alloc_guard bpp true r.top data_size = false := by
    rw [← Bool.not_eq_true]
    simp only [tex_xfer_alloc_guard, Bool.and_eq_true, ge_iff_le, decide_eq_true_eq, not_and,
      not_le]
    intro _
    exact hshort
  obtain ⟨s1, h1, _, _, h2, _⟩ :=
    tex_xfer_iteration_build s bpp data_size alloc_result r rs n hwf hh hr hn hidle
  obtain ⟨s2, h3, h4, h5, _⟩ :=
    tex_xfer_iteration_logs s bpp data_size alloc_result r rs n hwf hh hr hn hidle
  rw [h1] at h3
  cases h3
  rw [hg] at h2 h4
  simp only [Bool.false_eq_true, if_false] at h2 h4
  refine ⟨s1, _, h1, h2, rfl, rfl, ?_, ?_, ?_, ?_, h4, h5⟩
  · simp only [tex_node_commit, tex_node_claim, hidle, if_true]
    unfold ins_atomic_u64_inc_eval
    rfl
  · simp only [tex_node_commit, tex_node_claim, hidle, if_true]
  · simp only [tex_node_commit, tex_node_claim, hidle, if_true]
  · simp only [tex_node_commit, tex_node_claim, hidle, if_true]

theorem tex_xfer_short_payload_witness :
    ∃ s1 n1, tex_xfer_thread__iteration (tex_after_miss (tex_init 8 (fun _ => 0)) ⟨7, 9⟩
        ⟨0, 1⟩ ⟨4, 4, 2⟩) (fun _ => 4) 10 5 = some s1 ∧
      tex_node_of s1 ⟨0, 1⟩ ⟨4, 4, 2⟩ = some n1 ∧
      n1.texture = r_handle_zero ∧ n1.is_working = 0 ∧ n1.load_count = 1 := by
  obtain ⟨hwf, hh, hn⟩ := tex_init_after_miss 8 (fun _ => 0) ⟨7, 9⟩ ⟨0, 1⟩ ⟨4, 4, 2⟩
  obtain ⟨s1, n1, h1, h2, h3, h4, h5, _⟩ := tex_xfer_short_payload _ (fun _ => 4) 10 5
    ⟨⟨7, 9⟩, ⟨0, 1⟩, ⟨4, 4, 2⟩⟩ [] _ hwf hh (by decide) hn rfl (by decide)
  exact ⟨s1, n1, h1, h2, h3, h4, h5⟩

/-! ## The fallback table -/

/-- C13 (fallback last-writer-wins). In a state whose fallback table is well
formed (as it is in every reachable state), let a worker take and complete the
task for `(K, h1, T1)` and then for `(K, h2, T2)`, with `K`, `h1`, `h2`
non-zero. Afterwards the fallback slot of `K` holds exactly one node with key
`K`, and its hash is `h2`; a further build for `(K, h2, T2)` leaves the
fallback table unchanged; and in every chain the nodes of other keys are, after
each of the two builds, the ones that were there before, in the same order. -/
theorem tex_fallback_last_writer_wins (s s1 s2 s3 : TEX_Shared) (bpp : Nat → Nat)
    (K h1 h2 : U128) (T1 T2 : TEX_Topology) (d1 d2 d3 : Nat) (a1 a2 a3 : R_Handle)
    (n1 n2 : TEX_Node)
    (hK : K ≠ u128_zero) (hh1 : h1 ≠ u128_zero) (hh2 : h2 ≠ u128_zero)
    (hwf : tex_fallback_wf s)
    (hn1 : tex_node_of s h1 T1 = some n1) (hw1 : n1.is_working = 0)
    (hn2 : tex_node_of s h2 T2 = some n2) (hw2 : n2.is_working = 0)
    (hs1 : s1 = tex_xfer_process s bpp K h1 T1 d1 a1)
    (hs2 : s2 = tex_xfer_process s1 bpp K h2 T2 d2 a2)
    (hs3 : s3 = tex_xfer_process s2 bpp K h2 T2 d3 a3) :
    (s2.fallback_slots (K.u64_1 % s2.fallback_slots_count)).filter
        (fun n => decide (n.key = K)) = [{ key := K, hash := h2 }] ∧
    tex_fallback_hash s2 K = h2 ∧
    s3.fallback_slots = s2.fallback_slots ∧
    (∀ i, (s1.fallback_slots i).filter (fun n => decide (n.key ≠ K)) =
      (s.fallback_slots i).filter (fun n => decide (n.key ≠ K))) ∧
    (∀ i, (s2.fallback_slots i).filter (fun n => decide (n.key ≠ K)) =
      (s.fallback_slots i).filter (fun n => decide (n.key ≠ K))) := by
  have hpart : ∀ (x : TEX_Shared) (h : U128), h ≠ u128_zero →
      tex_xfer_fallback_part x K h = tex_xfer_fallback_commit x K h := by
    intro x h hh
    unfold tex_xfer_fallback_part
    rw [if_pos ⟨hK, hh⟩]
  -- first build
  obtain ⟨f1, c1, m1, o1⟩ := tex_xfer_process_task_fallback s bpp K h1 T1 d1 a1 n1 hn1 hw1
  rw [← hs1] at f1 c1 m1 o1
  rw [hpart _ _ hh1] at f1
  -- the (h2, T2) node is idle after the first build
  have hidle1 : ∃ m, tex_node_of s1 h2 T2 = some m ∧ m.is_working = 0 := by
    by_cases hid : (h2, T2) = (h1, T1)
    · obtain ⟨e1, e2⟩ := Prod.mk.inj hid
      rw [e1, e2, m1]
      exact ⟨_, rfl, rfl⟩
    · rw [o1 h2 T2 hid]
      exact ⟨n2, hn2, hw2⟩
  obtain ⟨m, hm, hmw⟩ := hidle1
  -- second build
  obtain ⟨f2, c2, m2, _⟩ := tex_xfer_process_task_fallback s1 bpp K h2 T2 d2 a2 m hm hmw
  rw [← hs2] at f2 c2 m2
  rw [hpart _ _ hh2] at f2
  -- third build
  obtain ⟨f3, _, _, _⟩ := tex_xfer_process_task_fallback s2 bpp K h2 T2 d3 a3 _ m2 rfl
  rw [← hs3, hpart _ _ hh2] at f3
  have hwf1 : tex_fallback_wf s1 :=
    tex_fallback_wf_congr _ _ f1 (tex_xfer_fallback_commit_wf s K h1 hK hh1 hwf)
  have g2 : s2.fallback_slots =
      (tex_xfer_fallback_commit (tex_xfer_fallback_commit s1 K h2) K h2).fallback_slots := by
    rw [tex_xfer_fallback_commit_idem]
    exact f2
  refine ⟨?_, ?_, ?_, ?_, ?_⟩
  · rw [f2, c2]
    exact tex_xfer_fallback_commit_one s1 K h2 (hwf1 _).2
  · rw [tex_fallback_hash_congr (tex_xfer_fallback_commit s1 K h2) s2 f2 c2]
    exact tex_xfer_fallback_commit_hash s1 K h2
  · rw [f3, tex_xfer_fallback_commit_congr (tex_xfer_fallback_commit s1 K h2) s2 K h2 f2 c2]
    rw [tex_xfer_fallback_commit_idem]
    exact f2.symm
  · intro i
    rw [f1]
    exact tex_xfer_fallback_commit_others s K h1 i
  · intro i
    rw [f2, tex_xfer_fallback_commit_others s1 K h2 i, f1]
    exact tex_xfer_fallback_commit_others s K h1 i

theorem tex_fallback_last_writer_wins_witness :
    ((tex_xfer_process (tex_xfer_process
        (tex_after_miss (tex_after_miss (tex_init 8 (fun _ => 0)) ⟨7, 9⟩ ⟨0, 1⟩ ⟨4, 4, 2⟩)
          ⟨7, 9⟩ ⟨0, 2⟩ ⟨4, 4, 2⟩)
        (fun _ => 4) ⟨7, 9⟩ ⟨0, 1⟩ ⟨4, 4, 2⟩ 64 5)
        (fun _ => 4) ⟨7, 9⟩ ⟨0, 2⟩ ⟨4, 4, 2⟩ 64 6).fallback_slots
      ((⟨7, 9⟩ : U128).u64_1 %
        (tex_xfer_process (tex_xfer_process
          (tex_after_miss (tex_after_miss (tex_init 8 (fun _ => 0)) ⟨7, 9⟩ ⟨0, 1⟩ ⟨4, 4, 2⟩)
            ⟨7, 9⟩ ⟨0, 2⟩ ⟨4, 4, 2⟩)
          (fun _ => 4) ⟨7, 9⟩ ⟨0, 1⟩ ⟨4, 4, 2⟩ 64 5)
          (fun _ => 4) ⟨7, 9⟩ ⟨0, 2⟩ ⟨4, 4, 2⟩ 64 6).fallback_slots_count)).filter
        (fun n => decide (n.key = ⟨7, 9⟩)) = [{ key := ⟨7, 9⟩, hash := ⟨0, 2⟩ }] :=
  (tex_fallback_last_writer_wins
    (tex_after_miss (tex_after_miss (tex_init 8 (fun _ => 0)) ⟨7, 9⟩ ⟨0, 1⟩ ⟨4, 4, 2⟩)
      ⟨7, 9⟩ ⟨0, 2⟩ ⟨4, 4, 2⟩) _ _ _
    (fun _ => 4) ⟨7, 9⟩ ⟨0, 1⟩ ⟨0, 2⟩ ⟨4, 4, 2⟩ ⟨4, 4, 2⟩ 64 64 64 5 6 6
    (tex_node_fresh ⟨0, 1⟩ ⟨4, 4, 2⟩) (tex_node_fresh ⟨0, 2⟩ ⟨4, 4, 2⟩)
    (by decide) (by decide) (by decide)
    (tex_fallback_wf_congr _ _ rfl (tex_init_fallback_wf 8 (fun _ => 0)))
    (by rfl) rfl (by rfl) rfl rfl rfl rfl).1

/-- C18 (fallback entries are non-zero). In every state reached from the state
of `tex_init` by lookups and by worker turns on arbitrary tuples, every node of
the fallback table has a non-zero key and a non-zero hash and no fallback chain
holds two nodes with the same key. Consequently the walk for the zero key
finds nothing, the fallback part of a lookup with the zero key returns the
handle, scope and state it was given, and a lookup with the zero key returns
null or the texture of the `(hash, topology)` node itself. -/
theorem tex_fallback_entries_nonzero (s : TEX_Shared) (hr : TEX_FallbackReachable s) :
    (∀ i, ∀ n ∈ s.fallback_slots i, n.key ≠ u128_zero ∧ n.hash ≠ u128_zero) ∧
    (∀ i, ((s.fallback_slots i).map (fun n => n.key)).Nodup) ∧
    tex_fallback_hash s u128_zero = u128_zero ∧
    (∀ scope top handle now_us,
      tex_lookup_fallback s scope u128_zero top handle now_us = (handle, scope, s)) ∧
    (∀ scope hash top now_us handle scope1 s1,
      tex_texture_from_key_hash_topology s scope u128_zero hash top now_us =
        some (handle, scope1, s1) →
      handle = r_handle_zero ∨
        ∃ n, tex_node_of s hash top = some n ∧ handle = n.texture) := by
  have hwf := tex_fallback_reachable_wf s hr
  exact ⟨fun i => (hwf i).1, fun i => (hwf i).2, tex_fallback_hash_zero s hwf,
    fun scope top handle now_us => tex_lookup_fallback_zero_key s hwf scope top handle now_us,
    fun scope hash top now_us handle scope1 s1 h =>
      tex_texture_zero_key s hwf scope hash top now_us handle scope1 s1 h⟩


theorem tex_fallback_entries_nonzero_witness :
    ((tex_node_of tex_example_zero_key_miss ⟨0, 1⟩ ⟨4, 4, 2⟩).map
        (fun n => (n.is_working, n.load_count)) = some (0, 0) ∧
      (tex_node_of tex_example_guard_state ⟨0, 1⟩ ⟨4, 4, 2⟩).map
        (fun n => (n.texture, n.is_working, n.load_count)) = some (5, 0, 1) ∧
      tex_fallback_hash tex_example_guard_state ⟨7, 9⟩ = ⟨0, 2⟩) ∧
    (∀ i, ∀ n ∈ tex_example_guard_state.fallback_slots i,
      n.key ≠ u128_zero ∧ n.hash ≠ u128_zero) ∧
    (∀ i, ((tex_example_guard_state.fallback_slots i).map (fun n => n.key)).Nodup) ∧
    tex_fallback_hash tex_example_guard_state u128_zero = u128_zero :=
  ⟨tex_example_guard_state_facts,
    (tex_fallback_entries_nonzero tex_example_guard_state tex_example_guard_state_reachable).1,
    (tex_fallback_entries_nonzero tex_example_guard_state
      tex_example_guard_state_reachable).2.1,
    (tex_fallback_entries_nonzero tex_example_guard_state
      tex_example_guard_state_reachable).2.2.1⟩

/-! ## A build in flight -/

/-- C20 (a build in flight is never cancelled by eviction). In every reachable
state of the machine, whose worker turns are split into the take-task half and
the commit half: a pass of the evictor over any slot, and a full sweep, with
any clock readings, leave every node with `load_count == 0` or
`is_working == 1` linked in its slot; every worker in flight holds its task and
its node is linked with `is_working == 1` and `load_count == 0`; a worker that
takes a request wins the compare-and-swap on a linked idle node; and the second
half of the turn of any worker in flight finds the node and leaves it with the
built texture (the backend's handle when the allocation guard holds, null
otherwise), `is_working == 0` and `load_count` incremented from 0 to 1. -/
theorem tex_build_in_flight_kept (m : TEX_Machine) (hr : TEX_MachineReachable m) :
    (∀ slot_idx ct cu i n, n ∈ m.shared.slots i →
      (n.load_count = 0 ∨ n.is_working = 1) →
      n ∈ (tex_evictor_slot_pass m.shared slot_idx ct cu).slots i) ∧
    (∀ now_us i n, n ∈ m.shared.slots i → (n.load_count = 0 ∨ n.is_working = 1) →
      n ∈ (tex_evictor_sweep m.shared now_us).slots i) ∧
    (∀ w ∈ m.workers, w.got_task = true ∧
      ∃ n, tex_node_of m.shared w.hash w.top = some n ∧ n.is_working = 1 ∧
        n.load_count = 0) ∧
    (∀ w s1, tex_xfer_take m.shared = some (w, s1) → w.got_task = true ∧
      ∃ n, tex_node_of m.shared w.hash w.top = some n ∧ n.is_working = 0 ∧
        tex_node_of s1 w.hash w.top = some { n with is_working := 1 }) ∧
    (∀ pre post w bpp data_size alloc_result, m.workers = pre ++ w :: post →
      ∃ n, tex_node_of m.shared w.hash w.top = some n ∧ n.load_count = 0 ∧
        tex_node_of (tex_xfer_finish m.shared w bpp data_size alloc_result) w.hash w.top =
          some { n with
            texture :=
              if tex_xfer_alloc_guard bpp true w.top data_size then alloc_result
              else r_handle_zero
            is_working := 0
            load_count := 1 }) := by
  have hi := tex_reachable_build_inv m hr
  have hkeep : ∀ (s : TEX_Shared) slot_idx ct cu i (n : TEX_Node), n ∈ s.slots i →
      (n.load_count = 0 ∨ n.is_working = 1) →
      n ∈ (tex_evictor_slot_pass s slot_idx ct cu).slots i := by
    intro s slot_idx ct cu i n hn hc
    have hev : tex_evictable ct cu n = false := by
      apply tex_evictable_false
      rcases hc with h | h
      · exact Or.inl h
      · exact Or.inr (Or.inl (by omega))
    rw [tex_evictor_slot_pass_eq]
    simp only [Function.update_apply]
    split
    · rename_i hidx
      rw [List.mem_filter]
      subst hidx
      exact ⟨hn, by simp [hev]⟩
    · exact hn
  refine ⟨hkeep m.shared, ?_, hi.2.2.2.1.1, ?_, ?_⟩
  · intro now_us i n hn hc
    exact tex_evictor_sweep_induction (fun x => n ∈ x.slots i)
      (fun x j ct cu hx => hkeep x j ct cu i n hx hc) m.shared now_us hn
  · intro w s1 htake
    obtain ⟨hg, ⟨n, hn, hw, _⟩, hview, _⟩ := tex_xfer_take_spec m.shared w s1 hi.2.2.1 htake
    refine ⟨hg, n, hn, hw, ?_⟩
    rw [hview, if_pos rfl, hn]
    simp only [Option.map_some', tex_node_claim, hw, if_true]
  · intro pre post w bpp data_size alloc_result hws
    have hwi := hi.2.2.2.1
    rw [hws] at hwi
    obtain ⟨hg, n, hn, _, hl⟩ := hwi.1 w (by simp)
    refine ⟨n, hn, hl, ?_⟩
    rw [tex_xfer_finish_node_of m.shared w bpp data_size alloc_result hg, if_pos rfl, hn,
      tex_xfer_alloc_fst]
    simp only [Option.map_some', tex_node_commit, hl]
    rw [ins_atomic_u64_inc_eval_eq 0 (by norm_num)]

theorem tex_build_in_flight_kept_witness :
    tex_example_worker.got_task = true ∧
      ∃ n, tex_node_of tex_example_machine_taken.shared tex_example_worker.hash
          tex_example_worker.top = some n ∧ n.is_working = 1 ∧ n.load_count = 0 :=
  (tex_build_in_flight_kept tex_example_machine_taken
    tex_example_machine_taken_reachable).2.2.1 tex_example_worker (List.mem_singleton.mpr rfl)

/-! ## The texture of a node -/

/-- C12 (texture is written once). In a reachable state of the machine let the
node of `(hash, topology)` carry a non-null texture. Then no worker in flight
holds that node; after any one step the node is either unlinked (by the
evictor) or linked with the same texture; and at the end of any run during
which the identity stays linked at every state, the node carries that same
texture: a different texture for the identity can only appear after a state in
which no node of the identity was linked. -/
theorem tex_texture_written_once (m : TEX_Machine) (hr : TEX_MachineReachable m) (hash : U128)
    (top : TEX_Topology) (n : TEX_Node) (hn : tex_node_of m.shared hash top = some n)
    (ht : n.texture ≠ r_handle_zero) :
    (∀ w ∈ m.workers, (w.hash, w.top) ≠ (hash, top)) ∧
    (∀ m1, TEX_MachineStep m m1 →
      tex_node_of m1.shared hash top = none ∨
        ∃ n1, tex_node_of m1.shared hash top = some n1 ∧ n1.texture = n.texture) ∧
    (∀ m2, TEX_RunWithin (fun x => tex_linked x hash top) m m2 →
      ∃ n2, tex_node_of m2.shared hash top = some n2 ∧ n2.texture = n.texture) := by
  have hi := tex_reachable_build_inv m hr
  refine ⟨?_, ?_, ?_⟩
  · intro w hw heq
    obtain ⟨_, n0, hn0, _, hl0⟩ := hi.2.2.2.1.1 w hw
    have hz := hi.2.2.2.2 _ _ n0 hn0 hl0
    obtain ⟨e1, e2⟩ := Prod.mk.inj heq
    rw [e1, e2, hn] at hn0
    cases hn0
    exact ht hz
  · intro m1 hstep
    exact tex_step_texture_stable m m1 hstep hi hash top n hn ht
  · intro m2 hrun
    exact (tex_run_texture_stable hash top m m2 hrun hr n hn ht).2

theorem tex_texture_written_once_witness :
    tex_node_of tex_example_machine_hit.shared ⟨0, 1⟩ ⟨4, 4, 2⟩ = none ∨
      ∃ n1, tex_node_of tex_example_machine_hit.shared ⟨0, 1⟩ ⟨4, 4, 2⟩ = some n1 ∧
        n1.texture = 5 :=
  (tex_texture_written_once tex_example_machine_built tex_example_machine_built_reachable
    ⟨0, 1⟩ ⟨4, 4, 2⟩ _ tex_example_nodes.2 (by decide)).2.1 tex_example_machine_hit
    tex_example_step_hit

/-! ## Pinning -/

/-- C5 (pinning). In every reachable state of the machine (scope opens, lookups,
scope closes, worker turns in two halves, clock ticks, evictor passes and
sweeps), for every scope that is open: each node named by a touch of the scope
is linked with `scope_ref_count > 0`, and a pass of the evictor over any slot
and a full sweep, with any clock readings, leave that very node linked; each
non-null handle a lookup of the scope has returned is the texture of a node the
scope has touched and is live; and no step of the machine passes a handle
returned in the scope, null or not, to `r_tex2d_release`. -/
theorem tex_open_scope_pins (m : TEX_Machine) (hr : TEX_MachineReachable m) (rd : TEX_Reader)
    (hrd : rd ∈ m.readers) :
    (∀ t ∈ rd.scope.top_touch, ∃ n,
      tex_node_of m.shared t.hash t.topology = some n ∧ 0 < n.scope_ref_count ∧
      (∀ slot_idx ct cu,
        tex_node_of (tex_evictor_slot_pass m.shared slot_idx ct cu) t.hash t.topology =
          some n) ∧
      (∀ now_us, tex_node_of (tex_evictor_sweep m.shared now_us) t.hash t.topology = some n)) ∧
    (∀ x ∈ rd.observed, x ≠ r_handle_zero →
      r_handle_live m.shared x ∧
      ∃ t ∈ rd.scope.top_touch, ∃ n,
        tex_node_of m.shared t.hash t.topology = some n ∧ n.texture = x) ∧
    (∀ x ∈ rd.observed, ∀ m1, TEX_MachineStep m m1 →
      m1.shared.r_tex2d_release_log.count x = m.shared.r_tex2d_release_log.count x) := by
  have hi := tex_reachable_machine_inv m hr
  refine ⟨?_, ?_, ?_⟩
  · intro t ht
    obtain ⟨n, hn, hpos⟩ := tex_pinned_node m.shared m.readers hi.2.1 rd hrd t ht
    have hk : n.load_count = 0 ∨ n.is_working ≠ 0 ∨ n.scope_ref_count ≠ 0 :=
      Or.inr (Or.inr (by omega))
    exact ⟨n, hn, hpos,
      fun slot_idx ct cu => tex_node_of_evict_keep m.shared slot_idx ct cu hi.1.2.1 _ _ n hn
        (tex_evictable_false ct cu n hk),
      fun now_us => tex_node_of_sweep_keep m.shared now_us hi.1.2.1 _ _ n hn hk⟩
  · intro x hx hz
    obtain ⟨t, ht, n, hn, e⟩ := hi.2.2.2.2.2 rd hrd x hx hz
    refine ⟨?_, t, ht, n, hn, e⟩
    have := hi.2.2.1 _ _ n hn (by rw [e]; exact hz)
    rw [e] at this
    exact this
  · intro x hx m1 hstep
    exact tex_step_release_observed m m1 hstep hi rd hrd x hx

theorem tex_open_scope_pins_witness :
    ∃ n, tex_node_of tex_example_machine_hit.shared ⟨0, 1⟩ ⟨4, 4, 2⟩ = some n ∧
      0 < n.scope_ref_count ∧
      (∀ slot_idx ct cu,
        tex_node_of (tex_evictor_slot_pass tex_example_machine_hit.shared slot_idx ct cu)
          ⟨0, 1⟩ ⟨4, 4, 2⟩ = some n) ∧
      (∀ now_us, tex_node_of (tex_evictor_sweep tex_example_machine_hit.shared now_us)
          ⟨0, 1⟩ ⟨4, 4, 2⟩ = some n) :=
  (tex_open_scope_pins tex_example_machine_hit tex_example_machine_hit_reachable
    ⟨⟨[⟨⟨0, 1⟩, ⟨4, 4, 2⟩⟩]⟩, [5, r_handle_zero]⟩ (List.mem_singleton.mpr rfl)).1
    ⟨⟨0, 1⟩, ⟨4, 4, 2⟩⟩ (List.mem_singleton.mpr rfl)

/-! ## Handle stability -/

/-- C11 (handle stability within a scope), as the claim states it, fails for a
handle obtained through the key's fallback hash. In one scope on the state of
`tex_init`: the hash `(0, 1)` is looked up under the key `(7, 9)` and built with
the handle 5; the lookup of `(7, 9), (0, 2)` then returns 5 through the
fallback; after the build of `(0, 2)` with the handle 6, the same lookup, in
the same open scope, returns 6. -/
theorem tex_fallback_handle_replaced :
    tex_scope_handles (tex_init 8 (fun _ => 0)) tex_scope_open tex_example_fallback_acts =
      some [r_handle_zero, 5, 6] := by
  decide!

/-- C11 (handle stability within a scope), amended. In a reachable state of the
machine let a lookup of `(key, hash, topology)` in an open scope return the
non-null handle `h`, the `(hash, topology)` node itself carrying a texture (so
that `h` is not resolved through the key's fallback hash). Then the scope holds
a touch of `(hash, topology)`; and at the end of any run of the machine (worker
turns, evictor passes and sweeps, clock ticks, other lookups, opens and closes)
at every state of which some open scope holds such a touch, as it does while
the calling scope stays open, every lookup of `(hash, topology)`, under any key
and in any scope, returns `h`. -/
theorem tex_handle_stable_in_scope (m0 : TEX_Machine) (hr : TEX_MachineReachable m0)
    (pre post : List TEX_Reader) (rd : TEX_Reader) (key hash : U128) (top : TEX_Topology)
    (now_us : Nat) (handle : R_Handle) (scope1 : TEX_Scope) (s1 : TEX_Shared) (n : TEX_Node)
    (hrds : m0.readers = pre ++ rd :: post) (hk : key.wf) (hh : hash.wf) (ht : top.wf)
    (hbound : tex_touch_total m0.readers + 2 < 2 ^ 64)
    (hcall : tex_texture_from_key_hash_topology m0.shared rd.scope key hash top now_us =
      some (handle, scope1, s1))
    (hnz : handle ≠ r_handle_zero)
    (hn : tex_node_of m0.shared hash top = some n) (hnt : n.texture ≠ r_handle_zero) :
    tex_pinned ⟨s1, pre ++ ⟨scope1, handle :: rd.observed⟩ :: post, m0.workers⟩ hash top ∧
    ∀ m2, TEX_RunWithin (fun x => tex_pinned x hash top)
        ⟨s1, pre ++ ⟨scope1, handle :: rd.observed⟩ :: post, m0.workers⟩ m2 →
      ∀ scope2 key2 now2, ∃ scope3 s3,
        tex_texture_from_key_hash_topology m2.shared scope2 key2 hash top now2 =
          some (handle, scope3, s3) := by
  have hh0 : hash ≠ u128_zero := by
    intro h0
    rcases tex_texture_cases _ _ _ _ _ _ _ _ _ hcall with ⟨_, hz, _⟩ | ⟨hne, _⟩ | ⟨hne, _⟩
    · exact hnz hz
    · exact hne h0
    · exact hne h0
  have hhit := tex_texture_hit m0.shared rd.scope key hash top now_us n hh0 hn hnt
  rw [hhit] at hcall
  simp only [Option.some.injEq, Prod.mk.injEq] at hcall
  obtain ⟨e1, e2, e3⟩ := hcall
  have hid := tex_node_of_id _ _ _ _ hn
  have hstep : TEX_MachineStep m0
      ⟨s1, pre ++ ⟨scope1, handle :: rd.observed⟩ :: post, m0.workers⟩ :=
    TEX_MachineStep.lookup m0 pre post rd key hash top now_us handle scope1 s1 hrds hk hh ht
      hbound (by rw [hhit, e1, e2, e3])
  have hr1 := TEX_MachineReachable.step _ _ hr hstep
  have hn1 : tex_node_of s1 hash top =
      some (tex_touch_node now_us m0.shared.user_clock_idx n) := by
    rw [← e3, tex_node_of_update _ _ _ _ _ _ (tex_node_id_touch _ _), if_pos rfl, hn]
    rfl
  refine ⟨?_, ?_⟩
  · refine ⟨⟨scope1, handle :: rd.observed⟩, by simp, ?_⟩
    simp only
    rw [← e2, hid.1, hid.2]
    exact List.mem_cons_self _ _
  · intro m2 hrun scope2 key2 now2
    obtain ⟨_, n2, hn2, ht2⟩ := tex_run_pinned_stable hash top _ m2 hrun hr1 _ hn1 hnt
    have ht3 : n2.texture = handle := by
      rw [ht2, ← e1]
      rfl
    have := tex_texture_hit m2.shared scope2 key2 hash top now2 n2 hh0 hn2
      (by rw [ht3]; exact hnz)
    rw [ht3] at this
    exact ⟨_, _, this⟩

theorem tex_handle_stable_in_scope_witness :
    ∃ scope3 s3,
      tex_texture_from_key_hash_topology tex_example_machine_swept.shared tex_scope_open ⟨7, 9⟩
        ⟨0, 1⟩ ⟨4, 4, 2⟩ 1000000001 = some (5, scope3, s3) := by
  have hcall : tex_texture_from_key_hash_topology tex_example_machine_built.shared
      (⟨tex_scope_open, [r_handle_zero]⟩ : TEX_Reader).scope ⟨7, 9⟩ ⟨0, 1⟩ ⟨4, 4, 2⟩ 200 =
      some (5, ⟨[⟨⟨0, 1⟩, ⟨4, 4, 2⟩⟩]⟩, tex_example_machine_hit.shared) :=
    tex_texture_hit _ _ _ _ _ _ _ (by decide) tex_example_nodes.2 (by decide)
  have hbound : tex_touch_total tex_example_machine_built.readers + 2 < 2 ^ 64 := by decide
  have hrds : tex_example_machine_built.readers =
      [] ++ ⟨tex_scope_open, [r_handle_zero]⟩ :: [] := rfl
  have hp1 : tex_pinned
      ⟨tex_example_machine_hit.shared,
        [] ++ ⟨⟨[⟨⟨0, 1⟩, ⟨4, 4, 2⟩⟩]⟩, 5 :: [r_handle_zero]⟩ :: [],
        tex_example_machine_built.workers⟩ ⟨0, 1⟩ ⟨4, 4, 2⟩ :=
    ⟨_, List.mem_singleton.mpr rfl, List.mem_singleton.mpr rfl⟩
  have hp2 : tex_pinned tex_example_machine_swept ⟨0, 1⟩ ⟨4, 4, 2⟩ :=
    ⟨_, List.mem_singleton.mpr rfl, List.mem_singleton.mpr rfl⟩
  have hrun : TEX_RunWithin (fun x => tex_pinned x ⟨0, 1⟩ ⟨4, 4, 2⟩)
      ⟨tex_example_machine_hit.shared,
        [] ++ ⟨⟨[⟨⟨0, 1⟩, ⟨4, 4, 2⟩⟩]⟩, 5 :: [r_handle_zero]⟩ :: [],
        tex_example_machine_built.workers⟩
      tex_example_machine_swept :=
    TEX_RunWithin.step _ _ _ (TEX_RunWithin.refl _ hp1)
      (TEX_MachineStep.evict_sweep _ 1000000000) hp2
  exact (tex_handle_stable_in_scope tex_example_machine_built
    tex_example_machine_built_reachable [] [] ⟨tex_scope_open, [r_handle_zero]⟩ ⟨7, 9⟩ ⟨0, 1⟩
    ⟨4, 4, 2⟩ 200 5 ⟨[⟨⟨0, 1⟩, ⟨4, 4, 2⟩⟩]⟩ tex_example_machine_hit.shared _ hrds (by decide)
    (by decide) (by decide) hbound hcall (by decide) tex_example_nodes.2 (by decide)).2
    tex_example_machine_swept hrun tex_scope_open ⟨7, 9⟩ 1000000001

/-! ## One node and one build per identity -/

/-- C10 (at most one node and one build per identity). From a reachable state of
the machine with no `(hash, topology)` node, for a non-zero hash and
well-formed arguments, run any schedule of at least one call of
`tex_texture_from_key_hash_topology` with the same `(key, hash, topology)`,
interleaved in any way with worker iterations and with no evictor step, the
clock readings of the calls below the deadline `max_U64` the call waits for.
When the schedule runs to its end: (1) every slot holds the number of
`(hash, topology)` nodes it should, one in the slot of the hash and none
elsewhere; (2) the write position of the ring has advanced by the 40 bytes of
exactly one request; (3) the requests that waited at the start followed by the
one request `(key, hash, topology)` are those the workers consumed, one per
iteration, followed by those still waiting; the node is not being built, and
is unloaded while its request waits and has `load_count = 1` afterwards; and
as many further worker iterations as requests wait all run, empty the ring,
and leave exactly one node, with `load_count = 1` and `is_working = 0`;
(4) whenever the ring is empty at the end, the node has `load_count = 1` and
`is_working = 0`. -/
theorem tex_one_node_one_build (m : TEX_Machine) (hr : TEX_MachineReachable m)
    (key hash : U128) (top : TEX_Topology) (hk : key.wf) (hhw : hash.wf) (ht : top.wf)
    (hh0 : hash ≠ u128_zero) (habs : tex_node_of m.shared hash top = none)
    (acts : List TEX_RepeatAction) (hcalls : 1 ≤ tex_repeat_calls acts)
    (hclock : ∀ now ∈ tex_repeat_clocks acts, now < max_U64)
    (s1 : TEX_Shared) (hrun : tex_repeat_run key hash top m.shared acts = some s1) :
    (∀ i, ((s1.slots i).filter (tex_node_match hash top)).length =
      if i = tex_slot_idx s1 hash then 1 else 0) ∧
    s1.u2x_ring_write_pos = (m.shared.u2x_ring_write_pos + 40) % 2 ^ 64 ∧
    (∃ pending done waiting : List TEX_Request,
      u2x_ring_holds m.shared pending ∧ u2x_ring_holds s1 waiting ∧
      done ++ waiting = pending ++ [⟨key, hash, top⟩] ∧
      done.length = tex_repeat_works acts ∧
      (∃ n, tex_node_of s1 hash top = some n ∧ n.is_working = 0 ∧
        (((⟨key, hash, top⟩ : TEX_Request) ∈ waiting ∧ n.load_count = 0) ∨
          ((⟨key, hash, top⟩ : TEX_Request) ∉ waiting ∧ n.load_count = 1))) ∧
      ∀ ws : List ((Nat → Nat) × Nat × R_Handle), ws.length = waiting.length →
        ∃ s2, tex_repeat_run key hash top s1
            (ws.map (fun w => TEX_RepeatAction.work w.1 w.2.1 w.2.2)) = some s2 ∧
          u2x_unconsumed_size s2 = 0 ∧
          (∀ i, ((s2.slots i).filter (tex_node_match hash top)).length =
            if i = tex_slot_idx s2 hash then 1 else 0) ∧
          ∃ n, tex_node_of s2 hash top = some n ∧ n.load_count = 1 ∧ n.is_working = 0) ∧
    (u2x_unconsumed_size s1 = 0 →
      ∃ n, tex_node_of s1 hash top = some n ∧ n.load_count = 1 ∧ n.is_working = 0) := by
  obtain ⟨hh, hu, hri, _, _⟩ := tex_reachable_build_inv m hr
  obtain ⟨pending, hat⟩ := tex_ring_inv_at_intro m.shared hri
  have h0 : tex_repeat_inv ⟨key, hash, top⟩ m.shared.u2x_ring_write_pos pending m.shared false
      [] pending :=
    ⟨hh, hu, hat, fun _ => ⟨habs, rfl, rfl⟩, fun hc => by cases hc⟩
  obtain ⟨done, waiting, hinv, hlen⟩ := tex_repeat_run_inv key hash top _ pending hk hhw ht hh0
    acts m.shared false [] pending s1 h0 hclock hrun
  have hc : (false || decide (0 < tex_repeat_calls acts)) = true := by
    simp only [Bool.false_or, decide_eq_true_eq]
    omega
  rw [hc] at hinv
  have hfinal : ∀ (s : TEX_Shared) (d : List TEX_Request),
      tex_repeat_inv ⟨key, hash, top⟩ m.shared.u2x_ring_write_pos pending s true d [] →
      u2x_unconsumed_size s = 0 ∧
      ∃ n, tex_node_of s hash top = some n ∧ n.load_count = 1 ∧ n.is_working = 0 := by
    intro s d hi
    obtain ⟨_, _, ⟨_, hhold, _, _⟩, _, hb⟩ := hi
    obtain ⟨_, _, n, hn, hw, hl⟩ := hb rfl
    refine ⟨by rw [u2x_ring_holds_size s [] hhold]; rfl, n, hn, ?_, hw⟩
    rcases hl with ⟨hmem, _⟩ | ⟨_, h1⟩
    · cases hmem
    · exact h1
  have hcount : ∀ (s : TEX_Shared) (c : Bool) (d w : List TEX_Request),
      tex_repeat_inv ⟨key, hash, top⟩ m.shared.u2x_ring_write_pos pending s true d w →
      ∀ i, ((s.slots i).filter (tex_node_match hash top)).length =
        if i = tex_slot_idx s hash then 1 else 0 := by
    intro s _ d w hi
    obtain ⟨hhs, hus, _, _, hb⟩ := hi
    obtain ⟨_, _, n, hn, _⟩ := hb rfl
    exact tex_node_count_one s hhs hus hash top n hn
  obtain ⟨hh1, hu1, ⟨hwf1, hhold1, hp1, hnd1⟩, ha1, hb1⟩ := id hinv
  obtain ⟨hdone, hwp, n, hn, hw, hl⟩ := hb1 rfl
  refine ⟨hcount s1 true done waiting hinv, hwp,
    ⟨pending, done, waiting, hat.2.1, hhold1, hdone, by simpa using hlen, ⟨n, hn, hw, hl⟩, ?_⟩,
    ?_⟩
  · intro ws hws
    obtain ⟨s2, hrun2, hinv2⟩ := tex_repeat_drain key hash top _ pending true waiting s1 done ws
      hinv hws
    obtain ⟨hz, hnode⟩ := hfinal s2 _ hinv2
    exact ⟨s2, hrun2, hz, hcount s2 true _ _ hinv2, hnode⟩
  · intro hz
    have hsz := u2x_ring_holds_size s1 waiting hhold1
    have hnil : waiting = [] := List.length_eq_zero.mp (by omega)
    subst hnil
    exact (hfinal s1 done hinv).2

theorem tex_one_node_one_build_witness :
    ∃ s1, tex_repeat_run ⟨7, 9⟩ ⟨0, 1⟩ ⟨4, 4, 2⟩ (tex_init 8 (fun _ => 0))
        tex_example_repeat_acts = some s1 ∧
      (∀ i, ((s1.slots i).filter (tex_node_match ⟨0, 1⟩ ⟨4, 4, 2⟩)).length =
        if i = tex_slot_idx s1 ⟨0, 1⟩ then 1 else 0) ∧
      s1.u2x_ring_write_pos = ((tex_init 8 (fun _ => 0)).u2x_ring_write_pos + 40) % 2 ^ 64 := by
  have hsome : (tex_repeat_run ⟨7, 9⟩ ⟨0, 1⟩ ⟨4, 4, 2⟩ (tex_init 8 (fun _ => 0))
      tex_example_repeat_acts).isSome = true := by decide!
  have hrun := (Option.some_get hsome).symm
  have habs : tex_node_of (tex_init 8 (fun _ => 0)) ⟨0, 1⟩ ⟨4, 4, 2⟩ = none := by decide!
  have h := tex_one_node_one_build ⟨tex_init 8 (fun _ => 0), [], []⟩
    (TEX_MachineReachable.init 8 (fun _ => 0)) ⟨7, 9⟩ ⟨0, 1⟩ ⟨4, 4, 2⟩ (by decide) (by decide)
    (by decide) (by decide) habs tex_example_repeat_acts (by decide) (by decide) _ hrun
  exact ⟨_, hrun, h.1, h.2.1⟩

end TextureCache
